import Mathlib

/-!
# ANP bootstrap: wire codec, host database, root election and control channel

A shallow embedding of `include/anp_bootstrap.h` (topology records and their
binary codec, NAT rule derivation, index lookups, the parser of the topology
document), of `include/anp_iptables_wrap.h` (backend probe and rule commands),
of `src/bootstrap.cc` (peer list, local address, root election, TLV helpers, the
runs of the root and of a leaf), of `src/bootstrap_socket.cc` (socket facade) and
of the telemetry in `include/anp_state.h` and `include/anp_metrics.h`
(`power_of_2`, the time histogram, the queue-pair metrics), followed by theorems
about them.

Conventions of the embedding.

* A byte (`uint8_t`, `char`) is a number below 256.
* A fixed C array (`char id[64]`, `device_t devices[8]`, the four bytes of a
  `struct in_addr`) is a function from the index to the element; the array's
  capacity is the constant of the declaration and the code's index is compared
  with it at every access.
* The C++ code has no failure result in the codec: the functions return
  `void`.  An access outside the byte vector or outside a fixed array has no
  defined result in C++; `Run.undefined` records that the execution reached
  such an access.  It is not an error reported by the code.
* A file is the list of its bytes; the interfaces of the host are the list that
  `getifaddrs` yields.  A socket is the bytes written, the bytes not read yet
  and a script of what the next `send` and `recv` system calls do.
* The shell behind `system` and the version probe behind `popen` are parameters
  of the functions that call them.  A topology document is the property tree
  that `read_json` builds; a missing key is where `get` throws.
-/

namespace Anp

/-! ## Constants of `anp_bootstrap.h` -/

/-- Capacity of the `char` arrays: `#define MAX_STR_LEN 64`. -/
def MAX_STR_LEN : Nat := 64

/-- Capacity of `planar_intfs`: `#define MAX_INTERFACES 64`. -/
def MAX_INTERFACES : Nat := 64

/-- Capacity of `devices`: `#define MAX_DEVICES 8`. -/
def MAX_DEVICES : Nat := 8

/-! ## Bytes and executions -/

/-- One `uint8_t`. -/
abbrev Byte := Fin 256

/-- Conversion of an unsigned number to `uint8_t` (keeps the low 8 bits). -/
def byte (n : Nat) : Byte := ⟨n % 256, Nat.mod_lt _ (by decide)⟩

/-- The accesses for which C++ defines no result. -/
inductive Fault where
  /-- a read at or after `buffer.data() + buffer.size()` -/
  | read_past_end
  /-- an index at or after the capacity of a fixed array -/
  | array_overflow
  /-- Field `strlen` of a `char` array that holds no NUL byte -/
  | unterminated_string
  /-- a shift by at least the width of the shifted type -/
  | shift_out_of_range
  /-- a result of `int` arithmetic outside the range of `int` -/
  | signed_overflow
  deriving DecidableEq, Repr

/-- Outcome of running a piece of the code: it returns a value, or it reaches an
access with no defined result. -/
inductive Run (α : Type) where
  | ok (a : α)
  | undefined (f : Fault)
  deriving DecidableEq, Repr

/-- Sequencing of two pieces of code. -/
def Run.bind {α β : Type} (x : Run α) (f : α → Run β) : Run β :=
  match x with
  | .ok a => f a
  | .undefined e => .undefined e

instance : Monad Run where
  pure := Run.ok
  bind := Run.bind

/-- Apply a function to the returned value. -/
def Run.map_ok {α β : Type} (f : α → β) (x : Run α) : Run β :=
  match x with
  | .ok a => .ok (f a)
  | .undefined e => .undefined e

/-- The loop `for (j = 0; j < n; ++j) body(j)` on a state, helper counting the
remaining iterations. -/
def for_range_from {σ : Type} (body : Nat → σ → Run σ) : Nat → Nat → σ → Run σ
  | 0, _, s => .ok s
  | k + 1, j, s =>
    match body j s with
    | .ok s' => for_range_from body k (j + 1) s'
    | .undefined e => .undefined e

/-- The loop `for (j = 0; j < n; ++j) body(j)`. -/
def for_range {σ : Type} (n : Nat) (body : Nat → σ → Run σ) (s : σ) : Run σ :=
  for_range_from body n 0 s

/-- The element `a[i]` of a fixed array of capacity `cap`. -/
def index {α : Type} (cap : Nat) (a : Nat → α) (i : Nat) : Run α :=
  if i < cap then .ok (a i) else .undefined .array_overflow

/-- The first `n` bytes of an object in memory. -/
def mem_bytes (a : Nat → Byte) (n : Nat) : List Byte := (List.range n).map a

/-- An object whose leading bytes are `l` and whose other bytes are zero. -/
def of_bytes (l : List Byte) : Nat → Byte := fun i => l.getD i 0

/-- The bytes of a text, for concrete inputs. -/
def ascii (s : String) : List Byte := s.toList.map (fun c => byte c.toNat)

/-! ## Integers on the wire -/

/-- The four bytes, in memory order, of `htonl(x)` for `x` converted to
`uint32_t`: big-endian digits of `x mod 2^32`. -/
def htonl (x : Nat) : List Byte :=
  [byte (x % 2 ^ 32 / 2 ^ 24), byte (x % 2 ^ 32 / 2 ^ 16), byte (x % 2 ^ 32 / 2 ^ 8),
   byte (x % 2 ^ 32)]

/-- Conversion of an `int` to `uint32_t`. -/
def u32_of_int (x : Int) : Nat := (x % 2 ^ 32).toNat

/-- Conversion of a `uint32_t` to `int`. -/
def int_of_u32 (x : Nat) : Int := if x < 2 ^ 31 then (x : Int) else (x : Int) - 2 ^ 32

/-- The value `ntohl(*(uint32_t*)p)` of four bytes in memory order. -/
def ntohl (bs : List Byte) : Nat :=
  (bs.getD 0 0).val * 2 ^ 24 + (bs.getD 1 0).val * 2 ^ 16 + (bs.getD 2 0).val * 2 ^ 8
    + (bs.getD 3 0).val

/-! ## Topology records -/

/-- The record `planar_interface_t`. -/
structure planar_interface_t where
  /-- Field `char id[MAX_STR_LEN]` -/
  id : Nat → Byte
  /-- Field `char name[MAX_STR_LEN]` -/
  name : Nat → Byte
  /-- Field `struct in_addr ipv4_addr`, four bytes in network order -/
  ipv4_addr : Nat → Byte
  /-- Field `struct in6_addr ipv6_addr`, sixteen bytes -/
  ipv6_addr : Nat → Byte

/-- The record `device_t`. -/
structure device_t where
  /-- Field `char virtual_intf[MAX_STR_LEN]` -/
  virtual_intf : Nat → Byte
  /-- Field `struct in_addr virtual_ip`, four bytes in network order -/
  virtual_ip : Nat → Byte
  /-- Field `int num_interfaces` -/
  num_interfaces : Int
  /-- Field `planar_interface_t planar_intfs[MAX_INTERFACES]` -/
  planar_intfs : Nat → planar_interface_t

/-- The record `host_t`. -/
structure host_t where
  /-- Field `std::string host_name` -/
  host_name : List Byte
  /-- Field `std::string host_ip` -/
  host_ip : List Byte
  /-- Field `int num_devices` -/
  num_devices : Int
  /-- Field `device_t devices[MAX_DEVICES]` -/
  devices : Nat → device_t

/-- The C string held in a `char[MAX_STR_LEN]` array: its bytes before the
first NUL. -/
def c_str (s : Nat → Byte) : List Byte := (mem_bytes s MAX_STR_LEN).takeWhile (fun b => b ≠ 0)

/-- The call `strlen(s)` on a `char[MAX_STR_LEN]` array. -/
def strlen (s : Nat → Byte) : Run Nat :=
  if (0 : Byte) ∈ mem_bytes s MAX_STR_LEN then .ok (c_str s).length
  else .undefined .unterminated_string

/-! ## `serialize_host` -/

/-- Body of the inner loop of `serialize_host`: one planar interface. -/
def serialize_planar (buffer : List Byte) (planar_intf : planar_interface_t) :
    Run (List Byte) := do
  let planar_id_len ← strlen planar_intf.id
  let buffer := buffer ++ htonl planar_id_len
  let buffer := buffer ++ mem_bytes planar_intf.id planar_id_len
  let planar_name_len ← strlen planar_intf.name
  let buffer := buffer ++ htonl planar_name_len
  let buffer := buffer ++ mem_bytes planar_intf.name planar_name_len
  let buffer := buffer ++ mem_bytes planar_intf.ipv4_addr 4
  let buffer := buffer ++ mem_bytes planar_intf.ipv6_addr 16
  pure buffer

/-- Body of the outer loop of `serialize_host`: one device. -/
def serialize_device (buffer : List Byte) (device : device_t) : Run (List Byte) := do
  let virtual_intf_len ← strlen device.virtual_intf
  let buffer := buffer ++ htonl virtual_intf_len
  let buffer := buffer ++ mem_bytes device.virtual_intf virtual_intf_len
  let buffer := buffer ++ mem_bytes device.virtual_ip 4
  let buffer := buffer ++ htonl (u32_of_int device.num_interfaces)
  for_range device.num_interfaces.toNat (fun j buffer => do
    let planar_intf ← index MAX_INTERFACES device.planar_intfs j
    serialize_planar buffer planar_intf) buffer

/-- The function `serialize_host(buffer, host)`: the buffer after the call. -/
def serialize_host (buffer : List Byte) (host : host_t) : Run (List Byte) := do
  let buffer := buffer ++ htonl host.host_name.length
  let buffer := buffer ++ host.host_name
  let buffer := buffer ++ htonl host.host_ip.length
  let buffer := buffer ++ host.host_ip
  let buffer := buffer ++ htonl (u32_of_int host.num_devices)
  for_range host.num_devices.toNat (fun i buffer => do
    let device ← index MAX_DEVICES host.devices i
    serialize_device buffer device) buffer

/-! ## `deserialize_host` -/

/-- The read `ntohl(*(uint32_t*)(buffer.data() + offset))`. -/
def read_u32 (buffer : List Byte) (offset : Nat) : Run Nat :=
  if offset + 4 ≤ buffer.length then .ok (ntohl ((buffer.drop offset).take 4))
  else .undefined .read_past_end

/-- The bytes `buffer.data() + offset .. + n` read by `assign` and `memcpy`. -/
def read_bytes (buffer : List Byte) (offset n : Nat) : Run (List Byte) :=
  if offset + n ≤ buffer.length then .ok ((buffer.drop offset).take n)
  else .undefined .read_past_end

/-- The call `memcpy(dst, src, src.length)` into an object of `cap` bytes. -/
def memcpy (cap : Nat) (dst : Nat → Byte) (src : List Byte) : Run (Nat → Byte) :=
  if src.length ≤ cap then .ok (fun i => if i < src.length then src.getD i 0 else dst i)
  else .undefined .array_overflow

/-- The store `a[i] = v` into a fixed array of capacity `cap`. -/
def store {α : Type} (cap : Nat) (a : Nat → α) (i : Nat) (v : α) : Run (Nat → α) :=
  if i < cap then .ok (Function.update a i v) else .undefined .array_overflow

/-- A length-prefixed string of the wire copied into a `char[MAX_STR_LEN]`
array and NUL terminated: the array and the offset after the string. -/
def read_c_string (buffer : List Byte) (dst : Nat → Byte) (offset : Nat) :
    Run ((Nat → Byte) × Nat) := do
  let len ← read_u32 buffer offset
  let offset := offset + 4
  let src ← read_bytes buffer offset len
  let dst ← memcpy MAX_STR_LEN dst src
  let dst ← store MAX_STR_LEN dst len 0
  pure (dst, offset + len)

/-- Body of the inner loop of `deserialize_host`: one planar interface. -/
def deserialize_planar (buffer : List Byte) (planar_intf : planar_interface_t) (offset : Nat) :
    Run (planar_interface_t × Nat) := do
  let (id, offset) ← read_c_string buffer planar_intf.id offset
  let (name, offset) ← read_c_string buffer planar_intf.name offset
  let src ← read_bytes buffer offset 4
  let ipv4_addr ← memcpy 4 planar_intf.ipv4_addr src
  let offset := offset + 4
  let src ← read_bytes buffer offset 16
  let ipv6_addr ← memcpy 16 planar_intf.ipv6_addr src
  let offset := offset + 16
  pure ({ id := id, name := name, ipv4_addr := ipv4_addr, ipv6_addr := ipv6_addr }, offset)

/-- Iteration `k` of the inner loop of `deserialize_host` on the device and the
offset: `planar_interface_t& planar_intf = device.planar_intfs[k]` is filled in
place. -/
def deserialize_planar_at (buffer : List Byte) (k : Nat) (st : device_t × Nat) :
    Run (device_t × Nat) := do
  let planar_intf ← index MAX_INTERFACES st.1.planar_intfs k
  let (planar_intf, offset) ← deserialize_planar buffer planar_intf st.2
  pure ({ st.1 with planar_intfs := Function.update st.1.planar_intfs k planar_intf }, offset)

/-- Body of the outer loop of `deserialize_host`: one device. -/
def deserialize_device (buffer : List Byte) (device : device_t) (offset : Nat) :
    Run (device_t × Nat) := do
  let (virtual_intf, offset) ← read_c_string buffer device.virtual_intf offset
  let src ← read_bytes buffer offset 4
  let virtual_ip ← memcpy 4 device.virtual_ip src
  let offset := offset + 4
  let num_interfaces ← read_u32 buffer offset
  let offset := offset + 4
  let device : device_t :=
    { device with virtual_intf := virtual_intf, virtual_ip := virtual_ip,
                  num_interfaces := int_of_u32 num_interfaces }
  for_range num_interfaces (deserialize_planar_at buffer) (device, offset)

/-- Iteration `j` of the outer loop of `deserialize_host` on the host and the
offset: `device_t& device = host.devices[j]` is filled in place. -/
def deserialize_device_at (buffer : List Byte) (j : Nat) (st : host_t × Nat) :
    Run (host_t × Nat) := do
  let device ← index MAX_DEVICES st.1.devices j
  let (device, offset) ← deserialize_device buffer device st.2
  pure ({ st.1 with devices := Function.update st.1.devices j device }, offset)

/-- The function `deserialize_host(buffer, host, offset)`: the host and the
offset after the call. -/
def deserialize_host (buffer : List Byte) (host : host_t) (offset : Nat) :
    Run (host_t × Nat) := do
  let host_name_len ← read_u32 buffer offset
  let offset := offset + 4
  let host_name ← read_bytes buffer offset host_name_len
  let offset := offset + host_name_len
  let host_ip_len ← read_u32 buffer offset
  let offset := offset + 4
  let host_ip ← read_bytes buffer offset host_ip_len
  let offset := offset + host_ip_len
  let num_devices ← read_u32 buffer offset
  let offset := offset + 4
  let host : host_t := { host with num_devices := int_of_u32 num_devices }
  let (host, offset) ← for_range num_devices (deserialize_device_at buffer) (host, offset)
  pure ({ host with host_name := host_name, host_ip := host_ip }, offset)

/-- The one-argument `deserialize_host(buffer)`: a fresh `host_t host` (whose
arrays hold whatever `host0` holds), offset 0, the final offset dropped. -/
def deserialize_host1 (host0 : host_t) (buffer : List Byte) : Run host_t :=
  Run.map_ok (fun r => r.1) (deserialize_host buffer host0 0)

/-! ## What a host record holds -/

/-- The content of a `planar_interface_t` that the code reads back: the two C
strings and the raw address bytes. -/
structure planar_view where
  id : List Byte
  name : List Byte
  ipv4_addr : List Byte
  ipv6_addr : List Byte
  deriving DecidableEq, Repr

/-- The content of a `device_t`: its C string, address, count and the first
`num_interfaces` planar interfaces in order. -/
structure device_view where
  virtual_intf : List Byte
  virtual_ip : List Byte
  num_interfaces : Int
  planar_intfs : List planar_view
  deriving DecidableEq, Repr

/-- The content of a `host_t`: its strings, count and the first `num_devices`
devices in order. -/
structure host_view where
  host_name : List Byte
  host_ip : List Byte
  num_devices : Int
  devices : List device_view
  deriving DecidableEq, Repr

/-- Content of a planar interface record. -/
def planar_interface_t.view (p : planar_interface_t) : planar_view :=
  { id := c_str p.id, name := c_str p.name,
    ipv4_addr := mem_bytes p.ipv4_addr 4, ipv6_addr := mem_bytes p.ipv6_addr 16 }

/-- Content of a device record. -/
def device_t.view (d : device_t) : device_view :=
  { virtual_intf := c_str d.virtual_intf, virtual_ip := mem_bytes d.virtual_ip 4,
    num_interfaces := d.num_interfaces,
    planar_intfs := (List.range d.num_interfaces.toNat).map (fun k => (d.planar_intfs k).view) }

/-- Content of a host record. -/
def host_t.view (h : host_t) : host_view :=
  { host_name := h.host_name, host_ip := h.host_ip, num_devices := h.num_devices,
    devices := (List.range h.num_devices.toNat).map (fun i => (h.devices i).view) }

/-- A `char[MAX_STR_LEN]` array that holds a C string: some byte of it is NUL. -/
def terminated (s : Nat → Byte) : Prop := (0 : Byte) ∈ mem_bytes s MAX_STR_LEN

instance (s : Nat → Byte) : Decidable (terminated s) := by
  unfold terminated; infer_instance

/-- A planar interface whose `id` and `name` arrays hold C strings. -/
def planar_interface_t.valid (p : planar_interface_t) : Prop :=
  terminated p.id ∧ terminated p.name

/-- A device whose count fits its array and whose strings are C strings. -/
def device_t.valid (d : device_t) : Prop :=
  terminated d.virtual_intf ∧ d.num_interfaces ≤ MAX_INTERFACES ∧
    ∀ k, k < d.num_interfaces.toNat → (d.planar_intfs k).valid

/-- A host whose counts fit its arrays and whose `char` arrays hold C strings:
the `host_t` values on which every read of `devices[i]`, `planar_intfs[j]` and
every `strlen` of the code is defined. -/
def host_t.valid (h : host_t) : Prop :=
  h.num_devices ≤ MAX_DEVICES ∧ ∀ i, i < h.num_devices.toNat → (h.devices i).valid

/-- A host within the limits of I4: between 0 and `MAX_DEVICES` devices,
between 0 and `MAX_INTERFACES` planar interfaces in each, every `virtual_intf`,
`id` and `name` a C string inside its 64-byte array (at most 63 bytes before
the terminator, none of them NUL). -/
def host_t.within_caps (h : host_t) : Prop :=
  0 ≤ h.num_devices ∧ h.valid ∧ ∀ i, i < h.num_devices.toNat → 0 ≤ (h.devices i).num_interfaces

/-! ## The wire format, as the specification words it -/

/-- The 32-bit big-endian encoding of a number (taken modulo `2^32`). -/
def BE32 (n : Nat) : List Byte :=
  [byte (n % 2 ^ 32 / 2 ^ 24), byte (n % 2 ^ 32 / 2 ^ 16), byte (n % 2 ^ 32 / 2 ^ 8),
   byte (n % 2 ^ 32)]

/-- Wire form of one planar interface: `id` and `name` as `u32 length || bytes`,
then 4 raw bytes of IPv4 and 16 raw bytes of IPv6. -/
def wire_planar (p : planar_view) : List Byte :=
  BE32 p.id.length ++ p.id ++ (BE32 p.name.length ++ p.name) ++ p.ipv4_addr ++ p.ipv6_addr

/-- Wire form of one device: `virtualIntf`, 4 raw bytes, `u32 numIfs`, then the
planar interfaces in order. -/
def wire_device (d : device_view) : List Byte :=
  BE32 d.virtual_intf.length ++ d.virtual_intf ++ d.virtual_ip
    ++ BE32 (u32_of_int d.num_interfaces) ++ (d.planar_intfs.map wire_planar).flatten

/-- Wire form of one host (the Single-Host format). -/
def wire_host (h : host_view) : List Byte :=
  BE32 h.host_name.length ++ h.host_name ++ (BE32 h.host_ip.length ++ h.host_ip)
    ++ BE32 (u32_of_int h.num_devices) ++ (h.devices.map wire_device).flatten

/-! ## Well-formed single-host records -/

/-- A string of the wire that fits a `char[MAX_STR_LEN]` array with its
terminator: at most 63 bytes. -/
def str_fits (s : List Byte) : Prop := s.length < MAX_STR_LEN

/-- A string without NUL byte. -/
def nul_free (s : List Byte) : Prop := ∀ b ∈ s, b ≠ 0

/-- Planar interface of a record: string lengths at most 63, addresses of 4 and
16 bytes. -/
def planar_view.fits (p : planar_view) : Prop :=
  str_fits p.id ∧ str_fits p.name ∧ p.ipv4_addr.length = 4 ∧ p.ipv6_addr.length = 16

/-- Device of a record: string length at most 63, `numIfs` the number of planar
interfaces that follow, at most 64. -/
def device_view.fits (d : device_view) : Prop :=
  str_fits d.virtual_intf ∧ d.virtual_ip.length = 4 ∧
    d.num_interfaces = (d.planar_intfs.length : Int) ∧ d.planar_intfs.length ≤ MAX_INTERFACES ∧
    ∀ p ∈ d.planar_intfs, p.fits

/-- Host of a record: string lengths below `2^32` (a `u32` length prefix),
`numDevs` the number of devices that follow, at most 8. -/
def host_view.fits (h : host_view) : Prop :=
  h.host_name.length < 2 ^ 32 ∧ h.host_ip.length < 2 ^ 32 ∧
    h.num_devices = (h.devices.length : Int) ∧ h.devices.length ≤ MAX_DEVICES ∧
    ∀ d ∈ h.devices, d.fits

/-- No NUL byte in `id` and `name`. -/
def planar_view.nul_free (p : planar_view) : Prop := Anp.nul_free p.id ∧ Anp.nul_free p.name

/-- No NUL byte in `virtual_intf` nor in the strings of the planar interfaces. -/
def device_view.nul_free (d : device_view) : Prop :=
  Anp.nul_free d.virtual_intf ∧ ∀ p ∈ d.planar_intfs, p.nul_free

/-- No NUL byte in the device and interface strings of the host. -/
def host_view.nul_free (h : host_view) : Prop := ∀ d ∈ h.devices, d.nul_free

/-! ## The predicates are decidable -/

instance str_fits.decidable (s : List Byte) : Decidable (str_fits s) := by
  unfold str_fits; infer_instance

instance nul_free.decidable (s : List Byte) : Decidable (nul_free s) := by
  unfold nul_free; infer_instance

instance planar_view.decidable_fits (p : planar_view) : Decidable p.fits := by
  unfold planar_view.fits; infer_instance

instance planar_view.decidable_nul_free (p : planar_view) : Decidable p.nul_free := by
  unfold planar_view.nul_free; infer_instance

instance device_view.decidable_fits (d : device_view) : Decidable d.fits := by
  unfold device_view.fits; infer_instance

instance device_view.decidable_nul_free (d : device_view) : Decidable d.nul_free := by
  unfold device_view.nul_free; infer_instance

instance host_view.decidable_fits (h : host_view) : Decidable h.fits := by
  unfold host_view.fits; infer_instance

instance host_view.decidable_nul_free (h : host_view) : Decidable h.nul_free := by
  unfold host_view.nul_free; infer_instance

instance planar_interface_t.decidable_valid (p : planar_interface_t) : Decidable p.valid := by
  unfold planar_interface_t.valid; infer_instance

instance device_t.decidable_valid (d : device_t) : Decidable d.valid := by
  unfold device_t.valid; infer_instance

instance host_t.decidable_valid (h : host_t) : Decidable h.valid := by
  unfold host_t.valid; infer_instance

instance host_t.decidable_within_caps (h : host_t) : Decidable h.within_caps := by
  unfold host_t.within_caps; infer_instance

/-! ## The host database -/

/-- The lookup `m.find(k)` of a `std::unordered_map`, given as the list of its
entries in iteration order (keys pairwise distinct). -/
def map_find {κ ν : Type} [DecidableEq κ] (m : List (κ × ν)) (k : κ) : Option ν :=
  (m.find? (fun p => decide (p.1 = k))).map (fun p => p.2)

/-- The assignment `m[k] = v` of a `std::unordered_map`: the value under an
existing key is replaced, a new key adds an entry.  C++ leaves the place of the
new entry in the iteration order open; here it is the end. -/
def map_assign {κ ν : Type} [DecidableEq κ] (m : List (κ × ν)) (k : κ) (v : ν) :
    List (κ × ν) :=
  if m.any (fun p => decide (p.1 = k)) then m.map (fun p => if p.1 = k then (k, v) else p)
  else m ++ [(k, v)]

/-- The record `host_db_t`; each map is the list of its entries in iteration
order. -/
structure host_db_t where
  /-- Field `std::string local_ip` -/
  local_ip : List Byte
  /-- Field `std::unordered_map<std::string, host_t> all_hosts` -/
  all_hosts : List (List Byte × host_t)
  /-- Field `std::unordered_map<uint32_t, struct in_addr> planar_to_virtual_map` -/
  planar_to_virtual_map : List (Nat × (Nat → Byte))
  /-- Field `std::unordered_map<uint32_t, std::vector<planar_interface_t>> virtual_to_planar_map` -/
  virtual_to_planar_map : List (Nat × List planar_interface_t)

/-- The keys of `all_hosts` with the content of the host under each. -/
def host_db_t.view (db : host_db_t) : List (List Byte × host_view) :=
  db.all_hosts.map (fun p => (p.1, p.2.view))

/-- The range-based loop `for (const auto& x : l) body(x)` on a state. -/
def for_each {α σ : Type} (l : List α) (body : α → σ → Run σ) (s : σ) : Run σ :=
  match l with
  | [] => .ok s
  | a :: l =>
    match body a s with
    | .ok s' => for_each l body s'
    | .undefined e => .undefined e

/-- The function `serialize_all_hosts(host_db)`. -/
def serialize_all_hosts (host_db : host_db_t) : Run (List Byte) := do
  let buffer : List Byte := []
  let buffer := buffer ++ htonl host_db.all_hosts.length
  for_each host_db.all_hosts (fun pair buffer => serialize_host buffer pair.2) buffer

/-- Iteration `i` of the loop of `deserialize_all_hosts` on the map and the
offset; `fresh i` is what the arrays of the local `host_t host` hold when the
iteration starts. -/
def deserialize_all_hosts_at (fresh : Nat → host_t) (buffer : List Byte) (i : Nat)
    (st : List (List Byte × host_t) × Nat) : Run (List (List Byte × host_t) × Nat) := do
  let (host, offset) ← deserialize_host buffer (fresh i) st.2
  pure (map_assign st.1 host.host_name host, offset)

/-- The function `deserialize_all_hosts(host_db, buffer)`: the database after
the call. -/
def deserialize_all_hosts (fresh : Nat → host_t) (host_db : host_db_t) (buffer : List Byte) :
    Run host_db_t := do
  let offset := 0
  let num_hosts ← read_u32 buffer offset
  let offset := offset + 4
  let (all_hosts, _) ←
    for_range num_hosts (deserialize_all_hosts_at fresh buffer) (host_db.all_hosts, offset)
  pure { host_db with all_hosts := all_hosts }

/-- The conversion `std::string(s.c_str())` used for the keys and for
`local_ip`: the bytes before the first NUL. -/
def string_c_str (s : List Byte) : List Byte := s.takeWhile (fun b => b ≠ 0)

/-- The statement `host_db.all_hosts[host.host_ip.c_str()] = host` of
`run_root_node` and `recv_config_thread`. -/
def insert_host (host_db : host_db_t) (host : host_t) : host_db_t :=
  { host_db with all_hosts := map_assign host_db.all_hosts (string_c_str host.host_ip) host }

/-! ## NAT rules -/

/-- The record `IptablesRule`. -/
structure IptablesRule where
  action : List Byte
  table : List Byte
  chain : List Byte
  match_type : List Byte
  match_value : List Byte
  iface_type : List Byte
  iface_name : List Byte
  jump_target : List Byte
  translate_ip : List Byte
  deriving DecidableEq, Repr

/-- Decimal digits of an octet, as `inet_ntop` prints it. -/
def octet_digits (n : Nat) : List Byte :=
  if n < 10 then [byte (48 + n)]
  else if n < 100 then [byte (48 + n / 10), byte (48 + n % 10)]
  else [byte (48 + n / 100), byte (48 + n / 10 % 10), byte (48 + n % 10)]

/-- The text `inet_ntop(AF_INET, &addr, ...)` of the C library: the four bytes
of the address in dotted decimal. -/
def inet_ntop4 (addr : Nat → Byte) : List Byte :=
  octet_digits (addr 0).val ++ [byte 46] ++ octet_digits (addr 1).val ++ [byte 46]
    ++ octet_digits (addr 2).val ++ [byte 46] ++ octet_digits (addr 3).val

/-- The test `addr.s_addr != 0` on the four bytes of a `struct in_addr`. -/
def s_addr_nonzero (addr : Nat → Byte) : Bool :=
  decide (mem_bytes addr 4 ≠ [0, 0, 0, 0])

/-- The rule that `add_tx_snat_rules` hands to `execute_iptables_command`. -/
def add_tx_snat_rules (virtual_ip planar_ip planar_intf_name : List Byte) : IptablesRule :=
  { action := ascii "A", table := ascii "nat", chain := ascii "POSTROUTING",
    match_type := ascii "SIP", match_value := virtual_ip, iface_type := ascii "out",
    iface_name := planar_intf_name, jump_target := ascii "SNAT", translate_ip := planar_ip }

/-- The rule that `add_tx_dnat_rules` hands to `execute_iptables_command`. -/
def add_tx_dnat_rules (virtual_ip planar_ip planar_intf_name : List Byte) : IptablesRule :=
  { action := ascii "A", table := ascii "nat", chain := ascii "OUTPUT",
    match_type := ascii "DIP", match_value := virtual_ip, iface_type := ascii "out",
    iface_name := planar_intf_name, jump_target := ascii "DNAT", translate_ip := planar_ip }

/-- The rule that `add_rx_snat_rules` hands to `execute_iptables_command`. -/
def add_rx_snat_rules (virtual_ip planar_ip planar_intf_name : List Byte) : IptablesRule :=
  { action := ascii "A", table := ascii "nat", chain := ascii "INPUT",
    match_type := ascii "SIP", match_value := planar_ip, iface_type := ascii "in",
    iface_name := planar_intf_name, jump_target := ascii "SNAT", translate_ip := virtual_ip }

/-- The rule that `add_rx_dnat_rules` hands to `execute_iptables_command`. -/
def add_rx_dnat_rules (virtual_ip planar_ip planar_intf_name : List Byte) : IptablesRule :=
  { action := ascii "A", table := ascii "nat", chain := ascii "OUTPUT",
    match_type := ascii "DIP", match_value := planar_ip, iface_type := ascii "out",
    iface_name := planar_intf_name, jump_target := ascii "DNAT", translate_ip := virtual_ip }

/-- The two nested loops shared by `apply_local_vip_iptables_rule` and
`apply_remote_vip_iptables_rule`: for each device and planar interface of the
host with both addresses nonzero, the rules `first` then `second` are
dispatched; `issued` is the list of the rules dispatched so far. -/
def apply_host_rules (first second : List Byte → List Byte → List Byte → IptablesRule)
    (host : host_t) (issued : List IptablesRule) : Run (List IptablesRule) :=
  for_range host.num_devices.toNat (fun i issued => do
    let device ← index MAX_DEVICES host.devices i
    for_range device.num_interfaces.toNat (fun j issued => do
      let planar_intf ← index MAX_INTERFACES device.planar_intfs j
      let virtual_ip_str := inet_ntop4 device.virtual_ip
      if s_addr_nonzero planar_intf.ipv4_addr && s_addr_nonzero device.virtual_ip then do
        let planar_ip_str := inet_ntop4 planar_intf.ipv4_addr
        let _ ← strlen planar_intf.name
        let name := c_str planar_intf.name
        pure (issued ++ [first virtual_ip_str planar_ip_str name,
                         second virtual_ip_str planar_ip_str name])
      else pure issued) issued) issued

/-- The function `apply_local_vip_iptables_rule(host_db)`: the rules it
dispatches, in order, after those already `issued`. -/
def apply_local_vip_iptables_rule (host_db : host_db_t) (issued : List IptablesRule) :
    Run (List IptablesRule) :=
  match map_find host_db.all_hosts host_db.local_ip with
  | none => .ok issued
  | some host => apply_host_rules add_tx_snat_rules add_rx_dnat_rules host issued

/-- The function `apply_remote_vip_iptables_rule(host_db)`: the rules it
dispatches, in order, after those already `issued`. -/
def apply_remote_vip_iptables_rule (host_db : host_db_t) (issued : List IptablesRule) :
    Run (List IptablesRule) :=
  for_each host_db.all_hosts (fun host_pair issued =>
    if host_pair.1 = host_db.local_ip then pure issued
    else apply_host_rules add_tx_dnat_rules add_rx_snat_rules host_pair.2 issued) issued

/-- The programming step of `run_root_node` and `run_leaf_node`:
`apply_local_vip_iptables_rule` followed by `apply_remote_vip_iptables_rule`. -/
def program_rules (host_db : host_db_t) : Run (List IptablesRule) := do
  let issued ← apply_local_vip_iptables_rule host_db []
  apply_remote_vip_iptables_rule host_db issued

/-- The database of a leaf when `run_leaf_node` programs its rules: the global
`host_db` (`db0`, empty at start) with `local_ip = host.host_ip.c_str()` of the
leaf's own host and the composite payload, when `payload_size > 0`, decoded
into `all_hosts`. -/
def leaf_host_db (fresh : Nat → host_t) (db0 : host_db_t) (host : host_t)
    (compbuf : List Byte) : Run host_db_t :=
  let host_db := { db0 with local_ip := string_c_str host.host_ip }
  if compbuf.length > 0 then deserialize_all_hosts fresh host_db compbuf else .ok host_db

/-- The empty global `host_db`. -/
def host_db_empty : host_db_t :=
  { local_ip := [], all_hosts := [], planar_to_virtual_map := [], virtual_to_planar_map := [] }

/-! ## Root election (`bootstrap.cc`) -/

/-- The variables of the C library's `inet_pton` for `AF_INET` while it scans
the text: the octets completed (`tmp[0..]` before `tp`), the octet being read
(`*tp`), `saw_digit` and `octets`. -/
structure pton_state where
  done : List Byte
  cur : Nat
  saw_digit : Bool
  octets : Nat
  deriving DecidableEq, Repr

/-- One character of the scan of `inet_pton(AF_INET, ...)`: a decimal digit
extends the octet (no leading zero, value at most 255, at most four octets), a
dot after a digit closes it, anything else is rejected. -/
def inet_pton4_step (st : pton_state) (ch : Byte) : Option pton_state :=
  if 48 ≤ ch.val ∧ ch.val ≤ 57 then
    let new := st.cur * 10 + (ch.val - 48)
    if st.saw_digit ∧ st.cur = 0 then none
    else if new > 255 then none
    else if ¬ st.saw_digit then
      if st.octets + 1 > 4 then none
      else some { st with cur := new, saw_digit := true, octets := st.octets + 1 }
    else some { st with cur := new }
  else if ch.val = 46 ∧ st.saw_digit then
    if st.octets = 4 then none
    else some { st with done := st.done ++ [byte st.cur], cur := 0, saw_digit := false }
  else none

/-- The scan of the whole text. -/
def inet_pton4_scan (st : pton_state) : List Byte → Option pton_state
  | [] => some st
  | ch :: rest =>
    match inet_pton4_step st ch with
    | none => none
    | some st' => inet_pton4_scan st' rest

/-- The call `inet_pton(AF_INET, src, &addr)` of the C library: the four bytes
stored in `addr` when it returns 1, `none` when it returns 0. -/
def inet_pton4 (src : List Byte) : Option (List Byte) :=
  match inet_pton4_scan { done := [], cur := 0, saw_digit := false, octets := 0 } src with
  | none => none
  | some st => if st.octets < 4 then none else some (st.done ++ [byte st.cur])

/-- The function `ip_to_uint(ip_str)`. -/
def ip_to_uint (ip_str : List Byte) : Nat :=
  match inet_pton4 ip_str with
  | none => 0xffffffff
  | some addr => ntohl addr

/-- Body of the election loop of `anp_bootstrap_handler` on `(lowest, root_ip)`. -/
def elect_step (st : Nat × List Byte) (ip : List Byte) : Nat × List Byte :=
  let val := ip_to_uint ip
  if val < st.1 then (val, ip) else st

/-- The election block of `anp_bootstrap_handler`: `root_ip` after the loop over
the `ip_count` entries of `ip_list`.  The handler leaves before the block when
`ip_count <= 0`. -/
def elect_root (ip_list : List (List Byte)) : List Byte :=
  match ip_list with
  | [] => []
  | ip0 :: rest => (rest.foldl elect_step (ip_to_uint ip0, ip0)).2

/-- The text of the dotted IPv4 address `a.b.c.d`. -/
def dotted (a b c d : Byte) : List Byte :=
  octet_digits a.val ++ [byte 46] ++ octet_digits b.val ++ [byte 46]
    ++ octet_digits c.val ++ [byte 46] ++ octet_digits d.val

/-! ## The peer list and the local address (`bootstrap.cc`) -/

/-- The constant `INET_ADDRSTRLEN` of the C library: size of the `char` arrays
of `ip_list`. -/
def INET_ADDRSTRLEN : Nat := 16

/-- Capacity of `ip_list`: `#define MAX_IPS 64`. -/
def MAX_IPS : Nat := 64

/-- The constant `AF_INET` of the C library. -/
def AF_INET : Nat := 2

/-- The line feed character. -/
def LF : Byte := 10

/-- The carriage return character. -/
def CR : Byte := 13

/-- The characters that `fgets` stores from a stream when it may store at most
`k`: it stops after a line feed, after `k` characters or at the end of the
stream.  The result is the characters stored and the rest of the stream. -/
def fgets_chars : Nat → List Byte → List Byte × List Byte
  | 0, fp => ([], fp)
  | _ + 1, [] => ([], [])
  | k + 1, c :: fp =>
    if c = LF then ([c], fp) else (c :: (fgets_chars k fp).1, (fgets_chars k fp).2)

/-- The call `fgets(buf, size, fp)` of the C library: `none` (a null pointer)
at the end of the stream, otherwise at most `size - 1` characters. -/
def fgets (size : Nat) (fp : List Byte) : Option (List Byte × List Byte) :=
  match fp with
  | [] => none
  | _ :: _ => some (fgets_chars (size - 1) fp)

/-- The C string left in `ip_list[count]` by
`ip_list[count][strcspn(ip_list[count], "\r\n")] = '\0'` when `fgets` stored
`chars`: the characters before the first NUL, carriage return or line feed. -/
def strip_newline (chars : List Byte) : List Byte :=
  chars.takeWhile (fun b => b ≠ 0 ∧ b ≠ CR ∧ b ≠ LF)

/-- The loop of `read_ip_list` on the stream and the entries counted so far;
`fuel` bounds the number of iterations (each one consumes a character). -/
def read_ip_list_loop (max_ips : Nat) : Nat → List Byte → List (List Byte) → List (List Byte)
  | 0, _, ip_list => ip_list
  | fuel + 1, fp, ip_list =>
    if ip_list.length < max_ips then
      match fgets INET_ADDRSTRLEN fp with
      | none => ip_list
      | some (chars, fp') =>
        if (strip_newline chars).length > 0 then
          read_ip_list_loop max_ips fuel fp' (ip_list ++ [strip_newline chars])
        else read_ip_list_loop max_ips fuel fp' ip_list
    else ip_list

/-- The function `read_ip_list(filename, ip_list, max_ips)` on the content of
the file (`none` when `fopen` fails): the value returned and the entries
`ip_list[0 .. count)`. -/
def read_ip_list (file : Option (List Byte)) (max_ips : Nat) : Int × List (List Byte) :=
  match file with
  | none => (-1, [])
  | some fp =>
    ((read_ip_list_loop max_ips (fp.length + 1) fp []).length,
      read_ip_list_loop max_ips (fp.length + 1) fp [])

/-- The loop of `read_ip_list` with the fuel that `read_ip_list` gives it. -/
def read_lines (max_ips : Nat) (fp : List Byte) (acc : List (List Byte)) : List (List Byte) :=
  read_ip_list_loop max_ips (fp.length + 1) fp acc

/-- One entry of the list returned by `getifaddrs`, as `get_local_ip` reads it:
`ifa_addr` is a null pointer (`none`) or an address with its `sa_family` and,
for `AF_INET`, the four bytes of `sin_addr`. -/
structure ifaddrs where
  ifa_addr : Option (Nat × (Nat → Byte))

/-- The inner loop of `get_local_ip`: whether `strcmp(addr_str, ip_list[i]) == 0`
for some `i < ip_count`. -/
def match_ip_list (addr_str : List Byte) : List (List Byte) → Bool
  | [] => false
  | ip :: rest => if addr_str = ip then true else match_ip_list addr_str rest

/-- The outer loop of `get_local_ip` over the interface list: the address copied
into `local_ip` when `found` is set. -/
def get_local_ip_loop (ip_list : List (List Byte)) : List ifaddrs → Option (List Byte)
  | [] => none
  | ifa :: next =>
    match ifa.ifa_addr with
    | none => get_local_ip_loop ip_list next
    | some (sa_family, sin_addr) =>
      if sa_family = AF_INET then
        if match_ip_list (inet_ntop4 sin_addr) ip_list then some (inet_ntop4 sin_addr)
        else get_local_ip_loop ip_list next
      else get_local_ip_loop ip_list next

/-- The function `get_local_ip(local_ip, ip_list, ip_count)`; `ifap` is what
`getifaddrs` yields (`none` when it fails).  The result is the value returned
and `local_ip` after the call. -/
def get_local_ip (local_ip : List Byte) (ifap : Option (List ifaddrs))
    (ip_list : List (List Byte)) : Int × List Byte :=
  match ifap with
  | none => (-1, local_ip)
  | some ifap =>
    match get_local_ip_loop ip_list ifap with
    | some addr_str => (0, addr_str)
    | none => (-1, local_ip)

/-- The texts of the local IPv4 interface addresses, in the order in which the
interfaces are enumerated. -/
def local_addresses (ifap : List ifaddrs) : List (List Byte) :=
  ifap.filterMap (fun ifa =>
    match ifa.ifa_addr with
    | none => none
    | some (sa_family, sin_addr) => if sa_family = AF_INET then some (inet_ntop4 sin_addr) else none)

/-- An interface entry with the IPv4 address `a.b.c.d`. -/
def ifa_inet (a b c d : Byte) : ifaddrs := { ifa_addr := some (AF_INET, of_bytes [a, b, c, d]) }

/-! ## A text file as a sequence of lines -/

/-- The terminator of a line: `CR LF` when the flag is set, `LF` otherwise. -/
def terminator (crlf : Bool) : List Byte := if crlf then [CR, LF] else [LF]

/-- The bytes of a text file: each line of `ls` followed by its terminator, then
a last line without terminator (empty when the file ends with a terminator). -/
def render_lines (ls : List (List Byte × Bool)) (last : List Byte) : List Byte :=
  (ls.map (fun l => l.1 ++ terminator l.2)).flatten ++ last

/-- The lines of the file, terminators removed. -/
def line_contents (ls : List (List Byte × Bool)) (last : List Byte) : List (List Byte) :=
  ls.map (fun l => l.1) ++ [last]

/-- The lines that are not empty. -/
def nonempty_lines (ls : List (List Byte × Bool)) (last : List Byte) : List (List Byte) :=
  (line_contents ls last).filter (fun c => c ≠ [])

/-- A line of at most 15 bytes without line feed. -/
def line_short (c : List Byte) : Prop := c.length ≤ 15 ∧ LF ∉ c

/-- A line without carriage return and without NUL. -/
def line_plain (c : List Byte) : Prop := CR ∉ c ∧ (0 : Byte) ∉ c

instance line_short.decidable (c : List Byte) : Decidable (line_short c) := by
  unfold line_short; infer_instance

instance line_plain.decidable (c : List Byte) : Decidable (line_plain c) := by
  unfold line_plain; infer_instance

/-! ## The socket facade (`bootstrap_socket.cc`) -/

/-- The two values of `ncclResult_t` that the facade returns. -/
inductive ncclResult_t where
  | ncclSuccess
  | ncclInternalError
  deriving DecidableEq, Repr

/-- A connected stream socket as the facade sees it.  Field `sent` holds the
bytes written to the stream so far, `pending` the bytes that the peer has
written and that are not read yet, and `script` says what the next system calls
on the descriptor do: `none` is a call that returns -1, `some k` a call that
transfers at most `k` bytes; once the script is used up every call transfers
all the bytes asked for. -/
structure anpNcclSocket where
  sent : List Byte
  pending : List Byte
  script : List (Option Nat)
  deriving DecidableEq, Repr

/-- Conversion of an `int` to `size_t`, as in the call `send(fd, data, size, 0)`. -/
def size_t_of_int (size : Int) : Nat := (size % 2 ^ 64).toNat

/-- The system call `send(fd, data, len, 0)` on the bytes at `data`: the value
returned and the socket afterwards. -/
def send (socket : anpNcclSocket) (data : List Byte) (len : Nat) : Int × anpNcclSocket :=
  match socket.script with
  | none :: script => (-1, { socket with script := script })
  | some k :: script =>
    ((data.take (min len k)).length,
      { socket with sent := socket.sent ++ data.take (min len k), script := script })
  | [] => ((data.take len).length, { socket with sent := socket.sent ++ data.take len })

/-- The system call `recv(fd, data, len, 0)`: the value returned, the bytes
stored at `data` and the socket afterwards.  At the end of the stream
(`pending` empty) it returns 0. -/
def recv (socket : anpNcclSocket) (len : Nat) : Int × List Byte × anpNcclSocket :=
  match socket.script with
  | none :: script => (-1, [], { socket with script := script })
  | some k :: script =>
    ((socket.pending.take (min len k)).length, socket.pending.take (min len k),
      { socket with pending := socket.pending.drop (min len k), script := script })
  | [] =>
    ((socket.pending.take len).length, socket.pending.take len,
      { socket with pending := socket.pending.drop len })

/-- The function `anpNcclSocketSend(socket, data, size)`: one `send`, an error
when it returns -1 or a count other than `size`. -/
def anpNcclSocketSend (socket : anpNcclSocket) (data : List Byte) (size : Int) :
    ncclResult_t × anpNcclSocket :=
  let sent := send socket data (size_t_of_int size)
  if sent.1 = -1 ∨ sent.1 ≠ size then (.ncclInternalError, sent.2)
  else (.ncclSuccess, sent.2)

/-- The function `anpNcclSocketRecv(socket, data, size)`: one `recv`, an error
when it returns -1 or a count other than `size`.  The result is the status, the
bytes stored at `data` and the socket afterwards. -/
def anpNcclSocketRecv (socket : anpNcclSocket) (size : Int) :
    ncclResult_t × List Byte × anpNcclSocket :=
  let received := recv socket (size_t_of_int size)
  if received.1 = -1 then (.ncclInternalError, received.2.1, received.2.2)
  else if received.1 ≠ size then (.ncclInternalError, received.2.1, received.2.2)
  else (.ncclSuccess, received.2.1, received.2.2)

/-! ## The TLV helpers (`bootstrap.cc`) -/

/-- The function `send_tlv(sock, type, payload, length)`; `payload` is `none`
for a null pointer and `length` is converted to `unsigned int`.  The result is
the value returned and the socket afterwards. -/
def send_tlv (sock : anpNcclSocket) (type : Nat) (payload : Option (List Byte)) (length : Nat) :
    Int × anpNcclSocket :=
  let length := length % 2 ^ 32
  let net_type := htonl type
  let net_length := htonl length
  let r1 := anpNcclSocketSend sock net_type 4
  if r1.1 ≠ .ncclSuccess then (-1, r1.2)
  else
    let r2 := anpNcclSocketSend r1.2 net_length 4
    if r2.1 ≠ .ncclSuccess then (-1, r2.2)
    else
      match payload with
      | some p =>
        if length > 0 then
          let r3 := anpNcclSocketSend r2.2 p (int_of_u32 length)
          if r3.1 ≠ .ncclSuccess then (-1, r3.2) else (0, r3.2)
        else (0, r2.2)
      | none => (0, r2.2)

/-- What `recv_tlv` leaves: the value returned, `*msg_type`, `*payload_size`,
the bytes stored at `payload` (`none` for a null pointer) and the socket. -/
structure recv_tlv_result where
  ret : Int
  msg_type : Nat
  payload_size : Nat
  payload : Option (List Byte)
  sock : anpNcclSocket
  deriving DecidableEq, Repr

/-- The function `recv_tlv(sock, msg_type, payload, payload_size)`; the
arguments `msg_type` and `payload_size` are the values of the caller's variables
before the call. -/
def recv_tlv (sock : anpNcclSocket) (msg_type : Nat) (payload : Option (List Byte))
    (payload_size : Nat) : recv_tlv_result :=
  let r1 := anpNcclSocketRecv sock 4
  if r1.1 ≠ .ncclSuccess then
    { ret := -1, msg_type := msg_type, payload_size := payload_size, payload := payload,
      sock := r1.2.2 }
  else
    let r2 := anpNcclSocketRecv r1.2.2 4
    if r2.1 ≠ .ncclSuccess then
      { ret := -1, msg_type := msg_type, payload_size := payload_size, payload := payload,
        sock := r2.2.2 }
    else
      let msg_type := ntohl r1.2.1
      let payload_size := ntohl r2.2.1
      match payload with
      | some _ =>
        if payload_size > 0 then
          let r3 := anpNcclSocketRecv r2.2.2 (int_of_u32 payload_size)
          if r3.1 ≠ .ncclSuccess then
            { ret := -1, msg_type := msg_type, payload_size := payload_size,
              payload := some r3.2.1, sock := r3.2.2 }
          else
            { ret := 0, msg_type := msg_type, payload_size := payload_size,
              payload := some r3.2.1, sock := r3.2.2 }
        else
          { ret := 0, msg_type := msg_type, payload_size := payload_size, payload := payload,
            sock := r2.2.2 }
      | none =>
        { ret := 0, msg_type := msg_type, payload_size := payload_size, payload := none,
          sock := r2.2.2 }

/-- The receive path shared by `recv_config_thread` and `run_leaf_node`:
`recv_tlv(sock, &msg_type, NULL, &payload_size)`, then, when `payload_size > 0`,
a vector of `payload_size` bytes filled by
`anpNcclSocketRecv(sock, buffer.data(), payload_size)`.  The result is `none`
when the caller gives up, otherwise `msg_type` and the vector; the comparison of
`msg_type` with the expected constant is left to the caller. -/
def recv_frame (sock : anpNcclSocket) : Option (Nat × List Byte) × anpNcclSocket :=
  let h := recv_tlv sock 0 none 0
  if h.ret ≠ 0 then (none, h.sock)
  else if h.payload_size > 0 then
    let r := anpNcclSocketRecv h.sock (int_of_u32 h.payload_size)
    if r.1 ≠ .ncclSuccess then (none, r.2.2) else (some (h.msg_type, r.2.1), r.2.2)
  else (some (h.msg_type, []), h.sock)

/-- Writing messages `(type, payload)` in order with `send_tlv`, stopping at the
first call that does not return 0. -/
def send_frames (sock : anpNcclSocket) : List (Nat × List Byte) → Int × anpNcclSocket
  | [] => (0, sock)
  | m :: rest =>
    if (send_tlv sock m.1 (some m.2) m.2.length).1 ≠ 0 then send_tlv sock m.1 (some m.2) m.2.length
    else send_frames (send_tlv sock m.1 (some m.2) m.2.length).2 rest

/-- Reading `k` messages in order with `recv_frame`, stopping at the first one
that fails. -/
def recv_frames (sock : anpNcclSocket) : Nat → Option (List (Nat × List Byte)) × anpNcclSocket
  | 0 => (some [], sock)
  | k + 1 =>
    match (recv_frame sock).1 with
    | none => (none, (recv_frame sock).2)
    | some m =>
      match (recv_frames (recv_frame sock).2 k).1 with
      | none => (none, (recv_frames (recv_frame sock).2 k).2)
      | some ms => (some (m :: ms), (recv_frames (recv_frame sock).2 k).2)

/-- The bytes of the frame of a message: type, length and payload. -/
def wire_frame (m : Nat × List Byte) : List Byte := BE32 m.1 ++ BE32 m.2.length ++ m.2

/-- Whether the next system call of the script hands over `n` bytes when they
are there. -/
def hands_over (script : List (Option Nat)) (n : Nat) : Prop :=
  match script with
  | [] => True
  | none :: _ => False
  | some k :: _ => n ≤ k

instance hands_over.decidable (script : List (Option Nat)) (n : Nat) :
    Decidable (hands_over script n) := by
  unfold hands_over; split <;> infer_instance

/-- The upper bound `MAX_FRAME` of 8 MiB. -/
def MAX_FRAME : Nat := 8 * 1024 * 1024

/-- A socket on which every system call transfers all the bytes asked for. -/
def reliable (pending : List Byte) : anpNcclSocket := { sent := [], pending := pending, script := [] }

/-- Every `anpNcclSocketSend` that `send_tlv` makes for the message `(t, p)`
returns `ncclSuccess`: the one of the type, the one of the length and, for a
non-empty payload, the one of the payload. -/
def sends_succeed (sock : anpNcclSocket) (t : Nat) (p : List Byte) : Prop :=
  (anpNcclSocketSend sock (BE32 t) 4).1 = .ncclSuccess ∧
    (anpNcclSocketSend (anpNcclSocketSend sock (BE32 t) 4).2 (BE32 p.length) 4).1 = .ncclSuccess ∧
    (0 < p.length →
      (anpNcclSocketSend (anpNcclSocketSend (anpNcclSocketSend sock (BE32 t) 4).2
        (BE32 p.length) 4).2 p (int_of_u32 p.length)).1 = .ncclSuccess)

instance sends_succeed.decidable (sock : anpNcclSocket) (t : Nat) (p : List Byte) :
    Decidable (sends_succeed sock t p) := by
  unfold sends_succeed; infer_instance

/-! ## Predicates used by the proofs -/

/-- The read position `off` lies inside `buffer` and `rest` is what follows it. -/
def at_cursor (buffer : List Byte) (off : Nat) (rest : List Byte) : Prop :=
  off ≤ buffer.length ∧ buffer.drop off = rest

/-- Invariant of the election loop after the entries `L` have been visited:
`root_ip` is an entry of `L`, `lowest` is its value, the entries before it have
a greater value and the entries after it a value at least as great. -/
def elect_inv (L : List (List Byte)) (st : Nat × List Byte) : Prop :=
  st.1 = ip_to_uint st.2 ∧ ∃ pre post, L = pre ++ st.2 :: post ∧
    (∀ x ∈ pre, st.1 < ip_to_uint x) ∧ (∀ x ∈ post, st.1 ≤ ip_to_uint x)

/-! ## Concrete inputs -/

/-- An object whose bytes are all zero. -/
def zeros : Nat → Byte := fun _ => 0

/-- A zeroed `planar_interface_t`. -/
def planar_zero : planar_interface_t :=
  { id := zeros, name := zeros, ipv4_addr := zeros, ipv6_addr := zeros }

/-- A zeroed `device_t`. -/
def device_zero : device_t :=
  { virtual_intf := zeros, virtual_ip := zeros, num_interfaces := 0,
    planar_intfs := fun _ => planar_zero }

/-- A `host_t` with empty strings and zeroed arrays. -/
def host_zero : host_t :=
  { host_name := [], host_ip := [], num_devices := 0, devices := fun _ => device_zero }

/-- Host `a` at 10.0.0.2: one device 192.168.1.1 with planar interface eth1 at
10.1.0.1. -/
def host_a : host_t :=
  { host_name := ascii "a", host_ip := ascii "10.0.0.2", num_devices := 1,
    devices := fun _ =>
      { virtual_intf := of_bytes (ascii "v0"), virtual_ip := of_bytes [192, 168, 1, 1],
        num_interfaces := 1,
        planar_intfs := fun _ =>
          { id := of_bytes (ascii "p0"), name := of_bytes (ascii "eth1"),
            ipv4_addr := of_bytes [10, 1, 0, 1], ipv6_addr := zeros } } }

/-- Host `b` at 10.0.0.5: one device 192.168.1.2 with planar interface eth1 at
10.1.0.2. -/
def host_b : host_t :=
  { host_name := ascii "b", host_ip := ascii "10.0.0.5", num_devices := 1,
    devices := fun _ =>
      { virtual_intf := of_bytes (ascii "v0"), virtual_ip := of_bytes [192, 168, 1, 2],
        num_interfaces := 1,
        planar_intfs := fun _ =>
          { id := of_bytes (ascii "p0"), name := of_bytes (ascii "eth1"),
            ipv4_addr := of_bytes [10, 1, 0, 2], ipv6_addr := zeros } } }

/-- The database of the root 10.0.0.2 after the response of the leaf 10.0.0.5:
both hosts stored under their `host_ip`, as `run_root_node` and
`recv_config_thread` store them. -/
def root_db : host_db_t :=
  insert_host (insert_host { host_db_empty with local_ip := ascii "10.0.0.2" } host_a) host_b

/-- A host whose `host_name` is `n` zero bytes, with no device. -/
def host_long_name (n : Nat) : host_t :=
  { host_name := List.replicate n 0, host_ip := [], num_devices := 0,
    devices := fun _ => device_zero }

/-- A single-host record whose only device has the one-byte `virtualIntf`
string `00`. -/
def record_with_nul : host_view :=
  { host_name := ascii "a", host_ip := ascii "10.0.0.2", num_devices := 1,
    devices := [{ virtual_intf := [0], virtual_ip := [192, 168, 1, 1], num_interfaces := 0,
                  planar_intfs := [] }] }

/-- A payload that announces nine devices, each with an empty `virtualIntf`
and no planar interface. -/
def nine_devices : List Byte :=
  BE32 0 ++ BE32 0 ++ BE32 9
    ++ (List.replicate 9 (BE32 0 ++ [10, 0, 0, 1] ++ BE32 0)).flatten

/-- A payload with one device whose `virtualIntf` string has 64 bytes. -/
def long_string : List Byte :=
  BE32 0 ++ BE32 0 ++ BE32 1 ++ (BE32 64 ++ List.replicate 64 97 ++ [10, 0, 0, 1] ++ BE32 0)

/-- The peer list of scenario S1. -/
def peers_s1 : List (List Byte) := [ascii "10.0.0.5", ascii "10.0.0.2", ascii "10.0.0.9"]

/-! ## The rules of a database, as the specification words them -/

/-- The pairs `(i, j)` of a device index and a planar-interface index of a host
for which `planar_intfs[j].ipv4_addr` and `devices[i].virtual_ip` are both
nonzero, by device index and then by planar-interface index. -/
def eligible (host : host_t) : List (Nat × Nat) :=
  ((List.range host.num_devices.toNat).map (fun i =>
    ((List.range (host.devices i).num_interfaces.toNat).filter (fun j =>
      s_addr_nonzero ((host.devices i).planar_intfs j).ipv4_addr
        && s_addr_nonzero (host.devices i).virtual_ip)).map (fun j => (i, j)))).flatten

/-- The two rules of the planar interface `j` of the device `i` of a host: the
rule `first` then the rule `second`, each on the text of the virtual address,
the text of the planar address and the name of the interface. -/
def rules_at (first second : List Byte → List Byte → List Byte → IptablesRule) (host : host_t)
    (ij : Nat × Nat) : List IptablesRule :=
  [first (inet_ntop4 (host.devices ij.1).virtual_ip)
      (inet_ntop4 ((host.devices ij.1).planar_intfs ij.2).ipv4_addr)
      (c_str ((host.devices ij.1).planar_intfs ij.2).name),
    second (inet_ntop4 (host.devices ij.1).virtual_ip)
      (inet_ntop4 ((host.devices ij.1).planar_intfs ij.2).ipv4_addr)
      (c_str ((host.devices ij.1).planar_intfs ij.2).name)]

/-- The local rules of a database: for the host under `local_ip`, the SNAT rule
then the DNAT rule of each eligible interface, by device index and then by
planar-interface index. -/
def local_rules (db : host_db_t) : List IptablesRule :=
  match map_find db.all_hosts db.local_ip with
  | none => []
  | some host => ((eligible host).map (rules_at add_tx_snat_rules add_rx_dnat_rules host)).flatten

/-- The remote rules of a database: host by host in the iteration order of
`all_hosts`, leaving out the key `local_ip`, the DNAT rule then the SNAT rule of
each eligible interface, by device index and then by planar-interface index. -/
def remote_rules (db : host_db_t) : List IptablesRule :=
  ((db.all_hosts.filter (fun p => p.1 ≠ db.local_ip)).map (fun p =>
    ((eligible p.2).map (rules_at add_tx_dnat_rules add_rx_snat_rules p.2)).flatten)).flatten

/-- A host with the IPv6 address of each planar interface replaced: the
interface `j` of the device `i` gets `g i j`. -/
def host_t.with_ipv6 (host : host_t) (g : Nat → Nat → Nat → Byte) : host_t :=
  { host with
    devices := fun i =>
      { host.devices i with
        planar_intfs := fun j => { (host.devices i).planar_intfs j with ipv6_addr := g i j } } }

/-- A database with the IPv6 addresses of every host replaced. -/
def host_db_t.with_ipv6 (db : host_db_t) (g : List Byte → Nat → Nat → Nat → Byte) : host_db_t :=
  { db with all_hosts := db.all_hosts.map (fun p => (p.1, p.2.with_ipv6 (g p.1))) }

/-! ## The index maps (`anp_bootstrap.h`, `bootstrap.cc`) -/

/-- The value `addr.s_addr` of a `struct in_addr`, the key of the index maps: the
32-bit number that the four bytes hold on a little-endian host. -/
def s_addr (addr : Nat → Byte) : Nat :=
  (addr 0).val + (addr 1).val * 2 ^ 8 + (addr 2).val * 2 ^ 16 + (addr 3).val * 2 ^ 24

/-- The function `lookup_virtual_ip(host_db, planar_ip)`; `none` is the null
pointer. -/
def lookup_virtual_ip (host_db : host_db_t) (planar_ip : Nat → Byte) : Option (Nat → Byte) :=
  map_find host_db.planar_to_virtual_map (s_addr planar_ip)

/-- The function `lookup_planar_interfaces(host_db, virtual_ip)`; `none` is the
null pointer. -/
def lookup_planar_interfaces (host_db : host_db_t) (virtual_ip : Nat → Byte) :
    Option (List planar_interface_t) :=
  map_find host_db.virtual_to_planar_map (s_addr virtual_ip)

/-- The global `host_db` of the root when the receive threads have joined:
`run_root_node` sets `local_ip` and stores its own `host`, then each
`recv_config_thread` that decodes a response stores it with
`host_db.all_hosts[host.host_ip.c_str()] = host`; `responses` are the hosts
stored by the threads, in the order in which they take the lock. -/
def root_host_db (db0 : host_db_t) (host : host_t) (responses : List host_t) : host_db_t :=
  responses.foldl insert_host (insert_host { db0 with local_ip := string_c_str host.host_ip } host)

/-! ## Strings (`std::string`) -/

/-- Whether `s` starts with `needle`. -/
def starts_with : List Byte → List Byte → Bool
  | _, [] => true
  | [], _ :: _ => false
  | c :: s, d :: needle => decide (c = d) && starts_with s needle

/-- The call `s.find(needle)` of a `std::string`: the first position at which
`needle` occurs in `s`; `none` is `npos`. -/
def find : List Byte → List Byte → Option Nat
  | [], needle => if needle = [] then some 0 else none
  | c :: s, needle =>
    if starts_with (c :: s) needle then some 0 else (find s needle).map (fun pos => pos + 1)

/-- The call `s.replace(pos, 1, t)` of a `std::string` for a position inside
`s`: the character at `pos` is replaced by `t`. -/
def replace1 (s : List Byte) (pos : Nat) (t : List Byte) : List Byte :=
  s.take pos ++ t ++ s.drop (pos + 1)

/-! ## The packet-filter wrapper (`anp_iptables_wrap.h`) -/

/-- The globals of the process that the wrapper reads and writes: the string
`iptables_backend`, the static flag `initialized` of `setup_nft_nat_table`, and
the number of `popen` calls made so far. -/
structure process where
  iptables_backend : List Byte
  initialized : Bool
  popen_calls : Nat
  deriving DecidableEq, Repr

/-- The process at start: `iptables_backend = ""`, `initialized = false`, no
`popen` made. -/
def process_start : process := { iptables_backend := [], initialized := false, popen_calls := 0 }

/-- The loop `while (fgets(buffer, sizeof(buffer), pipe) != nullptr) result += buffer`
of `detect_iptables_backend` on the bytes that the pipe delivers: each chunk is
appended as a C string.  The `fuel` bounds the iterations (each one consumes a
byte). -/
def read_pipe : Nat → List Byte → List Byte → List Byte
  | 0, _, result => result
  | fuel + 1, pipe, result =>
    match fgets 128 pipe with
    | none => result
    | some (buffer, pipe') => read_pipe fuel pipe' (result ++ string_c_str buffer)

/-- The function `detect_iptables_backend()`.  The version probe
`popen("iptables --version 2>/dev/null", "r")` is the oracle `popen`: its `k`-th
call fails (`none`, a null pointer) or delivers some bytes.  The result is the
string returned and the process afterwards. -/
def detect_iptables_backend (popen : Nat → Option (List Byte)) (p : process) :
    List Byte × process :=
  if p.iptables_backend ≠ [] then (p.iptables_backend, p)
  else
    match popen p.popen_calls with
    | none => (ascii "unknown", { p with popen_calls := p.popen_calls + 1 })
    | some pipe =>
      let result := read_pipe (pipe.length + 1) pipe []
      if (find result (ascii "nf_tables")).isSome then
        (ascii "nf_tables",
          { p with iptables_backend := ascii "nf_tables", popen_calls := p.popen_calls + 1 })
      else if (find result (ascii "legacy")).isSome then
        (ascii "legacy",
          { p with iptables_backend := ascii "legacy", popen_calls := p.popen_calls + 1 })
      else
        (ascii "unknown",
          { p with iptables_backend := ascii "unknown", popen_calls := p.popen_calls + 1 })

/-- The values returned by `n` successive calls of `detect_iptables_backend` and
the process afterwards. -/
def detect_calls (popen : Nat → Option (List Byte)) : Nat → process → List (List Byte) × process
  | 0, p => ([], p)
  | n + 1, p =>
    ((detect_iptables_backend popen p).1 :: (detect_calls popen n (detect_iptables_backend popen p).2).1,
      (detect_calls popen n (detect_iptables_backend popen p).2).2)

/-- The function `construct_iptables_command(rule)`. -/
def construct_iptables_command (rule : IptablesRule) : List Byte :=
  let command := ascii "iptables -t " ++ rule.table ++ ascii " -" ++ rule.action ++ ascii " "
    ++ rule.chain
  let command :=
    if rule.match_type ≠ [] ∧ rule.match_value ≠ [] then
      command ++ ((if rule.match_type = ascii "SIP" then ascii " -s " else ascii " -d ")
        ++ rule.match_value)
    else command
  let command :=
    if rule.iface_name ≠ [] then
      command ++ ((if rule.iface_type = ascii "in" then ascii " -i " else ascii " -o ")
        ++ rule.iface_name)
    else command
  if rule.jump_target ≠ [] then
    let command := command ++ (ascii " -j " ++ rule.jump_target)
    if rule.translate_ip ≠ [] then
      if rule.jump_target = ascii "SNAT" then command ++ (ascii " --to-source " ++ rule.translate_ip)
      else if rule.jump_target = ascii "DNAT" then
        command ++ (ascii " --to-destination " ++ rule.translate_ip)
      else command
    else command
  else command

/-- The function `convert_to_nftables(rule)`. -/
def convert_to_nftables (rule : IptablesRule) : List Byte :=
  let command := ascii "nft add rule ip " ++ rule.table ++ ascii " " ++ rule.chain
  let command :=
    if rule.match_type ≠ [] ∧ rule.match_value ≠ [] then
      command ++ ascii " ip " ++ (if rule.match_type = ascii "SIP" then ascii "saddr" else ascii "daddr")
        ++ ascii " " ++ rule.match_value
    else command
  let command :=
    if rule.iface_name ≠ [] then
      command ++ ascii " " ++ (if rule.iface_type = ascii "in" then ascii "iif" else ascii "oif")
        ++ ascii " " ++ rule.iface_name
    else command
  if rule.jump_target ≠ [] then
    if rule.jump_target = ascii "SNAT" then command ++ ascii " snat to " ++ rule.translate_ip
    else if rule.jump_target = ascii "DNAT" then command ++ ascii " dnat to " ++ rule.translate_ip
    else command ++ ascii " " ++ rule.jump_target
  else command

/-- The process and what is outside it: the globals, the state `kernel` of
whatever the shell commands act on, and the commands passed to `system` so far,
in order. -/
structure machine (κ : Type) where
  proc : process
  kernel : κ
  commands : List (List Byte)

/-- The call `system(command.c_str())`: the command is the C string of
`command`, the shell `sh` runs it on the state outside the process and gives the
status.  The result is the status and the machine afterwards. -/
def system {κ : Type} (sh : List Byte → κ → Int × κ) (command : List Byte) (m : machine κ) :
    Int × machine κ :=
  ((sh (string_c_str command) m.kernel).1,
    { m with kernel := (sh (string_c_str command) m.kernel).2,
             commands := m.commands ++ [string_c_str command] })

/-- The function `setup_nft_nat_table()`. -/
def setup_nft_nat_table {κ : Type} (sh : List Byte → κ → Int × κ) (m : machine κ) : machine κ :=
  if m.proc.initialized then m
  else
    let m := (system sh (ascii "nft list table ip nat >/dev/null 2>&1 || nft add table ip nat") m).2
    let m := (system sh (ascii ("nft list chain ip nat POSTROUTING >/dev/null 2>&1 || "
      ++ "nft add chain ip nat POSTROUTING \x7b type nat hook postrouting priority 100 \x5c; \x7d")) m).2
    let m := (system sh (ascii ("nft list chain ip nat OUTPUT >/dev/null 2>&1 || "
      ++ "nft add chain ip nat OUTPUT \x7b type nat hook output priority 0 \x5c; \x7d")) m).2
    let m := (system sh (ascii ("nft list chain ip nat INPUT >/dev/null 2>&1 || "
      ++ "nft add chain ip nat INPUT \x7b type nat hook input priority 0 \x5c; \x7d")) m).2
    { m with proc := { m.proc with initialized := true } }

/-- The function `rule_exists(check_command)`. -/
def rule_exists {κ : Type} (sh : List Byte → κ → Int × κ) (check_command : List Byte)
    (m : machine κ) : Bool × machine κ :=
  (decide ((system sh check_command m).1 = 0), (system sh check_command m).2)

/-- The string `check_command` of `execute_iptables_command`: a copy of
`command` in which, when `" -A "` occurs at `pos`, the one character at
`pos + 1` is replaced by `C`. -/
def check_command (command : List Byte) : List Byte :=
  match find command (ascii " -A ") with
  | some pos => replace1 command (pos + 1) (ascii "C")
  | none => command

/-- The function `execute_iptables_command(rule)`: the value returned and the
machine afterwards. -/
def execute_iptables_command {κ : Type} (popen : Nat → Option (List Byte))
    (sh : List Byte → κ → Int × κ) (rule : IptablesRule) (m : machine κ) : Int × machine κ :=
  let backend := (detect_iptables_backend popen m.proc).1
  let m := { m with proc := (detect_iptables_backend popen m.proc).2 }
  let command :=
    if backend = ascii "nf_tables" then convert_to_nftables rule
    else construct_iptables_command rule
  let m := if backend = ascii "nf_tables" then setup_nft_nat_table sh m else m
  if rule.action = ascii "A" ∧ (rule_exists sh (check_command command) m).1 = true then
    (0, (rule_exists sh (check_command command) m).2)
  else
    let m := if rule.action = ascii "A" then (rule_exists sh (check_command command) m).2 else m
    (if (system sh command m).1 = 0 then 0 else -1, (system sh command m).2)

/-! ## A packet filter as a list of installed rules -/

/-- The rest of `s` after `head`, when `s` starts with `head`. -/
def strip_head : List Byte → List Byte → Option (List Byte)
  | [], s => some s
  | _ :: _, [] => none
  | d :: head, c :: s => if c = d then strip_head head s else none

/-- A shell on a packet filter that is the list of the rule texts installed: a
check command `iptables -t nat -C <rule>` succeeds if and only if the rule is
present, the append command `iptables -t nat -A <rule>` and the command
`nft add rule ip nat <rule>` append the rule and succeed, any other command
fails without effect. -/
def packet_filter (command : List Byte) (installed : List (List Byte)) :
    Int × List (List Byte) :=
  match strip_head (ascii "iptables -t nat -C ") command with
  | some rule => (if rule ∈ installed then 0 else 256, installed)
  | none =>
    match strip_head (ascii "iptables -t nat -A ") command with
    | some rule => (0, installed ++ [rule])
    | none =>
      match strip_head (ascii "nft add rule ip nat ") command with
      | some rule => (0, installed ++ [rule])
      | none => (256, installed)

/-- The four helpers that build a rule with the action `A`. -/
def add_rules_helpers : List (List Byte → List Byte → List Byte → IptablesRule) :=
  [add_tx_snat_rules, add_tx_dnat_rules, add_rx_snat_rules, add_rx_dnat_rules]

/-- A machine on a packet filter with the backend already detected. -/
def machine_with (backend : List Byte) (installed : List (List Byte)) :
    machine (List (List Byte)) :=
  { proc := { iptables_backend := backend, initialized := false, popen_calls := 1 },
    kernel := installed, commands := [] }

/-! ## The topology document (`parse_planar_config`, `anp_bootstrap.h`) -/

/-- The constant `ANP_SUCCESS`. -/
def ANP_SUCCESS : Int := 0

/-- The constant `ANP_FAILURE`. -/
def ANP_FAILURE : Int := -1

/-- The constant `PLANAR_CONFIG_FILE` of `bootstrap.cc`. -/
def PLANAR_CONFIG_FILE : List Byte := ascii "/etc/ainic_planar_config.json"

/-- The subtree of one entry of `planar_intfs` in the property tree that
`read_json` builds: under each key the string that
`get<std::string>(key)` returns, or `none` when the key is missing and `get`
throws. -/
structure planar_node where
  id : Option (List Byte)
  name : Option (List Byte)
  ipv4_addr : Option (List Byte)
  ipv6_addr : Option (List Byte)
  deriving DecidableEq, Repr

/-- The subtree of one entry of `devices`: the two strings and the children of
`planar_intfs` in document order (`none` when the key is missing and `get` or
`get_child` throws). -/
structure device_node where
  virtual_intf : Option (List Byte)
  virtual_ip : Option (List Byte)
  planar_intfs : Option (List planar_node)
  deriving DecidableEq, Repr

/-- The property tree `pt` of a topology document: the two strings and the
children of `devices` in document order. -/
structure host_node where
  host_name : Option (List Byte)
  host_ip : Option (List Byte)
  devices : Option (List device_node)
  deriving DecidableEq, Repr

/-- The call `strncpy(dst, src.c_str(), n)`: the first `n` bytes of `dst` become
the bytes of the C string of `src`, padded with NUL. -/
def strncpy (dst : Nat → Byte) (src : List Byte) (n : Nat) : Nat → Byte :=
  fun i => if i < n then (string_c_str src).getD i 0 else dst i

/-- The call `inet_pton(AF_INET, src.c_str(), &dst)`: the address is stored when
the text is valid, `dst` is left as it is otherwise. -/
def inet_pton4_into (dst : Nat → Byte) (src : List Byte) : Nat → Byte :=
  match inet_pton4 (string_c_str src) with
  | some addr => of_bytes addr
  | none => dst

/-- The call `inet_pton(AF_INET6, src.c_str(), &dst)`, for the C library's
conversion `inet_pton6` of a text to sixteen bytes. -/
def inet_pton6_into (inet_pton6 : List Byte → Option (Nat → Byte)) (dst : Nat → Byte)
    (src : List Byte) : Nat → Byte :=
  match inet_pton6 (string_c_str src) with
  | some addr => addr
  | none => dst

/-- The loop `for (entry : entries) { if (count >= cap) break; a[count++] = ...; }`
of `parse_planar_config`, where the body `parse` gives the element stored and
whether it threw.  The result is the array, the count and whether an exception
left the loop. -/
def parse_entries {ν α : Type} (cap : Nat) (parse : ν → α × Bool) :
    List ν → Nat → (Nat → α) → (Nat → α) × Nat × Bool
  | [], count, a => (a, count, false)
  | entry :: rest, count, a =>
    if count ≥ cap then (a, count, false)
    else if (parse entry).2 then (Function.update a count (parse entry).1, count + 1, true)
    else parse_entries cap parse rest (count + 1) (Function.update a count (parse entry).1)

/-- The body of the inner loop of `parse_planar_config` after
`planar_interface_t& pi = dev.planar_intfs[iface_count++]`: the interface
stored and whether a `get` threw. -/
def parse_planar_intf (inet_pton6 : List Byte → Option (Nat → Byte)) (intf_entry : planar_node) :
    planar_interface_t × Bool :=
  let pi := planar_zero
  match intf_entry.id with
  | none => (pi, true)
  | some id =>
    let pi := { pi with id := strncpy pi.id id (MAX_STR_LEN - 1) }
    match intf_entry.name with
    | none => (pi, true)
    | some name =>
      let pi := { pi with name := strncpy pi.name name (MAX_STR_LEN - 1) }
      match intf_entry.ipv4_addr with
      | none => (pi, true)
      | some ipv4_addr =>
        let pi := { pi with ipv4_addr := inet_pton4_into pi.ipv4_addr ipv4_addr }
        match intf_entry.ipv6_addr with
        | none => (pi, true)
        | some ipv6_addr =>
          ({ pi with ipv6_addr := inet_pton6_into inet_pton6 pi.ipv6_addr ipv6_addr }, false)

/-- The body of the outer loop of `parse_planar_config` after
`device_t& dev = host.devices[device_count++]`: the device stored and whether
an exception left the body. -/
def parse_device (inet_pton6 : List Byte → Option (Nat → Byte)) (devices_node : device_node) :
    device_t × Bool :=
  let dev := device_zero
  match devices_node.virtual_intf with
  | none => (dev, true)
  | some virtual_intf =>
    let dev := { dev with virtual_intf := strncpy dev.virtual_intf virtual_intf (MAX_STR_LEN - 1) }
    match devices_node.virtual_ip with
    | none => (dev, true)
    | some virtual_ip =>
      let dev := { dev with virtual_ip := inet_pton4_into dev.virtual_ip virtual_ip }
      match devices_node.planar_intfs with
      | none => (dev, true)
      | some entries =>
        let r := parse_entries MAX_INTERFACES (parse_planar_intf inet_pton6) entries 0
          dev.planar_intfs
        if r.2.2 then ({ dev with planar_intfs := r.1 }, true)
        else ({ dev with planar_intfs := r.1, num_interfaces := (r.2.1 : Int) }, false)

/-- The `try` block of `parse_planar_config` after the test of the file name:
the host when the block is left, by its end or by an exception (the handler
prints a message and goes on). -/
def parse_planar_config_try (inet_pton6 : List Byte → Option (Nat → Byte))
    (read_json : List Byte → Option host_node) (planar_cfg_file : List Byte) (host : host_t) :
    host_t :=
  match read_json planar_cfg_file with
  | none => host
  | some pt =>
    match pt.host_name with
    | none => host
    | some host_name =>
      let host := { host with host_name := host_name }
      match pt.host_ip with
      | none => host
      | some host_ip =>
        let host := { host with host_ip := host_ip }
        match pt.devices with
        | none => host
        | some nodes =>
          let r := parse_entries MAX_DEVICES (parse_device inet_pton6) nodes 0 host.devices
          if r.2.2 then { host with devices := r.1 }
          else { host with devices := r.1, num_devices := (r.2.1 : Int) }

/-- The function `print_planar_config(host)`, for what it reads: every entry of
`host.devices`, its `virtual_intf` as a C string and, for `j` below its
`num_interfaces`, the strings `id` and `name` of `planar_intfs[j]`. -/
def print_planar_config (host : host_t) : Run Int := do
  let _ ← for_range MAX_DEVICES (fun i (u : Unit) => do
    let dev ← index MAX_DEVICES host.devices i
    let _ ← strlen dev.virtual_intf
    for_range dev.num_interfaces.toNat (fun j (u : Unit) => do
      let planar_intf ← index MAX_INTERFACES dev.planar_intfs j
      let _ ← strlen planar_intf.id
      let _ ← strlen planar_intf.name
      pure u) u) ()
  pure ANP_SUCCESS

/-- The function `parse_planar_config(planar_cfg_file, host)`: the value returned
and `host` after the call.  The file system is `read_json`, which gives the
property tree of a file, or `none` when `read_json` throws (the file cannot be
read or is not JSON). -/
def parse_planar_config (inet_pton6 : List Byte → Option (Nat → Byte))
    (read_json : List Byte → Option host_node) (planar_cfg_file : List Byte) (host : host_t) :
    Run (Int × host_t) :=
  if planar_cfg_file = [] then .ok (ANP_FAILURE, host)
  else do
    let host := parse_planar_config_try inet_pton6 read_json planar_cfg_file host
    let _ ← print_planar_config host
    pure (ANP_SUCCESS, host)

/-- The first statements of `run_root_node`: `parse_planar_config` on the local
`host`, whose result is not looked at, then `host_db.local_ip` and the entry of
the host in `host_db.all_hosts`. -/
def run_root_node_start (inet_pton6 : List Byte → Option (Nat → Byte))
    (read_json : List Byte → Option host_node) (host : host_t) (host_db : host_db_t) :
    Run host_db_t := do
  let r ← parse_planar_config inet_pton6 read_json PLANAR_CONFIG_FILE host
  let host := r.2
  pure (insert_host { host_db with local_ip := string_c_str host.host_ip } host)

/-- The statements of `run_leaf_node` between the receipt of the request and
`send_tlv`: `parse_planar_config` on the local `host`, whose result is not
looked at, then `host_db.local_ip` and the payload `buffer` of the response. -/
def run_leaf_node_response (inet_pton6 : List Byte → Option (Nat → Byte))
    (read_json : List Byte → Option host_node) (host : host_t) (host_db : host_db_t) :
    Run (host_db_t × List Byte) := do
  let r ← parse_planar_config inet_pton6 read_json PLANAR_CONFIG_FILE host
  let host := r.2
  let host_db := { host_db with local_ip := string_c_str host.host_ip }
  let buffer ← serialize_host [] host
  pure (host_db, buffer)

/-! ## What the document says, as the specification words it -/

/-- An entry of `planar_intfs` with all four keys. -/
def planar_node.complete (e : planar_node) : Prop :=
  e.id.isSome ∧ e.name.isSome ∧ e.ipv4_addr.isSome ∧ e.ipv6_addr.isSome

/-- An entry of `devices` with its three keys whose first 64 planar interfaces
have all four keys. -/
def device_node.complete (e : device_node) : Prop :=
  e.virtual_intf.isSome ∧ e.virtual_ip.isSome ∧ e.planar_intfs.isSome ∧
    ∀ p ∈ (e.planar_intfs.getD []).take MAX_INTERFACES, p.complete

/-- A document with its three keys whose first 8 devices are complete. -/
def host_node.complete (pt : host_node) : Prop :=
  pt.host_name.isSome ∧ pt.host_ip.isSome ∧ pt.devices.isSome ∧
    ∀ d ∈ (pt.devices.getD []).take MAX_DEVICES, d.complete

instance planar_node.decidable_complete (e : planar_node) : Decidable e.complete := by
  unfold planar_node.complete; infer_instance

instance device_node.decidable_complete (e : device_node) : Decidable e.complete := by
  unfold device_node.complete; infer_instance

instance host_node.decidable_complete (pt : host_node) : Decidable pt.complete := by
  unfold host_node.complete; infer_instance

/-- The first 63 bytes of a string of the document, as a C string holds it. -/
def first_63 (s : List Byte) : List Byte := (string_c_str s).take (MAX_STR_LEN - 1)

/-- The IPv4 address that a string of the document denotes, as a `struct
in_addr`: the four bytes of the dotted quad in network order, and zero bytes
when the text is not a dotted quad. -/
def ipv4_of_text (s : List Byte) : Nat → Byte :=
  match inet_pton4 (string_c_str s) with
  | some addr => of_bytes addr
  | none => zeros

/-- The IPv6 address that a string of the document denotes, as a `struct
in6_addr`: the sixteen bytes that the C library's conversion `inet_pton6` gives
for the text, and zero bytes when it gives none. -/
def ipv6_of_text (inet_pton6 : List Byte → Option (Nat → Byte)) (s : List Byte) : Nat → Byte :=
  match inet_pton6 (string_c_str s) with
  | some addr => addr
  | none => zeros

/-- A planar interface that holds an entry: its two strings and its two
addresses. -/
def planar_interface_t.holds (p : planar_interface_t)
    (inet_pton6 : List Byte → Option (Nat → Byte)) (e : planar_node) : Prop :=
  c_str p.id = first_63 (e.id.getD []) ∧ c_str p.name = first_63 (e.name.getD []) ∧
    p.ipv4_addr = ipv4_of_text (e.ipv4_addr.getD []) ∧
    p.ipv6_addr = ipv6_of_text inet_pton6 (e.ipv6_addr.getD [])

/-- A device that holds an entry of `devices`: its string, its address, and its
first 64 planar interfaces in document order. -/
def device_t.holds (d : device_t) (inet_pton6 : List Byte → Option (Nat → Byte))
    (e : device_node) : Prop :=
  c_str d.virtual_intf = first_63 (e.virtual_intf.getD []) ∧
    d.virtual_ip = ipv4_of_text (e.virtual_ip.getD []) ∧
    d.num_interfaces = (min (e.planar_intfs.getD []).length MAX_INTERFACES : Nat) ∧
    ∀ (j : Nat) (p : planar_node), j < MAX_INTERFACES → (e.planar_intfs.getD [])[j]? = some p →
      (d.planar_intfs j).holds inet_pton6 p

/-- A host that holds a document: its two strings, and its first 8 devices in
document order. -/
def host_t.holds (h : host_t) (inet_pton6 : List Byte → Option (Nat → Byte))
    (pt : host_node) : Prop :=
  h.host_name = pt.host_name.getD [] ∧ h.host_ip = pt.host_ip.getD [] ∧
    h.num_devices = (min (pt.devices.getD []).length MAX_DEVICES : Nat) ∧
    ∀ (i : Nat) (d : device_node), i < MAX_DEVICES → (pt.devices.getD [])[i]? = some d →
      (h.devices i).holds inet_pton6 d

/-- A document without its devices past index 7 and without the planar
interfaces past index 63 of each device. -/
def host_node.truncate (pt : host_node) : host_node :=
  { pt with devices := pt.devices.map (fun nodes =>
      (nodes.take MAX_DEVICES).map (fun d =>
        { d with planar_intfs := d.planar_intfs.map (fun l => l.take MAX_INTERFACES) })) }

/-- A document with one device and one planar interface. -/
def node_a : host_node :=
  { host_name := some (ascii "a"), host_ip := some (ascii "10.0.0.2"),
    devices := some [
      { virtual_intf := some (ascii "v0"), virtual_ip := some (ascii "192.168.1.1"),
        planar_intfs := some [
          { id := some (ascii "p0"), name := some (ascii "eth1"),
            ipv4_addr := some (ascii "10.1.0.1"), ipv6_addr := some (ascii "::") }] }] }

/-- A local `host_t host;` that was never written: the two strings are empty
(their constructor ran), the count and the arrays hold what the stack held,
here bytes none of which is NUL. -/
def host_unwritten : host_t :=
  { host_name := [], host_ip := [], num_devices := 7,
    devices := fun _ =>
      { virtual_intf := fun _ => 120, virtual_ip := fun _ => 120, num_interfaces := 3,
        planar_intfs := fun _ =>
          { id := fun _ => 120, name := fun _ => 120, ipv4_addr := fun _ => 120,
            ipv6_addr := fun _ => 120 } } }

/-- A conversion `inet_pton(AF_INET6, ...)` that knows the text `::1`. -/
def inet_pton6_loopback (s : List Byte) : Option (Nat → Byte) :=
  if s = ascii "::1" then some (of_bytes [0, 0, 0, 0, 0, 0, 0, 0, 0, 0, 0, 0, 0, 0, 0, 1]) else none

/-- Entry `j` of a list of planar interfaces of a document. -/
def planar_entry (j : Nat) : planar_node :=
  { id := some (ascii "p" ++ [byte (65 + j)]), name := some (ascii "eth" ++ [byte (65 + j)]),
    ipv4_addr := some (ascii "10.1.0." ++ [byte (49 + j % 8)]), ipv6_addr := some (ascii "::1") }

/-- A document with nine devices: the first has a `virtual_intf` of 70 bytes and
65 planar interfaces, the second has no planar interface, the others have one. -/
def node_wide : host_node :=
  { host_name := some (ascii "w"), host_ip := some (ascii "10.0.0.7"),
    devices := some ((List.range 9).map (fun i =>
      { virtual_intf := some (if i = 0 then List.replicate 70 118 else ascii "v" ++ [byte (48 + i)]),
        virtual_ip := some (ascii "192.168.1." ++ [byte (49 + i)]),
        planar_intfs := some (if i = 0 then (List.range 65).map planar_entry
          else if i = 1 then [] else [planar_entry i]) })) }

/-- The content that the specification expects for entry `j` of a list of
planar interfaces. -/
def planar_entry_view (j : Nat) : planar_view :=
  { id := ascii "p" ++ [byte (65 + j)], name := ascii "eth" ++ [byte (65 + j)],
    ipv4_addr := [10, 1, 0, byte (1 + j % 8)],
    ipv6_addr := [0, 0, 0, 0, 0, 0, 0, 0, 0, 0, 0, 0, 0, 0, 0, 1] }

/-- The content that the specification expects for the document `node_wide`:
its first eight devices, the first with the first 63 bytes of its string and its
first 64 planar interfaces. -/
def wide_view : host_view :=
  { host_name := ascii "w", host_ip := ascii "10.0.0.7", num_devices := 8,
    devices := (List.range 8).map (fun i =>
      { virtual_intf := if i = 0 then List.replicate 63 118 else ascii "v" ++ [byte (48 + i)],
        virtual_ip := [192, 168, 1, byte (1 + i)],
        num_interfaces := if i = 0 then 64 else if i = 1 then 0 else 1,
        planar_intfs := if i = 0 then (List.range 64).map planar_entry_view
          else if i = 1 then [] else [planar_entry_view i] }) }

/-! ## Rules handed to the wrapper (`anp_bootstrap.h`) -/

/-- The two nested loops of `apply_local_vip_iptables_rule` and
`apply_remote_vip_iptables_rule` with the calls of the helpers carried out: each
helper builds its rule and runs `execute_iptables_command` on it, and the value
it returns is dropped.  The state is the list of the rules handed to
`execute_iptables_command` so far and the machine. -/
def apply_host_rules_on {κ : Type} (popen : Nat → Option (List Byte))
    (sh : List Byte → κ → Int × κ)
    (first second : List Byte → List Byte → List Byte → IptablesRule) (host : host_t)
    (st : List IptablesRule × machine κ) : Run (List IptablesRule × machine κ) :=
  for_range host.num_devices.toNat (fun i st => do
    let device ← index MAX_DEVICES host.devices i
    for_range device.num_interfaces.toNat (fun j st => do
      let planar_intf ← index MAX_INTERFACES device.planar_intfs j
      let virtual_ip_str := inet_ntop4 device.virtual_ip
      if s_addr_nonzero planar_intf.ipv4_addr && s_addr_nonzero device.virtual_ip then do
        let planar_ip_str := inet_ntop4 planar_intf.ipv4_addr
        let _ ← strlen planar_intf.name
        let name := c_str planar_intf.name
        let m := (execute_iptables_command popen sh
          (first virtual_ip_str planar_ip_str name) st.2).2
        let m := (execute_iptables_command popen sh
          (second virtual_ip_str planar_ip_str name) m).2
        pure (st.1 ++ [first virtual_ip_str planar_ip_str name,
                       second virtual_ip_str planar_ip_str name], m)
      else pure st) st) st

/-- The function `apply_local_vip_iptables_rule(host_db)` on a machine. -/
def apply_local_vip_iptables_rule_on {κ : Type} (popen : Nat → Option (List Byte))
    (sh : List Byte → κ → Int × κ) (host_db : host_db_t) (st : List IptablesRule × machine κ) :
    Run (List IptablesRule × machine κ) :=
  match map_find host_db.all_hosts host_db.local_ip with
  | none => .ok st
  | some host => apply_host_rules_on popen sh add_tx_snat_rules add_rx_dnat_rules host st

/-- The function `apply_remote_vip_iptables_rule(host_db)` on a machine. -/
def apply_remote_vip_iptables_rule_on {κ : Type} (popen : Nat → Option (List Byte))
    (sh : List Byte → κ → Int × κ) (host_db : host_db_t) (st : List IptablesRule × machine κ) :
    Run (List IptablesRule × machine κ) :=
  for_each host_db.all_hosts (fun host_pair st =>
    if host_pair.1 = host_db.local_ip then pure st
    else apply_host_rules_on popen sh add_tx_dnat_rules add_rx_snat_rules host_pair.2 st) st

/-- The programming step of `run_root_node` and `run_leaf_node` on a machine:
the rules handed to `execute_iptables_command`, in order, and the machine
afterwards. -/
def program_rules_on {κ : Type} (popen : Nat → Option (List Byte))
    (sh : List Byte → κ → Int × κ) (host_db : host_db_t) (m : machine κ) :
    Run (List IptablesRule × machine κ) := do
  let st ← apply_local_vip_iptables_rule_on popen sh host_db ([], m)
  apply_remote_vip_iptables_rule_on popen sh host_db st

/-- A shell on which every command fails. -/
def sh_fails (_command : List Byte) (installed : List (List Byte)) : Int × List (List Byte) :=
  (256, installed)

/-! ## The exchange between the root and a leaf (`bootstrap.cc`) -/

/-- The constant `MSG_PLANAR_CONFIG_REQUEST`. -/
def MSG_PLANAR_CONFIG_REQUEST : Nat := 1

/-- The constant `MSG_CONFIG_RESPONSE`. -/
def MSG_CONFIG_RESPONSE : Nat := 2

/-- The constant `MSG_COMPOSITE_CONFIG`. -/
def MSG_COMPOSITE_CONFIG : Nat := 3

/-- The constant `EXIT_SUCCESS`. -/
def EXIT_SUCCESS : Int := 0

/-- The constant `EXIT_FAILURE`. -/
def EXIT_FAILURE : Int := 1

/-- What a run of `run_leaf_node` leaves: the value returned, the socket, the
global `host_db`, and the rules handed out by the programming step (`none` when
the step is not reached). -/
structure leaf_outcome where
  ret : Int
  sock : anpNcclSocket
  host_db : host_db_t
  programmed : Option (List IptablesRule)

/-- The last statements of `run_leaf_node`: the loop that prints every host of
`host_db.all_hosts`, the two calls that program the rules, and the return. -/
def run_leaf_node_program (host_db : host_db_t) (clientSock : anpNcclSocket) :
    Run leaf_outcome := do
  let _ ← for_each host_db.all_hosts (fun pair (u : Unit) => do
    let _ ← print_planar_config pair.2
    pure u) ()
  let issued ← program_rules host_db
  pure { ret := EXIT_SUCCESS, sock := clientSock, host_db := host_db, programmed := some issued }

/-- The function `run_leaf_node(root_ip)` from the point where `clientSock` is
connected (the loop before it retries until the connection is made).  The
arguments `inet_pton6`, `read_json` and `host` are those of
`parse_planar_config`, `fresh` is what the local `host_t` of
`deserialize_all_hosts` holds in each iteration, and `host_db` is the global. -/
def run_leaf_node (inet_pton6 : List Byte → Option (Nat → Byte))
    (read_json : List Byte → Option host_node) (fresh : Nat → host_t) (host : host_t)
    (host_db : host_db_t) (clientSock : anpNcclSocket) : Run leaf_outcome :=
  let request := recv_tlv clientSock 0 none 0
  if request.ret ≠ 0 then
    .ok { ret := EXIT_FAILURE, sock := request.sock, host_db := host_db, programmed := none }
  else if request.msg_type ≠ MSG_PLANAR_CONFIG_REQUEST then
    .ok { ret := EXIT_FAILURE, sock := request.sock, host_db := host_db, programmed := none }
  else do
    let (host_db, buffer) ← run_leaf_node_response inet_pton6 read_json host host_db
    let sent := send_tlv request.sock MSG_CONFIG_RESPONSE (some buffer) buffer.length
    if sent.1 ≠ 0 then
      pure { ret := EXIT_FAILURE, sock := sent.2, host_db := host_db, programmed := none }
    else
      let composite := recv_tlv sent.2 request.msg_type none request.payload_size
      if composite.ret ≠ 0 then
        pure { ret := EXIT_FAILURE, sock := composite.sock, host_db := host_db,
               programmed := none }
      else if composite.msg_type ≠ MSG_COMPOSITE_CONFIG then
        pure { ret := EXIT_FAILURE, sock := composite.sock, host_db := host_db,
               programmed := none }
      else if composite.payload_size > 0 then
        let compbuf := anpNcclSocketRecv composite.sock (int_of_u32 composite.payload_size)
        if compbuf.1 ≠ .ncclSuccess then
          pure { ret := EXIT_FAILURE, sock := compbuf.2.2, host_db := host_db,
                 programmed := none }
        else do
          let host_db ← deserialize_all_hosts fresh host_db compbuf.2.1
          run_leaf_node_program host_db compbuf.2.2
      else run_leaf_node_program host_db composite.sock

/-- The function `recv_config_thread(arg)` on the socket of its connection, up
to the lock: the host that the thread is about to enter in `host_db.all_hosts`
(`none` when it exits before) and the socket.  The argument `host0` is what the
local `host_t` of `deserialize_host(buffer)` holds at first. -/
def recv_config_thread (host0 : host_t) (sock : anpNcclSocket) :
    Run (Option host_t × anpNcclSocket) :=
  let response := recv_tlv sock 0 none 0
  if response.ret ≠ 0 then .ok (none, response.sock)
  else if response.msg_type ≠ MSG_CONFIG_RESPONSE then .ok (none, response.sock)
  else
    let buffer :=
      if response.payload_size > 0 then
        anpNcclSocketRecv response.sock (int_of_u32 response.payload_size)
      else (.ncclSuccess, [], response.sock)
    if buffer.1 ≠ .ncclSuccess then .ok (none, buffer.2.2)
    else do
      let host ← deserialize_host1 host0 buffer.2.1
      let _ ← print_planar_config host
      pure (some host, buffer.2.2)

/-- The composite payload of hosts `a` and `b`. -/
def composite_two : List Byte := BE32 2 ++ wire_host host_a.view ++ wire_host host_b.view

/-- The stream that a leaf is sent: the request, then the composite payload of
hosts `a` and `b`. -/
def leaf_sock_two : anpNcclSocket :=
  reliable (wire_frame (MSG_PLANAR_CONFIG_REQUEST, [])
    ++ wire_frame (MSG_COMPOSITE_CONFIG, composite_two))

/-- The database of the leaf `a` after it has decoded `composite_two`. -/
def leaf_db_two : host_db_t :=
  match deserialize_all_hosts (fun _ => host_zero)
      { host_db_empty with local_ip := ascii "10.0.0.2" } composite_two with
  | .ok db => db
  | .undefined _ => host_db_empty

/-- What the run of the leaf `a` on `leaf_sock_two` leaves. -/
def leaf_outcome_two : leaf_outcome :=
  { ret := EXIT_SUCCESS,
    sock := { sent := wire_frame (MSG_CONFIG_RESPONSE, wire_host host_a.view), pending := [],
              script := [] },
    host_db := leaf_db_two,
    programmed := some
      [add_tx_dnat_rules (ascii "192.168.1.1") (ascii "10.1.0.1") (ascii "eth1"),
       add_rx_snat_rules (ascii "192.168.1.1") (ascii "10.1.0.1") (ascii "eth1"),
       add_tx_dnat_rules (ascii "192.168.1.2") (ascii "10.1.0.2") (ascii "eth1"),
       add_rx_snat_rules (ascii "192.168.1.2") (ascii "10.1.0.2") (ascii "eth1")] }

/-- The macro `IS_POWER_OF_2(number)` on a `size_t`. -/
def IS_POWER_OF_2 (number : Nat) : Bool :=
  decide (number > 0) && decide (number &&& (number - 1) = 0)

/-- The function `power_of_2(number)` on a `size_t`. -/
def power_of_2 (number : Nat) : Nat :=
  if number = 0 then 1
  else
    let number := number - 1
    let number := number ||| (number >>> 1)
    let number := number ||| (number >>> 2)
    let number := number ||| (number >>> 4)
    let number := number ||| (number >>> 8)
    let number := number ||| (number >>> 16)
    let number := number ||| (number >>> 32)
    (number + 1) % 2 ^ 64

/-- The variable `bucket_interval_ns` of `load_config` after the adjustment
`if (!IS_POWER_OF_2(bucket_interval_ns)) bucket_interval_ns = power_of_2(bucket_interval_ns)`,
from the value read from the configuration. -/
def load_config_bucket_interval_ns (bucket_interval_ns : Nat) : Nat :=
  if !IS_POWER_OF_2 bucket_interval_ns then power_of_2 bucket_interval_ns
  else bucket_interval_ns

/-- Conversion of an `int` to `uint64_t`. -/
def uint64_of_int (x : Int) : Nat := (x % 2 ^ 64).toNat

/-- The class `time_histogram_s`; the map `buckets` is the list of its entries
in iteration order. -/
structure time_histogram_s where
  /-- Field `uint32_t bucket_sz_log2` -/
  bucket_sz_log2 : Nat
  /-- Field `int max_buckets` -/
  max_buckets : Int
  /-- Field `std::unordered_map<uint64_t, size_t> buckets` -/
  buckets : List (Nat × Nat)
  deriving DecidableEq, Repr

/-- The constructor `time_histogram_s(max_buckets, bucket_sz_log2)`. -/
def time_histogram_s.new (max_buckets : Int) (bucket_sz_log2 : Nat) : time_histogram_s :=
  { bucket_sz_log2 := bucket_sz_log2, max_buckets := max_buckets, buckets := [] }

/-- The statement `m[k]++` on a map of `size_t` counters: a missing key is
entered with 0 first. -/
def map_increment (m : List (Nat × Nat)) (k : Nat) : List (Nat × Nat) :=
  map_assign m k (((map_find m k).getD 0 + 1) % 2 ^ 64)

/-- The member function `time_histogram_s::log_time(time)`: the histogram after
the call. -/
def time_histogram_s.log_time (h : time_histogram_s) (time : Nat) : Run time_histogram_s :=
  if h.bucket_sz_log2 ≥ 64 then .undefined .shift_out_of_range
  else
    let bucket_index := time >>> h.bucket_sz_log2
    if bucket_index < uint64_of_int h.max_buckets then
      .ok { h with buckets := map_increment h.buckets bucket_index }
    else if h.max_buckets - 1 < -(2 ^ 31) then .undefined .signed_overflow
    else .ok { h with buckets := map_increment h.buckets (uint64_of_int (h.max_buckets - 1)) }

/-- The calls `log_time(t)` for the times of a list, in order. -/
def time_histogram_s.log_times (h : time_histogram_s) : List Nat → Run time_histogram_s
  | [] => .ok h
  | t :: ts =>
    match h.log_time t with
    | .ok h' => h'.log_times ts
    | .undefined e => .undefined e

/-- The count `buckets[k]` that a reader of the histogram finds, 0 for a key
that is not there. -/
def time_histogram_s.count (h : time_histogram_s) (k : Nat) : Nat :=
  (map_find h.buckets k).getD 0

/-- The record `qp_stats_s`; every field is a `uint64_t`. -/
structure qp_stats_s where
  num_wqe_sent : Nat
  num_wqe_rcvd : Nat
  num_wqe_completed : Nat
  num_wqe_errors : Nat
  num_slot_miss : Nat
  num_cts_sent : Nat
  num_cts_sent_unsignalled : Nat
  num_cts_sent_signalled : Nat
  num_recv_wqe : Nat
  num_write_wqe : Nat
  num_write_imm_wqe : Nat
  wqe_completion_time_min : Nat
  wqe_completion_time_max : Nat
  deriving DecidableEq, Repr

/-- The record `qp_info_s`; field `data_qp` is `status.data_qp` and the map
`wqe_id_tracker` is the list of its entries. -/
structure qp_info_s where
  stats : qp_stats_s
  data_qp : Bool
  completion_metrics : time_histogram_s
  /-- Field `std::unordered_map<uint64_t, uint64_t> wqe_id_tracker` -/
  wqe_id_tracker : List (Nat × Nat)
  deriving DecidableEq, Repr

/-- The value `stats{}`: every counter is 0. -/
def qp_stats_zero : qp_stats_s :=
  { num_wqe_sent := 0, num_wqe_rcvd := 0, num_wqe_completed := 0, num_wqe_errors := 0,
    num_slot_miss := 0, num_cts_sent := 0, num_cts_sent_unsignalled := 0,
    num_cts_sent_signalled := 0, num_recv_wqe := 0, num_write_wqe := 0, num_write_imm_wqe := 0,
    wqe_completion_time_min := 0, wqe_completion_time_max := 0 }

/-- The constructor `qp_info_s(max_buckets, bucket_sz_log2)`; `status` is what
the member holds before it is assigned. -/
def qp_info_s.new (max_buckets : Int) (bucket_sz_log2 : Nat) (status : Bool) : qp_info_s :=
  { stats := qp_stats_zero, data_qp := status,
    completion_metrics := time_histogram_s.new max_buckets bucket_sz_log2, wqe_id_tracker := [] }

/-- The members of `anp_state` that the queue-pair metrics use; a null
`shared_ptr` is `none`. -/
structure anp_state where
  /-- Field `int max_buckets` -/
  max_buckets : Int
  /-- Field `uint32_t bucket_sz_log2` -/
  bucket_sz_log2 : Nat
  /-- Field `queue_pair_map_t queue_state` -/
  queue_state : List (Int × Option qp_info_s)
  deriving DecidableEq, Repr

/-- The member function `add_queue_pair(device_id, channel_id, qp_id, data_qp)`,
for `queue_state` (the object entered in `devices` is a second one that the
metrics do not touch). -/
def anp_state.add_queue_pair (st : anp_state) (_device_id _channel_id qp_id : Int)
    (data_qp : Bool) : anp_state :=
  { st with queue_state :=
      (map_assign st.queue_state qp_id
        (some (qp_info_s.new st.max_buckets st.bucket_sz_log2 data_qp))) }

/-- The call `m.erase(k)` of a map. -/
def map_erase {κ ν : Type} [DecidableEq κ] (m : List (κ × ν)) (k : κ) : List (κ × ν) :=
  m.filter (fun p => decide (p.1 ≠ k))

/-- The statements of `update_wqe_send_metrics` on `*qp_info`. -/
def qp_info_s.wqe_send (qp_info : qp_info_s) (wqe_id start_time : Nat) : qp_info_s :=
  { qp_info with
    stats := { qp_info.stats with num_wqe_sent := (qp_info.stats.num_wqe_sent + 1) % 2 ^ 64 },
    wqe_id_tracker := map_assign qp_info.wqe_id_tracker wqe_id start_time }

/-- The statements of `update_wqe_rcvd_metrics` on `*qp_info`. -/
def qp_info_s.wqe_rcvd (qp_info : qp_info_s) (wqe_id end_time : Nat) : Run qp_info_s :=
  let stats := { qp_info.stats with num_wqe_rcvd := (qp_info.stats.num_wqe_rcvd + 1) % 2 ^ 64 }
  match map_find qp_info.wqe_id_tracker wqe_id with
  | some start_time =>
    let stats := { stats with num_wqe_completed := (stats.num_wqe_completed + 1) % 2 ^ 64 }
    let completion_time := (end_time + 2 ^ 64 - start_time) % 2 ^ 64
    let stats := { stats with
      wqe_completion_time_max :=
        if stats.wqe_completion_time_max < completion_time then completion_time
        else stats.wqe_completion_time_max }
    let stats := { stats with
      wqe_completion_time_min :=
        if stats.wqe_completion_time_min > completion_time ∨ stats.wqe_completion_time_min = 0
        then completion_time
        else stats.wqe_completion_time_min }
    match qp_info.completion_metrics.log_time completion_time with
    | .ok completion_metrics =>
      .ok { qp_info with stats := stats, completion_metrics := completion_metrics,
                         wqe_id_tracker := map_erase qp_info.wqe_id_tracker wqe_id }
    | .undefined e => .undefined e
  | none => .ok { qp_info with stats := stats }

/-- The member function `update_wqe_send_metrics(qp_id, wqe_id, start_time)`.
The lookup `queue_state[qp_id]` enters a null pointer for a new `qp_id`. -/
def anp_state.update_wqe_send_metrics (st : anp_state) (qp_id : Int) (wqe_id start_time : Nat) :
    anp_state :=
  match map_find st.queue_state qp_id with
  | none => { st with queue_state := map_assign st.queue_state qp_id none }
  | some none => st
  | some (some qp_info) =>
    { st with queue_state :=
        (map_assign st.queue_state qp_id (some (qp_info.wqe_send wqe_id start_time))) }

/-- The member function `update_wqe_rcvd_metrics(qp_id, wqe_id, end_time)`. -/
def anp_state.update_wqe_rcvd_metrics (st : anp_state) (qp_id : Int) (wqe_id end_time : Nat) :
    Run anp_state :=
  match map_find st.queue_state qp_id with
  | none => .ok { st with queue_state := map_assign st.queue_state qp_id none }
  | some none => .ok st
  | some (some qp_info) =>
    match qp_info.wqe_rcvd wqe_id end_time with
    | .ok qp_info => .ok { st with queue_state := map_assign st.queue_state qp_id (some qp_info) }
    | .undefined e => .undefined e

/-- One call on a queue pair: `update_wqe_send_metrics(qp_id, wqe_id, start_time)`
or `update_wqe_rcvd_metrics(qp_id, wqe_id, end_time)`. -/
inductive wqe_call where
  | send (wqe_id start_time : Nat)
  | rcvd (wqe_id end_time : Nat)
  deriving DecidableEq, Repr

/-- The calls of a list on the queue pair `qp_id`, in order. -/
def anp_state.update_wqe_metrics (st : anp_state) (qp_id : Int) : List wqe_call → Run anp_state
  | [] => .ok st
  | .send wqe_id start_time :: calls =>
    (st.update_wqe_send_metrics qp_id wqe_id start_time).update_wqe_metrics qp_id calls
  | .rcvd wqe_id end_time :: calls =>
    match st.update_wqe_rcvd_metrics qp_id wqe_id end_time with
    | .ok st' => st'.update_wqe_metrics qp_id calls
    | .undefined e => .undefined e

/-! ## Completed WQEs, as the specification words them -/

/-- The start time on record for `wqe_id` after the calls `earlier` (latest
first): that of the latest send of `wqe_id`, unless a receive of `wqe_id` came
after it. -/
def recorded_start (wqe_id : Nat) : List wqe_call → Option Nat
  | [] => none
  | .send w start_time :: earlier =>
    if w = wqe_id then some start_time else recorded_start wqe_id earlier
  | .rcvd w _ :: earlier => if w = wqe_id then none else recorded_start wqe_id earlier

/-- The difference `end_time - start_time` of two `uint64_t`. -/
def completion_time (end_time start_time : Nat) : Nat := (end_time + 2 ^ 64 - start_time) % 2 ^ 64

/-- The completion times of the calls of a list, in order, given the calls made
before (latest first): a receive of a WQE id with a start time on record
completes it, and its completion time is the end time minus that start time. -/
def completion_times : List wqe_call → List wqe_call → List Nat
  | _, [] => []
  | earlier, .send w s :: calls => completion_times (.send w s :: earlier) calls
  | earlier, .rcvd w e :: calls =>
    match recorded_start w earlier with
    | some s => completion_time e s :: completion_times (.rcvd w e :: earlier) calls
    | none => completion_times (.rcvd w e :: earlier) calls

/-- The receive calls of a list. -/
def rcvd_calls (calls : List wqe_call) : List wqe_call :=
  calls.filter (fun c => match c with | .rcvd _ _ => true | .send _ _ => false)

/-- The completion times since the last one that was 0, latest first. -/
def since_zero (times : List Nat) : List Nat := times.reverse.takeWhile (fun c => c ≠ 0)

/-- The bucket of a time, as the specification words it: the quotient of the
time by the bucket size, capped at the last bucket. -/
def bucket_of (max_buckets : Int) (bucket_sz_log2 : Nat) (time : Nat) : Nat :=
  min (time / 2 ^ bucket_sz_log2) (max_buckets.toNat - 1)

/-- The state that `load_config` leaves without a configuration file: 5 buckets
of 1024 ns, and no queue pair yet. -/
def state_default : anp_state := { max_buckets := 5, bucket_sz_log2 := 10, queue_state := [] }

/-- Two WQEs on a queue pair: the first completes at its start time, the second
after 7 ns. -/
def calls_zero : List wqe_call := [.send 1 5, .rcvd 1 5, .send 2 0, .rcvd 2 7]

/-- Two WQEs that complete after 300 ns and 200 ns, and a receive of a WQE id
that was not sent. -/
def calls_two : List wqe_call := [.send 1 100, .send 2 150, .rcvd 1 400, .rcvd 2 350, .rcvd 9 500]

set_option maxRecDepth 100000

/-! # Theorems -/

/-! ## Executions, integers and reads -/

@[simp]
theorem Run.pure_eq {α : Type} (a : α) : (pure a : Run α) = Run.ok a := rfl
@[simp]
theorem Run.ok_bind {α β : Type} (a : α) (f : α → Run β) : (Run.ok a >>= f) = f a := rfl
@[simp]
theorem Run.undefined_bind {α β : Type} (e : Fault) (f : α → Run β) :
    (Run.undefined e >>= f) = Run.undefined e := rfl

theorem htonl_eq_BE32 (x : Nat) : htonl x = BE32 x := rfl

@[simp]
theorem BE32_length (n : Nat) : (BE32 n).length = 4 := rfl

theorem ntohl_BE32 (n : Nat) : ntohl (BE32 n) = n % 2 ^ 32 := by
  simp [ntohl, BE32, byte]
  omega

theorem at_cursor_advance {buffer : List Byte} {off : Nat} {x rest : List Byte}
    (h : at_cursor buffer off (x ++ rest)) :
    off + x.length ≤ buffer.length ∧ (buffer.drop off).take x.length = x ∧
      at_cursor buffer (off + x.length) rest := by
  obtain ⟨hle, hd⟩ := h
  have hlen : (buffer.drop off).length = x.length + rest.length := by
    rw [hd, List.length_append]
  rw [List.length_drop] at hlen
  refine ⟨by omega, ?_, by omega, ?_⟩
  · rw [hd, List.take_left]
  · rw [← List.drop_drop, hd]
    simp [Nat.add_comm]

theorem read_bytes_at {buffer : List Byte} {off : Nat} {x rest : List Byte}
    (h : at_cursor buffer off (x ++ rest)) :
    read_bytes buffer off x.length = .ok x := by
  obtain ⟨h1, h2, _⟩ := at_cursor_advance h
  simp [read_bytes, h1, h2]

theorem read_u32_at {buffer : List Byte} {off n : Nat} {rest : List Byte}
    (h : at_cursor buffer off (BE32 n ++ rest)) :
    read_u32 buffer off = .ok (n % 2 ^ 32) := by
  obtain ⟨h1, h2, _⟩ := at_cursor_advance h
  simp only [BE32_length] at h1 h2
  simp [read_u32, h1, h2, ntohl_BE32]

/-! ## C strings -/

theorem mem_bytes_length (a : Nat → Byte) (n : Nat) : (mem_bytes a n).length = n := by
  simp [mem_bytes]

theorem mem_bytes_congr {a b : Nat → Byte} {n : Nat} (h : ∀ i, i < n → a i = b i) :
    mem_bytes a n = mem_bytes b n := by
  unfold mem_bytes
  apply List.map_congr_left
  intro i hi
  exact h i (List.mem_range.1 hi)

theorem mem_bytes_getD (s : List Byte) : mem_bytes (fun i => s.getD i 0) s.length = s := by
  apply List.ext_getElem
  · simp [mem_bytes]
  · intro i h1 h2
    simp [mem_bytes, List.getD_eq_getElem?_getD, List.getElem?_eq_getElem h2]

/-- The bytes before the first NUL, when the first NUL is at index `k`. -/
theorem takeWhile_first_nul (f : Nat → Byte) (k n : Nat) (hk : k < n)
    (hpre : ∀ i, i < k → f i ≠ 0) (hz : f k = 0) :
    ((List.range n).map f).takeWhile (fun b => b ≠ 0) = (List.range k).map f := by
  obtain ⟨m, rfl⟩ : ∃ m, n = k + (m + 1) := ⟨n - k - 1, by omega⟩
  rw [List.range_add, List.map_append, List.takeWhile_append_of_pos]
  · rw [List.range_succ_eq_map]
    simp [hz]
  · intro a ha
    obtain ⟨i, hi, rfl⟩ := List.mem_map.1 ha
    simpa using hpre i (List.mem_range.1 hi)

theorem c_str_take (s : Nat → Byte) : mem_bytes s (c_str s).length = c_str s := by
  have hp : c_str s <+: mem_bytes s MAX_STR_LEN := List.takeWhile_prefix _
  have hlen : (c_str s).length ≤ MAX_STR_LEN := by
    simpa [mem_bytes_length] using hp.length_le
  have h := List.prefix_iff_eq_take.1 hp
  rw [h]
  conv_lhs => rw [← h]
  unfold mem_bytes
  rw [← List.map_take, List.take_range, Nat.min_eq_left hlen]

theorem c_str_nul_free (s : Nat → Byte) : ∀ b ∈ c_str s, b ≠ 0 := by
  intro b hb
  simpa using List.mem_takeWhile_imp hb

theorem c_str_length_lt {s : Nat → Byte} (h : terminated s) : (c_str s).length < MAX_STR_LEN := by
  have hp : c_str s <+: mem_bytes s MAX_STR_LEN := List.takeWhile_prefix _
  have hle : (c_str s).length ≤ MAX_STR_LEN := by
    simpa [mem_bytes_length] using hp.length_le
  rcases Nat.lt_or_ge (c_str s).length MAX_STR_LEN with h1 | h1
  · exact h1
  · exfalso
    have heq : c_str s = mem_bytes s MAX_STR_LEN :=
      hp.eq_of_length (by rw [mem_bytes_length]; omega)
    have := c_str_nul_free s 0 (heq ▸ h)
    exact this rfl

theorem strlen_eq {s : Nat → Byte} (h : terminated s) : strlen s = .ok (c_str s).length := by
  unfold strlen
  exact if_pos h

/-- The array after `memcpy` of `s` and the store of the terminator. -/
theorem c_str_written (dst : Nat → Byte) (s : List Byte) (hlen : s.length < MAX_STR_LEN)
    (hs : ∀ b ∈ s, b ≠ 0) :
    c_str (Function.update (fun i => if i < s.length then s.getD i 0 else dst i) s.length 0) = s
      ∧ terminated
        (Function.update (fun i => if i < s.length then s.getD i 0 else dst i) s.length 0) := by
  constructor
  · unfold c_str mem_bytes
    rw [takeWhile_first_nul _ s.length MAX_STR_LEN hlen]
    · conv_rhs => rw [← mem_bytes_getD s]
      apply mem_bytes_congr
      intro i hi
      simp [Function.update, Nat.ne_of_lt hi, hi]
    · intro i hi
      simp only [Function.update, Nat.ne_of_lt hi, hi]
      simp
      apply hs
      rw [List.getElem?_eq_getElem hi]
      simp
    · simp
  · unfold terminated mem_bytes
    exact List.mem_map.2 ⟨s.length, List.mem_range.2 hlen, by simp⟩

/-! ## `serialize_host` writes the wire format -/

theorem for_range_from_append (body : Nat → List Byte → Run (List Byte)) (f : Nat → List Byte) :
    ∀ (k j : Nat) (buf : List Byte),
      (∀ i, j ≤ i → i < j + k → ∀ b, body i b = .ok (b ++ f i)) →
      for_range_from body k j buf = .ok (buf ++ ((List.range' j k).map f).flatten) := by
  intro k
  induction k with
  | zero => intro j buf _; simp [for_range_from]
  | succ k ih =>
    intro j buf h
    rw [for_range_from, h j (Nat.le_refl j) (by omega)]
    simp only
    rw [ih (j + 1) _ (fun i h1 h2 b => h i (by omega) (by omega) b)]
    simp [List.range'_succ]

theorem for_range_append (body : Nat → List Byte → Run (List Byte)) (f : Nat → List Byte)
    (n : Nat) (buf : List Byte) (h : ∀ i, i < n → ∀ b, body i b = .ok (b ++ f i)) :
    for_range n body buf = .ok (buf ++ ((List.range n).map f).flatten) := by
  unfold for_range
  rw [for_range_from_append body f n 0 buf (fun i _ h2 b => h i (by omega) b),
    List.range_eq_range']

theorem serialize_planar_eq (buffer : List Byte) (p : planar_interface_t) (hp : p.valid) :
    serialize_planar buffer p = .ok (buffer ++ wire_planar p.view) := by
  unfold serialize_planar
  rw [strlen_eq hp.1]
  simp only [Run.ok_bind]
  rw [strlen_eq hp.2]
  simp only [Run.ok_bind, Run.pure_eq, c_str_take, htonl_eq_BE32]
  simp [wire_planar, planar_interface_t.view]

theorem serialize_device_eq (buffer : List Byte) (d : device_t) (hd : d.valid) :
    serialize_device buffer d = .ok (buffer ++ wire_device d.view) := by
  unfold serialize_device
  rw [strlen_eq hd.1]
  simp only [Run.ok_bind]
  rw [for_range_append _ (fun j => wire_planar (d.planar_intfs j).view)]
  · simp [wire_device, device_t.view, c_str_take, htonl_eq_BE32, Function.comp_def]
  · intro j hj b
    have hlt : j < MAX_INTERFACES := by
      have h1 := hd.2.1
      have : (j : Int) < d.num_interfaces := by omega
      have : (j : Int) < (MAX_INTERFACES : Int) := by omega
      exact_mod_cast this
    simp only [index, if_pos hlt, Run.ok_bind]
    exact serialize_planar_eq b _ (hd.2.2 j hj)

theorem serialize_host_eq (buffer : List Byte) (h : host_t) (hh : h.valid) :
    serialize_host buffer h = .ok (buffer ++ wire_host h.view) := by
  unfold serialize_host
  rw [for_range_append _ (fun i => wire_device (h.devices i).view)]
  · simp [wire_host, host_t.view, htonl_eq_BE32, Function.comp_def]
  · intro i hi b
    have hlt : i < MAX_DEVICES := by
      have h1 := hh.1
      have : (i : Int) < h.num_devices := by omega
      have : (i : Int) < (MAX_DEVICES : Int) := by omega
      exact_mod_cast this
    simp only [index, if_pos hlt, Run.ok_bind]
    exact serialize_device_eq b _ (hh.2 i hi)

/-! ## `deserialize_host` on a record of the wire format -/

theorem memcpy_exact (n : Nat) (dst : Nat → Byte) (src : List Byte) (h : src.length = n) :
    ∃ dst', memcpy n dst src = .ok dst' ∧ mem_bytes dst' n = src := by
  refine ⟨fun i => if i < src.length then src.getD i 0 else dst i, ?_, ?_⟩
  · simp [memcpy, h]
  · subst h
    conv_rhs => rw [← mem_bytes_getD src]
    apply mem_bytes_congr
    intro i hi
    simp [hi]

theorem read_c_string_spec {buffer : List Byte} {off : Nat} {s rest : List Byte}
    (dst : Nat → Byte) (hc : at_cursor buffer off (BE32 s.length ++ (s ++ rest)))
    (hfit : str_fits s) (hnul : nul_free s) :
    ∃ dst', read_c_string buffer dst off = .ok (dst', off + 4 + s.length) ∧
      c_str dst' = s ∧ terminated dst' ∧ at_cursor buffer (off + 4 + s.length) rest := by
  have hlt : s.length < 2 ^ 32 := by
    unfold str_fits MAX_STR_LEN at hfit; omega
  have h1 := read_u32_at hc
  rw [Nat.mod_eq_of_lt hlt] at h1
  have hc1 := (at_cursor_advance hc).2.2
  rw [BE32_length] at hc1
  have h2 := read_bytes_at hc1
  have hc2 := (at_cursor_advance hc1).2.2
  obtain ⟨hw1, hw2⟩ := c_str_written dst s hfit hnul
  have hfit' : s.length < MAX_STR_LEN := hfit
  refine ⟨_, ?_, hw1, hw2, hc2⟩
  unfold read_c_string
  rw [h1]
  simp only [Run.ok_bind]
  rw [h2]
  simp only [Run.ok_bind, memcpy, store, if_pos (Nat.le_of_lt hfit'), if_pos hfit', Run.pure_eq]

theorem deserialize_planar_spec {buffer : List Byte} {off : Nat} {pv : planar_view}
    {rest : List Byte} (p : planar_interface_t)
    (hc : at_cursor buffer off (wire_planar pv ++ rest)) (hf : pv.fits) (hn : pv.nul_free) :
    ∃ p', deserialize_planar buffer p off = .ok (p', off + (wire_planar pv).length) ∧
      p'.view = pv ∧ p'.valid ∧ at_cursor buffer (off + (wire_planar pv).length) rest := by
  obtain ⟨hid, hname, h4, h16⟩ := hf
  have hc0 : at_cursor buffer off (BE32 pv.id.length ++ (pv.id ++ (BE32 pv.name.length ++
      (pv.name ++ (pv.ipv4_addr ++ (pv.ipv6_addr ++ rest)))))) := by
    simpa [wire_planar, List.append_assoc] using hc
  obtain ⟨id', e1, v1, t1, hc1⟩ := read_c_string_spec p.id hc0 hid hn.1
  obtain ⟨name', e2, v2, t2, hc2⟩ := read_c_string_spec p.name hc1 hname hn.2
  have e3 := read_bytes_at hc2
  have hc3 := (at_cursor_advance hc2).2.2
  rw [h4] at e3 hc3
  have e4 := read_bytes_at hc3
  have hc4 := (at_cursor_advance hc3).2.2
  rw [h16] at e4 hc4
  obtain ⟨ip4, m4, b4⟩ := memcpy_exact 4 p.ipv4_addr pv.ipv4_addr h4
  obtain ⟨ip6, m6, b6⟩ := memcpy_exact 16 p.ipv6_addr pv.ipv6_addr h16
  have hlen : (wire_planar pv).length = 4 + pv.id.length + (4 + pv.name.length) + 4 + 16 := by
    simp [wire_planar, h4, h16]
    omega
  refine ⟨{ id := id', name := name', ipv4_addr := ip4, ipv6_addr := ip6 }, ?_, ?_, ⟨t1, t2⟩, ?_⟩
  · unfold deserialize_planar
    rw [e1]
    simp only [Run.ok_bind]
    rw [e2]
    simp only [Run.ok_bind]
    rw [e3]
    simp only [Run.ok_bind]
    rw [m4]
    simp only [Run.ok_bind]
    rw [e4]
    simp only [Run.ok_bind]
    rw [m6]
    simp only [Run.ok_bind, Run.pure_eq, hlen]
    congr 2
    omega
  · simp [planar_interface_t.view, v1, v2, b4, b6]
  · rw [hlen]
    have : off + (4 + pv.id.length + (4 + pv.name.length) + 4 + 16)
        = off + 4 + pv.id.length + 4 + pv.name.length + 4 + 16 := by omega
    rw [this]
    exact hc4

theorem deserialize_planar_loop {buffer : List Byte} (rest : List Byte) :
    ∀ (ps : List planar_view) (j : Nat) (dev : device_t) (off : Nat),
      (∀ p ∈ ps, p.fits) → (∀ p ∈ ps, p.nul_free) → j + ps.length ≤ MAX_INTERFACES →
      at_cursor buffer off ((ps.map wire_planar).flatten ++ rest) →
      ∃ dev', for_range_from (deserialize_planar_at buffer) ps.length j (dev, off)
          = .ok (dev', off + (ps.map wire_planar).flatten.length) ∧
        at_cursor buffer (off + (ps.map wire_planar).flatten.length) rest ∧
        dev'.virtual_intf = dev.virtual_intf ∧ dev'.virtual_ip = dev.virtual_ip ∧
        dev'.num_interfaces = dev.num_interfaces ∧
        (∀ i, i < j → dev'.planar_intfs i = dev.planar_intfs i) ∧
        (∀ i (hi : i < ps.length), (dev'.planar_intfs (j + i)).view = ps[i]) ∧
        (∀ i, i < ps.length → (dev'.planar_intfs (j + i)).valid) := by
  intro ps
  induction ps with
  | nil =>
    intro j dev off _ _ _ hc
    refine ⟨dev, ?_, ?_, rfl, rfl, rfl, fun _ _ => rfl, ?_, ?_⟩
    · simp [for_range_from]
    · simpa using hc
    · intro i hi; simp at hi
    · intro i hi; simp at hi
  | cons p ps ih =>
    intro j dev off hf hn hj hc
    have hj' : j < MAX_INTERFACES := by simp at hj; omega
    have hc0 : at_cursor buffer off (wire_planar p ++ ((ps.map wire_planar).flatten ++ rest)) := by
      simpa [List.append_assoc] using hc
    obtain ⟨p', e1, v1, val1, hc1⟩ :=
      deserialize_planar_spec (dev.planar_intfs j) hc0 (hf p (List.mem_cons_self _ _))
        (hn p (List.mem_cons_self _ _))
    obtain ⟨dev', e2, hc2, k1, k2, k3, k4, k5, k6⟩ :=
      ih (j + 1) { dev with planar_intfs := Function.update dev.planar_intfs j p' }
        (off + (wire_planar p).length)
        (fun q hq => hf q (List.mem_cons_of_mem _ hq))
        (fun q hq => hn q (List.mem_cons_of_mem _ hq))
        (by simp at hj; omega) hc1
    have hlen : off + (wire_planar p).length + (ps.map wire_planar).flatten.length
        = off + ((p :: ps).map wire_planar).flatten.length := by
      simp; omega
    have hj0 : dev'.planar_intfs j = p' := by
      rw [k4 j (Nat.lt_succ_self j)]
      simp
    refine ⟨dev', ?_, ?_, k1, k2, k3, ?_, ?_, ?_⟩
    · rw [List.length_cons, for_range_from]
      simp only [deserialize_planar_at, index, if_pos hj', Run.ok_bind]
      rw [e1]
      simp only [Run.ok_bind, Run.pure_eq]
      rw [e2, hlen]
    · rw [← hlen]; exact hc2
    · intro i hi
      rw [k4 i (by omega)]
      simp [Function.update, Nat.ne_of_lt hi]
    · intro i hi
      cases i with
      | zero => simpa [hj0] using v1
      | succ i =>
        have := k5 i (by simpa using hi)
        simpa [Nat.add_assoc, Nat.add_comm 1 i] using this
    · intro i hi
      cases i with
      | zero => simpa [hj0] using val1
      | succ i =>
        have := k6 i (by simpa using hi)
        simpa [Nat.add_assoc, Nat.add_comm 1 i] using this

theorem u32_of_int_natCast (n : Nat) (h : n < 2 ^ 32) : u32_of_int (n : Int) = n := by
  unfold u32_of_int
  omega

theorem int_of_u32_small (n : Nat) (h : n < 2 ^ 31) : int_of_u32 n = (n : Int) := by
  unfold int_of_u32
  rw [if_pos h]

theorem range_map_eq_of_getElem {α : Type} (f : Nat → α) (l : List α)
    (h : ∀ i (hi : i < l.length), f i = l[i]) : (List.range l.length).map f = l := by
  apply List.ext_getElem
  · simp
  · intro i h1 h2
    simp [h i h2]

theorem deserialize_device_spec {buffer : List Byte} {off : Nat} {dv : device_view}
    {rest : List Byte} (d : device_t)
    (hc : at_cursor buffer off (wire_device dv ++ rest)) (hf : dv.fits) (hn : dv.nul_free) :
    ∃ d', deserialize_device buffer d off = .ok (d', off + (wire_device dv).length) ∧
      d'.view = dv ∧ d'.valid ∧ 0 ≤ d'.num_interfaces ∧
      at_cursor buffer (off + (wire_device dv).length) rest := by
  obtain ⟨hvi, h4, hnum, hcap, hps⟩ := hf
  have hcap' : dv.planar_intfs.length ≤ 64 := hcap
  have hc0 : at_cursor buffer off (BE32 dv.virtual_intf.length ++ (dv.virtual_intf ++
      (dv.virtual_ip ++ (BE32 (u32_of_int dv.num_interfaces) ++
        ((dv.planar_intfs.map wire_planar).flatten ++ rest))))) := by
    simpa [wire_device, List.append_assoc] using hc
  obtain ⟨vi', e1, v1, t1, hc1⟩ := read_c_string_spec d.virtual_intf hc0 hvi hn.1
  have e2 := read_bytes_at hc1
  have hc2 := (at_cursor_advance hc1).2.2
  rw [h4] at e2 hc2
  obtain ⟨ip4, m4, b4⟩ := memcpy_exact 4 d.virtual_ip dv.virtual_ip h4
  have e3 := read_u32_at hc2
  have hc3 := (at_cursor_advance hc2).2.2
  rw [BE32_length] at hc3
  have hu : u32_of_int dv.num_interfaces = dv.planar_intfs.length := by
    rw [hnum]; exact u32_of_int_natCast _ (by omega)
  rw [hu, Nat.mod_eq_of_lt (by omega)] at e3
  obtain ⟨d', e4, hc4, k1, k2, k3, _, k5, k6⟩ :=
    deserialize_planar_loop rest dv.planar_intfs 0
      { d with virtual_intf := vi', virtual_ip := ip4,
               num_interfaces := int_of_u32 dv.planar_intfs.length }
      (off + 4 + dv.virtual_intf.length + 4 + 4) hps hn.2 (by simpa using hcap) hc3
  have hlen : (wire_device dv).length
      = 4 + dv.virtual_intf.length + 4 + 4 + (dv.planar_intfs.map wire_planar).flatten.length := by
    simp only [wire_device, List.length_append, BE32_length, h4]
  have hoff : off + 4 + dv.virtual_intf.length + 4 + 4
        + (dv.planar_intfs.map wire_planar).flatten.length
      = off + (wire_device dv).length := by
    rw [hlen]; omega
  have hni : d'.num_interfaces = (dv.planar_intfs.length : Int) := by
    rw [k3]; exact int_of_u32_small _ (by omega)
  refine ⟨d', ?_, ?_, ⟨?_, ?_, ?_⟩, ?_, ?_⟩
  · unfold deserialize_device
    rw [e1]
    simp only [Run.ok_bind]
    rw [e2]
    simp only [Run.ok_bind]
    rw [m4]
    simp only [Run.ok_bind]
    rw [e3]
    simp only [Run.ok_bind, for_range]
    rw [e4, hoff]
  · have hv : (List.range d'.num_interfaces.toNat).map (fun k => (d'.planar_intfs k).view)
        = dv.planar_intfs := by
      rw [hni, Int.toNat_natCast]
      exact range_map_eq_of_getElem _ _ (fun i hi => by simpa using k5 i hi)
    have hvi2 : c_str d'.virtual_intf = dv.virtual_intf := by rw [k1]; exact v1
    have hip2 : mem_bytes d'.virtual_ip 4 = dv.virtual_ip := by rw [k2]; exact b4
    unfold device_t.view
    rw [hv, hvi2, hip2, hni, ← hnum]
  · rw [k1]; exact t1
  · rw [hni]; exact_mod_cast hcap
  · intro k hk
    rw [hni, Int.toNat_natCast] at hk
    simpa using k6 k hk
  · rw [hni]; exact Int.natCast_nonneg _
  · rw [← hoff]; exact hc4

theorem deserialize_device_loop {buffer : List Byte} (rest : List Byte) :
    ∀ (ds : List device_view) (j : Nat) (host : host_t) (off : Nat),
      (∀ d ∈ ds, d.fits) → (∀ d ∈ ds, d.nul_free) → j + ds.length ≤ MAX_DEVICES →
      at_cursor buffer off ((ds.map wire_device).flatten ++ rest) →
      ∃ host', for_range_from (deserialize_device_at buffer) ds.length j (host, off)
          = .ok (host', off + (ds.map wire_device).flatten.length) ∧
        at_cursor buffer (off + (ds.map wire_device).flatten.length) rest ∧
        host'.host_name = host.host_name ∧ host'.host_ip = host.host_ip ∧
        host'.num_devices = host.num_devices ∧
        (∀ i, i < j → host'.devices i = host.devices i) ∧
        (∀ i (hi : i < ds.length), (host'.devices (j + i)).view = ds[i]) ∧
        (∀ i, i < ds.length →
          (host'.devices (j + i)).valid ∧ 0 ≤ (host'.devices (j + i)).num_interfaces) := by
  intro ds
  induction ds with
  | nil =>
    intro j host off _ _ _ hc
    refine ⟨host, ?_, ?_, rfl, rfl, rfl, fun _ _ => rfl, ?_, ?_⟩
    · simp [for_range_from]
    · simpa using hc
    · intro i hi; simp at hi
    · intro i hi; simp at hi
  | cons d ds ih =>
    intro j host off hf hn hj hc
    have hj' : j < MAX_DEVICES := by simp at hj; omega
    have hc0 : at_cursor buffer off (wire_device d ++ ((ds.map wire_device).flatten ++ rest)) := by
      simpa [List.append_assoc] using hc
    obtain ⟨d', e1, v1, val1, nn1, hc1⟩ :=
      deserialize_device_spec (host.devices j) hc0 (hf d (List.mem_cons_self _ _))
        (hn d (List.mem_cons_self _ _))
    obtain ⟨host', e2, hc2, k1, k2, k3, k4, k5, k6⟩ :=
      ih (j + 1) { host with devices := Function.update host.devices j d' }
        (off + (wire_device d).length)
        (fun q hq => hf q (List.mem_cons_of_mem _ hq))
        (fun q hq => hn q (List.mem_cons_of_mem _ hq))
        (by simp at hj; omega) hc1
    have hlen : off + (wire_device d).length + (ds.map wire_device).flatten.length
        = off + ((d :: ds).map wire_device).flatten.length := by
      simp; omega
    have hj0 : host'.devices j = d' := by
      rw [k4 j (Nat.lt_succ_self j)]
      simp
    refine ⟨host', ?_, ?_, k1, k2, k3, ?_, ?_, ?_⟩
    · rw [List.length_cons, for_range_from]
      simp only [deserialize_device_at, index, if_pos hj', Run.ok_bind]
      rw [e1]
      simp only [Run.ok_bind, Run.pure_eq]
      rw [e2, hlen]
    · rw [← hlen]; exact hc2
    · intro i hi
      rw [k4 i (by omega)]
      simp [Function.update, Nat.ne_of_lt hi]
    · intro i hi
      cases i with
      | zero => simpa [hj0] using v1
      | succ i =>
        have := k5 i (by simpa using hi)
        simpa [Nat.add_assoc, Nat.add_comm 1 i] using this
    · intro i hi
      cases i with
      | zero => simpa [hj0] using And.intro val1 nn1
      | succ i =>
        have := k6 i (by simpa using hi)
        simpa [Nat.add_assoc, Nat.add_comm 1 i] using this

theorem deserialize_host_spec {buffer : List Byte} {off : Nat} {hv : host_view}
    {rest : List Byte} (h : host_t)
    (hc : at_cursor buffer off (wire_host hv ++ rest)) (hf : hv.fits) (hn : hv.nul_free) :
    ∃ h', deserialize_host buffer h off = .ok (h', off + (wire_host hv).length) ∧
      h'.view = hv ∧ h'.within_caps ∧ at_cursor buffer (off + (wire_host hv).length) rest := by
  obtain ⟨hname, hip, hnum, hcap, hds⟩ := hf
  have hcap' : hv.devices.length ≤ 8 := hcap
  have hc0 : at_cursor buffer off (BE32 hv.host_name.length ++ (hv.host_name ++
      (BE32 hv.host_ip.length ++ (hv.host_ip ++ (BE32 (u32_of_int hv.num_devices) ++
        ((hv.devices.map wire_device).flatten ++ rest)))))) := by
    simpa [wire_host, List.append_assoc] using hc
  have e1 := read_u32_at hc0
  have hc1 := (at_cursor_advance hc0).2.2
  rw [BE32_length] at hc1
  rw [Nat.mod_eq_of_lt hname] at e1
  have e2 := read_bytes_at hc1
  have hc2 := (at_cursor_advance hc1).2.2
  have e3 := read_u32_at hc2
  have hc3 := (at_cursor_advance hc2).2.2
  rw [BE32_length] at hc3
  rw [Nat.mod_eq_of_lt hip] at e3
  have e4 := read_bytes_at hc3
  have hc4 := (at_cursor_advance hc3).2.2
  have e5 := read_u32_at hc4
  have hc5 := (at_cursor_advance hc4).2.2
  rw [BE32_length] at hc5
  have hu : u32_of_int hv.num_devices = hv.devices.length := by
    rw [hnum]; exact u32_of_int_natCast _ (by omega)
  rw [hu, Nat.mod_eq_of_lt (by omega)] at e5
  obtain ⟨h', e6, hc6, _, _, k3, _, k5, k6⟩ :=
    deserialize_device_loop rest hv.devices 0
      { h with num_devices := int_of_u32 hv.devices.length }
      (off + 4 + hv.host_name.length + 4 + hv.host_ip.length + 4) hds hn
      (by simpa using hcap) hc5
  have hlen : (wire_host hv).length = 4 + hv.host_name.length + (4 + hv.host_ip.length) + 4
      + (hv.devices.map wire_device).flatten.length := by
    simp only [wire_host, List.length_append, BE32_length]
  have hoff : off + 4 + hv.host_name.length + 4 + hv.host_ip.length + 4
        + (hv.devices.map wire_device).flatten.length
      = off + (wire_host hv).length := by
    rw [hlen]; omega
  have hni : h'.num_devices = (hv.devices.length : Int) := by
    rw [k3]; exact int_of_u32_small _ (by omega)
  refine ⟨{ h' with host_name := hv.host_name, host_ip := hv.host_ip }, ?_, ?_, ⟨?_, ⟨?_, ?_⟩, ?_⟩, ?_⟩
  · unfold deserialize_host
    rw [e1]
    simp only [Run.ok_bind]
    rw [e2]
    simp only [Run.ok_bind]
    rw [e3]
    simp only [Run.ok_bind]
    rw [e4]
    simp only [Run.ok_bind]
    rw [e5]
    simp only [Run.ok_bind, for_range]
    rw [e6]
    simp only [Run.ok_bind, Run.pure_eq, hoff]
  · have hvd : (List.range h'.num_devices.toNat).map (fun i => (h'.devices i).view)
        = hv.devices := by
      rw [hni, Int.toNat_natCast]
      exact range_map_eq_of_getElem _ _ (fun i hi => by simpa using k5 i hi)
    unfold host_t.view
    show host_view.mk hv.host_name hv.host_ip h'.num_devices
      ((List.range h'.num_devices.toNat).map (fun i => (h'.devices i).view)) = hv
    rw [hvd, hni, ← hnum]
  · show 0 ≤ h'.num_devices
    rw [hni]; exact Int.natCast_nonneg _
  · show h'.num_devices ≤ MAX_DEVICES
    rw [hni]; exact_mod_cast hcap
  · intro i hi
    have hi' : i < hv.devices.length := by
      have : i < h'.num_devices.toNat := hi
      rwa [hni, Int.toNat_natCast] at this
    simpa using (k6 i hi').1
  · intro i hi
    have hi' : i < hv.devices.length := by
      have : i < h'.num_devices.toNat := hi
      rwa [hni, Int.toNat_natCast] at this
    simpa using (k6 i hi').2
  · rw [← hoff]; exact hc6

/-! ## `inet_pton` on dotted text and the election -/

theorem byte_digit_val (dgt : Nat) (hd : dgt < 10) : (byte (48 + dgt)).val = 48 + dgt := by
  simp only [byte]; omega

theorem step_first_digit (done : List Byte) (n dgt : Nat) (hd : dgt < 10) (hn : n < 4) :
    inet_pton4_step { done := done, cur := 0, saw_digit := false, octets := n } (byte (48 + dgt))
      = some { done := done, cur := dgt, saw_digit := true, octets := n + 1 } := by
  unfold inet_pton4_step
  simp only [byte_digit_val dgt hd]
  rw [if_pos (by omega)]
  simp
  omega

theorem step_next_digit (done : List Byte) (n cur dgt : Nat) (hd : dgt < 10) (hc : 0 < cur)
    (hnew : cur * 10 + dgt ≤ 255) :
    inet_pton4_step { done := done, cur := cur, saw_digit := true, octets := n } (byte (48 + dgt))
      = some { done := done, cur := cur * 10 + dgt, saw_digit := true, octets := n } := by
  unfold inet_pton4_step
  simp only [byte_digit_val dgt hd]
  rw [if_pos (by omega)]
  simp
  omega

theorem scan_append (st : pton_state) (l1 l2 : List Byte) :
    inet_pton4_scan st (l1 ++ l2) = (inet_pton4_scan st l1).bind (fun st' => inet_pton4_scan st' l2) := by
  induction l1 generalizing st with
  | nil => simp [inet_pton4_scan]
  | cons c l1 ih =>
    simp only [List.cons_append, inet_pton4_scan]
    cases inet_pton4_step st c with
    | none => simp
    | some st' => simpa using ih st'

theorem scan_octet (done : List Byte) (n : Nat) (a : Byte) (hn : n < 4) :
    inet_pton4_scan { done := done, cur := 0, saw_digit := false, octets := n } (octet_digits a.val)
      = some { done := done, cur := a.val, saw_digit := true, octets := n + 1 } := by
  have ha := a.isLt
  unfold octet_digits
  split_ifs with h1 h2
  · simp only [inet_pton4_scan, step_first_digit done n a.val h1 hn]
  · simp only [inet_pton4_scan, step_first_digit done n (a.val / 10) (by omega) hn,
      step_next_digit done (n + 1) (a.val / 10) (a.val % 10) (by omega) (by omega) (by omega)]
    congr 2
    omega
  · simp only [inet_pton4_scan, step_first_digit done n (a.val / 100) (by omega) hn,
      step_next_digit done (n + 1) (a.val / 100) (a.val / 10 % 10) (by omega) (by omega)
        (by omega),
      step_next_digit done (n + 1) (a.val / 100 * 10 + a.val / 10 % 10) (a.val % 10) (by omega)
        (by omega) (by omega)]
    congr 2
    omega

theorem step_dot (done : List Byte) (n cur : Nat) (hn : n < 4) :
    inet_pton4_step { done := done, cur := cur, saw_digit := true, octets := n } (byte 46)
      = some { done := done ++ [byte cur], cur := 0, saw_digit := false, octets := n } := by
  unfold inet_pton4_step
  have e : (byte 46).val = 46 := rfl
  simp only [e]
  rw [if_neg (by omega)]
  simp
  omega

theorem byte_val (a : Byte) : byte a.val = a := by
  apply Fin.ext
  simp only [byte]
  have := a.isLt
  omega

theorem scan_octet_dot (done : List Byte) (n : Nat) (a : Byte) (rest : List Byte) (hn : n < 3) :
    inet_pton4_scan { done := done, cur := 0, saw_digit := false, octets := n }
        (octet_digits a.val ++ byte 46 :: rest)
      = inet_pton4_scan { done := done ++ [a], cur := 0, saw_digit := false, octets := n + 1 }
          rest := by
  rw [scan_append, scan_octet done n a (by omega)]
  simp only [Option.bind, inet_pton4_scan]
  rw [step_dot done (n + 1) a.val (by omega), byte_val]

theorem inet_pton4_dotted (a b c d : Byte) : inet_pton4 (dotted a b c d) = some [a, b, c, d] := by
  unfold inet_pton4 dotted
  simp only [List.append_assoc, List.singleton_append, List.cons_append]
  rw [scan_octet_dot [] 0 a _ (by omega)]
  simp only [List.nil_append, Nat.zero_add]
  rw [scan_octet_dot _ 1 b _ (by omega)]
  simp only [List.nil_append, Nat.reduceAdd]
  rw [scan_octet_dot _ 2 c _ (by omega)]
  simp only [List.nil_append, Nat.reduceAdd]
  rw [scan_octet _ 3 d (by omega)]
  simp [byte_val]

theorem ip_to_uint_dotted (a b c d : Byte) :
    ip_to_uint (dotted a b c d) = a.val * 2 ^ 24 + b.val * 2 ^ 16 + c.val * 2 ^ 8 + d.val := by
  unfold ip_to_uint
  rw [inet_pton4_dotted]
  simp [ntohl]

example : ip_to_uint (ascii "10.0.0.2") = 167772162 := by decide

theorem elect_inv_step (L : List (List Byte)) (st : Nat × List Byte) (x : List Byte)
    (h : elect_inv L st) : elect_inv (L ++ [x]) (elect_step st x) := by
  obtain ⟨hv, pre, post, hL, hpre, hpost⟩ := h
  unfold elect_step
  by_cases hlt : ip_to_uint x < st.1
  · simp only [hlt, if_true]
    refine ⟨rfl, L, [], rfl, ?_, by simp⟩
    intro y hy
    rw [hL] at hy
    rcases List.mem_append.1 hy with hy | hy
    · exact Nat.lt_trans hlt (hpre y hy)
    · rcases List.mem_cons.1 hy with hy | hy
      · rw [hy, ← hv]; exact hlt
      · exact Nat.lt_of_lt_of_le hlt (hpost y hy)
  · simp only [hlt, if_false]
    refine ⟨hv, pre, post ++ [x], by rw [hL]; simp, hpre, ?_⟩
    intro y hy
    rcases List.mem_append.1 hy with hy | hy
    · exact hpost y hy
    · rw [List.mem_singleton.1 hy]; omega

theorem elect_inv_foldl (rest : List (List Byte)) :
    ∀ (L : List (List Byte)) (st : Nat × List Byte), elect_inv L st →
      elect_inv (L ++ rest) (rest.foldl elect_step st) := by
  induction rest with
  | nil => intro L st h; simpa using h
  | cons x rest ih =>
    intro L st h
    have := ih (L ++ [x]) (elect_step st x) (elect_inv_step L st x h)
    simpa using this

theorem elect_root_split (L : List (List Byte)) (hL : L ≠ []) :
    ∃ pre post, L = pre ++ elect_root L :: post ∧
      (∀ x ∈ pre, ip_to_uint (elect_root L) < ip_to_uint x) ∧
      (∀ x ∈ post, ip_to_uint (elect_root L) ≤ ip_to_uint x) := by
  cases L with
  | nil => exact absurd rfl hL
  | cons ip0 rest =>
    have h0 : elect_inv [ip0] (ip_to_uint ip0, ip0) := ⟨rfl, [], [], rfl, by simp, by simp⟩
    obtain ⟨hv, pre, post, e, hpre, hpost⟩ := elect_inv_foldl rest [ip0] _ h0
    refine ⟨pre, post, e, ?_, ?_⟩
    · intro x hx; have := hpre x hx; rw [hv] at this; exact this
    · intro x hx; have := hpost x hx; rw [hv] at this; exact this

/-! ## The content of a valid host is a well-formed record -/

theorem at_cursor_zero (buffer : List Byte) : at_cursor buffer 0 buffer :=
  ⟨Nat.zero_le _, rfl⟩

theorem planar_view_of_valid {p : planar_interface_t} (hp : p.valid) :
    p.view.fits ∧ p.view.nul_free :=
  ⟨⟨c_str_length_lt hp.1, c_str_length_lt hp.2, mem_bytes_length _ _, mem_bytes_length _ _⟩,
    c_str_nul_free _, c_str_nul_free _⟩

theorem device_view_of_valid {d : device_t} (hd : d.valid) (h0 : 0 ≤ d.num_interfaces) :
    d.view.fits ∧ d.view.nul_free := by
  obtain ⟨ht, hcap, hps⟩ := hd
  have hlen : d.view.planar_intfs.length = d.num_interfaces.toNat := by
    simp [device_t.view]
  have hmem : ∀ p ∈ d.view.planar_intfs, p.fits ∧ p.nul_free := by
    intro p hp
    simp only [device_t.view, List.mem_map, List.mem_range] at hp
    obtain ⟨k, hk, rfl⟩ := hp
    exact planar_view_of_valid (hps k hk)
  refine ⟨⟨c_str_length_lt ht, mem_bytes_length _ _, ?_, ?_, fun p hp => (hmem p hp).1⟩,
    c_str_nul_free _, fun p hp => (hmem p hp).2⟩
  · rw [hlen]; exact (Int.toNat_of_nonneg h0).symm
  · rw [hlen]
    have : d.num_interfaces ≤ (MAX_INTERFACES : Int) := hcap
    omega

theorem host_view_of_within_caps {h : host_t} (hc : h.within_caps)
    (hname : h.host_name.length < 2 ^ 32) (hip : h.host_ip.length < 2 ^ 32) :
    h.view.fits ∧ h.view.nul_free := by
  obtain ⟨h0, ⟨hcap, hds⟩, hnn⟩ := hc
  have hlen : h.view.devices.length = h.num_devices.toNat := by
    simp [host_t.view]
  have hmem : ∀ d ∈ h.view.devices, d.fits ∧ d.nul_free := by
    intro d hd
    simp only [host_t.view, List.mem_map, List.mem_range] at hd
    obtain ⟨i, hi, rfl⟩ := hd
    exact device_view_of_valid (hds i hi) (hnn i hi)
  refine ⟨⟨hname, hip, ?_, ?_, fun d hd => (hmem d hd).1⟩, fun d hd => (hmem d hd).2⟩
  · rw [hlen]; exact (Int.toNat_of_nonneg h0).symm
  · rw [hlen]
    have : h.num_devices ≤ (MAX_DEVICES : Int) := hcap
    omega

/-- Decoding at offset 0 a buffer that starts with the wire form of a
well-formed record without NUL in its device strings. -/
theorem deserialize_host_wire (r : host_view) (extra : List Byte) (h0 : host_t)
    (hf : r.fits) (hn : r.nul_free) :
    ∃ h', deserialize_host (wire_host r ++ extra) h0 0 = .ok (h', (wire_host r).length) ∧
      h'.view = r ∧ h'.within_caps := by
  obtain ⟨h', e, v, c, _⟩ := deserialize_host_spec h0 (at_cursor_zero (wire_host r ++ extra)) hf hn
  rw [Nat.zero_add] at e
  exact ⟨h', e, v, c⟩

/-! ## A returned offset lies inside the buffer -/

theorem Run.bind_eq_ok {α β : Type} (x : Run α) (f : α → Run β) (b : β) :
    (x >>= f) = Run.ok b ↔ ∃ a, x = Run.ok a ∧ f a = Run.ok b := by
  cases x with
  | ok a => simp
  | undefined e =>
    constructor
    · intro h; cases h
    · rintro ⟨a, h, _⟩; cases h

theorem read_u32_ok {buffer : List Byte} {off v : Nat} (h : read_u32 buffer off = .ok v) :
    off + 4 ≤ buffer.length := by
  unfold read_u32 at h
  by_contra hc
  rw [if_neg hc] at h
  cases h

theorem read_bytes_ok {buffer : List Byte} {off n : Nat} {s : List Byte}
    (h : read_bytes buffer off n = .ok s) : off + n ≤ buffer.length := by
  unfold read_bytes at h
  by_contra hc
  rw [if_neg hc] at h
  cases h

theorem read_c_string_ok {buffer : List Byte} {dst dst' : Nat → Byte} {off off' : Nat}
    (h : read_c_string buffer dst off = .ok (dst', off')) :
    off + 4 ≤ off' ∧ off' ≤ buffer.length := by
  simp only [read_c_string, Run.bind_eq_ok, Run.pure_eq, Run.ok.injEq, Prod.mk.injEq] at h
  obtain ⟨len, _, src, h2, _, _, _, _, _, rfl⟩ := h
  have := read_bytes_ok h2
  omega

theorem deserialize_planar_ok {buffer : List Byte} {p p' : planar_interface_t} {off off' : Nat}
    (h : deserialize_planar buffer p off = .ok (p', off')) :
    off + 28 ≤ off' ∧ off' ≤ buffer.length := by
  simp only [deserialize_planar, Run.bind_eq_ok, Run.pure_eq, Run.ok.injEq, Prod.mk.injEq] at h
  obtain ⟨⟨id, o1⟩, h1, ⟨name, o2⟩, h2, s4, h3, _, _, s16, h4, _, _, _, rfl⟩ := h
  have := read_c_string_ok h1
  have := read_c_string_ok h2
  have := read_bytes_ok h3
  have := read_bytes_ok h4
  omega

theorem for_range_from_inv {σ : Type} (P : σ → Prop) (body : Nat → σ → Run σ)
    (hbody : ∀ j s s', body j s = .ok s' → P s → P s') :
    ∀ (k j : Nat) (s s' : σ), for_range_from body k j s = .ok s' → P s → P s' := by
  intro k
  induction k with
  | zero =>
    intro j s s' h hp
    simp only [for_range_from, Run.ok.injEq] at h
    exact h ▸ hp
  | succ k ih =>
    intro j s s' h hp
    rw [for_range_from] at h
    cases hb : body j s with
    | ok s1 =>
      rw [hb] at h
      exact ih (j + 1) s1 s' h (hbody j s s1 hb hp)
    | undefined e =>
      rw [hb] at h
      cases h

theorem deserialize_planar_at_ok {buffer : List Byte} (lo : Nat) (k : Nat)
    (st st' : device_t × Nat) (h : deserialize_planar_at buffer k st = .ok st')
    (hp : lo ≤ st.2 ∧ st.2 ≤ buffer.length) : lo ≤ st'.2 ∧ st'.2 ≤ buffer.length := by
  simp only [deserialize_planar_at, Run.bind_eq_ok, Run.pure_eq, Run.ok.injEq] at h
  obtain ⟨p, _, ⟨p', o⟩, h2, rfl⟩ := h
  have := deserialize_planar_ok h2
  simp only
  omega

theorem deserialize_device_ok {buffer : List Byte} {d d' : device_t} {off off' : Nat}
    (h : deserialize_device buffer d off = .ok (d', off')) :
    off + 12 ≤ off' ∧ off' ≤ buffer.length := by
  simp only [deserialize_device, Run.bind_eq_ok, for_range] at h
  obtain ⟨⟨vi, o1⟩, h1, s4, h2, ip, _, n, h3, h4⟩ := h
  have := read_c_string_ok h1
  have := read_bytes_ok h2
  have := read_u32_ok h3
  exact for_range_from_inv (fun st => off + 12 ≤ st.2 ∧ st.2 ≤ buffer.length) _
    (deserialize_planar_at_ok (off + 12)) _ _ _ _ h4 ⟨by simp only; omega, by simp only; omega⟩

theorem deserialize_device_at_ok {buffer : List Byte} (lo : Nat) (j : Nat)
    (st st' : host_t × Nat) (h : deserialize_device_at buffer j st = .ok st')
    (hp : lo ≤ st.2 ∧ st.2 ≤ buffer.length) : lo ≤ st'.2 ∧ st'.2 ≤ buffer.length := by
  simp only [deserialize_device_at, Run.bind_eq_ok, Run.pure_eq, Run.ok.injEq] at h
  obtain ⟨d, _, ⟨d', o⟩, h2, rfl⟩ := h
  have := deserialize_device_ok h2
  simp only
  omega

theorem deserialize_host_ok {buffer : List Byte} {host h' : host_t} {off off' : Nat}
    (h : deserialize_host buffer host off = .ok (h', off')) :
    off + 12 ≤ off' ∧ off' ≤ buffer.length := by
  simp only [deserialize_host, Run.bind_eq_ok, for_range, Run.pure_eq, Run.ok.injEq,
    Prod.mk.injEq] at h
  obtain ⟨n1, h1, name, h2, n2, h3, ip, h4, nd, h5, ⟨hx, ox⟩, h6, _, rfl⟩ := h
  have := read_u32_ok h1
  have := read_bytes_ok h2
  have := read_u32_ok h3
  have := read_bytes_ok h4
  have := read_u32_ok h5
  exact for_range_from_inv (fun st => off + 12 ≤ st.2 ∧ st.2 ≤ buffer.length) _
    (deserialize_device_at_ok (off + 12)) _ _ _ _ h6 ⟨by simp only; omega, by simp only; omega⟩

/-! ## `serialize_all_hosts` and `deserialize_all_hosts` -/

theorem for_each_append {α : Type} (body : α → List Byte → Run (List Byte)) (f : α → List Byte) :
    ∀ (l : List α) (buf : List Byte), (∀ a ∈ l, ∀ b, body a b = .ok (b ++ f a)) →
      for_each l body buf = .ok (buf ++ (l.map f).flatten) := by
  intro l
  induction l with
  | nil => intro buf _; simp [for_each]
  | cons a l ih =>
    intro buf h
    rw [for_each, h a (List.mem_cons_self _ _)]
    simp only
    rw [ih _ (fun x hx b => h x (List.mem_cons_of_mem _ hx) b)]
    simp

theorem serialize_all_hosts_eq (db : host_db_t) (hv : ∀ p ∈ db.all_hosts, p.2.valid) :
    serialize_all_hosts db
      = .ok (BE32 db.all_hosts.length ++ (db.all_hosts.map (fun p => wire_host p.2.view)).flatten) := by
  unfold serialize_all_hosts
  rw [for_each_append _ (fun p => wire_host p.2.view) _ _
    (fun p hp b => serialize_host_eq b p.2 (hv p hp))]
  simp [htonl_eq_BE32]

/-- The keys and contents of a list of map entries. -/
theorem map_assign_view (m : List (List Byte × host_t)) (k : List Byte) (h : host_t) :
    (map_assign m k h).map (fun p => (p.1, p.2.view))
      = map_assign (m.map (fun p => (p.1, p.2.view))) k h.view := by
  unfold map_assign
  have hany : (m.map (fun p => (p.1, p.2.view))).any (fun p => decide (p.1 = k))
      = m.any (fun p => decide (p.1 = k)) := by
    induction m with
    | nil => rfl
    | cons a m ih => simp only [List.map_cons, List.any_cons, ih]
  rw [hany]
  split_ifs with hc
  · simp only [List.map_map]
    apply List.map_congr_left
    intro p _
    show ((if p.1 = k then (k, h) else p).1, (if p.1 = k then (k, h) else p).2.view)
      = if p.1 = k then (k, h.view) else (p.1, p.2.view)
    split_ifs <;> rfl
  · simp

theorem deserialize_all_hosts_loop {buffer : List Byte} (fresh : Nat → host_t)
    (rest : List Byte) :
    ∀ (hvs : List host_view) (j : Nat) (m : List (List Byte × host_t)) (off : Nat),
      (∀ r ∈ hvs, r.fits) → (∀ r ∈ hvs, r.nul_free) →
      at_cursor buffer off ((hvs.map wire_host).flatten ++ rest) →
      ∃ m', for_range_from (deserialize_all_hosts_at fresh buffer) hvs.length j (m, off)
          = .ok (m', off + (hvs.map wire_host).flatten.length) ∧
        m'.map (fun p => (p.1, p.2.view))
          = hvs.foldl (fun acc r => map_assign acc r.host_name r)
              (m.map (fun p => (p.1, p.2.view))) := by
  intro hvs
  induction hvs with
  | nil =>
    intro j m off _ _ _
    exact ⟨m, by simp [for_range_from], by simp⟩
  | cons r hvs ih =>
    intro j m off hf hn hc
    have hc0 : at_cursor buffer off (wire_host r ++ ((hvs.map wire_host).flatten ++ rest)) := by
      simpa [List.append_assoc] using hc
    obtain ⟨h', e1, v1, _, hc1⟩ :=
      deserialize_host_spec (fresh j) hc0 (hf r (List.mem_cons_self _ _))
        (hn r (List.mem_cons_self _ _))
    obtain ⟨m', e2, v2⟩ :=
      ih (j + 1) (map_assign m h'.host_name h') (off + (wire_host r).length)
        (fun q hq => hf q (List.mem_cons_of_mem _ hq))
        (fun q hq => hn q (List.mem_cons_of_mem _ hq)) hc1
    have hlen : off + (wire_host r).length + (hvs.map wire_host).flatten.length
        = off + ((r :: hvs).map wire_host).flatten.length := by
      simp; omega
    have hname : h'.host_name = r.host_name := by rw [← v1]; rfl
    refine ⟨m', ?_, ?_⟩
    · rw [List.length_cons, for_range_from]
      simp only [deserialize_all_hosts_at]
      rw [e1]
      simp only [Run.ok_bind, Run.pure_eq]
      rw [e2, hlen]
    · rw [v2, map_assign_view, v1, hname]
      rfl

theorem deserialize_all_hosts_wire (fresh : Nat → host_t) (db0 : host_db_t)
    (hvs : List host_view) (extra : List Byte) (hlen : hvs.length < 2 ^ 32)
    (hf : ∀ r ∈ hvs, r.fits) (hn : ∀ r ∈ hvs, r.nul_free) :
    ∃ db', deserialize_all_hosts fresh db0
          (BE32 hvs.length ++ (hvs.map wire_host).flatten ++ extra) = .ok db' ∧
      db'.view = hvs.foldl (fun acc r => map_assign acc r.host_name r) db0.view ∧
      db'.local_ip = db0.local_ip := by
  have hc0 : at_cursor (BE32 hvs.length ++ (hvs.map wire_host).flatten ++ extra) 0
      (BE32 hvs.length ++ ((hvs.map wire_host).flatten ++ extra)) := by
    simpa [List.append_assoc] using
      at_cursor_zero (BE32 hvs.length ++ (hvs.map wire_host).flatten ++ extra)
  have e1 := read_u32_at hc0
  rw [Nat.mod_eq_of_lt hlen] at e1
  have hc1 := (at_cursor_advance hc0).2.2
  rw [BE32_length] at hc1
  obtain ⟨m', e2, v2⟩ := deserialize_all_hosts_loop fresh extra hvs 0 db0.all_hosts (0 + 4) hf hn hc1
  refine ⟨{ db0 with all_hosts := m' }, ?_, v2, rfl⟩
  simp only [deserialize_all_hosts, Nat.zero_add] at e2 ⊢
  rw [e1]
  simp only [Run.ok_bind, for_range]
  rw [e2]
  simp only [Run.ok_bind, Run.pure_eq]

/-! ## The concrete inputs are valid -/

theorem host_a_valid : host_a.valid := by decide

theorem host_a_within_caps : host_a.within_caps := by decide

theorem host_b_valid : host_b.valid := by decide

theorem host_b_within_caps : host_b.within_caps := by decide

theorem root_db_entries :
    root_db.all_hosts = [(ascii "10.0.0.2", host_a), (ascii "10.0.0.5", host_b)] := rfl

theorem root_db_valid : ∀ p ∈ root_db.all_hosts, p.2.valid := by
  intro p hp
  rw [root_db_entries] at hp
  simp only [List.mem_cons, List.mem_singleton, List.not_mem_nil, or_false] at hp
  rcases hp with rfl | rfl
  · exact host_a_valid
  · exact host_b_valid

theorem root_db_within_caps : ∀ p ∈ root_db.all_hosts,
    p.2.within_caps ∧ p.2.host_name.length < 2 ^ 32 ∧ p.2.host_ip.length < 2 ^ 32 := by
  intro p hp
  rw [root_db_entries] at hp
  simp only [List.mem_cons, List.mem_singleton, List.not_mem_nil, or_false] at hp
  rcases hp with rfl | rfl
  · exact ⟨host_a_within_caps, by decide, by decide⟩
  · exact ⟨host_b_within_caps, by decide, by decide⟩

/-! ## The election does not depend on the order of the entries -/

theorem ip_to_uint_dotted_inj {a b c d a' b' c' d' : Byte}
    (h : ip_to_uint (dotted a b c d) = ip_to_uint (dotted a' b' c' d')) :
    dotted a b c d = dotted a' b' c' d' := by
  rw [ip_to_uint_dotted, ip_to_uint_dotted] at h
  have ha := a.isLt
  have hb := b.isLt
  have hc := c.isLt
  have hd := d.isLt
  have ha' := a'.isLt
  have hb' := b'.isLt
  have hc' := c'.isLt
  have hd' := d'.isLt
  have e1 : a = a' := Fin.ext (by omega)
  have e2 : b = b' := Fin.ext (by omega)
  have e3 : c = c' := Fin.ext (by omega)
  have e4 : d = d' := Fin.ext (by omega)
  rw [e1, e2, e3, e4]

theorem elect_root_mem_min (L : List (List Byte)) (hL : L ≠ []) :
    elect_root L ∈ L ∧ ∀ x ∈ L, ip_to_uint (elect_root L) ≤ ip_to_uint x := by
  obtain ⟨pre, post, e, hpre, hpost⟩ := elect_root_split L hL
  generalize elect_root L = r at e hpre hpost ⊢
  subst e
  refine ⟨by simp, ?_⟩
  intro x hx
  rcases List.mem_append.1 hx with hx | hx
  · exact Nat.le_of_lt (hpre x hx)
  · rcases List.mem_cons.1 hx with hx | hx
    · rw [hx]
    · exact hpost x hx

theorem elect_root_perm_of_dotted (L1 L2 : List (List Byte)) (hp : L1.Perm L2)
    (hv : ∀ s ∈ L1, ∃ a b c d : Byte, s = dotted a b c d) :
    elect_root L1 = elect_root L2 := by
  by_cases h1 : L1 = []
  · subst h1
    rw [List.Perm.nil_eq hp]
  · have h2 : L2 ≠ [] := by
      intro h
      subst h
      exact h1 (List.Perm.eq_nil hp)
    obtain ⟨m1, le1⟩ := elect_root_mem_min L1 h1
    obtain ⟨m2, le2⟩ := elect_root_mem_min L2 h2
    have m2' : elect_root L2 ∈ L1 := hp.mem_iff.2 m2
    have m1' : elect_root L1 ∈ L2 := hp.mem_iff.1 m1
    obtain ⟨a, b, c, d, e1⟩ := hv _ m1
    obtain ⟨a', b', c', d', e2⟩ := hv _ m2'
    have hle1 := le1 _ m2'
    have hle2 := le2 _ m1'
    rw [e1, e2] at hle1 hle2 ⊢
    exact ip_to_uint_dotted_inj (Nat.le_antisymm hle1 hle2)

theorem peers_s1_dotted : ∀ s ∈ peers_s1, ∃ a b c d : Byte, s = dotted a b c d := by
  intro s hs
  simp only [peers_s1, List.mem_cons, List.mem_singleton, List.not_mem_nil, or_false] at hs
  rcases hs with rfl | rfl | rfl
  · exact ⟨10, 0, 0, 5, by decide⟩
  · exact ⟨10, 0, 0, 2, by decide⟩
  · exact ⟨10, 0, 0, 9, by decide⟩

/-! ## `get_local_ip` -/

theorem match_ip_list_iff (addr_str : List Byte) (L : List (List Byte)) :
    match_ip_list addr_str L = true ↔ addr_str ∈ L := by
  induction L with
  | nil => simp [match_ip_list]
  | cons ip rest ih =>
    unfold match_ip_list
    by_cases h : addr_str = ip
    · simp [h]
    · simp [h, ih]

/-- The loop of `get_local_ip` returns the first local address, in enumeration
order, that is an entry of the peer list. -/
theorem get_local_ip_loop_spec (L : List (List Byte)) (ifap : List ifaddrs) :
    (get_local_ip_loop L ifap = none ∧ ∀ a ∈ local_addresses ifap, a ∉ L) ∨
      ∃ pre a post, local_addresses ifap = pre ++ a :: post ∧ a ∈ L ∧ (∀ x ∈ pre, x ∉ L) ∧
        get_local_ip_loop L ifap = some a := by
  induction ifap with
  | nil => left; simp [get_local_ip_loop, local_addresses]
  | cons ifa next ih =>
    cases hifa : ifa.ifa_addr with
    | none =>
      have e1 : get_local_ip_loop L (ifa :: next) = get_local_ip_loop L next := by
        simp [get_local_ip_loop, hifa]
      have e2 : local_addresses (ifa :: next) = local_addresses next := by
        simp [local_addresses, List.filterMap_cons, hifa]
      rw [e1, e2]; exact ih
    | some p =>
      obtain ⟨fam, sin_addr⟩ := p
      by_cases hf : fam = AF_INET
      · by_cases hm : match_ip_list (inet_ntop4 sin_addr) L = true
        · right
          refine ⟨[], inet_ntop4 sin_addr, local_addresses next, ?_, (match_ip_list_iff _ _).1 hm,
            by simp, ?_⟩
          · simp [local_addresses, List.filterMap_cons, hifa, hf]
          · simp [get_local_ip_loop, hifa, hf, hm]
        · have e1 : get_local_ip_loop L (ifa :: next) = get_local_ip_loop L next := by
            simp [get_local_ip_loop, hifa, hf, hm]
          have e2 : local_addresses (ifa :: next) = inet_ntop4 sin_addr :: local_addresses next := by
            simp [local_addresses, List.filterMap_cons, hifa, hf]
          have hnot : inet_ntop4 sin_addr ∉ L := fun h => hm ((match_ip_list_iff _ _).2 h)
          rw [e1, e2]
          rcases ih with ⟨h1, h2⟩ | ⟨pre, a, post, h1, h2, h3, h4⟩
          · left
            refine ⟨h1, ?_⟩
            intro a ha
            rcases List.mem_cons.1 ha with rfl | ha
            · exact hnot
            · exact h2 a ha
          · right
            refine ⟨inet_ntop4 sin_addr :: pre, a, post, by rw [h1]; rfl, h2, ?_, h4⟩
            intro x hx
            rcases List.mem_cons.1 hx with rfl | hx
            · exact hnot
            · exact h3 x hx
      · have e1 : get_local_ip_loop L (ifa :: next) = get_local_ip_loop L next := by
          simp [get_local_ip_loop, hifa, hf]
        have e2 : local_addresses (ifa :: next) = local_addresses next := by
          simp [local_addresses, List.filterMap_cons, hifa, hf]
        rw [e1, e2]; exact ih

/-! ## `read_ip_list` -/

theorem fgets_chars_length (k : Nat) (fp : List Byte) :
    (fgets_chars k fp).1.length + (fgets_chars k fp).2.length = fp.length := by
  induction k generalizing fp with
  | zero => simp [fgets_chars]
  | succ k ih =>
    cases fp with
    | nil => simp [fgets_chars]
    | cons c fp =>
      unfold fgets_chars
      by_cases h : c = LF
      · simp [h]; omega
      · simp only [h, if_false, List.length_cons]
        have := ih fp
        omega

theorem fgets_chars_rest_lt (k : Nat) (c : Byte) (fp : List Byte) :
    (fgets_chars (k + 1) (c :: fp)).2.length < (c :: fp).length := by
  unfold fgets_chars
  by_cases h : c = LF
  · simp [h]
  · simp only [h, if_false, List.length_cons]
    have := fgets_chars_length k fp
    omega

/-- The loop of `read_ip_list` does not depend on the fuel once the fuel
exceeds the length of the stream. -/
theorem read_ip_list_loop_fuel (max_ips : Nat) (f1 : Nat) :
    ∀ (f2 : Nat) (fp : List Byte) (acc : List (List Byte)), fp.length < f1 → fp.length < f2 →
      read_ip_list_loop max_ips f1 fp acc = read_ip_list_loop max_ips f2 fp acc := by
  induction f1 with
  | zero => intro f2 fp acc h1 _; omega
  | succ f1 ih =>
    intro f2 fp acc h1 h2
    cases f2 with
    | zero => omega
    | succ f2 =>
      unfold read_ip_list_loop
      by_cases hc : acc.length < max_ips
      · simp only [hc, if_true]
        cases fp with
        | nil => simp [fgets]
        | cons c fp =>
          have hlt : (fgets_chars 15 (c :: fp)).2.length < (c :: fp).length :=
            fgets_chars_rest_lt 14 c fp
          have e : fgets INET_ADDRSTRLEN (c :: fp) = some (fgets_chars 15 (c :: fp)) := rfl
          rw [e]
          simp only
          have h1' : (fgets_chars 15 (c :: fp)).2.length < f1 := by omega
          have h2' : (fgets_chars 15 (c :: fp)).2.length < f2 := by omega
          rw [ih f2 _ (acc ++ [strip_newline (fgets_chars 15 (c :: fp)).1]) h1' h2',
            ih f2 _ acc h1' h2']
      · simp only [hc, if_false]

theorem read_lines_full (max_ips : Nat) (fp : List Byte) (acc : List (List Byte))
    (h : ¬ acc.length < max_ips) : read_lines max_ips fp acc = acc := by
  unfold read_lines read_ip_list_loop
  simp only [h, if_false]

theorem read_lines_nil (max_ips : Nat) (acc : List (List Byte)) :
    read_lines max_ips [] acc = acc := by
  unfold read_lines read_ip_list_loop
  by_cases h : acc.length < max_ips
  · simp [h, fgets]
  · simp only [h, if_false]

theorem read_lines_step (max_ips : Nat) (fp chars fp' : List Byte) (acc : List (List Byte))
    (hacc : acc.length < max_ips) (hne : fp ≠ []) (hf : fgets_chars 15 fp = (chars, fp')) :
    read_lines max_ips fp acc =
      if strip_newline chars = [] then read_lines max_ips fp' acc
      else read_lines max_ips fp' (acc ++ [strip_newline chars]) := by
  cases fp with
  | nil => exact absurd rfl hne
  | cons c fp =>
    have hlt : (fgets_chars 15 (c :: fp)).2.length < (c :: fp).length :=
      fgets_chars_rest_lt 14 c fp
    rw [hf] at hlt
    simp only at hlt
    have e : fgets INET_ADDRSTRLEN (c :: fp) = some (chars, fp') := by
      show some (fgets_chars 15 (c :: fp)) = _
      rw [hf]
    unfold read_lines
    rw [read_ip_list_loop]
    simp only [hacc, if_true, e]
    have hl : fp'.length < (c :: fp).length := hlt
    rw [read_ip_list_loop_fuel max_ips (c :: fp).length (fp'.length + 1) fp' _ hl (by omega),
      read_ip_list_loop_fuel max_ips (c :: fp).length (fp'.length + 1) fp' _ hl (by omega)]
    by_cases hs : strip_newline chars = []
    · simp [hs]
    · have : (strip_newline chars).length > 0 := List.length_pos.2 hs
      simp [hs, this]

/-- Reading a whole line: `fgets` stores the line and its line feed when they
fit. -/
theorem fgets_chars_line (k : Nat) (x rest : List Byte) (hx : LF ∉ x) (hk : x.length + 1 ≤ k) :
    fgets_chars k (x ++ LF :: rest) = (x ++ [LF], rest) := by
  induction x generalizing k with
  | nil =>
    cases k with
    | zero => simp at hk
    | succ k => simp [fgets_chars]
  | cons c x ih =>
    cases k with
    | zero => simp at hk
    | succ k =>
      have hc : c ≠ LF := fun h => hx (by simp [h])
      have hx' : LF ∉ x := fun h => hx (List.mem_cons_of_mem _ h)
      have hk' : x.length + 1 ≤ k := by simp at hk; omega
      rw [List.cons_append, fgets_chars, ih k hx' hk']
      simp only [hc, if_false, List.cons_append]

/-- Reading a long line: `fgets` stops when the buffer is full. -/
theorem fgets_chars_full (k : Nat) (x rest : List Byte) (hx : LF ∉ x) (hk : x.length = k) :
    fgets_chars k (x ++ rest) = (x, rest) := by
  induction x generalizing k with
  | nil => subst hk; simp [fgets_chars]
  | cons c x ih =>
    cases k with
    | zero => simp at hk
    | succ k =>
      have hc : c ≠ LF := fun h => hx (by simp [h])
      have hx' : LF ∉ x := fun h => hx (List.mem_cons_of_mem _ h)
      have hk' : x.length = k := by simp at hk; omega
      rw [List.cons_append, fgets_chars, ih k hx' hk']
      simp only [hc, if_false, List.cons_append]

/-- Reading the last line: `fgets` stops at the end of the stream. -/
theorem fgets_chars_eof (k : Nat) (x : List Byte) (hx : LF ∉ x) (hk : x.length ≤ k) :
    fgets_chars k x = (x, []) := by
  induction x generalizing k with
  | nil => cases k <;> simp [fgets_chars]
  | cons c x ih =>
    cases k with
    | zero => simp at hk
    | succ k =>
      have hc : c ≠ LF := fun h => hx (by simp [h])
      have hx' : LF ∉ x := fun h => hx (List.mem_cons_of_mem _ h)
      have hk' : x.length ≤ k := by simp at hk; omega
      rw [fgets_chars, ih k hx' hk']
      simp only [hc, if_false]

/-- Stripping: a line without NUL, carriage return and line feed, followed by
nothing or by a terminator, is cut at its end. -/
theorem strip_newline_line (c t : List Byte) (h1 : LF ∉ c) (h2 : line_plain c)
    (ht : t = [] ∨ ∃ t', t = CR :: t' ∨ t = LF :: t') : strip_newline (c ++ t) = c := by
  induction c with
  | nil =>
    rcases ht with rfl | ⟨t', rfl | rfl⟩ <;> simp [strip_newline, CR, LF]
  | cons b c ih =>
    have hb1 : b ≠ LF := fun h => h1 (by simp [h])
    have hb2 : b ≠ CR := fun h => h2.1 (by simp [h])
    have hb3 : b ≠ 0 := fun h => h2.2 (by simp [h])
    have h1' : LF ∉ c := fun h => h1 (List.mem_cons_of_mem _ h)
    have h2' : line_plain c :=
      ⟨fun h => h2.1 (List.mem_cons_of_mem _ h), fun h => h2.2 (List.mem_cons_of_mem _ h)⟩
    have := ih h1' h2'
    unfold strip_newline at this ⊢
    simp only [List.cons_append, List.takeWhile_cons]
    simp only [hb1, hb2, hb3, ne_eq, not_false_eq_true, and_self, decide_True, if_true, this]

/-- The first `fgets` on a short plain line with its terminator stores the line
and a part `t1` of the terminator and leaves the other part `t2`, which is
empty, or a whole terminator after a non-empty line. -/
theorem fgets_chars_first (c : List Byte) (crlf : Bool) (rest : List Byte)
    (hs : line_short c) :
    ∃ t1 t2, fgets_chars 15 (c ++ terminator crlf ++ rest) = (c ++ t1, t2 ++ rest) ∧
      (t1 = [] ∨ ∃ t', t1 = CR :: t' ∨ t1 = LF :: t') ∧
      (t2 = [] ∨ (c ≠ [] ∧ ∃ b, t2 = terminator b)) := by
  obtain ⟨hlen, hlf⟩ := hs
  have hcr : LF ∉ c ++ [CR] := by
    intro h
    rcases List.mem_append.1 h with h | h
    · exact hlf h
    · simp [CR, LF] at h
  cases crlf with
  | false =>
    by_cases h15 : c.length = 15
    · refine ⟨[], [LF], ?_, Or.inl rfl, Or.inr ⟨?_, false, rfl⟩⟩
      · simp only [terminator, List.append_nil, List.append_assoc]
        exact fgets_chars_full 15 c _ hlf h15
      · intro h; rw [h] at h15; simp at h15
    · refine ⟨[LF], [], ?_, Or.inr ⟨[], Or.inr rfl⟩, Or.inl rfl⟩
      simp only [terminator, List.nil_append, List.append_assoc, List.singleton_append]
      exact fgets_chars_line 15 c rest hlf (by omega)
  | true =>
    by_cases h15 : c.length = 15
    · refine ⟨[], [CR, LF], ?_, Or.inl rfl, Or.inr ⟨?_, true, rfl⟩⟩
      · simp only [terminator, List.append_nil, List.append_assoc]
        exact fgets_chars_full 15 c _ hlf h15
      · intro h; rw [h] at h15; simp at h15
    · by_cases h14 : c.length = 14
      · refine ⟨[CR], [LF], ?_, Or.inr ⟨[], Or.inl rfl⟩, Or.inr ⟨?_, false, rfl⟩⟩
        · have := fgets_chars_full 15 (c ++ [CR]) ([LF] ++ rest) hcr (by simp [h14])
          simpa [terminator] using this
        · intro h; rw [h] at h14; simp at h14
      · refine ⟨[CR, LF], [], ?_, Or.inr ⟨[LF], Or.inl rfl⟩, Or.inl rfl⟩
        have := fgets_chars_line 15 (c ++ [CR]) rest hcr (by simp; omega)
        simpa [terminator] using this

theorem fgets_chars_terminator (b : Bool) (rest : List Byte) :
    fgets_chars 15 (terminator b ++ rest) = (terminator b, rest) := by
  cases b <;> simp [terminator, fgets_chars, CR, LF]

theorem strip_newline_terminator (b : Bool) : strip_newline (terminator b) = [] := by
  cases b <;> simp [terminator, strip_newline, CR, LF]

theorem take_append_full {α : Type} (acc xs : List α) (n : Nat) (h : acc.length = n) :
    (acc ++ xs).take n = acc := by
  subst h; simp

/-- Skipping what is left of a terminator. -/
theorem read_lines_skip (max_ips : Nat) (b : Bool) (rest : List Byte)
    (acc F : List (List Byte)) (hacc : acc.length ≤ max_ips)
    (ih : read_lines max_ips rest acc = (acc ++ F).take max_ips) :
    read_lines max_ips (terminator b ++ rest) acc = (acc ++ F).take max_ips := by
  by_cases hlt : acc.length < max_ips
  · have hne : terminator b ++ rest ≠ [] := by cases b <;> simp [terminator]
    rw [read_lines_step max_ips _ _ _ acc hlt hne (fgets_chars_terminator b rest),
      strip_newline_terminator]
    simpa using ih
  · rw [read_lines_full max_ips _ acc hlt, take_append_full acc F max_ips (by omega)]

theorem nonempty_lines_cons (c : List Byte) (b : Bool) (ls : List (List Byte × Bool))
    (last : List Byte) :
    nonempty_lines ((c, b) :: ls) last =
      if c = [] then nonempty_lines ls last else c :: nonempty_lines ls last := by
  unfold nonempty_lines line_contents
  by_cases h : c = [] <;> simp [List.filter_cons, h]

theorem render_lines_cons (c : List Byte) (b : Bool) (ls : List (List Byte × Bool))
    (last : List Byte) :
    render_lines ((c, b) :: ls) last = c ++ terminator b ++ render_lines ls last := by
  simp [render_lines, terminator]

/-- The loop of `read_ip_list` on a file of short plain lines. -/
theorem read_lines_render (max_ips : Nat) (ls : List (List Byte × Bool)) (last : List Byte)
    (h : ∀ c ∈ line_contents ls last, line_short c ∧ line_plain c) :
    ∀ acc : List (List Byte), acc.length ≤ max_ips →
      read_lines max_ips (render_lines ls last) acc =
        (acc ++ nonempty_lines ls last).take max_ips := by
  induction ls with
  | nil =>
    intro acc hacc
    have hl := h last (by simp [line_contents])
    have e1 : render_lines [] last = last := by simp [render_lines]
    rw [e1]
    by_cases hlt : acc.length < max_ips
    · by_cases hne : last = []
      · subst hne
        rw [read_lines_nil]
        simp [nonempty_lines, line_contents, List.take_of_length_le hacc]
      · have e2 : nonempty_lines [] last = [last] := by
          simp [nonempty_lines, line_contents, hne]
        have e3 : strip_newline last = last := by
          have := strip_newline_line last [] hl.1.2 hl.2 (Or.inl rfl)
          simpa using this
        rw [read_lines_step max_ips last last [] acc hlt hne
          (fgets_chars_eof 15 last hl.1.2 hl.1.1), e3, e2, read_lines_nil]
        simp only [hne, if_false]
        rw [List.take_of_length_le, read_lines_nil]
        simp; omega
    · rw [read_lines_full max_ips _ acc hlt, take_append_full acc _ max_ips (by omega)]
  | cons l ls ih =>
    obtain ⟨c, b⟩ := l
    intro acc hacc
    have hc := h c (by simp [line_contents])
    have hrest : ∀ c' ∈ line_contents ls last, line_short c' ∧ line_plain c' := by
      intro c' hc'
      apply h c'
      simp only [line_contents, List.map_cons, List.cons_append, List.mem_cons]
      exact Or.inr hc'
    have ih := ih hrest
    rw [render_lines_cons, nonempty_lines_cons]
    by_cases hlt : acc.length < max_ips
    · obtain ⟨t1, t2, hf, ht1, ht2⟩ := fgets_chars_first c b (render_lines ls last) hc.1
      have hne : c ++ terminator b ++ render_lines ls last ≠ [] := by
        cases b <;> simp [terminator]
      rw [read_lines_step max_ips _ _ _ acc hlt hne hf, strip_newline_line c t1 hc.1.2 hc.2 ht1]
      by_cases hce : c = []
      · simp only [hce, if_true]
        rcases ht2 with rfl | ⟨hcne, _⟩
        · simpa using ih acc hacc
        · exact absurd hce hcne
      · simp only [hce, if_false]
        have hacc' : (acc ++ [c]).length ≤ max_ips := by simp; omega
        have e : acc ++ c :: nonempty_lines ls last = (acc ++ [c]) ++ nonempty_lines ls last := by
          simp
        rw [e]
        rcases ht2 with rfl | ⟨_, b', rfl⟩
        · simpa using ih (acc ++ [c]) hacc'
        · exact read_lines_skip max_ips b' _ _ _ hacc' (ih (acc ++ [c]) hacc')
    · rw [read_lines_full max_ips _ acc hlt, take_append_full acc _ max_ips (by omega)]

/-! ## Dotted text as a line of the peer list -/

theorem octet_digits_bytes (a : Byte) :
    (octet_digits a.val).length ≤ 3 ∧ octet_digits a.val ≠ [] ∧
      ∀ x ∈ octet_digits a.val, 48 ≤ x.val ∧ x.val ≤ 57 := by
  have ha : a.val < 256 := a.isLt
  have hdig : ∀ dgt : Nat, dgt < 10 → 48 ≤ (byte (48 + dgt)).val ∧ (byte (48 + dgt)).val ≤ 57 := by
    intro dgt h
    rw [byte_digit_val dgt h]
    omega
  unfold octet_digits
  by_cases h1 : a.val < 10
  · simp only [h1, if_true]
    refine ⟨by simp, by simp, ?_⟩
    intro x hx
    simp only [List.mem_singleton] at hx
    subst hx
    exact hdig _ h1
  · by_cases h2 : a.val < 100
    · simp only [h1, h2, if_true, if_false]
      refine ⟨by simp, by simp, ?_⟩
      intro x hx
      simp only [List.mem_cons, List.mem_singleton, List.not_mem_nil, or_false] at hx
      rcases hx with rfl | rfl
      · exact hdig _ (by omega)
      · exact hdig _ (by omega)
    · simp only [h1, h2, if_false]
      refine ⟨by simp, by simp, ?_⟩
      intro x hx
      simp only [List.mem_cons, List.mem_singleton, List.not_mem_nil, or_false] at hx
      rcases hx with rfl | rfl | rfl
      · exact hdig _ (by omega)
      · exact hdig _ (by omega)
      · exact hdig _ (by omega)

theorem dotted_length (a b c d : Byte) : (dotted a b c d).length ≤ 15 := by
  have ha := (octet_digits_bytes a).1
  have hb := (octet_digits_bytes b).1
  have hc := (octet_digits_bytes c).1
  have hd := (octet_digits_bytes d).1
  simp only [dotted, List.length_append, List.length_singleton]
  omega

theorem dotted_ne_nil (a b c d : Byte) : dotted a b c d ≠ [] := by
  have ha := (octet_digits_bytes a).2.1
  intro h
  simp only [dotted, List.append_eq_nil] at h
  exact ha h.1.1.1.1.1.1

theorem dotted_bytes (a b c d : Byte) :
    ∀ x ∈ dotted a b c d, 46 ≤ x.val ∧ x.val ≤ 57 := by
  intro x hx
  have ha := (octet_digits_bytes a).2.2 x
  have hb := (octet_digits_bytes b).2.2 x
  have hc := (octet_digits_bytes c).2.2 x
  have hd := (octet_digits_bytes d).2.2 x
  simp only [dotted, List.mem_append, List.mem_singleton] at hx
  have h46 : x = byte 46 → 46 ≤ x.val ∧ x.val ≤ 57 := by
    intro h; subst h; decide
  rcases hx with (((((h | h) | h) | h) | h) | h) | h
  · have := ha h; omega
  · exact h46 h
  · have := hb h; omega
  · exact h46 h
  · have := hc h; omega
  · exact h46 h
  · have := hd h; omega

/-- A dotted text followed by spaces and tabs is a plain line without line
feed. -/
theorem dotted_blank_plain (a b c d : Byte) (w : List Byte)
    (hw : ∀ x ∈ w, x = byte 32 ∨ x = byte 9) :
    LF ∉ dotted a b c d ++ w ∧ line_plain (dotted a b c d ++ w) := by
  have key : ∀ x ∈ dotted a b c d ++ w, x.val = 9 ∨ 32 ≤ x.val := by
    intro x hx
    rcases List.mem_append.1 hx with h | h
    · have := dotted_bytes a b c d x h; omega
    · rcases hw x h with h | h
      · subst h; right; decide
      · subst h; left; decide
  refine ⟨fun h => ?_, fun h => ?_, fun h => ?_⟩
  · have := key LF h; revert this; decide
  · have := key CR h; revert this; decide
  · have := key 0 h; revert this; decide

theorem inet_ntop4_of_bytes (a b c d : Byte) :
    inet_ntop4 (of_bytes [a, b, c, d]) = dotted a b c d := rfl

/-! ## The socket facade and the TLV helpers -/

theorem size_t_of_int_nat (n : Nat) (h : n < 2 ^ 64) : size_t_of_int (n : Int) = n := by
  unfold size_t_of_int
  have e : ((n : Int) % 2 ^ 64) = (n : Int) := by
    apply Int.emod_eq_of_lt (by omega)
    have : (2 : Int) ^ 64 = ((2 ^ 64 : Nat) : Int) := by norm_num
    rw [this]
    exact_mod_cast h
  rw [e]
  simp

theorem int_of_u32_neg (n : Nat) (h1 : 2 ^ 31 ≤ n) (h2 : n < 2 ^ 32) : int_of_u32 n < 0 := by
  unfold int_of_u32
  have h : ¬ n < 2 ^ 31 := by omega
  simp only [h, if_false]
  have : (n : Int) < 2 ^ 32 := by exact_mod_cast h2
  omega

/-- The count that `send` returns is -1 or not negative. -/
theorem send_ret (socket : anpNcclSocket) (data : List Byte) (len : Nat) :
    (send socket data len).1 = -1 ∨ 0 ≤ (send socket data len).1 := by
  unfold send
  split
  · left; rfl
  · right; exact Int.natCast_nonneg _
  · right; exact Int.natCast_nonneg _

/-- The count that `recv` returns is -1 or not negative. -/
theorem recv_ret (socket : anpNcclSocket) (len : Nat) :
    (recv socket len).1 = -1 ∨ 0 ≤ (recv socket len).1 := by
  unfold recv
  split
  · left; rfl
  · right; exact Int.natCast_nonneg _
  · right; exact Int.natCast_nonneg _

/-- A successful `anpNcclSocketSend` of a whole buffer appends the buffer to the
stream. -/
theorem anpNcclSocketSend_success (socket : anpNcclSocket) (data : List Byte) (n : Nat)
    (hlen : data.length = n)
    (h : (anpNcclSocketSend socket data (n : Int)).1 = .ncclSuccess) :
    (anpNcclSocketSend socket data (n : Int)).2.sent = socket.sent ++ data := by
  unfold anpNcclSocketSend at h ⊢
  by_cases hc : (send socket data (size_t_of_int (n : Int))).1 = -1 ∨
      (send socket data (size_t_of_int (n : Int))).1 ≠ (n : Int)
  · simp only [hc, if_true] at h
    cases h
  · simp only [hc, if_false]
    have hc2 : (send socket data (size_t_of_int (n : Int))).1 = (n : Int) := by
      by_contra h'
      exact hc (Or.inr h')
    revert hc2
    unfold send
    split
    · intro h'
      have : (0 : Int) ≤ (n : Int) := Int.natCast_nonneg _
      omega
    · rename_i k script hs
      intro h'
      have h'' : (data.take (min (size_t_of_int (n : Int)) k)).length = data.length := by
        have h3 : ((data.take (min (size_t_of_int (n : Int)) k)).length : Int) = (n : Int) := h'
        rw [hlen]; exact_mod_cast h3
      simp only
      rw [List.take_of_length_le]
      rw [List.length_take] at h''
      omega
    · intro h'
      have h'' : (data.take (size_t_of_int (n : Int))).length = data.length := by
        have h3 : ((data.take (size_t_of_int (n : Int))).length : Int) = (n : Int) := h'
        rw [hlen]; exact_mod_cast h3
      simp only
      rw [List.take_of_length_le]
      rw [List.length_take] at h''
      omega

/-- A call of `anpNcclSocketSend` with a negative size fails. -/
theorem anpNcclSocketSend_negative (socket : anpNcclSocket) (data : List Byte) (size : Int)
    (h : size < 0) : (anpNcclSocketSend socket data size).1 = .ncclInternalError := by
  unfold anpNcclSocketSend
  have hc : (send socket data (size_t_of_int size)).1 = -1 ∨
      (send socket data (size_t_of_int size)).1 ≠ size := by
    rcases send_ret socket data (size_t_of_int size) with h' | h'
    · exact Or.inl h'
    · right; omega
  simp only [hc, if_true]

/-- A call of `anpNcclSocketRecv` with a negative size fails. -/
theorem anpNcclSocketRecv_negative (socket : anpNcclSocket) (size : Int) (h : size < 0) :
    (anpNcclSocketRecv socket size).1 = .ncclInternalError := by
  unfold anpNcclSocketRecv
  by_cases h1 : (recv socket (size_t_of_int size)).1 = -1
  · simp only [h1, if_true]
  · have h2 : (recv socket (size_t_of_int size)).1 ≠ size := by
      rcases recv_ret socket (size_t_of_int size) with h' | h'
      · exact absurd h' h1
      · omega
    simp only [h1, h2, ne_eq, not_false_eq_true, if_true, if_false]

/-- On a socket whose system calls transfer everything, `anpNcclSocketSend` of a
whole buffer succeeds. -/
theorem anpNcclSocketSend_reliable (socket : anpNcclSocket) (data : List Byte) (n : Nat)
    (hs : socket.script = []) (hlen : data.length = n) (hn : n < 2 ^ 64) :
    anpNcclSocketSend socket data (n : Int)
      = (.ncclSuccess, { socket with sent := socket.sent ++ data }) := by
  unfold anpNcclSocketSend send
  rw [hs, size_t_of_int_nat n hn]
  have e : data.take n = data := List.take_of_length_le (by omega)
  simp only [e, hlen]
  have hc : ¬ ((n : Int) = -1 ∨ (n : Int) ≠ (n : Int)) := by
    have : (0 : Int) ≤ (n : Int) := Int.natCast_nonneg _
    omega
  simp only [hc, if_false]

/-- On a socket whose system calls transfer everything, `anpNcclSocketRecv` of
`n` pending bytes succeeds and takes them from the stream. -/
theorem anpNcclSocketRecv_reliable (socket : anpNcclSocket) (x rest : List Byte) (n : Nat)
    (hs : socket.script = []) (hp : socket.pending = x ++ rest) (hlen : x.length = n)
    (hn : n < 2 ^ 64) :
    anpNcclSocketRecv socket (n : Int) = (.ncclSuccess, x, { socket with pending := rest }) := by
  unfold anpNcclSocketRecv recv
  rw [hs, size_t_of_int_nat n hn, hp]
  have e1 : (x ++ rest).take n = x := by rw [← hlen]; simp
  have e2 : (x ++ rest).drop n = rest := by rw [← hlen]; simp
  simp only [e1, e2, hlen]
  have h1 : ¬ ((n : Int) = -1) := by
    have : (0 : Int) ≤ (n : Int) := Int.natCast_nonneg _
    omega
  simp only [h1, if_false, ne_eq, not_true_eq_false]

/-- The calls that `send_tlv` makes, when the length is that of the payload. -/
theorem send_tlv_eq (sock : anpNcclSocket) (t : Nat) (p : List Byte) (hn : p.length < 2 ^ 32) :
    send_tlv sock t (some p) p.length =
      if (anpNcclSocketSend sock (BE32 t) 4).1 ≠ .ncclSuccess then
        (-1, (anpNcclSocketSend sock (BE32 t) 4).2)
      else if (anpNcclSocketSend (anpNcclSocketSend sock (BE32 t) 4).2 (BE32 p.length) 4).1
          ≠ .ncclSuccess then
        (-1, (anpNcclSocketSend (anpNcclSocketSend sock (BE32 t) 4).2 (BE32 p.length) 4).2)
      else if 0 < p.length then
        if (anpNcclSocketSend (anpNcclSocketSend (anpNcclSocketSend sock (BE32 t) 4).2
            (BE32 p.length) 4).2 p (int_of_u32 p.length)).1 ≠ .ncclSuccess then
          (-1, (anpNcclSocketSend (anpNcclSocketSend (anpNcclSocketSend sock (BE32 t) 4).2
            (BE32 p.length) 4).2 p (int_of_u32 p.length)).2)
        else
          (0, (anpNcclSocketSend (anpNcclSocketSend (anpNcclSocketSend sock (BE32 t) 4).2
            (BE32 p.length) 4).2 p (int_of_u32 p.length)).2)
      else (0, (anpNcclSocketSend (anpNcclSocketSend sock (BE32 t) 4).2 (BE32 p.length) 4).2) := by
  unfold send_tlv
  simp only [Nat.mod_eq_of_lt hn, htonl_eq_BE32, gt_iff_lt]

/-- The value that `send_tlv` returns. -/
theorem send_tlv_ret (sock : anpNcclSocket) (t : Nat) (p : List Byte) (hn : p.length < 2 ^ 32) :
    ((send_tlv sock t (some p) p.length).1 = 0 ↔ sends_succeed sock t p) ∧
      ((send_tlv sock t (some p) p.length).1 = 0 ∨ (send_tlv sock t (some p) p.length).1 = -1) := by
  rw [send_tlv_eq sock t p hn]
  unfold sends_succeed
  by_cases h1 : (anpNcclSocketSend sock (BE32 t) 4).1 = .ncclSuccess
  · by_cases h2 : (anpNcclSocketSend (anpNcclSocketSend sock (BE32 t) 4).2 (BE32 p.length) 4).1
        = .ncclSuccess
    · by_cases h0 : 0 < p.length
      · by_cases h3 : (anpNcclSocketSend (anpNcclSocketSend (anpNcclSocketSend sock (BE32 t) 4).2
            (BE32 p.length) 4).2 p (int_of_u32 p.length)).1 = .ncclSuccess
        · simp [h1, h2, h0, h3]
        · simp [h1, h2, h0, h3]
      · simp [h1, h2, h0]
    · simp [h1, h2]
  · simp [h1]

/-- When `send_tlv` returns 0 the stream has received the frame of the message,
and the payload is shorter than `2^31` bytes. -/
theorem send_tlv_ok (sock : anpNcclSocket) (t : Nat) (p : List Byte) (hn : p.length < 2 ^ 32)
    (h : (send_tlv sock t (some p) p.length).1 = 0) :
    (send_tlv sock t (some p) p.length).2.sent = sock.sent ++ wire_frame (t, p) ∧
      p.length < 2 ^ 31 := by
  have hs := (send_tlv_ret sock t p hn).1.1 h
  obtain ⟨h1, h2, h3⟩ := hs
  have e1 : (anpNcclSocketSend sock (BE32 t) 4).2.sent = sock.sent ++ BE32 t :=
    anpNcclSocketSend_success sock (BE32 t) 4 rfl h1
  have e2 : (anpNcclSocketSend (anpNcclSocketSend sock (BE32 t) 4).2 (BE32 p.length) 4).2.sent
      = (anpNcclSocketSend sock (BE32 t) 4).2.sent ++ BE32 p.length :=
    anpNcclSocketSend_success (anpNcclSocketSend sock (BE32 t) 4).2 (BE32 p.length) 4 rfl h2
  rw [send_tlv_eq sock t p hn]
  have c1 : ¬ (anpNcclSocketSend sock (BE32 t) 4).1 ≠ .ncclSuccess := by simp [h1]
  have c2 : ¬ (anpNcclSocketSend (anpNcclSocketSend sock (BE32 t) 4).2 (BE32 p.length) 4).1
      ≠ .ncclSuccess := by simp [h2]
  simp only [c1, c2, if_false]
  by_cases h0 : 0 < p.length
  · have h3 := h3 h0
    have c3 : ¬ (anpNcclSocketSend (anpNcclSocketSend (anpNcclSocketSend sock (BE32 t) 4).2
        (BE32 p.length) 4).2 p (int_of_u32 p.length)).1 ≠ .ncclSuccess := by simp [h3]
    simp only [h0, c3, if_true, if_false]
    have h31 : p.length < 2 ^ 31 := by
      by_contra hge
      have hneg := int_of_u32_neg p.length (by omega) hn
      have := anpNcclSocketSend_negative (anpNcclSocketSend (anpNcclSocketSend sock (BE32 t) 4).2
        (BE32 p.length) 4).2 p _ hneg
      rw [this] at h3
      cases h3
    refine ⟨?_, h31⟩
    rw [int_of_u32_small _ h31] at h3 ⊢
    rw [anpNcclSocketSend_success _ p p.length rfl h3, e2, e1]
    simp [wire_frame]
  · simp only [h0, if_false]
    have hp : p = [] := List.length_eq_zero.1 (by omega)
    refine ⟨?_, by omega⟩
    rw [e2, e1]
    simp [wire_frame, hp]

/-- On a socket whose system calls transfer everything, every send of
`send_tlv` succeeds when the payload is shorter than `2^31` bytes. -/
theorem sends_succeed_reliable (sock : anpNcclSocket) (t : Nat) (p : List Byte)
    (hs : sock.script = []) (hn : p.length < 2 ^ 31) : sends_succeed sock t p := by
  unfold sends_succeed
  have e1 := anpNcclSocketSend_reliable sock (BE32 t) 4 hs rfl (by norm_num)
  have e1' : anpNcclSocketSend sock (BE32 t) 4
      = (.ncclSuccess, { sock with sent := sock.sent ++ BE32 t }) := e1
  rw [e1']
  have e2 := anpNcclSocketSend_reliable { sock with sent := sock.sent ++ BE32 t } (BE32 p.length) 4
    hs rfl (by norm_num)
  have e2' : anpNcclSocketSend { sock with sent := sock.sent ++ BE32 t } (BE32 p.length) 4
      = (.ncclSuccess, { sock with sent := sock.sent ++ BE32 t ++ BE32 p.length }) := e2
  simp only [e2']
  refine ⟨trivial, trivial, fun _ => ?_⟩
  rw [int_of_u32_small _ hn,
    anpNcclSocketSend_reliable { sock with sent := sock.sent ++ BE32 t ++ BE32 p.length } p
      p.length hs rfl (by omega)]

theorem send_tlv_script (sock : anpNcclSocket) (t : Nat) (p : List Byte)
    (hs : sock.script = []) : (send_tlv sock t (some p) p.length).2.script = [] := by
  have key : ∀ (s : anpNcclSocket) (data : List Byte) (size : Int), s.script = [] →
      (anpNcclSocketSend s data size).2.script = [] := by
    intro s data size h
    unfold anpNcclSocketSend send
    rw [h]
    simp only
    split <;> rfl
  unfold send_tlv
  simp only
  split
  · exact key _ _ _ hs
  · split
    · exact key _ _ _ (key _ _ _ hs)
    · split
      · split
        · exact key _ _ _ (key _ _ _ (key _ _ _ hs))
        · exact key _ _ _ (key _ _ _ (key _ _ _ hs))
      · exact key _ _ _ (key _ _ _ hs)

/-- When every `send_tlv` of a sequence returns 0 the stream has received the
frames of the messages in order. -/
theorem send_frames_ok (msgs : List (Nat × List Byte)) :
    ∀ sock : anpNcclSocket, (∀ m ∈ msgs, m.2.length < 2 ^ 32) → (send_frames sock msgs).1 = 0 →
      (send_frames sock msgs).2.sent = sock.sent ++ (msgs.map wire_frame).flatten ∧
        ∀ m ∈ msgs, m.2.length < 2 ^ 31 := by
  induction msgs with
  | nil => intro sock _ _; simp [send_frames]
  | cons m rest ih =>
    intro sock hm h
    have hm1 := hm m (by simp)
    unfold send_frames at h ⊢
    by_cases h1 : (send_tlv sock m.1 (some m.2) m.2.length).1 = 0
    · have c : ¬ (send_tlv sock m.1 (some m.2) m.2.length).1 ≠ 0 := by simp [h1]
      simp only [c, if_false] at h ⊢
      have e := send_tlv_ok sock m.1 m.2 hm1 h1
      have := ih _ (fun m' hm' => hm m' (List.mem_cons_of_mem _ hm')) h
      refine ⟨?_, ?_⟩
      · rw [this.1, e.1]
        simp
      · intro m' hm'
        rcases List.mem_cons.1 hm' with rfl | hm'
        · exact e.2
        · exact this.2 m' hm'
    · have c : (send_tlv sock m.1 (some m.2) m.2.length).1 ≠ 0 := h1
      rw [if_pos c] at h
      exact absurd h h1

/-- On a socket whose system calls transfer everything, every `send_tlv` of a
sequence of messages with payloads shorter than `2^31` bytes returns 0. -/
theorem send_frames_reliable (msgs : List (Nat × List Byte)) :
    ∀ sock : anpNcclSocket, sock.script = [] → (∀ m ∈ msgs, m.2.length < 2 ^ 31) →
      (send_frames sock msgs).1 = 0 := by
  induction msgs with
  | nil => intro sock _ _; simp [send_frames]
  | cons m rest ih =>
    intro sock hs hm
    have hm1 := hm m (by simp)
    have h1 : (send_tlv sock m.1 (some m.2) m.2.length).1 = 0 :=
      (send_tlv_ret sock m.1 m.2 (by omega)).1.2 (sends_succeed_reliable sock m.1 m.2 hs hm1)
    unfold send_frames
    have c : ¬ (send_tlv sock m.1 (some m.2) m.2.length).1 ≠ 0 := by simp [h1]
    simp only [c, if_false]
    exact ih _ (send_tlv_script sock m.1 m.2 hs) (fun m' hm' => hm m' (List.mem_cons_of_mem _ hm'))

/-- The header that `recv_tlv` reads on a socket whose system calls transfer
everything. -/
theorem recv_tlv_reliable (sock : anpNcclSocket) (t n : Nat) (rest : List Byte)
    (hs : sock.script = []) (hp : sock.pending = BE32 t ++ BE32 n ++ rest)
    (ht : t < 2 ^ 32) (hn : n < 2 ^ 32) :
    recv_tlv sock 0 none 0 =
      { ret := 0, msg_type := t, payload_size := n, payload := none,
        sock := { sock with pending := rest } } := by
  have e1 := anpNcclSocketRecv_reliable sock (BE32 t) (BE32 n ++ rest) 4 hs
    (by rw [hp]; simp) rfl (by norm_num)
  have e1' : anpNcclSocketRecv sock 4
      = (.ncclSuccess, BE32 t, { sock with pending := BE32 n ++ rest }) := e1
  have e2 := anpNcclSocketRecv_reliable { sock with pending := BE32 n ++ rest } (BE32 n) rest 4 hs
    rfl rfl (by norm_num)
  have e2' : anpNcclSocketRecv { sock with pending := BE32 n ++ rest } 4
      = (.ncclSuccess, BE32 n, { sock with pending := rest }) := e2
  unfold recv_tlv
  simp only [e1', e2', ne_eq, not_true_eq_false, if_false, ntohl_BE32, Nat.mod_eq_of_lt ht,
    Nat.mod_eq_of_lt hn]

/-- The message that `recv_frame` reads on a socket whose system calls transfer
everything. -/
theorem recv_frame_reliable (sock : anpNcclSocket) (t : Nat) (p rest : List Byte)
    (hs : sock.script = []) (hp : sock.pending = wire_frame (t, p) ++ rest)
    (ht : t < 2 ^ 32) (hn : p.length < 2 ^ 31) :
    recv_frame sock = (some (t, p), { sock with pending := rest }) := by
  have hh := recv_tlv_reliable sock t p.length (p ++ rest) hs
    (by rw [hp]; simp [wire_frame]) ht (by omega)
  unfold recv_frame
  simp only [hh, ne_eq, not_true_eq_false, if_false]
  by_cases h0 : 0 < p.length
  · have e := anpNcclSocketRecv_reliable { sock with pending := p ++ rest } p rest p.length hs
      rfl rfl (by omega)
    simp only [gt_iff_lt, h0, if_true, int_of_u32_small _ hn, e, ne_eq, not_true_eq_false, if_false]
  · have hp0 : p = [] := List.length_eq_zero.1 (by omega)
    subst hp0
    simp

/-- The messages that `recv_frames` reads on a socket whose system calls
transfer everything. -/
theorem recv_frames_reliable (msgs : List (Nat × List Byte)) :
    ∀ (sock : anpNcclSocket) (rest : List Byte), sock.script = [] →
      sock.pending = (msgs.map wire_frame).flatten ++ rest →
      (∀ m ∈ msgs, m.1 < 2 ^ 32 ∧ m.2.length < 2 ^ 31) →
      recv_frames sock msgs.length = (some msgs, { sock with pending := rest }) := by
  induction msgs with
  | nil =>
    intro sock rest _ hp _
    simp only [List.map_nil, List.flatten_nil, List.nil_append] at hp
    simp [recv_frames, ← hp]
  | cons m ms ih =>
    intro sock rest hs hp hm
    have hm1 := hm m (by simp)
    have e := recv_frame_reliable sock m.1 m.2 ((ms.map wire_frame).flatten ++ rest) hs
      (by rw [hp]; simp) hm1.1 hm1.2
    have ih' := ih { sock with pending := (ms.map wire_frame).flatten ++ rest } rest hs rfl
      (fun m' hm' => hm m' (List.mem_cons_of_mem _ hm'))
    simp only [List.length_cons, recv_frames, e, ih']

/-- The single `recv` of `anpNcclSocketRecv`: the call succeeds exactly when
`recv` returns the size asked for. -/
theorem anpNcclSocketRecv_eq (sock : anpNcclSocket) (n : Nat) (hn : n < 2 ^ 64) :
    anpNcclSocketRecv sock (n : Int) =
      (if (recv sock n).1 = (n : Int) then .ncclSuccess else .ncclInternalError,
        (recv sock n).2.1, (recv sock n).2.2) := by
  unfold anpNcclSocketRecv
  rw [size_t_of_int_nat n hn]
  simp only
  by_cases h1 : (recv sock n).1 = -1
  · have h2 : ¬ (recv sock n).1 = (n : Int) := by
      have : (0 : Int) ≤ (n : Int) := Int.natCast_nonneg _
      omega
    rw [if_pos h1, if_neg h2]
  · rw [if_neg h1]
    by_cases h2 : (recv sock n).1 = (n : Int)
    · rw [if_neg (not_not.2 h2), if_pos h2]
    · rw [if_pos h2, if_neg h2]

/-! ## The rules of a host -/

theorem for_range_from_extend {α : Type} (body : Nat → List α → Run (List α))
    (f : Nat → List α) :
    ∀ (k j : Nat) (acc : List α),
      (∀ i, j ≤ i → i < j + k → ∀ b, body i b = .ok (b ++ f i)) →
      for_range_from body k j acc = .ok (acc ++ ((List.range' j k).map f).flatten) := by
  intro k
  induction k with
  | zero => intro j acc _; simp [for_range_from]
  | succ k ih =>
    intro j acc h
    rw [for_range_from, h j (Nat.le_refl j) (by omega)]
    simp only
    rw [ih (j + 1) _ (fun i h1 h2 b => h i (by omega) (by omega) b)]
    simp [List.range'_succ]

theorem for_range_extend {α : Type} (body : Nat → List α → Run (List α)) (f : Nat → List α)
    (n : Nat) (acc : List α) (h : ∀ i, i < n → ∀ b, body i b = .ok (b ++ f i)) :
    for_range n body acc = .ok (acc ++ ((List.range n).map f).flatten) := by
  unfold for_range
  rw [for_range_from_extend body f n 0 acc (fun i _ h2 b => h i (by omega) b),
    List.range_eq_range']

/-- The rules that the two nested loops dispatch for a host whose counts fit
its arrays: for each device and each planar interface in order, `first` then
`second` when both addresses are nonzero. -/
theorem apply_host_rules_eq (first second : List Byte → List Byte → List Byte → IptablesRule)
    (host : host_t) (hv : host.valid) (issued : List IptablesRule) :
    apply_host_rules first second host issued = .ok (issued ++
      ((List.range host.num_devices.toNat).map (fun i =>
        ((List.range (host.devices i).num_interfaces.toNat).map (fun j =>
          if s_addr_nonzero ((host.devices i).planar_intfs j).ipv4_addr
              && s_addr_nonzero (host.devices i).virtual_ip then
            [first (inet_ntop4 (host.devices i).virtual_ip)
                (inet_ntop4 ((host.devices i).planar_intfs j).ipv4_addr)
                (c_str ((host.devices i).planar_intfs j).name),
              second (inet_ntop4 (host.devices i).virtual_ip)
                (inet_ntop4 ((host.devices i).planar_intfs j).ipv4_addr)
                (c_str ((host.devices i).planar_intfs j).name)]
          else [])).flatten)).flatten) := by
  unfold apply_host_rules
  apply for_range_extend
  intro i hi b
  have hlt : i < MAX_DEVICES := by
    have h1 := hv.1
    have : (i : Int) < host.num_devices := by omega
    have : (i : Int) < (MAX_DEVICES : Int) := by omega
    exact_mod_cast this
  have hd := hv.2 i hi
  simp only [index, if_pos hlt, Run.ok_bind]
  apply for_range_extend
  intro j hj b
  have hlt2 : j < MAX_INTERFACES := by
    have h1 := hd.2.1
    have : (j : Int) < (host.devices i).num_interfaces := by omega
    have : (j : Int) < (MAX_INTERFACES : Int) := by omega
    exact_mod_cast this
  have hp := hd.2.2 j hj
  simp only [if_pos hlt2, Run.ok_bind]
  by_cases hc : (s_addr_nonzero ((host.devices i).planar_intfs j).ipv4_addr
      && s_addr_nonzero (host.devices i).virtual_ip) = true
  · simp only [hc, if_true, strlen_eq hp.2, Run.ok_bind, Run.pure_eq]
  · simp only [hc, if_false, Run.pure_eq, List.append_nil]
    simp

/-! ## The rules of a database in closed form -/

theorem for_each_extend {α β : Type} (body : α → List β → Run (List β)) (f : α → List β) :
    ∀ (l : List α) (acc : List β), (∀ a ∈ l, ∀ b, body a b = .ok (b ++ f a)) →
      for_each l body acc = .ok (acc ++ (l.map f).flatten) := by
  intro l
  induction l with
  | nil => intro acc _; simp [for_each]
  | cons a l ih =>
    intro acc h
    rw [for_each, h a (List.mem_cons_self _ _)]
    simp only
    rw [ih _ (fun x hx b => h x (List.mem_cons_of_mem _ hx) b)]
    simp

theorem flatten_map_ite {α β : Type} (c : α → Bool) (f : α → List β) (l : List α) :
    (l.map (fun a => if c a = true then f a else [])).flatten = ((l.filter c).map f).flatten := by
  induction l with
  | nil => rfl
  | cons a l ih =>
    by_cases h : c a = true
    · simp [List.filter_cons, h, ih]
    · simp [List.filter_cons, h, ih]

theorem flatten_map_flatten {α β : Type} (r : α → List β) (L : List (List α)) :
    (L.flatten.map r).flatten = (L.map (fun l => (l.map r).flatten)).flatten := by
  induction L with
  | nil => rfl
  | cons l L ih =>
    simp only [List.flatten_cons, List.map_append, List.flatten_append, List.map_cons, ih]

/-- Membership in the eligible pairs of a host. -/
theorem mem_eligible (host : host_t) (i j : Nat) :
    (i, j) ∈ eligible host ↔
      i < host.num_devices.toNat ∧ j < (host.devices i).num_interfaces.toNat ∧
        s_addr_nonzero ((host.devices i).planar_intfs j).ipv4_addr = true ∧
        s_addr_nonzero (host.devices i).virtual_ip = true := by
  unfold eligible
  constructor
  · intro h
    obtain ⟨l, hl, hm⟩ := List.mem_flatten.1 h
    obtain ⟨i', hi', rfl⟩ := List.mem_map.1 hl
    obtain ⟨j', hj', e⟩ := List.mem_map.1 hm
    simp only [Prod.mk.injEq] at e
    obtain ⟨rfl, rfl⟩ := e
    have h2 := List.mem_filter.1 hj'
    simp only [Bool.and_eq_true] at h2
    exact ⟨List.mem_range.1 hi', List.mem_range.1 h2.1, h2.2.1, h2.2.2⟩
  · rintro ⟨hi, hj, h1, h2⟩
    apply List.mem_flatten.2
    refine ⟨_, List.mem_map.2 ⟨i, List.mem_range.2 hi, rfl⟩, ?_⟩
    apply List.mem_map.2
    refine ⟨j, List.mem_filter.2 ⟨List.mem_range.2 hj, ?_⟩, rfl⟩
    simp only [h1, h2, Bool.and_self]

/-- The rules that the two nested loops dispatch for a host, on its eligible
pairs. -/
theorem apply_host_rules_eligible
    (first second : List Byte → List Byte → List Byte → IptablesRule)
    (host : host_t) (hv : host.valid) (issued : List IptablesRule) :
    apply_host_rules first second host issued
      = .ok (issued ++ ((eligible host).map (rules_at first second host)).flatten) := by
  rw [apply_host_rules_eq first second host hv issued]
  congr 2
  unfold eligible
  rw [flatten_map_flatten, List.map_map]
  congr 1
  apply List.map_congr_left
  intro i _
  simp only [Function.comp]
  rw [List.map_map]
  exact flatten_map_ite _ (fun j => rules_at first second host (i, j)) _

theorem map_find_mem {κ ν : Type} [DecidableEq κ] (m : List (κ × ν)) (k : κ) (v : ν)
    (h : map_find m k = some v) : (k, v) ∈ m := by
  unfold map_find at h
  cases hf : m.find? (fun p => decide (p.1 = k)) with
  | none => rw [hf] at h; cases h
  | some p =>
    rw [hf] at h
    simp only [Option.map_some', Option.some.injEq] at h
    have h1 := List.find?_some hf
    have h2 := List.mem_of_find?_eq_some hf
    simp only [decide_eq_true_eq] at h1
    subst h
    obtain ⟨a, b⟩ := p
    simp only at h1
    subst h1
    exact h2

/-- The rules of `apply_local_vip_iptables_rule`. -/
theorem apply_local_vip_iptables_rule_eq (db : host_db_t) (hv : ∀ p ∈ db.all_hosts, p.2.valid)
    (issued : List IptablesRule) :
    apply_local_vip_iptables_rule db issued = .ok (issued ++ local_rules db) := by
  unfold apply_local_vip_iptables_rule local_rules
  cases hf : map_find db.all_hosts db.local_ip with
  | none => simp
  | some host =>
    simp only
    exact apply_host_rules_eligible _ _ host (hv _ (map_find_mem _ _ _ hf)) issued

/-- The rules of `apply_remote_vip_iptables_rule`. -/
theorem apply_remote_vip_iptables_rule_eq (db : host_db_t)
    (hv : ∀ p ∈ db.all_hosts, p.2.valid) (issued : List IptablesRule) :
    apply_remote_vip_iptables_rule db issued = .ok (issued ++ remote_rules db) := by
  unfold apply_remote_vip_iptables_rule remote_rules
  rw [for_each_extend _ (fun p => if p.1 = db.local_ip then []
      else ((eligible p.2).map (rules_at add_tx_dnat_rules add_rx_snat_rules p.2)).flatten)]
  · congr 2
    have := flatten_map_ite (fun p : List Byte × host_t => decide (p.1 ≠ db.local_ip))
      (fun p => ((eligible p.2).map (rules_at add_tx_dnat_rules add_rx_snat_rules p.2)).flatten)
      db.all_hosts
    rw [← this]
    congr 1
    apply List.map_congr_left
    intro p _
    by_cases h : p.1 = db.local_ip <;> simp [h]
  · intro p hp b
    by_cases h : p.1 = db.local_ip
    · simp [h, Run.pure_eq]
    · simp only [h, if_false]
      exact apply_host_rules_eligible _ _ p.2 (hv p hp) b

/-- The rules of the programming step of `run_root_node` and `run_leaf_node`. -/
theorem program_rules_eq (db : host_db_t) (hv : ∀ p ∈ db.all_hosts, p.2.valid) :
    program_rules db = .ok (local_rules db ++ remote_rules db) := by
  unfold program_rules
  rw [apply_local_vip_iptables_rule_eq db hv []]
  simp only [Run.ok_bind, List.nil_append]
  exact apply_remote_vip_iptables_rule_eq db hv _

theorem length_rules_flatten (first second : List Byte → List Byte → List Byte → IptablesRule)
    (host : host_t) (l : List (Nat × Nat)) :
    ((l.map (rules_at first second host)).flatten).length = 2 * l.length := by
  induction l with
  | nil => rfl
  | cons a l ih => simp [rules_at, ih]; omega

/-- In a map with pairwise distinct keys, a sum over the entries is the term of
the entry under `k` plus the sum over the other entries. -/
theorem map_sum_split {κ ν : Type} [DecidableEq κ] (f : κ × ν → Nat) (k : κ) (v : ν) :
    ∀ m : List (κ × ν), (m.map (fun p => p.1)).Nodup → map_find m k = some v →
      (m.map f).sum = f (k, v) + ((m.filter (fun p => p.1 ≠ k)).map f).sum := by
  intro m
  induction m with
  | nil => intro _ h; simp [map_find] at h
  | cons p m ih =>
    intro hn hf
    simp only [List.map_cons, List.nodup_cons] at hn
    by_cases hk : p.1 = k
    · have hv : p.2 = v := by
        simp [map_find, List.find?_cons, hk] at hf
        exact hf
      have hp : p = (k, v) := by
        obtain ⟨a, b⟩ := p
        simp only at hk hv
        rw [hk, hv]
      have hall : m.filter (fun q => !decide (q.1 = k)) = m := by
        apply List.filter_eq_self.2
        intro q hq
        simp only [Bool.not_eq_true', decide_eq_false_iff_not]
        intro hqk
        apply hn.1
        rw [hk, ← hqk]
        exact List.mem_map.2 ⟨q, hq, rfl⟩
      simp [List.filter_cons, hk, hall, hp]
    · have hf' : map_find m k = some v := by
        simp [map_find, List.find?_cons, hk] at hf
        simpa [map_find] using hf
      have := ih hn.2 hf'
      simp [List.filter_cons, hk, this]
      omega

theorem eligible_with_ipv6 (host : host_t) (g : Nat → Nat → Nat → Byte) :
    eligible (host.with_ipv6 g) = eligible host := rfl

theorem rules_at_with_ipv6 (first second : List Byte → List Byte → List Byte → IptablesRule)
    (host : host_t) (g : Nat → Nat → Nat → Byte) (ij : Nat × Nat) :
    rules_at first second (host.with_ipv6 g) ij = rules_at first second host ij := rfl

theorem with_ipv6_valid (host : host_t) (g : Nat → Nat → Nat → Byte) (hv : host.valid) :
    (host.with_ipv6 g).valid := hv

theorem map_find_map {κ ν : Type} [DecidableEq κ] (f : κ → ν → ν) (m : List (κ × ν)) (k : κ) :
    map_find (m.map (fun p => (p.1, f p.1 p.2))) k = (map_find m k).map (f k) := by
  induction m with
  | nil => rfl
  | cons p m ih =>
    unfold map_find at ih ⊢
    by_cases hk : p.1 = k
    · simp [List.find?_cons, hk]
    · simp only [List.map_cons, List.find?_cons, hk, decide_False]
      exact ih

/-- The rules do not depend on the IPv6 addresses. -/
theorem program_rules_with_ipv6 (db : host_db_t) (g : List Byte → Nat → Nat → Nat → Byte)
    (hv : ∀ p ∈ db.all_hosts, p.2.valid) :
    program_rules (db.with_ipv6 g) = program_rules db := by
  have hv' : ∀ p ∈ (db.with_ipv6 g).all_hosts, p.2.valid := by
    intro p hp
    simp only [host_db_t.with_ipv6, List.mem_map] at hp
    obtain ⟨q, hq, rfl⟩ := hp
    exact with_ipv6_valid _ _ (hv q hq)
  rw [program_rules_eq db hv, program_rules_eq _ hv']
  congr 2
  · unfold local_rules
    have e := map_find_map (fun k h => host_t.with_ipv6 h (g k)) db.all_hosts db.local_ip
    have e' : map_find (db.with_ipv6 g).all_hosts (db.with_ipv6 g).local_ip
        = (map_find db.all_hosts db.local_ip).map (fun h => h.with_ipv6 (g db.local_ip)) := e
    rw [e']
    cases map_find db.all_hosts db.local_ip with
    | none => rfl
    | some host => rfl
  · unfold remote_rules
    simp only [host_db_t.with_ipv6, List.filter_map, List.map_map]
    rfl

/-- The two rules of an eligible interface stand next to each other in the list
of the rules of the host. -/
theorem rules_at_in_host_rules (first second : List Byte → List Byte → List Byte → IptablesRule)
    (host : host_t) (i j : Nat) (h : (i, j) ∈ eligible host) :
    ∃ pre post, ((eligible host).map (rules_at first second host)).flatten
      = pre ++ rules_at first second host (i, j) ++ post := by
  obtain ⟨s, t, e⟩ := List.append_of_mem h
  rw [e]
  refine ⟨(s.map (rules_at first second host)).flatten,
    (t.map (rules_at first second host)).flatten, ?_⟩
  simp

/-! ## The index maps are never written -/

theorem insert_host_maps (db : host_db_t) (host : host_t) :
    (insert_host db host).planar_to_virtual_map = db.planar_to_virtual_map ∧
      (insert_host db host).virtual_to_planar_map = db.virtual_to_planar_map :=
  ⟨rfl, rfl⟩

theorem foldl_insert_host_maps (responses : List host_t) :
    ∀ db : host_db_t,
      (responses.foldl insert_host db).planar_to_virtual_map = db.planar_to_virtual_map ∧
        (responses.foldl insert_host db).virtual_to_planar_map = db.virtual_to_planar_map := by
  induction responses with
  | nil => intro db; exact ⟨rfl, rfl⟩
  | cons h rest ih => intro db; exact ih (insert_host db h)

theorem root_host_db_maps (db0 : host_db_t) (host : host_t) (responses : List host_t) :
    (root_host_db db0 host responses).planar_to_virtual_map = db0.planar_to_virtual_map ∧
      (root_host_db db0 host responses).virtual_to_planar_map = db0.virtual_to_planar_map := by
  unfold root_host_db
  exact foldl_insert_host_maps responses _

theorem deserialize_all_hosts_maps (fresh : Nat → host_t) (db db' : host_db_t)
    (buffer : List Byte) (h : deserialize_all_hosts fresh db buffer = .ok db') :
    db'.planar_to_virtual_map = db.planar_to_virtual_map ∧
      db'.virtual_to_planar_map = db.virtual_to_planar_map := by
  unfold deserialize_all_hosts at h
  simp only [Nat.zero_add] at h
  obtain ⟨n, _, h⟩ := (Run.bind_eq_ok _ _ _).1 h
  obtain ⟨r, _, h⟩ := (Run.bind_eq_ok _ _ _).1 h
  simp only [Run.pure_eq, Run.ok.injEq] at h
  subst h
  exact ⟨rfl, rfl⟩

theorem leaf_host_db_maps (fresh : Nat → host_t) (db0 db : host_db_t) (host : host_t)
    (compbuf : List Byte) (h : leaf_host_db fresh db0 host compbuf = .ok db) :
    db.planar_to_virtual_map = db0.planar_to_virtual_map ∧
      db.virtual_to_planar_map = db0.virtual_to_planar_map := by
  unfold leaf_host_db at h
  by_cases hc : compbuf.length > 0
  · simp only [hc, if_true] at h
    exact deserialize_all_hosts_maps fresh { db0 with local_ip := string_c_str host.host_ip } db
      compbuf h
  · simp only [hc, if_false, Run.ok.injEq] at h
    subst h
    exact ⟨rfl, rfl⟩

/-! ## The backend probe -/

theorem detect_cached (popen : Nat → Option (List Byte)) (p : process)
    (h : p.iptables_backend ≠ []) : detect_iptables_backend popen p = (p.iptables_backend, p) := by
  unfold detect_iptables_backend
  rw [if_pos h]

theorem detect_calls_cached (popen : Nat → Option (List Byte)) (p : process)
    (h : p.iptables_backend ≠ []) (n : Nat) :
    detect_calls popen n p = (List.replicate n p.iptables_backend, p) := by
  induction n with
  | zero => rfl
  | succ n ih =>
    unfold detect_calls
    rw [detect_cached popen p h]
    simp only [ih, List.replicate_succ]

/-- A probe that delivers bytes fills the cache with the value returned. -/
theorem detect_probed (popen : Nat → Option (List Byte)) (p : process) (pipe : List Byte)
    (h : p.iptables_backend = []) (hp : popen p.popen_calls = some pipe) :
    (detect_iptables_backend popen p).2.iptables_backend = (detect_iptables_backend popen p).1 ∧
      (detect_iptables_backend popen p).1 ≠ [] ∧
      (detect_iptables_backend popen p).2.popen_calls = p.popen_calls + 1 := by
  unfold detect_iptables_backend
  have h' : ¬ p.iptables_backend ≠ [] := by simp [h]
  rw [if_neg h', hp]
  simp only
  have h1 : ascii "nf_tables" ≠ [] := by decide
  have h2 : ascii "legacy" ≠ [] := by decide
  have h3 : ascii "unknown" ≠ [] := by decide
  split
  · exact ⟨rfl, h1, rfl⟩
  · split
    · exact ⟨rfl, h2, rfl⟩
    · exact ⟨rfl, h3, rfl⟩

/-- A probe that fails leaves the cache empty. -/
theorem detect_failed (popen : Nat → Option (List Byte)) (p : process)
    (h : p.iptables_backend = []) (hp : popen p.popen_calls = none) :
    detect_iptables_backend popen p
      = (ascii "unknown", { p with popen_calls := p.popen_calls + 1 }) := by
  unfold detect_iptables_backend
  have h' : ¬ p.iptables_backend ≠ [] := by simp [h]
  rw [if_neg h', hp]

/-! ## The commands of the wrapper -/

theorem head_append : ascii "iptables -t nat -A "
    = [105, 112, 116, 97, 98, 108, 101, 115, 32, 45, 116, 32, 110, 97, 116, 32, 45, 65, 32] := by
  decide

theorem head_check : ascii "iptables -t nat -C "
    = [105, 112, 116, 97, 98, 108, 101, 115, 32, 45, 116, 32, 110, 97, 116, 32, 45, 67, 32] := by
  decide

theorem head_ca : ascii "iptables -t nat CA "
    = [105, 112, 116, 97, 98, 108, 101, 115, 32, 45, 116, 32, 110, 97, 116, 32, 67, 65, 32] := by
  decide

theorem head_nft : ascii "nft add rule ip nat "
    = [110, 102, 116, 32, 97, 100, 100, 32, 114, 117, 108, 101, 32, 105, 112, 32, 110, 97, 116,
       32] := by
  decide

/-- The first `" -A "` of an append command on the table `nat` is at position
15. -/
theorem find_append (rest : List Byte) :
    find (ascii "iptables -t nat -A " ++ rest) (ascii " -A ") = some 15 := by
  have hn : ascii " -A " = [32, 45, 65, 32] := by decide
  rw [head_append, hn]
  simp [find, starts_with]

/-- The check command of an append command on the table `nat`: the character
after the position found, which is the dash, is replaced by `C`. -/
theorem check_command_append (rest : List Byte) :
    check_command (ascii "iptables -t nat -A " ++ rest) = ascii "iptables -t nat CA " ++ rest := by
  unfold check_command
  rw [find_append]
  have hC : ascii "C" = [67] := by decide
  simp only [replace1]
  rw [head_append, head_ca, hC]
  simp

theorem append_ite {α : Type} (c : Prop) [Decidable c] (x y : List α) :
    (if c then x ++ y else x) = x ++ (if c then y else []) := by
  by_cases h : c <;> simp [h]

theorem ite_append {α : Type} (c : Prop) [Decidable c] (x y z : List α) :
    (if c then x ++ y else x ++ z) = x ++ (if c then y else z) := by
  by_cases h : c <;> simp [h]

/-- The command that `construct_iptables_command` builds for a rule on the table
`nat`, and the command for the same rule with the action `C`. -/
theorem construct_iptables_command_nat (rule : IptablesRule) (ha : rule.action = ascii "A")
    (ht : rule.table = ascii "nat") :
    ∃ rest, construct_iptables_command rule = ascii "iptables -t nat -A " ++ rest ∧
      construct_iptables_command { rule with action := ascii "C" }
        = ascii "iptables -t nat -C " ++ rest := by
  have e1 : ascii "iptables -t " ++ ascii "nat" ++ ascii " -" ++ ascii "A" ++ ascii " "
      = ascii "iptables -t nat -A " := by decide
  have e2 : ascii "iptables -t " ++ ascii "nat" ++ ascii " -" ++ ascii "C" ++ ascii " "
      = ascii "iptables -t nat -C " := by decide
  refine ⟨rule.chain ++
    (if rule.match_type ≠ [] ∧ rule.match_value ≠ [] then
      (if rule.match_type = ascii "SIP" then ascii " -s " else ascii " -d ") ++ rule.match_value
     else []) ++
    (if rule.iface_name ≠ [] then
      (if rule.iface_type = ascii "in" then ascii " -i " else ascii " -o ") ++ rule.iface_name
     else []) ++
    (if rule.jump_target ≠ [] then
      ascii " -j " ++ rule.jump_target ++
        (if rule.translate_ip ≠ [] then
          (if rule.jump_target = ascii "SNAT" then ascii " --to-source " ++ rule.translate_ip
           else if rule.jump_target = ascii "DNAT" then
             ascii " --to-destination " ++ rule.translate_ip
           else [])
         else [])
     else []), ?_, ?_⟩
  · unfold construct_iptables_command
    rw [ha, ht, ← e1]
    simp only [append_ite, ite_append, List.append_assoc]
  · unfold construct_iptables_command
    simp only
    rw [ht, ← e2]
    simp only [append_ite, ite_append, List.append_assoc]

theorem string_c_str_append (head rest : List Byte) (h : ∀ b ∈ head, b ≠ 0) :
    string_c_str (head ++ rest) = head ++ string_c_str rest := by
  unfold string_c_str
  induction head with
  | nil => rfl
  | cons c head ih =>
    have hc : c ≠ 0 := h c (List.mem_cons_self _ _)
    simp only [List.cons_append, List.takeWhile_cons, hc, ne_eq, not_false_eq_true, decide_True,
      if_true]
    rw [ih (fun b hb => h b (List.mem_cons_of_mem _ hb))]

/-- The packet filter rejects the command with `CA`. -/
theorem packet_filter_ca (x : List Byte) (installed : List (List Byte)) :
    packet_filter (ascii "iptables -t nat CA " ++ x) installed = (256, installed) := by
  unfold packet_filter
  rw [head_ca, head_check, head_append, head_nft]
  simp [strip_head]

/-- The packet filter appends the rule of an append command. -/
theorem packet_filter_append (x : List Byte) (installed : List (List Byte)) :
    packet_filter (ascii "iptables -t nat -A " ++ x) installed = (0, installed ++ [x]) := by
  unfold packet_filter
  rw [head_check, head_append]
  simp [strip_head]

/-- What `execute_iptables_command` does for a rule with the action `A` when the
cached backend is not `nf_tables`: it runs the check command and, when the
status is not 0, the command itself. -/
theorem execute_iptables_command_legacy {κ : Type} (popen : Nat → Option (List Byte))
    (sh : List Byte → κ → Int × κ) (rule : IptablesRule) (m : machine κ)
    (hb : m.proc.iptables_backend ≠ []) (hnf : m.proc.iptables_backend ≠ ascii "nf_tables")
    (ha : rule.action = ascii "A") :
    execute_iptables_command popen sh rule m =
      if (system sh (check_command (construct_iptables_command rule)) m).1 = 0 then
        (0, (system sh (check_command (construct_iptables_command rule)) m).2)
      else
        (if (system sh (construct_iptables_command rule)
              (system sh (check_command (construct_iptables_command rule)) m).2).1 = 0 then 0
          else -1,
          (system sh (construct_iptables_command rule)
            (system sh (check_command (construct_iptables_command rule)) m).2).2) := by
  unfold execute_iptables_command
  rw [detect_cached popen m.proc hb]
  simp only [hnf, if_false, ha, true_and, rule_exists, decide_eq_true_eq, if_true]

/-- What `execute_iptables_command` leaves in the packet filter for a rule of the
four helpers on the legacy backend: the rule is appended whatever is installed. -/
theorem execute_legacy_appends (popen : Nat → Option (List Byte))
    (f : List Byte → List Byte → List Byte → IptablesRule) (hf : f ∈ add_rules_helpers)
    (v p n : List Byte) :
    ∃ text, string_c_str (construct_iptables_command (f v p n))
        = ascii "iptables -t nat -A " ++ text ∧
      ∀ installed, (execute_iptables_command popen packet_filter (f v p n)
        (machine_with (ascii "legacy") installed)).2.kernel = installed ++ [text] := by
  have ha : (f v p n).action = ascii "A" ∧ (f v p n).table = ascii "nat" := by
    simp only [add_rules_helpers, List.mem_cons, List.mem_singleton, List.not_mem_nil,
      or_false] at hf
    rcases hf with rfl | rfl | rfl | rfl <;> exact ⟨rfl, rfl⟩
  obtain ⟨rest, e, _⟩ := construct_iptables_command_nat (f v p n) ha.1 ha.2
  have hA : ∀ b ∈ ascii "iptables -t nat -A ", b ≠ 0 := by decide
  have hCA : ∀ b ∈ ascii "iptables -t nat CA ", b ≠ 0 := by decide
  refine ⟨string_c_str rest, by rw [e, string_c_str_append _ _ hA], ?_⟩
  intro installed
  rw [execute_iptables_command_legacy popen packet_filter (f v p n) _
    (show ascii "legacy" ≠ [] by decide) (show ascii "legacy" ≠ ascii "nf_tables" by decide)
    ha.1, e, check_command_append]
  simp only [system, string_c_str_append _ _ hA, string_c_str_append _ _ hCA, packet_filter_ca,
    packet_filter_append, machine_with]
  simp

/-! ## `parse_planar_config` -/

theorem for_range_from_unit (body : Nat → Unit → Run Unit) :
    ∀ (k j : Nat), (∀ i, j ≤ i → i < j + k → body i () = .ok ()) →
      for_range_from body k j () = .ok () := by
  intro k
  induction k with
  | zero => intro j _; rfl
  | succ k ih =>
    intro j h
    rw [for_range_from, h j (Nat.le_refl j) (by omega)]
    exact ih (j + 1) (fun i h1 h2 => h i (by omega) (by omega))

theorem for_range_unit (n : Nat) (body : Nat → Unit → Run Unit)
    (h : ∀ i, i < n → body i () = .ok ()) : for_range n body () = .ok () := by
  unfold for_range
  exact for_range_from_unit body n 0 (fun i _ h2 => h i (by omega))

/-- The function `print_planar_config` returns when every entry of `devices` holds
C strings and a count that fits. -/
theorem print_planar_config_ok (host : host_t) (h : ∀ i, i < MAX_DEVICES → (host.devices i).valid) :
    print_planar_config host = .ok ANP_SUCCESS := by
  unfold print_planar_config
  rw [for_range_unit]
  · rfl
  · intro i hi
    have hd := h i hi
    simp only [index, if_pos hi, Run.ok_bind, strlen_eq hd.1]
    apply for_range_unit
    intro j hj
    have hlt : j < MAX_INTERFACES := by
      have h1 := hd.2.1
      have : (j : Int) < (host.devices i).num_interfaces := by omega
      have : (j : Int) < (MAX_INTERFACES : Int) := by omega
      exact_mod_cast this
    have hp := hd.2.2 j hj
    simp only [if_pos hlt, Run.ok_bind, strlen_eq hp.1, strlen_eq hp.2, Run.pure_eq]

theorem first_63_length (s : List Byte) : (first_63 s).length ≤ MAX_STR_LEN - 1 := by
  unfold first_63
  rw [List.length_take]
  exact Nat.min_le_left _ _

theorem first_63_nul_free (s : List Byte) : ∀ b ∈ first_63 s, b ≠ 0 := by
  intro b hb
  have h1 : b ∈ string_c_str s := List.mem_of_mem_take hb
  unfold string_c_str at h1
  simpa using List.mem_takeWhile_imp h1

theorem first_63_of_nul_free (s : List Byte) (h : ∀ b ∈ s, b ≠ 0) :
    first_63 s = s.take (MAX_STR_LEN - 1) := by
  unfold first_63 string_c_str
  congr 1
  apply List.takeWhile_eq_self_iff.2
  intro b hb
  simpa using h b hb

/-- The array that `strncpy` of at most 63 bytes leaves in a zeroed array of 64
bytes: a C string, the first 63 bytes of the source. -/
theorem strncpy_zeros (s : List Byte) :
    c_str (strncpy zeros s (MAX_STR_LEN - 1)) = first_63 s ∧
      terminated (strncpy zeros s (MAX_STR_LEN - 1)) := by
  have hlen := first_63_length s
  have hval : ∀ i, i < MAX_STR_LEN - 1 →
      strncpy zeros s (MAX_STR_LEN - 1) i = (first_63 s).getD i 0 := by
    intro i hi
    simp only [strncpy, hi, if_true, first_63, List.getD_eq_getElem?_getD, List.getElem?_take,
      hi]
  have h63 : strncpy zeros s (MAX_STR_LEN - 1) (MAX_STR_LEN - 1) = 0 := by
    simp [strncpy, zeros]
  constructor
  · unfold c_str mem_bytes
    rw [takeWhile_first_nul _ (first_63 s).length MAX_STR_LEN
      (by have : MAX_STR_LEN = 64 := rfl; omega)]
    · conv_rhs => rw [← mem_bytes_getD (first_63 s)]
      apply mem_bytes_congr
      intro i hi
      exact hval i (by omega)
    · intro i hi
      rw [hval i (by omega)]
      apply first_63_nul_free s
      rw [List.getD_eq_getElem?_getD, List.getElem?_eq_getElem hi]
      simp
    · rcases Nat.lt_or_ge (first_63 s).length (MAX_STR_LEN - 1) with hlt | hge
      · rw [hval _ hlt, List.getD_eq_getElem?_getD, List.getElem?_eq_none (Nat.le_refl _)]
        rfl
      · have : (first_63 s).length = MAX_STR_LEN - 1 := by omega
        rw [this]
        exact h63
  · unfold terminated mem_bytes
    exact List.mem_map.2 ⟨MAX_STR_LEN - 1, List.mem_range.2 (by decide), h63⟩

/-- An entry of `planar_intfs` with all its keys is stored without exception. -/
theorem parse_planar_intf_complete (inet_pton6 : List Byte → Option (Nat → Byte))
    (e : planar_node) (h : e.complete) :
    (parse_planar_intf inet_pton6 e).2 = false ∧
      (parse_planar_intf inet_pton6 e).1.holds inet_pton6 e ∧
      (parse_planar_intf inet_pton6 e).1.valid := by
  obtain ⟨id, name, v4, v6⟩ := e
  obtain ⟨h1, h2, h3, h4⟩ := h
  simp only at h1 h2 h3 h4
  obtain ⟨id, rfl⟩ := Option.isSome_iff_exists.1 h1
  obtain ⟨name, rfl⟩ := Option.isSome_iff_exists.1 h2
  obtain ⟨v4, rfl⟩ := Option.isSome_iff_exists.1 h3
  obtain ⟨v6, rfl⟩ := Option.isSome_iff_exists.1 h4
  have hid := strncpy_zeros id
  have hname := strncpy_zeros name
  exact ⟨rfl, ⟨hid.1, hname.1, rfl, rfl⟩, ⟨hid.2, hname.2⟩⟩

/-- The loop over the entries does not look past the capacity. -/
theorem parse_entries_take {ν α : Type} (cap : Nat) (parse : ν → α × Bool) :
    ∀ (entries : List ν) (count : Nat) (a : Nat → α),
      parse_entries cap parse (entries.take (cap - count)) count a
        = parse_entries cap parse entries count a := by
  intro entries
  induction entries with
  | nil => intro count a; simp
  | cons e rest ih =>
    intro count a
    by_cases hc : count ≥ cap
    · have h0 : cap - count = 0 := by omega
      rw [h0, List.take_zero]
      simp [parse_entries, hc]
    · obtain ⟨k, hk⟩ : ∃ k, cap - count = k + 1 := ⟨cap - count - 1, by omega⟩
      have hk' : cap - (count + 1) = k := by omega
      rw [hk, List.take_succ_cons]
      simp only [parse_entries, hc, if_false]
      by_cases ht : (parse e).2 = true
      · simp only [ht, if_true]
      · simp only [ht, if_false]
        rw [← hk']
        exact ih (count + 1) _

theorem parse_entries_map {ν μ α : Type} (cap : Nat) (parse : ν → α × Bool) (g : μ → ν) :
    ∀ (entries : List μ) (count : Nat) (a : Nat → α),
      parse_entries cap parse (entries.map g) count a
        = parse_entries cap (fun e => parse (g e)) entries count a := by
  intro entries
  induction entries with
  | nil => intro count a; rfl
  | cons e rest ih =>
    intro count a
    simp only [List.map_cons, parse_entries]
    rw [ih]

/-- The loop over entries that do not throw: the count, and the array element by
element. -/
theorem parse_entries_ok {ν α : Type} (cap : Nat) (parse : ν → α × Bool) :
    ∀ (entries : List ν) (count : Nat) (a : Nat → α), count ≤ cap →
      (∀ e ∈ entries.take (cap - count), (parse e).2 = false) →
      (parse_entries cap parse entries count a).2.2 = false ∧
        (parse_entries cap parse entries count a).2.1 = min (count + entries.length) cap ∧
        (∀ j, j < count → (parse_entries cap parse entries count a).1 j = a j) ∧
        (∀ j, min (count + entries.length) cap ≤ j →
          (parse_entries cap parse entries count a).1 j = a j) ∧
        (∀ j e, count ≤ j → j < cap → entries[j - count]? = some e →
          (parse_entries cap parse entries count a).1 j = (parse e).1) := by
  intro entries
  induction entries with
  | nil =>
    intro count a hc _
    refine ⟨rfl, ?_, fun _ _ => rfl, fun _ _ => rfl, ?_⟩
    · simp only [parse_entries, List.length_nil, Nat.add_zero]
      omega
    · intro j e _ _ h
      simp at h
  | cons e rest ih =>
    intro count a hc hall
    by_cases hge : count ≥ cap
    · have hceq : count = cap := by omega
      have eq : parse_entries cap parse (e :: rest) count a = (a, count, false) := by
        simp [parse_entries, hge]
      rw [eq]
      refine ⟨rfl, ?_, fun _ _ => rfl, fun _ _ => rfl, ?_⟩
      · simp only [List.length_cons]; omega
      · intro j e' h1 h2 _
        omega
    · obtain ⟨k, hk⟩ : ∃ k, cap - count = k + 1 := ⟨cap - count - 1, by omega⟩
      have hk' : cap - (count + 1) = k := by omega
      rw [hk, List.take_succ_cons] at hall
      have he : (parse e).2 = false := hall e (List.mem_cons_self _ _)
      have hrest : ∀ e' ∈ rest.take (cap - (count + 1)), (parse e').2 = false := by
        rw [hk']
        exact fun e' h' => hall e' (List.mem_cons_of_mem _ h')
      obtain ⟨i1, i2, i3, i4, i5⟩ :=
        ih (count + 1) (Function.update a count (parse e).1) (by omega) hrest
      have eq : parse_entries cap parse (e :: rest) count a
          = parse_entries cap parse rest (count + 1) (Function.update a count (parse e).1) := by
        simp [parse_entries, hge, he]
      rw [eq]
      refine ⟨i1, ?_, ?_, ?_, ?_⟩
      · rw [i2, List.length_cons]
        congr 1
        omega
      · intro j hj
        rw [i3 j (by omega), Function.update_noteq (by omega)]
      · intro j hj
        rw [List.length_cons] at hj
        rw [i4 j (by omega), Function.update_noteq (by omega)]
      · intro j e' h1 h2 h3
        rcases Nat.eq_or_lt_of_le h1 with heq | hlt
        · subst heq
          rw [Nat.sub_self, List.getElem?_cons_zero] at h3
          cases h3
          rw [i3 count (by omega), Function.update_same]
        · apply i5 j e' (by omega) h2
          have : j - count = (j - (count + 1)) + 1 := by omega
          rw [this, List.getElem?_cons_succ] at h3
          exact h3

theorem mem_take_of_getElem? {α : Type} (l : List α) (n j : Nat) (x : α) (hj : j < n)
    (h : l[j]? = some x) : x ∈ l.take n := by
  have : (l.take n)[j]? = some x := by rw [List.getElem?_take, if_pos hj, h]
  exact List.mem_iff_getElem?.2 ⟨j, this⟩

/-- An entry of `devices` that is complete is stored without exception. -/
theorem parse_device_complete (inet_pton6 : List Byte → Option (Nat → Byte)) (e : device_node)
    (h : e.complete) :
    (parse_device inet_pton6 e).2 = false ∧ (parse_device inet_pton6 e).1.holds inet_pton6 e ∧
      (parse_device inet_pton6 e).1.valid := by
  obtain ⟨vi, vip, pis⟩ := e
  obtain ⟨h1, h2, h3, h4⟩ := h
  simp only at h1 h2 h3 h4
  obtain ⟨vi, rfl⟩ := Option.isSome_iff_exists.1 h1
  obtain ⟨vip, rfl⟩ := Option.isSome_iff_exists.1 h2
  obtain ⟨entries, rfl⟩ := Option.isSome_iff_exists.1 h3
  simp only [Option.getD_some] at h4
  have hvi := strncpy_zeros vi
  obtain ⟨r1, r2, _, _, r5⟩ := parse_entries_ok MAX_INTERFACES (parse_planar_intf inet_pton6)
    entries 0 (fun _ => planar_zero) (Nat.zero_le _)
    (fun p hp => (parse_planar_intf_complete inet_pton6 p (h4 p hp)).1)
  have hne : ¬ (parse_entries MAX_INTERFACES (parse_planar_intf inet_pton6) entries 0
      (fun _ => planar_zero)).2.2 = true := by simp [r1]
  have e1 : parse_device inet_pton6
      { virtual_intf := some vi, virtual_ip := some vip, planar_intfs := some entries }
      = ({ virtual_intf := strncpy zeros vi (MAX_STR_LEN - 1),
           virtual_ip := inet_pton4_into zeros vip,
           num_interfaces := ((parse_entries MAX_INTERFACES (parse_planar_intf inet_pton6)
             entries 0 (fun _ => planar_zero)).2.1 : Int),
           planar_intfs := (parse_entries MAX_INTERFACES (parse_planar_intf inet_pton6)
             entries 0 (fun _ => planar_zero)).1 }, false) := by
    simp [parse_device, device_zero, r1]
  rw [e1]
  simp only [Nat.zero_add] at r2
  have hget : ∀ (j : Nat) (p : planar_node), j < MAX_INTERFACES → entries[j]? = some p →
      (parse_entries MAX_INTERFACES (parse_planar_intf inet_pton6) entries 0
        (fun _ => planar_zero)).1 j = (parse_planar_intf inet_pton6 p).1 ∧ p.complete := by
    intro j p hj hp
    exact ⟨r5 j p (Nat.zero_le _) hj (by simpa using hp),
      h4 p (mem_take_of_getElem? entries MAX_INTERFACES j p hj hp)⟩
  refine ⟨rfl, ⟨hvi.1, rfl, ?_, ?_⟩, ⟨hvi.2, ?_, ?_⟩⟩
  · simp only [Option.getD_some, r2]
  · intro j p hj hp
    simp only [Option.getD_some] at hp
    obtain ⟨e2, hc⟩ := hget j p hj hp
    simp only
    rw [e2]
    exact (parse_planar_intf_complete inet_pton6 p hc).2.1
  · simp only [r2]
    have : min entries.length MAX_INTERFACES ≤ MAX_INTERFACES := Nat.min_le_right _ _
    exact_mod_cast this
  · intro k hk
    simp only [r2, Int.toNat_ofNat] at hk
    have hk1 : k < entries.length := by omega
    have hk2 : k < MAX_INTERFACES := by omega
    obtain ⟨e2, hc⟩ := hget k entries[k] hk2 (List.getElem?_eq_getElem hk1)
    simp only
    rw [e2]
    exact (parse_planar_intf_complete inet_pton6 entries[k] hc).2.2

/-- The planar interfaces past index 63 of an entry of `devices` have no effect. -/
theorem parse_device_truncate (inet_pton6 : List Byte → Option (Nat → Byte)) (e : device_node) :
    parse_device inet_pton6
        { e with planar_intfs := e.planar_intfs.map (fun l => l.take MAX_INTERFACES) }
      = parse_device inet_pton6 e := by
  obtain ⟨vi, vip, pis⟩ := e
  cases vi with
  | none => rfl
  | some vi =>
    cases vip with
    | none => rfl
    | some vip =>
      cases pis with
      | none => rfl
      | some entries =>
        have := parse_entries_take MAX_INTERFACES (parse_planar_intf inet_pton6) entries 0
          (fun _ => planar_zero)
        simp only [Nat.sub_zero] at this
        simp only [parse_device, Option.map_some', device_zero, this]

/-- The devices past index 7 and the planar interfaces past index 63 have no
effect on what the `try` block leaves. -/
theorem parse_planar_config_try_truncate (inet_pton6 : List Byte → Option (Nat → Byte))
    (read_json : List Byte → Option host_node) (file : List Byte) (host : host_t) :
    parse_planar_config_try inet_pton6 (fun f => (read_json f).map host_node.truncate) file host
      = parse_planar_config_try inet_pton6 read_json file host := by
  unfold parse_planar_config_try
  simp only
  cases hr : read_json file with
  | none => rfl
  | some pt =>
    obtain ⟨hn, hip, ds⟩ := pt
    cases hn with
    | none => rfl
    | some hn =>
      cases hip with
      | none => rfl
      | some hip =>
        cases ds with
        | none => rfl
        | some nodes =>
          have e1 := parse_entries_map MAX_DEVICES (parse_device inet_pton6)
            (fun d : device_node =>
              { d with planar_intfs := d.planar_intfs.map (fun l => l.take MAX_INTERFACES) })
            (nodes.take MAX_DEVICES) 0 host.devices
          have e2 : (fun d : device_node => parse_device inet_pton6
              { d with planar_intfs := d.planar_intfs.map (fun l => l.take MAX_INTERFACES) })
              = parse_device inet_pton6 := by
            funext d
            exact parse_device_truncate inet_pton6 d
          rw [e2] at e1
          have e3 := parse_entries_take MAX_DEVICES (parse_device inet_pton6) nodes 0 host.devices
          simp only [Nat.sub_zero] at e3
          rw [e3] at e1
          simp only [Option.map_some', host_node.truncate, e1]

/-- What the `try` block leaves for a complete document. -/
theorem parse_planar_config_try_complete (inet_pton6 : List Byte → Option (Nat → Byte))
    (read_json : List Byte → Option host_node) (file : List Byte) (host : host_t)
    (pt : host_node) (hread : read_json file = some pt) (hc : pt.complete) :
    (parse_planar_config_try inet_pton6 read_json file host).holds inet_pton6 pt ∧
      (∀ i, i < min (pt.devices.getD []).length MAX_DEVICES →
        ((parse_planar_config_try inet_pton6 read_json file host).devices i).valid) ∧
      (∀ i, (pt.devices.getD []).length ≤ i →
        (parse_planar_config_try inet_pton6 read_json file host).devices i = host.devices i) := by
  obtain ⟨hn, hip, ds⟩ := pt
  obtain ⟨h1, h2, h3, h4⟩ := hc
  simp only at h1 h2 h3 h4
  obtain ⟨hn, rfl⟩ := Option.isSome_iff_exists.1 h1
  obtain ⟨hip, rfl⟩ := Option.isSome_iff_exists.1 h2
  obtain ⟨nodes, rfl⟩ := Option.isSome_iff_exists.1 h3
  simp only [Option.getD_some] at h4 ⊢
  obtain ⟨r1, r2, _, r4, r5⟩ := parse_entries_ok MAX_DEVICES (parse_device inet_pton6)
    nodes 0 host.devices (Nat.zero_le _)
    (fun d hd => (parse_device_complete inet_pton6 d (h4 d hd)).1)
  have hne : ¬ (parse_entries MAX_DEVICES (parse_device inet_pton6) nodes 0
      host.devices).2.2 = true := by simp [r1]
  have e1 : parse_planar_config_try inet_pton6 read_json file host
      = { host_name := hn, host_ip := hip,
          num_devices := ((parse_entries MAX_DEVICES (parse_device inet_pton6) nodes 0
            host.devices).2.1 : Int),
          devices := (parse_entries MAX_DEVICES (parse_device inet_pton6) nodes 0
            host.devices).1 } := by
    simp [parse_planar_config_try, hread, r1]
  rw [e1]
  simp only [Nat.zero_add] at r2 r4
  have hget : ∀ (i : Nat) (d : device_node), i < MAX_DEVICES → nodes[i]? = some d →
      (parse_entries MAX_DEVICES (parse_device inet_pton6) nodes 0 host.devices).1 i
        = (parse_device inet_pton6 d).1 ∧ d.complete := by
    intro i d hi hd
    exact ⟨r5 i d (Nat.zero_le _) hi (by simpa using hd),
      h4 d (mem_take_of_getElem? nodes MAX_DEVICES i d hi hd)⟩
  refine ⟨⟨rfl, rfl, ?_, ?_⟩, ?_, ?_⟩
  · simp only [r2, Option.getD_some]
  · intro i d hi hd
    obtain ⟨e2, hc⟩ := hget i d hi hd
    simp only
    rw [e2]
    exact (parse_device_complete inet_pton6 d hc).2.1
  · intro i hi
    have hk1 : i < nodes.length := by omega
    have hk2 : i < MAX_DEVICES := by omega
    obtain ⟨e2, hc⟩ := hget i nodes[i] hk2 (List.getElem?_eq_getElem hk1)
    simp only
    rw [e2]
    exact (parse_device_complete inet_pton6 nodes[i] hc).2.2
  · intro i hi
    simp only
    exact r4 i (by omega)

/-- A loop that returns has run every iteration to its end. -/
theorem for_range_from_unit_inv (body : Nat → Unit → Run Unit) :
    ∀ (k j : Nat), for_range_from body k j () = .ok () →
      ∀ i, j ≤ i → i < j + k → body i () = .ok () := by
  intro k
  induction k with
  | zero => intro j _ i h1 h2; omega
  | succ k ih =>
    intro j h i h1 h2
    rw [for_range_from] at h
    cases hb : body j () with
    | undefined f => rw [hb] at h; cases h
    | ok u =>
      rw [hb] at h
      rcases Nat.eq_or_lt_of_le h1 with heq | hlt
      · subst heq
        exact hb
      · exact ih (j + 1) h i (by omega) (by omega)

theorem for_range_unit_inv (n : Nat) (body : Nat → Unit → Run Unit)
    (h : for_range n body () = .ok ()) : ∀ i, i < n → body i () = .ok () := by
  intro i hi
  exact for_range_from_unit_inv body n 0 h i (Nat.zero_le _) (by omega)

theorem strlen_ok_terminated {s : Nat → Byte} {n : Nat} (h : strlen s = .ok n) : terminated s := by
  unfold strlen at h
  by_cases ht : (0 : Byte) ∈ mem_bytes s MAX_STR_LEN
  · exact ht
  · rw [if_neg ht] at h
    cases h

/-- The function `print_planar_config` returns exactly when every one of the 8
entries of `devices` holds C strings and a count that fits. -/
theorem print_planar_config_ok_iff (host : host_t) :
    print_planar_config host = .ok ANP_SUCCESS ↔
      ∀ i, i < MAX_DEVICES → (host.devices i).valid := by
  refine ⟨fun h => ?_, print_planar_config_ok host⟩
  unfold print_planar_config at h
  obtain ⟨u, hu, _⟩ := (Run.bind_eq_ok _ _ _).1 h
  intro i hi
  have hb := for_range_unit_inv _ _ hu i hi
  simp only [index, if_pos hi, Run.ok_bind] at hb
  obtain ⟨n, hn, hb⟩ := (Run.bind_eq_ok _ _ _).1 hb
  have hinner := for_range_unit_inv _ _ hb
  have hlt : ∀ j, j < (host.devices i).num_interfaces.toNat → j < MAX_INTERFACES := by
    intro j hj
    have hj' := hinner j hj
    by_contra hc
    rw [if_neg hc] at hj'
    cases hj'
  refine ⟨strlen_ok_terminated hn, ?_, ?_⟩
  · by_contra hc
    have h64 : MAX_INTERFACES < (host.devices i).num_interfaces.toNat := by
      have : ((MAX_INTERFACES : Nat) : Int) < (host.devices i).num_interfaces := by omega
      omega
    exact absurd (hlt MAX_INTERFACES h64) (Nat.lt_irrefl _)
  · intro j hj
    have hj' := hinner j hj
    rw [if_pos (hlt j hj)] at hj'
    simp only [Run.ok_bind] at hj'
    obtain ⟨n1, h1, hj'⟩ := (Run.bind_eq_ok _ _ _).1 hj'
    obtain ⟨n2, h2, _⟩ := (Run.bind_eq_ok _ _ _).1 hj'
    exact ⟨strlen_ok_terminated h1, strlen_ok_terminated h2⟩

/-- The function `print_planar_config` returns `ANP_SUCCESS` or does not return. -/
theorem print_planar_config_ret (host : host_t) (r : Int) (h : print_planar_config host = .ok r) :
    r = ANP_SUCCESS := by
  unfold print_planar_config at h
  obtain ⟨_, _, h⟩ := (Run.bind_eq_ok _ _ _).1 h
  simp only [Run.pure_eq, Run.ok.injEq] at h
  exact h.symm

/-- For a complete document `parse_planar_config` returns exactly when the
entries of `host.devices` that the document does not fill hold C strings and
counts that fit. -/
theorem parse_planar_config_ok_iff (inet_pton6 : List Byte → Option (Nat → Byte))
    (read_json : List Byte → Option host_node) (file : List Byte) (host : host_t)
    (pt : host_node) (hfile : file ≠ []) (hread : read_json file = some pt) (hc : pt.complete) :
    parse_planar_config inet_pton6 read_json file host
        = .ok (ANP_SUCCESS, parse_planar_config_try inet_pton6 read_json file host) ↔
      ∀ i, (pt.devices.getD []).length ≤ i → i < MAX_DEVICES → (host.devices i).valid := by
  obtain ⟨_, h2, h3⟩ := parse_planar_config_try_complete inet_pton6 read_json file host pt hread hc
  unfold parse_planar_config
  rw [if_neg hfile]
  constructor
  · intro h i hge hi
    obtain ⟨r, hr, _⟩ := (Run.bind_eq_ok _ _ _).1 h
    rw [print_planar_config_ret _ r hr] at hr
    have := (print_planar_config_ok_iff _).1 hr i hi
    rwa [h3 i hge] at this
  · intro hrest
    have hv : ∀ i, i < MAX_DEVICES →
        ((parse_planar_config_try inet_pton6 read_json file host).devices i).valid := by
      intro i hi
      by_cases hlt : i < min (pt.devices.getD []).length MAX_DEVICES
      · exact h2 i hlt
      · have hge : (pt.devices.getD []).length ≤ i := by omega
        rw [h3 i hge]
        exact hrest i hge hi
    simp only [print_planar_config_ok _ hv, Run.ok_bind, Run.pure_eq]

/-! ## Maps as lists of entries -/

theorem map_find_nil {κ ν : Type} [DecidableEq κ] (k : κ) :
    map_find ([] : List (κ × ν)) k = none := rfl

theorem map_find_cons {κ ν : Type} [DecidableEq κ] (a : κ) (b : ν) (m : List (κ × ν)) (k : κ) :
    map_find ((a, b) :: m) k = if a = k then some b else map_find m k := by
  unfold map_find
  by_cases h : a = k
  · simp [List.find?_cons, h]
  · simp [List.find?_cons, h]

theorem map_any_cons {κ ν : Type} [DecidableEq κ] (a : κ) (b : ν) (m : List (κ × ν)) (k : κ) :
    ((a, b) :: m).any (fun p => decide (p.1 = k)) = (decide (a = k) || m.any (fun p => decide (p.1 = k))) := by
  simp [List.any_cons]

theorem map_find_of_not_any {κ ν : Type} [DecidableEq κ] (m : List (κ × ν)) (k : κ)
    (h : m.any (fun p => decide (p.1 = k)) = false) : map_find m k = none := by
  induction m with
  | nil => rfl
  | cons p m ih =>
    obtain ⟨a, b⟩ := p
    rw [map_any_cons, Bool.or_eq_false_iff] at h
    have ha : a ≠ k := by simpa using h.1
    rw [map_find_cons, if_neg ha]
    exact ih h.2

theorem map_find_of_any {κ ν : Type} [DecidableEq κ] (m : List (κ × ν)) (k : κ)
    (h : m.any (fun p => decide (p.1 = k)) = true) : ∃ v, map_find m k = some v := by
  induction m with
  | nil => simp at h
  | cons p m ih =>
    obtain ⟨a, b⟩ := p
    rw [map_find_cons]
    by_cases ha : a = k
    · exact ⟨b, by rw [if_pos ha]⟩
    · rw [if_neg ha]
      rw [map_any_cons] at h
      simp only [ha, decide_False, Bool.false_or] at h
      exact ih h

theorem map_any_iff_mem_keys {κ ν : Type} [DecidableEq κ] (m : List (κ × ν)) (k : κ) :
    m.any (fun p => decide (p.1 = k)) = true ↔ k ∈ m.map (fun p => p.1) := by
  simp only [List.any_eq_true, decide_eq_true_iff, List.mem_map]

/-- The lookup after the assignment `m[k] = v`. -/
theorem map_find_map_assign {κ ν : Type} [DecidableEq κ] (m : List (κ × ν)) (k : κ) (v : ν)
    (k' : κ) : map_find (map_assign m k v) k' = if k' = k then some v else map_find m k' := by
  unfold map_assign
  cases hany : m.any (fun p => decide (p.1 = k))
  · simp only [Bool.false_eq_true, if_false]
    have hnone := map_find_of_not_any m k hany
    clear hany
    induction m with
    | nil =>
      rw [List.nil_append, map_find_cons]
      by_cases h : k' = k
      · rw [if_pos h.symm, if_pos h]
      · rw [if_neg (fun e => h e.symm), if_neg h]
    | cons p m ih =>
      obtain ⟨a, b⟩ := p
      rw [List.cons_append]
      simp only [map_find_cons]
      rw [map_find_cons] at hnone
      by_cases ha : a = k
      · rw [if_pos ha] at hnone; cases hnone
      · rw [if_neg ha] at hnone
        by_cases ha' : a = k'
        · have : k' ≠ k := fun e => ha (ha'.trans e)
          rw [if_pos ha', if_neg this, if_pos ha']
        · rw [if_neg ha', if_neg ha', ih hnone]
  · simp only [if_true]
    induction m with
    | nil => simp at hany
    | cons p m ih =>
      obtain ⟨a, b⟩ := p
      rw [List.map_cons, map_find_cons (κ := κ) a b m k']
      by_cases ha : a = k
      · simp only [ha, if_true]
        rw [map_find_cons]
        by_cases h : k' = k
        · rw [if_pos h.symm, if_pos h]
        · rw [if_neg (fun e => h e.symm), if_neg h, if_neg (fun e => h e.symm)]
          clear ih hany
          induction m with
          | nil => rfl
          | cons q m ih2 =>
            obtain ⟨c, d⟩ := q
            rw [List.map_cons, map_find_cons (κ := κ) c d m k']
            by_cases hc : c = k
            · simp only [hc, if_true]
              rw [map_find_cons, if_neg (fun e => h e.symm), if_neg (fun e => h e.symm)]
              exact ih2
            · simp only [hc, if_false]
              rw [map_find_cons]
              by_cases hc' : c = k'
              · rw [if_pos hc', if_pos hc']
              · rw [if_neg hc', if_neg hc']; exact ih2
      · simp only [ha, if_false]
        rw [map_find_cons]
        rw [map_any_cons] at hany
        simp only [ha, decide_False, Bool.false_or] at hany
        by_cases ha' : a = k'
        · have : k' ≠ k := fun e => ha (ha'.trans e)
          rw [if_pos ha', if_pos ha', if_neg this]
        · rw [if_neg ha', if_neg ha']
          exact ih hany

/-- The keys after the assignment `m[k] = v`. -/
theorem map_assign_keys {κ ν : Type} [DecidableEq κ] (m : List (κ × ν)) (k : κ) (v : ν) :
    (map_assign m k v).map (fun p => p.1)
      = if k ∈ m.map (fun p => p.1) then m.map (fun p => p.1) else m.map (fun p => p.1) ++ [k] := by
  unfold map_assign
  by_cases hk : k ∈ m.map (fun p => p.1)
  · rw [if_pos ((map_any_iff_mem_keys m k).2 hk), if_pos hk, List.map_map]
    apply List.map_congr_left
    intro p _
    by_cases h : p.1 = k
    · simp [h]
    · simp [h]
  · have : m.any (fun p => decide (p.1 = k)) = false := by
      cases h : m.any (fun p => decide (p.1 = k))
      · rfl
      · exact absurd ((map_any_iff_mem_keys m k).1 h) hk
    rw [this, if_neg hk]
    simp

theorem map_assign_nodup {κ ν : Type} [DecidableEq κ] (m : List (κ × ν)) (k : κ) (v : ν)
    (h : (m.map (fun p => p.1)).Nodup) : ((map_assign m k v).map (fun p => p.1)).Nodup := by
  rw [map_assign_keys]
  by_cases hk : k ∈ m.map (fun p => p.1)
  · rw [if_pos hk]; exact h
  · rw [if_neg hk]
    exact List.Nodup.append h (List.nodup_singleton k) (by
      intro a ha hb
      rw [List.mem_singleton] at hb
      exact hk (hb ▸ ha))

theorem map_find_le_sum (m : List (Nat × Nat)) (k : Nat) :
    (map_find m k).getD 0 ≤ (m.map (fun p => p.2)).sum := by
  induction m with
  | nil => simp [map_find_nil]
  | cons p m ih =>
    obtain ⟨a, b⟩ := p
    rw [map_find_cons, List.map_cons, List.sum_cons]
    by_cases h : a = k
    · rw [if_pos h]; simp
    · rw [if_neg h]; omega

/-- The sum of the values after the assignment `m[k] = v`, for a map. -/
theorem map_assign_sum (m : List (Nat × Nat)) (k v : Nat) (h : (m.map (fun p => p.1)).Nodup) :
    ((map_assign m k v).map (fun p => p.2)).sum + (map_find m k).getD 0
      = (m.map (fun p => p.2)).sum + v := by
  unfold map_assign
  cases hany : m.any (fun p => decide (p.1 = k))
  · simp only [Bool.false_eq_true, if_false]
    rw [map_find_of_not_any m k hany]
    simp
  · simp only [if_true]
    induction m with
    | nil => simp at hany
    | cons p m ih =>
      obtain ⟨a, b⟩ := p
      rw [List.map_cons, List.nodup_cons] at h
      rw [List.map_cons, List.map_cons, List.sum_cons, map_find_cons]
      by_cases ha : a = k
      · simp only [ha, if_true, List.map_cons, List.sum_cons, Option.getD_some]
        have hnot : ∀ q ∈ m, q.1 ≠ k := by
          intro q hq e
          exact h.1 (List.mem_map.2 ⟨q, hq, e.trans ha.symm⟩)
        have : m.map (fun p => if p.1 = k then (k, v) else p) = m := by
          conv_rhs => rw [← List.map_id m]
          apply List.map_congr_left
          intro q hq
          simp [hnot q hq]
        rw [this]; omega
      · simp only [ha, if_false, List.map_cons, List.sum_cons]
        rw [map_any_cons] at hany
        simp only [ha, decide_False, Bool.false_or] at hany
        have := ih h.2 hany
        omega

/-- The lookup after `m.erase(k)`. -/
theorem map_find_map_erase {κ ν : Type} [DecidableEq κ] (m : List (κ × ν)) (k k' : κ) :
    map_find (map_erase m k) k' = if k' = k then none else map_find m k' := by
  unfold map_erase
  induction m with
  | nil => simp [map_find_nil]
  | cons p m ih =>
    obtain ⟨a, b⟩ := p
    rw [List.filter_cons, map_find_cons]
    by_cases ha : a = k
    · simp only [ha, ne_eq, not_true_eq_false, decide_False, Bool.false_eq_true, if_false]
      rw [ih]
      by_cases h : k' = k
      · rw [if_pos h, if_pos h]
      · rw [if_neg h, if_neg h, if_neg (fun e => h e.symm)]
    · simp only [ha, ne_eq, not_false_eq_true, decide_True, if_true]
      rw [map_find_cons, ih]
      by_cases ha' : a = k'
      · have : k' ≠ k := fun e => ha (ha'.trans e)
        rw [if_pos ha', if_neg this, if_pos ha']
      · rw [if_neg ha', if_neg ha']

/-! ## `power_of_2` -/

theorem smear_step (m r R : Nat)
    (h : ∀ b, r.testBit b = true ↔ ∃ j, j < R ∧ m.testBit (b + j) = true) (b : Nat) :
    (r ||| r >>> R).testBit b = true ↔ ∃ j, j < 2 * R ∧ m.testBit (b + j) = true := by
  rw [Nat.testBit_or, Nat.testBit_shiftRight, Bool.or_eq_true, h, h]
  constructor
  · rintro (⟨j, hj, e⟩ | ⟨j, hj, e⟩)
    · exact ⟨j, by omega, e⟩
    · refine ⟨R + j, by omega, ?_⟩
      have : b + (R + j) = R + b + j := by omega
      rw [this]; exact e
  · rintro ⟨j, hj, e⟩
    by_cases hlt : j < R
    · exact Or.inl ⟨j, hlt, e⟩
    · refine Or.inr ⟨j - R, by omega, ?_⟩
      have : R + b + (j - R) = b + j := by omega
      rw [this]; exact e

/-- The six statements `number |= number >> k` of `power_of_2` set every bit
below the highest one that is set. -/
theorem smear_eq (m : Nat) (hm : m < 2 ^ 64) :
    (let number := m
     let number := number ||| (number >>> 1)
     let number := number ||| (number >>> 2)
     let number := number ||| (number >>> 4)
     let number := number ||| (number >>> 8)
     let number := number ||| (number >>> 16)
     let number := number ||| (number >>> 32)
     number) = 2 ^ m.size - 1 := by
  have h0 : ∀ b, m.testBit b = true ↔ ∃ j, j < 1 ∧ m.testBit (b + j) = true := by
    intro b
    constructor
    · intro e; exact ⟨0, by omega, e⟩
    · rintro ⟨j, hj, e⟩
      have : j = 0 := by omega
      subst this; exact e
  have h1 := smear_step m _ 1 h0
  have h2 := smear_step m _ 2 h1
  have h3 := smear_step m _ 4 h2
  have h4 := smear_step m _ 8 h3
  have h5 := smear_step m _ 16 h4
  have h6 := smear_step m _ 32 h5
  apply Nat.eq_of_testBit_eq
  intro b
  rw [Nat.testBit_two_pow_sub_one, Bool.eq_iff_iff, decide_eq_true_iff]
  refine (h6 b).trans ?_
  constructor
  · rintro ⟨j, _, e⟩
    have h := Nat.testBit_implies_ge e
    have : b + j < m.size := Nat.lt_size.2 h
    omega
  · intro hb
    have hne : m ≠ 0 := by
      rintro rfl
      simp at hb
    obtain ⟨i, hi, hhigh⟩ := Nat.exists_most_significant_bit hne
    have hlo : i < m.size := Nat.lt_size.2 (Nat.testBit_implies_ge hi)
    have hup : m.size ≤ i + 1 :=
      Nat.size_le.2 (Nat.lt_pow_two_of_testBit m (fun j hj => hhigh j (by omega)))
    have h64 : m.size ≤ 64 := Nat.size_le.2 hm
    refine ⟨i - b, by omega, ?_⟩
    have : b + (i - b) = i := by omega
    rw [this]; exact hi

theorem power_of_2_eq (n : Nat) (h1 : 1 ≤ n) (hn : n < 2 ^ 64) :
    power_of_2 n = 2 ^ (n - 1).size % 2 ^ 64 := by
  have hne : n ≠ 0 := by omega
  have hs := smear_eq (n - 1) (by omega)
  simp only at hs
  unfold power_of_2
  simp only [hne, if_false]
  rw [hs]
  have : 0 < 2 ^ (n - 1).size := Nat.pow_pos (by decide)
  have e : 2 ^ (n - 1).size - 1 + 1 = 2 ^ (n - 1).size := by omega
  rw [e]

theorem power_of_2_small (n : Nat) (h1 : 1 ≤ n) (hn : n ≤ 2 ^ 63) :
    power_of_2 n = 2 ^ (n - 1).size ∧ (n - 1).size ≤ 63 := by
  have hs : (n - 1).size ≤ 63 := Nat.size_le.2 (by omega)
  have hlt : 2 ^ (n - 1).size < 2 ^ 64 :=
    Nat.pow_lt_pow_right (by decide) (by omega)
  rw [power_of_2_eq n h1 (by omega), Nat.mod_eq_of_lt hlt]
  exact ⟨rfl, hs⟩

theorem power_of_2_large (n : Nat) (h1 : 2 ^ 63 < n) (hn : n < 2 ^ 64) : power_of_2 n = 0 := by
  have hs : (n - 1).size ≤ 64 := Nat.size_le.2 (by omega)
  have hl : 63 < (n - 1).size := Nat.lt_size.2 (by omega)
  have e : (n - 1).size = 64 := by omega
  rw [power_of_2_eq n (by omega) hn, e]
  decide

/-- A number for which `IS_POWER_OF_2` holds is a power of two. -/
theorem IS_POWER_OF_2_sound (n : Nat) (h : IS_POWER_OF_2 n = true) : ∃ k, n = 2 ^ k := by
  unfold IS_POWER_OF_2 at h
  simp only [Bool.and_eq_true, decide_eq_true_iff] at h
  obtain ⟨hpos, hand⟩ := h
  have hne : n ≠ 0 := by omega
  obtain ⟨i, hi, hhigh⟩ := Nat.exists_most_significant_bit hne
  have hge : 2 ^ i ≤ n := Nat.testBit_implies_ge hi
  have hlt : n < 2 ^ (i + 1) := Nat.lt_pow_two_of_testBit n (fun j hj => hhigh j (by omega))
  refine ⟨i, ?_⟩
  by_contra hneq
  have hgt : 2 ^ i ≤ n - 1 := by omega
  have hbit : (n - 1).testBit i = true := by
    rw [Nat.testBit_to_div_mod, decide_eq_true_iff]
    have hpow : 2 ^ (i + 1) = 2 * 2 ^ i := by rw [Nat.pow_succ]; omega
    have hp : 0 < 2 ^ i := Nat.pow_pos (by decide)
    have hd : (n - 1) / 2 ^ i = 1 := by
      apply Nat.div_eq_of_lt_le
      · omega
      · omega
    rw [hd]
  have : (n &&& (n - 1)).testBit i = true := by
    rw [Nat.testBit_and, hi, hbit]; rfl
  rw [hand] at this
  simp at this

/-- A power of two below `2 ^ 64` passes `IS_POWER_OF_2`. -/
theorem IS_POWER_OF_2_complete (k : Nat) : IS_POWER_OF_2 (2 ^ k) = true := by
  unfold IS_POWER_OF_2
  have hp : 0 < 2 ^ k := Nat.pow_pos (by decide)
  simp only [Bool.and_eq_true, decide_eq_true_iff]
  refine ⟨hp, ?_⟩
  apply Nat.eq_of_testBit_eq
  intro b
  rw [Nat.testBit_and, Nat.testBit_two_pow, Nat.testBit_two_pow_sub_one, Nat.zero_testBit]
  by_cases h : k = b
  · subst h; simp
  · simp [h]

/-! ## `time_histogram_s::log_time` -/

theorem uint64_of_int_small (x : Int) (h0 : 0 ≤ x) (h1 : x < 2 ^ 64) :
    uint64_of_int x = x.toNat := by
  unfold uint64_of_int
  rw [Int.emod_eq_of_lt h0 h1]

/-- One call of `log_time` on a histogram with at least one bucket and a shift
below 64. -/
theorem log_time_eq (h : time_histogram_s) (t : Nat) (hmax : 1 ≤ h.max_buckets)
    (hint : h.max_buckets < 2 ^ 31) (hsz : h.bucket_sz_log2 < 64) :
    h.log_time t
      = .ok { h with buckets :=
          (map_increment h.buckets (bucket_of h.max_buckets h.bucket_sz_log2 t)) } := by
  have e1 : uint64_of_int h.max_buckets = h.max_buckets.toNat :=
    uint64_of_int_small _ (by omega) (by omega)
  have e2 : uint64_of_int (h.max_buckets - 1) = h.max_buckets.toNat - 1 := by
    rw [uint64_of_int_small _ (by omega) (by omega)]
    omega
  unfold time_histogram_s.log_time bucket_of
  have hs : ¬ h.bucket_sz_log2 ≥ 64 := by omega
  have hov : ¬ h.max_buckets - 1 < -(2 ^ 31) := by omega
  simp only [hs, if_false, Nat.shiftRight_eq_div_pow, e1, e2, hov]
  have hpos : 0 < h.max_buckets.toNat := by omega
  by_cases hlt : t / 2 ^ h.bucket_sz_log2 < h.max_buckets.toNat
  · rw [if_pos hlt, Nat.min_eq_left (by omega)]
  · rw [if_neg hlt, Nat.min_eq_right (by omega)]

/-- The calls `log_time` for a list of times: the parameters are kept, the keys
stay distinct and below `max_buckets`, and while the counters do not wrap each
call adds one to the bucket of its time. -/
theorem log_times_spec (ts : List Nat) : ∀ (h : time_histogram_s), 1 ≤ h.max_buckets →
    h.max_buckets < 2 ^ 31 → h.bucket_sz_log2 < 64 → (h.buckets.map (fun p => p.1)).Nodup →
    (∀ p ∈ h.buckets, (p.1 : Int) < h.max_buckets) →
    ∃ h', h.log_times ts = .ok h' ∧ h'.max_buckets = h.max_buckets ∧
      h'.bucket_sz_log2 = h.bucket_sz_log2 ∧ (h'.buckets.map (fun p => p.1)).Nodup ∧
      (∀ p ∈ h'.buckets, (p.1 : Int) < h.max_buckets) ∧
      ((h.buckets.map (fun p => p.2)).sum + ts.length < 2 ^ 64 →
        (h'.buckets.map (fun p => p.2)).sum = (h.buckets.map (fun p => p.2)).sum + ts.length ∧
        ∀ k, h'.count k = h.count k
          + (ts.filter (fun t => decide (bucket_of h.max_buckets h.bucket_sz_log2 t = k))).length) := by
  induction ts with
  | nil =>
    intro h _ _ _ hnd hkeys
    exact ⟨h, rfl, rfl, rfl, hnd, hkeys, fun _ => ⟨by simp, fun k => by simp⟩⟩
  | cons t ts ih =>
    intro h hmax hint hsz hnd hkeys
    have e := log_time_eq h t hmax hint hsz
    have hkeys1 : ∀ p ∈ map_increment h.buckets (bucket_of h.max_buckets h.bucket_sz_log2 t),
        (p.1 : Int) < h.max_buckets := by
      intro p hp
      have hm : p.1 ∈ (map_increment h.buckets
          (bucket_of h.max_buckets h.bucket_sz_log2 t)).map (fun p => p.1) :=
        List.mem_map.2 ⟨p, hp, rfl⟩
      unfold map_increment at hm
      rw [map_assign_keys] at hm
      have hb : ((bucket_of h.max_buckets h.bucket_sz_log2 t : Nat) : Int) < h.max_buckets := by
        have : bucket_of h.max_buckets h.bucket_sz_log2 t ≤ h.max_buckets.toNat - 1 :=
          Nat.min_le_right _ _
        omega
      split at hm
      · obtain ⟨q, hq, eq⟩ := List.mem_map.1 hm
        rw [← eq]; exact hkeys q hq
      · rcases List.mem_append.1 hm with hm | hm
        · obtain ⟨q, hq, eq⟩ := List.mem_map.1 hm
          rw [← eq]; exact hkeys q hq
        · rw [List.mem_singleton] at hm
          rw [hm]; exact hb
    obtain ⟨h', e', hm', hs', hnd', hkeys', hsum'⟩ :=
      ih { h with buckets :=
          (map_increment h.buckets (bucket_of h.max_buckets h.bucket_sz_log2 t)) } hmax hint hsz
        (map_assign_nodup _ _ _ hnd) hkeys1
    refine ⟨h', ?_, hm', hs', hnd', hkeys', ?_⟩
    · show (match h.log_time t with
        | .ok h' => h'.log_times ts
        | .undefined e => .undefined e) = _
      rw [e]; exact e'
    · intro hlen
      rw [List.length_cons] at hlen
      have hle := map_find_le_sum h.buckets (bucket_of h.max_buckets h.bucket_sz_log2 t)
      have hmod : ((map_find h.buckets (bucket_of h.max_buckets h.bucket_sz_log2 t)).getD 0 + 1)
          % 2 ^ 64
          = (map_find h.buckets (bucket_of h.max_buckets h.bucket_sz_log2 t)).getD 0 + 1 :=
        Nat.mod_eq_of_lt (by omega)
      have hsum1 := map_assign_sum h.buckets (bucket_of h.max_buckets h.bucket_sz_log2 t)
        (((map_find h.buckets (bucket_of h.max_buckets h.bucket_sz_log2 t)).getD 0 + 1) % 2 ^ 64) hnd
      rw [hmod] at hsum1
      have hsum1' : ((map_increment h.buckets
          (bucket_of h.max_buckets h.bucket_sz_log2 t)).map (fun p => p.2)).sum
          = (h.buckets.map (fun p => p.2)).sum + 1 := by
        unfold map_increment
        rw [hmod]; omega
      obtain ⟨s2, c2⟩ := hsum' (by
        show ((map_increment h.buckets
          (bucket_of h.max_buckets h.bucket_sz_log2 t)).map (fun p => p.2)).sum + ts.length < 2 ^ 64
        rw [hsum1']; omega)
      refine ⟨?_, fun k => ?_⟩
      · rw [s2]
        show ((map_increment h.buckets
          (bucket_of h.max_buckets h.bucket_sz_log2 t)).map (fun p => p.2)).sum + ts.length = _
        rw [hsum1', List.length_cons]; omega
      · rw [c2 k]
        show (map_find (map_increment h.buckets
          (bucket_of h.max_buckets h.bucket_sz_log2 t)) k).getD 0 + _ = _
        unfold map_increment
        rw [map_find_map_assign, hmod, List.filter_cons]
        unfold time_histogram_s.count
        by_cases hk : k = bucket_of h.max_buckets h.bucket_sz_log2 t
        · subst hk
          simp only [if_true, Option.getD_some, decide_True, List.length_cons]
          omega
        · have hk' : ¬ bucket_of h.max_buckets h.bucket_sz_log2 t = k := fun e => hk e.symm
          simp only [hk, if_false, hk', decide_False, Bool.false_eq_true]

/-! ## The queue-pair metrics -/

/-- A call of `log_time` returns when the shift is below 64 and `max_buckets - 1`
is an `int`. -/
theorem log_time_defined (h : time_histogram_s) (t : Nat) (hsz : h.bucket_sz_log2 < 64)
    (hmb : -(2 ^ 31) < h.max_buckets) :
    ∃ h', h.log_time t = .ok h' ∧ h'.bucket_sz_log2 = h.bucket_sz_log2 ∧
      h'.max_buckets = h.max_buckets := by
  unfold time_histogram_s.log_time
  have hs : ¬ h.bucket_sz_log2 ≥ 64 := by omega
  have hov : ¬ h.max_buckets - 1 < -(2 ^ 31) := by omega
  simp only [hs, if_false, hov]
  split
  · exact ⟨_, rfl, rfl, rfl⟩
  · exact ⟨_, rfl, rfl, rfl⟩

/-- The statistics of a queue pair after a list of calls, from those before:
the counters count the receives and the completions, and the two extremes are
folded over the completion times. -/
theorem update_wqe_metrics_spec (qp_id : Int) (calls : List wqe_call) :
    ∀ (st : anp_state) (qp_info : qp_info_s) (earlier : List wqe_call),
      map_find st.queue_state qp_id = some (some qp_info) →
      (∀ w, map_find qp_info.wqe_id_tracker w = recorded_start w earlier) →
      qp_info.completion_metrics.bucket_sz_log2 < 64 →
      -(2 ^ 31) < qp_info.completion_metrics.max_buckets →
      qp_info.stats.num_wqe_rcvd < 2 ^ 64 → qp_info.stats.num_wqe_completed < 2 ^ 64 →
      ∃ st' qp_info', st.update_wqe_metrics qp_id calls = .ok st' ∧
        map_find st'.queue_state qp_id = some (some qp_info') ∧
        (∀ q, q ≠ qp_id → map_find st'.queue_state q = map_find st.queue_state q) ∧
        qp_info'.stats.num_wqe_rcvd
          = (qp_info.stats.num_wqe_rcvd + (rcvd_calls calls).length) % 2 ^ 64 ∧
        qp_info'.stats.num_wqe_completed
          = (qp_info.stats.num_wqe_completed + (completion_times earlier calls).length)
            % 2 ^ 64 ∧
        qp_info'.stats.wqe_completion_time_max
          = (completion_times earlier calls).foldl (fun m c => if m < c then c else m)
            qp_info.stats.wqe_completion_time_max ∧
        qp_info'.stats.wqe_completion_time_min
          = (completion_times earlier calls).foldl (fun m c => if m > c ∨ m = 0 then c else m)
            qp_info.stats.wqe_completion_time_min := by
  induction calls with
  | nil =>
    intro st qp_info earlier hfind _ _ _ h1 h2
    refine ⟨st, qp_info, rfl, hfind, fun _ _ => rfl, ?_, ?_, rfl, rfl⟩
    · show _ = (qp_info.stats.num_wqe_rcvd + 0) % 2 ^ 64
      omega
    · show _ = (qp_info.stats.num_wqe_completed + 0) % 2 ^ 64
      omega
  | cons c calls ih =>
    intro st qp_info earlier hfind htr hsz hmb h1 h2
    cases c with
    | send w s =>
      have e1 : st.update_wqe_send_metrics qp_id w s
          = { st with queue_state :=
                (map_assign st.queue_state qp_id (some (qp_info.wqe_send w s))) } := by
        unfold anp_state.update_wqe_send_metrics
        rw [hfind]
      obtain ⟨st', qp_info', r1, r2, r3, r4, r5, r6, r7⟩ :=
        ih (st.update_wqe_send_metrics qp_id w s) (qp_info.wqe_send w s)
          (.send w s :: earlier)
          (by rw [e1]; show map_find (map_assign st.queue_state qp_id _) qp_id = _
              rw [map_find_map_assign, if_pos rfl])
          (by
            intro w'
            show map_find (map_assign qp_info.wqe_id_tracker w s) w' = _
            rw [map_find_map_assign, recorded_start]
            rw [htr w']
            by_cases h : w' = w
            · rw [if_pos h, if_pos h.symm]
            · rw [if_neg h, if_neg (fun e => h e.symm)])
          hsz hmb h1 h2
      refine ⟨st', qp_info', r1, r2, ?_, r4, r5, r6, r7⟩
      intro q hq
      rw [r3 q hq, e1]
      show map_find (map_assign st.queue_state qp_id _) q = _
      rw [map_find_map_assign, if_neg hq]
    | rcvd w e =>
      cases hs : map_find qp_info.wqe_id_tracker w with
      | none =>
        have hrec : recorded_start w earlier = none := by rw [← htr w, hs]
        have e0 : qp_info.wqe_rcvd w e
            = .ok { qp_info with stats := { qp_info.stats with
                num_wqe_rcvd := (qp_info.stats.num_wqe_rcvd + 1) % 2 ^ 64 } } := by
          unfold qp_info_s.wqe_rcvd
          simp only [hs]
        have e1 : st.update_wqe_rcvd_metrics qp_id w e
            = .ok { st with queue_state :=
                (map_assign st.queue_state qp_id (some { qp_info with stats :=
                  { qp_info.stats with
                    num_wqe_rcvd := (qp_info.stats.num_wqe_rcvd + 1) % 2 ^ 64 } })) } := by
          unfold anp_state.update_wqe_rcvd_metrics
          rw [hfind]
          simp only [e0]
        obtain ⟨st', qp_info', r1, r2, r3, r4, r5, r6, r7⟩ :=
          ih { st with queue_state :=
                (map_assign st.queue_state qp_id (some { qp_info with stats :=
                  { qp_info.stats with
                    num_wqe_rcvd := (qp_info.stats.num_wqe_rcvd + 1) % 2 ^ 64 } })) }
            { qp_info with stats := { qp_info.stats with
                num_wqe_rcvd := (qp_info.stats.num_wqe_rcvd + 1) % 2 ^ 64 } }
            (.rcvd w e :: earlier)
            (by show map_find (map_assign st.queue_state qp_id _) qp_id = _
                rw [map_find_map_assign, if_pos rfl])
            (by
              intro w'
              show map_find qp_info.wqe_id_tracker w' = _
              rw [recorded_start, htr w']
              by_cases h : w = w'
              · rw [if_pos h, ← h, hrec]
              · rw [if_neg h])
            hsz hmb (Nat.mod_lt _ (by decide)) h2
        refine ⟨st', qp_info', ?_, r2, ?_, ?_, ?_, ?_, ?_⟩
        · show (match st.update_wqe_rcvd_metrics qp_id w e with
            | .ok st' => st'.update_wqe_metrics qp_id calls
            | .undefined e => .undefined e) = _
          rw [e1]; exact r1
        · intro q hq
          rw [r3 q hq]
          show map_find (map_assign st.queue_state qp_id _) q = _
          rw [map_find_map_assign, if_neg hq]
        · rw [r4]
          show ((qp_info.stats.num_wqe_rcvd + 1) % 2 ^ 64 + _) % 2 ^ 64 = _
          have : (rcvd_calls (.rcvd w e :: calls)).length = (rcvd_calls calls).length + 1 := by
            simp [rcvd_calls]
          rw [this]
          omega
        · rw [r5]
          show (qp_info.stats.num_wqe_completed + _) % 2 ^ 64 = _
          rw [completion_times, hrec]
        · rw [r6]
          show List.foldl _ qp_info.stats.wqe_completion_time_max _ = _
          rw [completion_times, hrec]
        · rw [r7]
          show List.foldl _ qp_info.stats.wqe_completion_time_min _ = _
          rw [completion_times, hrec]
      | some s =>
        have hrec : recorded_start w earlier = some s := by rw [← htr w, hs]
        obtain ⟨hist, eh, hh1, hh2⟩ :=
          log_time_defined qp_info.completion_metrics (completion_time e s) hsz hmb
        have e0 : qp_info.wqe_rcvd w e
            = .ok { qp_info with
                stats := { qp_info.stats with
                  num_wqe_rcvd := (qp_info.stats.num_wqe_rcvd + 1) % 2 ^ 64,
                  num_wqe_completed := (qp_info.stats.num_wqe_completed + 1) % 2 ^ 64,
                  wqe_completion_time_max :=
                    (if qp_info.stats.wqe_completion_time_max < completion_time e s
                      then completion_time e s else qp_info.stats.wqe_completion_time_max),
                  wqe_completion_time_min :=
                    (if qp_info.stats.wqe_completion_time_min > completion_time e s
                        ∨ qp_info.stats.wqe_completion_time_min = 0
                      then completion_time e s else qp_info.stats.wqe_completion_time_min) },
                completion_metrics := hist,
                wqe_id_tracker := map_erase qp_info.wqe_id_tracker w } := by
          unfold qp_info_s.wqe_rcvd
          simp only [hs]
          unfold completion_time at eh
          rw [eh]
          rfl
        generalize hinfo1 : ({ qp_info with
                stats := { qp_info.stats with
                  num_wqe_rcvd := (qp_info.stats.num_wqe_rcvd + 1) % 2 ^ 64,
                  num_wqe_completed := (qp_info.stats.num_wqe_completed + 1) % 2 ^ 64,
                  wqe_completion_time_max :=
                    (if qp_info.stats.wqe_completion_time_max < completion_time e s
                      then completion_time e s else qp_info.stats.wqe_completion_time_max),
                  wqe_completion_time_min :=
                    (if qp_info.stats.wqe_completion_time_min > completion_time e s
                        ∨ qp_info.stats.wqe_completion_time_min = 0
                      then completion_time e s else qp_info.stats.wqe_completion_time_min) },
                completion_metrics := hist,
                wqe_id_tracker := map_erase qp_info.wqe_id_tracker w } : qp_info_s) = info1
          at e0
        have e1 : st.update_wqe_rcvd_metrics qp_id w e
            = .ok { st with queue_state := (map_assign st.queue_state qp_id (some info1)) } := by
          unfold anp_state.update_wqe_rcvd_metrics
          rw [hfind]
          simp only [e0]
        obtain ⟨st', qp_info', r1, r2, r3, r4, r5, r6, r7⟩ :=
          ih { st with queue_state := (map_assign st.queue_state qp_id (some info1)) }
            info1 (.rcvd w e :: earlier)
            (by show map_find (map_assign st.queue_state qp_id _) qp_id = _
                rw [map_find_map_assign, if_pos rfl])
            (by
              intro w'
              rw [← hinfo1]
              show map_find (map_erase qp_info.wqe_id_tracker w) w' = _
              rw [map_find_map_erase, recorded_start, htr w']
              by_cases h : w = w'
              · rw [if_pos h, if_pos h.symm]
              · rw [if_neg h, if_neg (fun e => h e.symm)])
            (by rw [← hinfo1]; exact hh1 ▸ hsz) (by rw [← hinfo1]; exact hh2 ▸ hmb)
            (by rw [← hinfo1]; exact Nat.mod_lt _ (by decide))
            (by rw [← hinfo1]; exact Nat.mod_lt _ (by decide))
        refine ⟨st', qp_info', ?_, r2, ?_, ?_, ?_, ?_, ?_⟩
        · show (match st.update_wqe_rcvd_metrics qp_id w e with
            | .ok st' => st'.update_wqe_metrics qp_id calls
            | .undefined e => .undefined e) = _
          rw [e1]; exact r1
        · intro q hq
          rw [r3 q hq]
          show map_find (map_assign st.queue_state qp_id _) q = _
          rw [map_find_map_assign, if_neg hq]
        · rw [r4, ← hinfo1]
          show ((qp_info.stats.num_wqe_rcvd + 1) % 2 ^ 64 + _) % 2 ^ 64 = _
          have : (rcvd_calls (.rcvd w e :: calls)).length = (rcvd_calls calls).length + 1 := by
            simp [rcvd_calls]
          rw [this]
          omega
        · rw [r5, ← hinfo1]
          show ((qp_info.stats.num_wqe_completed + 1) % 2 ^ 64 + _) % 2 ^ 64 = _
          rw [completion_times, hrec]
          simp only [List.length_cons]
          omega
        · rw [r6, ← hinfo1]
          rw [completion_times, hrec]
          rfl
        · rw [r7, ← hinfo1]
          rw [completion_times, hrec]
          rfl

/-- The running maximum of a list, from `m0`. -/
theorem foldl_max_spec (cs : List Nat) : ∀ m0 : Nat,
    (cs.foldl (fun m c => if m < c then c else m) m0 = m0
        ∨ cs.foldl (fun m c => if m < c then c else m) m0 ∈ cs) ∧
      m0 ≤ cs.foldl (fun m c => if m < c then c else m) m0 ∧
      ∀ c ∈ cs, c ≤ cs.foldl (fun m c => if m < c then c else m) m0 := by
  induction cs with
  | nil => intro m0; exact ⟨Or.inl rfl, Nat.le_refl _, fun c hc => by cases hc⟩
  | cons a cs ih =>
    intro m0
    rw [List.foldl_cons]
    obtain ⟨h1, h2, h3⟩ := ih (if m0 < a then a else m0)
    have hle : m0 ≤ (if m0 < a then a else m0) ∧ a ≤ (if m0 < a then a else m0) := by
      split <;> omega
    refine ⟨?_, by omega, ?_⟩
    · rcases h1 with h1 | h1
      · rw [h1]
        by_cases hlt : m0 < a
        · rw [if_pos hlt]; exact Or.inr (List.mem_cons_self _ _)
        · rw [if_neg hlt]; exact Or.inl rfl
      · exact Or.inr (List.mem_cons_of_mem _ h1)
    · intro c hc
      rcases List.mem_cons.1 hc with hc | hc
      · rw [hc]; omega
      · exact h3 c hc

theorem since_zero_append (cs : List Nat) (c : Nat) :
    since_zero (cs ++ [c]) = if c ≠ 0 then c :: since_zero cs else [] := by
  unfold since_zero
  rw [List.reverse_append, List.reverse_singleton, List.singleton_append, List.takeWhile_cons]
  by_cases h : c = 0
  · simp [h]
  · simp [h]

/-- The stored minimum after a list of completion times, from 0: 0 when the
last time is 0 (or there is none), otherwise the least of the times since the
last 0. -/
theorem foldl_min_spec (cs : List Nat) :
    (since_zero cs = [] → cs.foldl (fun m c => if m > c ∨ m = 0 then c else m) 0 = 0) ∧
      (since_zero cs ≠ [] →
        cs.foldl (fun m c => if m > c ∨ m = 0 then c else m) 0 ∈ since_zero cs ∧
        ∀ c ∈ since_zero cs, cs.foldl (fun m c => if m > c ∨ m = 0 then c else m) 0 ≤ c) := by
  induction cs using List.reverseRecOn with
  | nil => exact ⟨fun _ => rfl, fun h => absurd rfl h⟩
  | append_singleton cs c ih =>
    rw [List.foldl_append, List.foldl_cons, List.foldl_nil, since_zero_append]
    obtain ⟨ih1, ih2⟩ := ih
    by_cases hc : c = 0
    · subst hc
      have e : (if (0 : Nat) ≠ 0 then 0 :: since_zero cs else []) = [] := by simp
      rw [e]
      refine ⟨fun _ => ?_, fun h => absurd rfl h⟩
      generalize cs.foldl (fun m c => if m > c ∨ m = 0 then c else m) 0 = r
      have : r > 0 ∨ r = 0 := by omega
      rw [if_pos this]
    · rw [if_pos hc]
      refine ⟨fun h => (by cases h), fun _ => ?_⟩
      by_cases hs : since_zero cs = []
      · rw [ih1 hs, hs]
        simp
      · obtain ⟨hm, hmin⟩ := ih2 hs
        have hne : cs.foldl (fun m c => if m > c ∨ m = 0 then c else m) 0 ≠ 0 := by
          have := List.mem_takeWhile_imp hm
          simpa using this
        generalize cs.foldl (fun m c => if m > c ∨ m = 0 then c else m) 0 = r at hm hmin hne ⊢
        by_cases hgt : r > c
        · rw [if_pos (Or.inl hgt)]
          refine ⟨List.mem_cons_self _ _, fun x hx => ?_⟩
          rcases List.mem_cons.1 hx with hx | hx
          · omega
          · have := hmin x hx; omega
        · have : ¬ (r > c ∨ r = 0) := by omega
          rw [if_neg this]
          refine ⟨List.mem_cons_of_mem _ hm, fun x hx => ?_⟩
          rcases List.mem_cons.1 hx with hx | hx
          · omega
          · exact hmin x hx

/-- Without a completion time of 0 every completion time is on record. -/
theorem since_zero_all (cs : List Nat) (h : ∀ c ∈ cs, c ≠ 0) : since_zero cs = cs.reverse := by
  unfold since_zero
  rw [List.takeWhile_eq_self_iff]
  intro c hc
  simpa using h c (List.mem_reverse.1 hc)

/-- A completion needs a receive. -/
theorem completion_times_length (calls : List wqe_call) : ∀ earlier : List wqe_call,
    (completion_times earlier calls).length ≤ (rcvd_calls calls).length := by
  induction calls with
  | nil => intro _; simp [completion_times]
  | cons c calls ih =>
    intro earlier
    cases c with
    | send w s =>
      rw [completion_times]
      have : rcvd_calls (.send w s :: calls) = rcvd_calls calls := by simp [rcvd_calls]
      rw [this]; exact ih _
    | rcvd w e =>
      have : (rcvd_calls (.rcvd w e :: calls)).length = (rcvd_calls calls).length + 1 := by
        simp [rcvd_calls]
      rw [completion_times, this]
      have := ih (.rcvd w e :: earlier)
      split
      · rw [List.length_cons]; omega
      · omega

/-! ## The rules handed to the wrapper do not depend on the machine -/

theorem for_range_from_project {σ τ : Type} (π : σ → τ) (body' : Nat → σ → Run σ)
    (body : Nat → τ → Run τ) (h : ∀ i s, (body' i s).map_ok π = body i (π s)) :
    ∀ (n j : Nat) (s : σ),
      (for_range_from body' n j s).map_ok π = for_range_from body n j (π s) := by
  intro n
  induction n with
  | zero => intro j s; rfl
  | succ n ih =>
    intro j s
    rw [for_range_from, for_range_from]
    have hb := h j s
    cases hs : body' j s with
    | ok s' =>
      rw [hs] at hb
      simp only [Run.map_ok] at hb
      rw [← hb]
      exact ih (j + 1) s'
    | undefined e =>
      rw [hs] at hb
      simp only [Run.map_ok] at hb
      rw [← hb]
      rfl

theorem for_each_project {α σ τ : Type} (π : σ → τ) (body' : α → σ → Run σ)
    (body : α → τ → Run τ) (h : ∀ a s, (body' a s).map_ok π = body a (π s)) :
    ∀ (l : List α) (s : σ), (for_each l body' s).map_ok π = for_each l body (π s) := by
  intro l
  induction l with
  | nil => intro s; rfl
  | cons a l ih =>
    intro s
    rw [for_each, for_each]
    have hb := h a s
    cases hs : body' a s with
    | ok s' =>
      rw [hs] at hb
      simp only [Run.map_ok] at hb
      rw [← hb]
      exact ih s'
    | undefined e =>
      rw [hs] at hb
      simp only [Run.map_ok] at hb
      rw [← hb]
      rfl

/-- The rules that the loops hand to `execute_iptables_command` are those of
`apply_host_rules`, whatever the machine does with them. -/
theorem apply_host_rules_on_rules {κ : Type} (popen : Nat → Option (List Byte))
    (sh : List Byte → κ → Int × κ)
    (first second : List Byte → List Byte → List Byte → IptablesRule) (host : host_t)
    (st : List IptablesRule × machine κ) :
    (apply_host_rules_on popen sh first second host st).map_ok (fun st => st.1)
      = apply_host_rules first second host st.1 := by
  unfold apply_host_rules_on apply_host_rules for_range
  apply for_range_from_project
  intro i s
  cases hd : index MAX_DEVICES host.devices i with
  | undefined e => rfl
  | ok device =>
    show (for_range_from _ device.num_interfaces.toNat 0 s).map_ok _
      = for_range_from _ device.num_interfaces.toNat 0 s.1
    apply for_range_from_project
    intro j s
    cases hp : index MAX_INTERFACES device.planar_intfs j with
    | undefined e => rfl
    | ok planar_intf =>
      simp only [Run.ok_bind]
      by_cases hc : (s_addr_nonzero planar_intf.ipv4_addr && s_addr_nonzero device.virtual_ip) = true
      · rw [if_pos hc, if_pos hc]
        cases hl : strlen planar_intf.name with
        | undefined e => rfl
        | ok n => rfl
      · rw [if_neg hc, if_neg hc]
        rfl

theorem apply_local_vip_iptables_rule_on_rules {κ : Type} (popen : Nat → Option (List Byte))
    (sh : List Byte → κ → Int × κ) (host_db : host_db_t) (st : List IptablesRule × machine κ) :
    (apply_local_vip_iptables_rule_on popen sh host_db st).map_ok (fun st => st.1)
      = apply_local_vip_iptables_rule host_db st.1 := by
  unfold apply_local_vip_iptables_rule_on apply_local_vip_iptables_rule
  cases map_find host_db.all_hosts host_db.local_ip with
  | none => rfl
  | some host => exact apply_host_rules_on_rules popen sh _ _ host st

theorem apply_remote_vip_iptables_rule_on_rules {κ : Type} (popen : Nat → Option (List Byte))
    (sh : List Byte → κ → Int × κ) (host_db : host_db_t) (st : List IptablesRule × machine κ) :
    (apply_remote_vip_iptables_rule_on popen sh host_db st).map_ok (fun st => st.1)
      = apply_remote_vip_iptables_rule host_db st.1 := by
  unfold apply_remote_vip_iptables_rule_on apply_remote_vip_iptables_rule
  apply for_each_project
  intro host_pair s
  by_cases hk : host_pair.1 = host_db.local_ip
  · rw [if_pos hk, if_pos hk]; rfl
  · rw [if_neg hk, if_neg hk]
    exact apply_host_rules_on_rules popen sh _ _ host_pair.2 s

theorem program_rules_on_rules {κ : Type} (popen : Nat → Option (List Byte))
    (sh : List Byte → κ → Int × κ) (host_db : host_db_t) (m : machine κ) :
    (program_rules_on popen sh host_db m).map_ok (fun st => st.1) = program_rules host_db := by
  unfold program_rules_on program_rules
  have h1 := apply_local_vip_iptables_rule_on_rules popen sh host_db ([], m)
  cases hl : apply_local_vip_iptables_rule_on popen sh host_db ([], m) with
  | undefined e =>
    rw [hl] at h1
    simp only [Run.map_ok] at h1
    rw [← h1]; rfl
  | ok st =>
    rw [hl] at h1
    simp only [Run.map_ok] at h1
    rw [← h1]
    exact apply_remote_vip_iptables_rule_on_rules popen sh host_db st

/-! ## The exchange -/

theorem anpNcclSocketRecv_sent (sock : anpNcclSocket) (size : Int) :
    (anpNcclSocketRecv sock size).2.2.sent = sock.sent := by
  unfold anpNcclSocketRecv recv
  cases hs : sock.script with
  | nil => simp only; split_ifs <;> rfl
  | cons a script =>
    cases a with
    | none => simp only; split_ifs <;> rfl
    | some k => simp only; split_ifs <;> rfl

/-- A call of `recv_tlv` with a null `payload` writes nothing to the socket. -/
theorem recv_tlv_sent (sock : anpNcclSocket) (msg_type payload_size : Nat) :
    (recv_tlv sock msg_type none payload_size).sock.sent = sock.sent := by
  unfold recv_tlv
  simp only
  split_ifs
  · exact anpNcclSocketRecv_sent _ _
  · rw [anpNcclSocketRecv_sent, anpNcclSocketRecv_sent]
  · show (anpNcclSocketRecv _ 4).2.2.sent = _
    rw [anpNcclSocketRecv_sent, anpNcclSocketRecv_sent]

/-- The last statements of `run_leaf_node` return `EXIT_SUCCESS` with the rules
programmed, when they return. -/
theorem run_leaf_node_program_ok (host_db : host_db_t) (sock : anpNcclSocket)
    (out : leaf_outcome) (h : run_leaf_node_program host_db sock = .ok out) :
    out.ret = EXIT_SUCCESS ∧ out.sock = sock ∧ out.host_db = host_db ∧
      ∃ issued, program_rules host_db = .ok issued ∧ out.programmed = some issued := by
  unfold run_leaf_node_program at h
  obtain ⟨_, _, h⟩ := (Run.bind_eq_ok _ _ _).1 h
  obtain ⟨issued, hi, h⟩ := (Run.bind_eq_ok _ _ _).1 h
  simp only [Run.pure_eq, Run.ok.injEq] at h
  subst h
  exact ⟨rfl, rfl, rfl, issued, hi, rfl⟩

theorem find_of_nodup_keys {α κ : Type} [DecidableEq κ] (key : α → κ) (l : List α)
    (hnd : (l.map key).Nodup) (a : α) (ha : a ∈ l) :
    l.find? (fun x => decide (key x = key a)) = some a := by
  induction l with
  | nil => cases ha
  | cons x l ih =>
    rw [List.map_cons, List.nodup_cons] at hnd
    rw [List.find?_cons]
    rcases List.mem_cons.1 ha with e | hm
    · subst e; simp
    · have hne : key x ≠ key a := by
        intro e
        exact hnd.1 (e ▸ List.mem_map.2 ⟨a, hm, rfl⟩)
      simp only [hne, decide_False]
      exact ih hnd.2 hm

/-- What `recv_tlv` leaves does not depend on the values that `*msg_type` and
`*payload_size` hold before the call, except where the call fails and leaves
them as they are. -/
theorem recv_tlv_initial (sock : anpNcclSocket) (t n t' n' : Nat) :
    (recv_tlv sock t none n).ret = (recv_tlv sock t' none n').ret ∧
      (recv_tlv sock t none n).sock = (recv_tlv sock t' none n').sock ∧
      ((recv_tlv sock t' none n').ret = 0 →
        (recv_tlv sock t none n).msg_type = (recv_tlv sock t' none n').msg_type ∧
        (recv_tlv sock t none n).payload_size = (recv_tlv sock t' none n').payload_size) := by
  unfold recv_tlv
  simp only
  split_ifs with h1 h2
  · exact ⟨rfl, rfl, fun h => absurd h (show ¬ ((-1 : Int) = 0) by decide)⟩
  · exact ⟨rfl, rfl, fun h => absurd h (show ¬ ((-1 : Int) = 0) by decide)⟩
  · exact ⟨rfl, rfl, fun _ => ⟨rfl, rfl⟩⟩

/-- On a socket whose system calls transfer everything `send_tlv` returns 0 and
appends the frame of the message. -/
theorem send_tlv_reliable (sock : anpNcclSocket) (t : Nat) (p : List Byte)
    (hs : sock.script = []) (hlen : p.length < 2 ^ 31) :
    (send_tlv sock t (some p) p.length).1 = 0 ∧
      (send_tlv sock t (some p) p.length).2.sent = sock.sent ++ wire_frame (t, p) := by
  have h0 : (send_tlv sock t (some p) p.length).1 = 0 :=
    (send_tlv_ret sock t p (by omega)).1.2 (sends_succeed_reliable sock t p hs hlen)
  exact ⟨h0, (send_tlv_ok sock t p (by omega) h0).1⟩

/-- Whatever `run_leaf_node` does after its response, it writes nothing more
to the socket. -/
theorem run_leaf_node_sent (inet_pton6 : List Byte → Option (Nat → Byte))
    (read_json : List Byte → Option host_node) (fresh : Nat → host_t) (host : host_t)
    (host_db db : host_db_t) (buffer : List Byte) (clientSock : anpNcclSocket)
    (out : leaf_outcome)
    (h1 : (recv_tlv clientSock 0 none 0).ret = 0)
    (h2 : (recv_tlv clientSock 0 none 0).msg_type = MSG_PLANAR_CONFIG_REQUEST)
    (hresp : run_leaf_node_response inet_pton6 read_json host host_db = .ok (db, buffer))
    (h : run_leaf_node inet_pton6 read_json fresh host host_db clientSock = .ok out) :
    out.sock.sent
      = (send_tlv (recv_tlv clientSock 0 none 0).sock MSG_CONFIG_RESPONSE (some buffer)
          buffer.length).2.sent := by
  unfold run_leaf_node at h
  simp only at h
  rw [if_neg (not_not.2 h1), if_neg (not_not.2 h2), hresp] at h
  simp only [Run.ok_bind] at h
  split_ifs at h with h3 h4 h5 h6 h7
  · simp only [Run.pure_eq, Run.ok.injEq] at h
    subst h; rfl
  · simp only [Run.pure_eq, Run.ok.injEq] at h
    subst h; exact recv_tlv_sent _ _ _
  · simp only [Run.pure_eq, Run.ok.injEq] at h
    subst h; exact recv_tlv_sent _ _ _
  · simp only [Run.pure_eq, Run.ok.injEq] at h
    subst h
    show (anpNcclSocketRecv _ _).2.2.sent = _
    rw [anpNcclSocketRecv_sent]; exact recv_tlv_sent _ _ _
  · obtain ⟨db', _, h⟩ := (Run.bind_eq_ok _ _ _).1 h
    obtain ⟨_, e, _⟩ := run_leaf_node_program_ok _ _ _ h
    rw [e, anpNcclSocketRecv_sent]; exact recv_tlv_sent _ _ _
  · obtain ⟨_, e, _⟩ := run_leaf_node_program_ok _ _ _ h
    rw [e]; exact recv_tlv_sent _ _ _

/-- The declared length of the first header has no part in what
`run_leaf_node` does: two sockets that give the same first type and are the
same after the first header give the same run. -/
theorem run_leaf_node_length_unused (inet_pton6 : List Byte → Option (Nat → Byte))
    (read_json : List Byte → Option host_node) (fresh : Nat → host_t) (host : host_t)
    (host_db : host_db_t) (s₁ s₂ : anpNcclSocket)
    (hret : (recv_tlv s₁ 0 none 0).ret = (recv_tlv s₂ 0 none 0).ret)
    (htype : (recv_tlv s₁ 0 none 0).msg_type = (recv_tlv s₂ 0 none 0).msg_type)
    (hsock : (recv_tlv s₁ 0 none 0).sock = (recv_tlv s₂ 0 none 0).sock) :
    run_leaf_node inet_pton6 read_json fresh host host_db s₁
      = run_leaf_node inet_pton6 read_json fresh host host_db s₂ := by
  unfold run_leaf_node
  simp only
  rw [hret, htype, hsock]
  by_cases h1 : (recv_tlv s₂ 0 none 0).ret = 0
  swap
  · rw [if_pos h1, if_pos h1]
  rw [if_neg (not_not.2 h1), if_neg (not_not.2 h1)]
  by_cases h2 : (recv_tlv s₂ 0 none 0).msg_type = MSG_PLANAR_CONFIG_REQUEST
  swap
  · rw [if_pos h2, if_pos h2]
  rw [if_neg (not_not.2 h2), if_neg (not_not.2 h2)]
  cases hr : run_leaf_node_response inet_pton6 read_json host host_db with
  | undefined e => rfl
  | ok p =>
    obtain ⟨db, buffer⟩ := p
    simp only [Run.ok_bind]
    obtain ⟨e1, e2, e3⟩ := recv_tlv_initial
      (send_tlv (recv_tlv s₂ 0 none 0).sock MSG_CONFIG_RESPONSE (some buffer) buffer.length).2
      (recv_tlv s₂ 0 none 0).msg_type (recv_tlv s₁ 0 none 0).payload_size
      (recv_tlv s₂ 0 none 0).msg_type (recv_tlv s₂ 0 none 0).payload_size
    by_cases h3 : (send_tlv (recv_tlv s₂ 0 none 0).sock MSG_CONFIG_RESPONSE (some buffer)
        buffer.length).1 = 0
    swap
    · rw [if_pos h3, if_pos h3]
    rw [if_neg (not_not.2 h3), if_neg (not_not.2 h3), e1, e2]
    by_cases h4 : (recv_tlv (send_tlv (recv_tlv s₂ 0 none 0).sock MSG_CONFIG_RESPONSE
        (some buffer) buffer.length).2 (recv_tlv s₂ 0 none 0).msg_type none
        (recv_tlv s₂ 0 none 0).payload_size).ret = 0
    swap
    · rw [if_pos h4, if_pos h4]
    rw [(e3 h4).1, (e3 h4).2]


/-! ## Short reads and long payloads of the TLV helpers -/

/-- A `recv` that hands over fewer than four bytes fails the first read of
`recv_tlv`, whatever is pending. -/
theorem recv_frame_short_header (sock : anpNcclSocket) (k : Nat) (rest : List (Option Nat))
    (hs : sock.script = some k :: rest) (hk : k < 4) : (recv_frame sock).1 = none := by
  have hlen : (sock.pending.take (min 4 k)).length ≠ 4 := by
    rw [List.length_take]
    omega
  have h1 : (anpNcclSocketRecv sock 4).1 = .ncclInternalError := by
    have e : size_t_of_int 4 = 4 := by decide
    unfold anpNcclSocketRecv recv
    simp only [e, hs]
    have c1 : ¬ (((sock.pending.take (min 4 k)).length : Int) = -1) := by omega
    have c2 : (((sock.pending.take (min 4 k)).length : Int) ≠ 4) := by
      intro h
      exact hlen (by exact_mod_cast h)
    rw [if_neg c1, if_pos c2]
  unfold recv_frame recv_tlv
  simp [h1]

/-- A payload of `2^31` bytes or more is not sent: `send_tlv` returns -1. -/
theorem send_tlv_large (sock : anpNcclSocket) (t : Nat) (p : List Byte)
    (h1 : 2 ^ 31 ≤ p.length) (h2 : p.length < 2 ^ 32) :
    (send_tlv sock t (some p) p.length).1 = -1 := by
  rcases (send_tlv_ret sock t p h2).2 with h | h
  · have := (send_tlv_ok sock t p h2 h).2
    omega
  · exact h

/-! # Claims -/

/-! ## C1: a host round-trips through the codec -/

/-- C1, amended. For every host `h` within the caps of I4 whose `host_name` and
`host_ip` are shorter than `2^32` bytes, and whatever the destination record
`h0` holds before, `deserialize_host` at offset 0 on the bytes produced by
`serialize_host(h)` returns a host with the content of `h` (`host_name`,
`host_ip`, `num_devices` and, in order, every device and planar interface
field) and leaves the offset equal to the length of the encoding. -/
theorem deserialize_serialize_host (h h0 : host_t) (hc : h.within_caps)
    (hname : h.host_name.length < 2 ^ 32) (hip : h.host_ip.length < 2 ^ 32) :
    ∃ buf h', serialize_host [] h = .ok buf ∧
      deserialize_host buf h0 0 = .ok (h', buf.length) ∧ h'.view = h.view := by
  obtain ⟨hf, hn⟩ := host_view_of_within_caps hc hname hip
  obtain ⟨h', e, v, _⟩ := deserialize_host_wire h.view [] h0 hf hn
  rw [List.append_nil] at e
  refine ⟨wire_host h.view, h', ?_, e, v⟩
  simpa using serialize_host_eq [] h hc.2.1

/-- Witness of C1, amended: `host_a` is within the caps, its strings are short,
and it round-trips. -/
theorem deserialize_serialize_host_witness :
    host_a.within_caps ∧ host_a.host_name.length < 2 ^ 32 ∧ host_a.host_ip.length < 2 ^ 32 ∧
      ∃ buf h', serialize_host [] host_a = .ok buf ∧
        deserialize_host buf host_zero 0 = .ok (h', buf.length) ∧ h'.view = host_a.view :=
  ⟨host_a_within_caps, by decide, by decide,
    deserialize_serialize_host host_a host_zero host_a_within_caps (by decide) (by decide)⟩

theorem wire_long_name (n : Nat) (hn : n % 2 ^ 32 = 0) :
    wire_host (host_long_name n).view
      = wire_host { host_name := [], host_ip := [], num_devices := 0, devices := [] }
          ++ List.replicate n 0 := by
  have e1 : BE32 n = List.replicate 4 0 := by
    unfold BE32
    rw [hn]
    rfl
  have e2 : BE32 0 = List.replicate 4 0 := rfl
  have e3 : u32_of_int 0 = 0 := rfl
  simp only [wire_host, host_long_name, host_t.view, Int.toNat_zero, List.range_zero,
    List.map_nil, List.flatten_nil, List.append_nil, List.length_replicate, List.length_nil,
    e1, e2, e3, List.append_assoc, List.append_replicate_replicate]
  congr 1
  omega

theorem long_name_within_caps (n : Nat) : (host_long_name n).within_caps := by
  refine ⟨?_, ⟨?_, fun i hi => ?_⟩, fun i hi => ?_⟩
  · show (0 : Int) ≤ 0
    decide
  · show (0 : Int) ≤ (MAX_DEVICES : Int)
    decide
  · simp [host_long_name] at hi
  · simp [host_long_name] at hi

theorem long_name_roundtrip (n : Nat) (hn : n % 2 ^ 32 = 0) (hpos : 0 < n) (h0 : host_t) :
    ¬ ∃ buf h', serialize_host [] (host_long_name n) = .ok buf ∧
      deserialize_host buf h0 0 = .ok (h', buf.length) ∧ h'.view = (host_long_name n).view := by
  rintro ⟨buf, h', hs, hd, _⟩
  have hv : (host_long_name n).valid := (long_name_within_caps n).2.1
  have hs' := serialize_host_eq [] (host_long_name n) hv
  rw [hs'] at hs
  have hbuf : buf = wire_host (host_long_name n).view := by
    injection hs with hs
    simpa using hs.symm
  rw [hbuf, wire_long_name n hn] at hd
  obtain ⟨h'', e, _, _⟩ :=
    deserialize_host_wire { host_name := [], host_ip := [], num_devices := 0, devices := [] }
      (List.replicate n 0) h0
      ⟨by decide, by decide, rfl, by decide, by simp⟩ (by intro d hd; simp at hd)
  rw [e] at hd
  injection hd with hd
  have := congrArg Prod.snd hd
  simp only [List.length_append, List.length_replicate] at this
  omega

/-- C1 as stated fails: the host whose `host_name` is `2^32` zero bytes is
within the caps of I4 (it has no device), `htonl(host.host_name.size())` keeps
only the low 32 bits of the size, and `deserialize_host` on its encoding does
not return a host with its content and the offset at the end of the encoding. -/
theorem roundtrip_fails_for_long_host_name :
    (host_long_name (2 ^ 32)).within_caps ∧
      ¬ ∃ buf h', serialize_host [] (host_long_name (2 ^ 32)) = .ok buf ∧
        deserialize_host buf host_zero 0 = .ok (h', buf.length) ∧
        h'.view = (host_long_name (2 ^ 32)).view :=
  ⟨long_name_within_caps (2 ^ 32),
    long_name_roundtrip (2 ^ 32) (by norm_num) (by norm_num) host_zero⟩

/-! ## C2: the decoded map of all hosts -/

/-- C2: the code at a failing input.  The root holds the hosts `a` and `b`
under their `host_ip` (10.0.0.2 and 10.0.0.5); `deserialize_all_hosts` on an
empty database, fed with `serialize_all_hosts` of the root's database, stores
them under their `host_name` (`a` and `b`): `all_hosts[host.host_name] = host`. -/
theorem deserialize_all_hosts_keys_by_host_name :
    root_db.view = [(ascii "10.0.0.2", host_a.view), (ascii "10.0.0.5", host_b.view)] ∧
      Run.map_ok host_db_t.view
          (serialize_all_hosts root_db >>= deserialize_all_hosts (fun _ => host_zero) host_db_empty)
        = .ok [(ascii "a", host_a.view), (ascii "b", host_b.view)] := by
  decide

/-! ## C3: rules of a leaf -/

/-- C3: the code at a failing input.  On the database of the root with
`local_ip` 10.0.0.5 the rules are the two local rules of host `b` then the two
remote rules of host `a`; on the leaf 10.0.0.5, whose `all_hosts` was decoded
from the composite payload and is keyed by `host_name`, the local host is not
found: no local rule is issued and remote rules are issued for `a` and for the
leaf's own host `b`. -/
theorem leaf_rules_differ_from_root_view :
    program_rules { root_db with local_ip := ascii "10.0.0.5" }
        = .ok [add_tx_snat_rules (ascii "192.168.1.2") (ascii "10.1.0.2") (ascii "eth1"),
               add_rx_dnat_rules (ascii "192.168.1.2") (ascii "10.1.0.2") (ascii "eth1"),
               add_tx_dnat_rules (ascii "192.168.1.1") (ascii "10.1.0.1") (ascii "eth1"),
               add_rx_snat_rules (ascii "192.168.1.1") (ascii "10.1.0.1") (ascii "eth1")] ∧
      (serialize_all_hosts root_db
          >>= leaf_host_db (fun _ => host_zero) host_db_empty host_b >>= program_rules)
        = .ok [add_tx_dnat_rules (ascii "192.168.1.1") (ascii "10.1.0.1") (ascii "eth1"),
               add_rx_snat_rules (ascii "192.168.1.1") (ascii "10.1.0.1") (ascii "eth1"),
               add_tx_dnat_rules (ascii "192.168.1.2") (ascii "10.1.0.2") (ascii "eth1"),
               add_rx_snat_rules (ascii "192.168.1.2") (ascii "10.1.0.2") (ascii "eth1")] := by
  decide

/-! ## C4: the bytes written by `serialize_host` -/

/-- C4. For every host `h` (a `host_t` whose counts fit its arrays and whose
`char` arrays hold C strings), `serialize_host` appends to the buffer exactly
the wire form of the content of `h`: `BE32(len host_name) ++ host_name ++
BE32(len host_ip) ++ host_ip ++ BE32(num_devices)` followed, for the first
`num_devices` devices in order, by `BE32(len virtual_intf) ++ virtual_intf`,
the 4 raw bytes of `virtual_ip`, `BE32(num_interfaces)` and, for the first
`num_interfaces` planar interfaces in order, `BE32(len id) ++ id ++
BE32(len name) ++ name`, 4 raw bytes of IPv4 and 16 raw bytes of IPv6; no NUL
terminator is written and the bytes already in the buffer are unchanged. -/
theorem serialize_host_format (buffer : List Byte) (h : host_t) (hh : h.valid) :
    serialize_host buffer h = .ok (buffer ++ wire_host h.view) ∧
      wire_host h.view =
        BE32 h.host_name.length ++ h.host_name ++ (BE32 h.host_ip.length ++ h.host_ip)
          ++ BE32 (u32_of_int h.num_devices)
          ++ ((List.range h.num_devices.toNat).map (fun i =>
                BE32 (c_str (h.devices i).virtual_intf).length ++ c_str (h.devices i).virtual_intf
                  ++ mem_bytes (h.devices i).virtual_ip 4
                  ++ BE32 (u32_of_int (h.devices i).num_interfaces)
                  ++ ((List.range (h.devices i).num_interfaces.toNat).map (fun j =>
                        BE32 (c_str ((h.devices i).planar_intfs j).id).length
                          ++ c_str ((h.devices i).planar_intfs j).id
                          ++ (BE32 (c_str ((h.devices i).planar_intfs j).name).length
                            ++ c_str ((h.devices i).planar_intfs j).name)
                          ++ mem_bytes ((h.devices i).planar_intfs j).ipv4_addr 4
                          ++ mem_bytes ((h.devices i).planar_intfs j).ipv6_addr 16)).flatten)).flatten := by
  refine ⟨serialize_host_eq buffer h hh, ?_⟩
  simp [wire_host, wire_device, wire_planar, host_t.view, device_t.view, planar_interface_t.view,
    Function.comp_def]

/-- Witness of C4: `host_a` is valid and its serialization after the two
bytes `01 02` is those two bytes followed by its wire form. -/
theorem serialize_host_format_witness :
    host_a.valid ∧ serialize_host [1, 2] host_a = .ok ([1, 2] ++ wire_host host_a.view) :=
  ⟨host_a_valid, (serialize_host_format [1, 2] host_a host_a_valid).1⟩

/-! ## C5: the bytes written by `serialize_all_hosts` -/

/-- C5. For every `host_db` (whose hosts are valid `host_t` values),
`serialize_all_hosts` returns `BE32` of the number of entries of `all_hosts`
followed by the concatenation, in iteration order, of what `serialize_host`
produces for the host of every entry, each entry once. -/
theorem serialize_all_hosts_format (db : host_db_t) (hv : ∀ p ∈ db.all_hosts, p.2.valid) :
    serialize_all_hosts db
        = .ok (BE32 db.all_hosts.length
            ++ (db.all_hosts.map (fun p => wire_host p.2.view)).flatten) ∧
      ∀ p ∈ db.all_hosts, serialize_host [] p.2 = .ok (wire_host p.2.view) :=
  ⟨serialize_all_hosts_eq db hv, fun p hp => by simpa using serialize_host_eq [] p.2 (hv p hp)⟩

/-- Witness of C5 on the database of the root with the hosts `a` and `b`. -/
theorem serialize_all_hosts_format_witness :
    (∀ p ∈ root_db.all_hosts, p.2.valid) ∧
      serialize_all_hosts root_db
        = .ok (BE32 2 ++ (wire_host host_a.view ++ wire_host host_b.view)) :=
  ⟨root_db_valid, by
    have h := (serialize_all_hosts_format root_db root_db_valid).1
    rw [h, root_db_entries]
    simp⟩

/-! ## C6: overruns in `deserialize_host` -/

/-- C6: the code at failing inputs.  The function `deserialize_host` returns
`void` and compares no length with the size of the buffer or with
`MAX_STR_LEN`.  On the empty buffer the first length prefix is read past the
end of the vector; on a buffer whose `host_name` length prefix announces five
bytes where two follow, `assign` reads past the end; on a complete buffer whose
`virtualIntf` length prefix is 64 the terminator is stored at index 64 of the
64-byte array.  The empty buffer comes from the network: for a
`MSG_CONFIG_RESPONSE` frame of length 0 `recv_config_thread` hands its empty
vector to `deserialize_host`.  For every buffer with fewer than four bytes from
the offset on, the first read is past the end. -/
theorem deserialize_host_reads_past_buffer :
    deserialize_host [] host_zero 0 = .undefined .read_past_end ∧
      deserialize_host (BE32 5 ++ ascii "ab") host_zero 0 = .undefined .read_past_end ∧
      deserialize_host long_string host_zero 0 = .undefined .array_overflow ∧
      recv_config_thread host_zero (reliable (wire_frame (MSG_CONFIG_RESPONSE, [])))
        = .undefined .read_past_end ∧
      (∀ (buffer : List Byte) (host : host_t) (off : Nat), buffer.length < off + 4 →
        deserialize_host buffer host off = .undefined .read_past_end) := by
  refine ⟨rfl, rfl, rfl, rfl, ?_⟩
  intro buffer host off h
  unfold deserialize_host read_u32
  rw [if_neg (by omega)]
  rfl

/-! ## C7: trailing bytes -/

/-- C7 as stated fails: the wire form of host `a` followed by the byte `ff` is
decoded by the one-argument `deserialize_host` into the content of `a`, and the
all-hosts encoding of the root's database followed by `ff` is decoded by
`deserialize_all_hosts` into the two hosts; neither call rejects the buffer. -/
theorem trailing_bytes_are_accepted :
    Run.map_ok host_t.view (deserialize_host1 host_zero (wire_host host_a.view ++ [255]))
        = .ok host_a.view ∧
      Run.map_ok host_db_t.view
          (serialize_all_hosts root_db >>= fun enc =>
            deserialize_all_hosts (fun _ => host_zero) host_db_empty (enc ++ [255]))
        = .ok [(ascii "a", host_a.view), (ascii "b", host_b.view)] := by
  decide

/-- C7, amended. For every byte buffer that is a valid single-host (resp.
all-hosts) encoding followed by extra bytes, the one-argument
`deserialize_host` (resp. `deserialize_all_hosts`) ignores the extra bytes: it
returns the host encoded by the prefix (resp. the same keys and host contents
as on the encoding alone). -/
theorem trailing_bytes_are_ignored (extra : List Byte) (h h0 : host_t) (db db0 : host_db_t)
    (fresh : Nat → host_t) (hc : h.within_caps) (hname : h.host_name.length < 2 ^ 32)
    (hip : h.host_ip.length < 2 ^ 32)
    (hdb : ∀ p ∈ db.all_hosts,
      p.2.within_caps ∧ p.2.host_name.length < 2 ^ 32 ∧ p.2.host_ip.length < 2 ^ 32)
    (hcount : db.all_hosts.length < 2 ^ 32) :
    (∃ enc h', serialize_host [] h = .ok enc ∧
        deserialize_host1 h0 (enc ++ extra) = .ok h' ∧ h'.view = h.view) ∧
      (∃ enc dbx dby, serialize_all_hosts db = .ok enc ∧
        deserialize_all_hosts fresh db0 (enc ++ extra) = .ok dbx ∧
        deserialize_all_hosts fresh db0 enc = .ok dby ∧
        dbx.view = dby.view ∧ dbx.local_ip = dby.local_ip) := by
  constructor
  · obtain ⟨hf, hn⟩ := host_view_of_within_caps hc hname hip
    obtain ⟨h', e, v, _⟩ := deserialize_host_wire h.view extra h0 hf hn
    refine ⟨wire_host h.view, h', by simpa using serialize_host_eq [] h hc.2.1, ?_, v⟩
    unfold deserialize_host1
    rw [e]
    rfl
  · have hvalid : ∀ p ∈ db.all_hosts, p.2.valid := fun p hp => (hdb p hp).1.2.1
    have hs := serialize_all_hosts_eq db hvalid
    have hmap : (db.all_hosts.map (fun p => wire_host p.2.view))
        = (db.all_hosts.map (fun p => p.2.view)).map wire_host := by
      rw [List.map_map]; rfl
    have hl : (db.all_hosts.map (fun p => p.2.view)).length = db.all_hosts.length := by simp
    have hf : ∀ r ∈ db.all_hosts.map (fun p => p.2.view), r.fits := by
      intro r hr
      obtain ⟨p, hp, rfl⟩ := List.mem_map.1 hr
      exact (host_view_of_within_caps (hdb p hp).1 (hdb p hp).2.1 (hdb p hp).2.2).1
    have hn : ∀ r ∈ db.all_hosts.map (fun p => p.2.view), r.nul_free := by
      intro r hr
      obtain ⟨p, hp, rfl⟩ := List.mem_map.1 hr
      exact (host_view_of_within_caps (hdb p hp).1 (hdb p hp).2.1 (hdb p hp).2.2).2
    obtain ⟨dbx, ex, vx, lx⟩ := deserialize_all_hosts_wire fresh db0
      (db.all_hosts.map (fun p => p.2.view)) extra (by rw [hl]; exact hcount) hf hn
    obtain ⟨dby, ey, vy, ly⟩ := deserialize_all_hosts_wire fresh db0
      (db.all_hosts.map (fun p => p.2.view)) [] (by rw [hl]; exact hcount) hf hn
    rw [hl, ← hmap] at ex ey
    rw [List.append_nil] at ey
    exact ⟨_, dbx, dby, hs, ex, ey, by rw [vx, vy], by rw [lx, ly]⟩

/-- Witness of C7, amended: host `a` and the database of the root, each
followed by the byte `ff`. -/
theorem trailing_bytes_are_ignored_witness :
    host_a.within_caps ∧ root_db.all_hosts.length < 2 ^ 32 ∧
      ∃ enc h', serialize_host [] host_a = .ok enc ∧
        deserialize_host1 host_zero (enc ++ [255]) = .ok h' ∧ h'.view = host_a.view :=
  ⟨host_a_within_caps, by decide,
    (trailing_bytes_are_ignored [255] host_a host_zero root_db host_db_empty (fun _ => host_zero)
      host_a_within_caps (by decide) (by decide) root_db_within_caps (by decide)).1⟩

/-! ## C8: a record re-encodes to itself -/

/-- C8 as stated fails: the record `record_with_nul` is well formed (all
lengths inside the buffer, string lengths at most 63, one device, no planar
interface, no trailing byte) but its `virtualIntf` string is the single byte
`00`; `deserialize_host` stores it as an empty C string and `serialize_host`
writes back a record that is one byte shorter. -/
theorem reencoding_differs_on_nul_in_string :
    record_with_nul.fits ∧
      (deserialize_host1 host_zero (wire_host record_with_nul) >>= serialize_host [])
        ≠ .ok (wire_host record_with_nul) := by
  decide

/-- C8, amended. For every byte buffer that is a well-formed single-host record
(every length prefix within the buffer, every device and interface string
length at most 63, `num_devices` at most 8, `num_interfaces` at most 64, no
trailing bytes) whose `virtual_intf`, `id` and `name` strings hold no NUL byte,
`serialize_host(deserialize_host(b))` equals `b` byte for byte. -/
theorem serialize_deserialize_record (r : host_view) (h0 : host_t) (hf : r.fits)
    (hn : r.nul_free) :
    (∃ h', deserialize_host (wire_host r) h0 0 = .ok (h', (wire_host r).length) ∧
        serialize_host [] h' = .ok (wire_host r)) ∧
      (deserialize_host1 h0 (wire_host r) >>= serialize_host []) = .ok (wire_host r) := by
  obtain ⟨h', e, v, c⟩ := deserialize_host_wire r [] h0 hf hn
  rw [List.append_nil] at e
  have hs : serialize_host [] h' = .ok (wire_host r) := by
    simpa [v] using serialize_host_eq [] h' c.2.1
  refine ⟨⟨h', e, hs⟩, ?_⟩
  unfold deserialize_host1
  rw [e]
  exact hs

/-- Witness of C8, amended: the wire form of host `a`. -/
theorem serialize_deserialize_record_witness :
    host_a.view.fits ∧ host_a.view.nul_free ∧
      (deserialize_host1 host_zero (wire_host host_a.view) >>= serialize_host [])
        = .ok (wire_host host_a.view) :=
  ⟨(host_view_of_within_caps host_a_within_caps (by decide) (by decide)).1,
    (host_view_of_within_caps host_a_within_caps (by decide) (by decide)).2,
    (serialize_deserialize_record host_a.view host_zero
      (host_view_of_within_caps host_a_within_caps (by decide) (by decide)).1
      (host_view_of_within_caps host_a_within_caps (by decide) (by decide)).2).2⟩

/-! ## C9: caps of a decoded host -/

/-- C9: the code at a failing input.  On a payload that announces nine devices
`deserialize_host` stores `num_devices = 9` and fills `host.devices[8]`, one
element past the array of `MAX_DEVICES = 8`; on a payload whose `virtualIntf`
has 64 bytes it stores the terminator at `virtual_intf[64]`.  No cap is
compared with what the wire announces. -/
theorem deserialize_host_overflows_arrays :
    read_u32 nine_devices 8 = .ok 9 ∧
      deserialize_host nine_devices host_zero 0 = .undefined .array_overflow ∧
      deserialize_host long_string host_zero 0 = .undefined .array_overflow :=
  ⟨rfl, rfl, rfl⟩

/-! ## C10: root election -/

/-- C10. For every non-empty peer list `L`, the root elected by
`anp_bootstrap_handler` is the entry `L[i]` with the smallest index `i` at which
`ip_to_uint` takes its minimum over the entries: its value is at most the value
of every entry and every entry with the same value has an index at least `i`
(among duplicates the first occurrence wins); the root is a member of `L`; and
`ip_to_uint` of the dotted IPv4 text `a.b.c.d` is
`a*2^24 + b*2^16 + c*2^8 + d`. -/
theorem elect_root_first_min (L : List (List Byte)) (hL : L ≠ []) :
    (∃ i, ∃ hi : i < L.length, elect_root L = L[i] ∧
      (∀ j (hj : j < L.length), ip_to_uint L[i] ≤ ip_to_uint L[j]) ∧
      (∀ j (hj : j < L.length), ip_to_uint L[j] = ip_to_uint L[i] → i ≤ j)) ∧
    elect_root L ∈ L ∧ (∀ x ∈ L, ip_to_uint (elect_root L) ≤ ip_to_uint x) ∧
    (∀ a b c d : Byte,
      ip_to_uint (dotted a b c d) = a.val * 2 ^ 24 + b.val * 2 ^ 16 + c.val * 2 ^ 8 + d.val) := by
  obtain ⟨pre, post, e, hpre, hpost⟩ := elect_root_split L hL
  generalize elect_root L = r at e hpre hpost ⊢
  subst e
  have hall : ∀ x ∈ pre ++ r :: post, ip_to_uint r ≤ ip_to_uint x := by
    intro x hx
    rcases List.mem_append.1 hx with hx | hx
    · exact Nat.le_of_lt (hpre x hx)
    · rcases List.mem_cons.1 hx with hx | hx
      · rw [hx]
      · exact hpost x hx
  have hlen : pre.length < (pre ++ r :: post).length := by
    rw [List.length_append, List.length_cons]; omega
  have hget : (pre ++ r :: post)[pre.length] = r := by
    rw [List.getElem_append_right (Nat.le_refl _)]
    simp
  refine ⟨⟨pre.length, hlen, hget.symm, ?_, ?_⟩, by simp, hall, ip_to_uint_dotted⟩
  · intro j hj
    rw [hget]
    exact hall _ (List.getElem_mem hj)
  · intro j hj hjv
    rw [hget] at hjv
    by_contra hlt
    have hj' : j < pre.length := by omega
    have h2 : (pre ++ r :: post)[j] = pre[j] := List.getElem_append_left hj'
    have := hpre _ (List.getElem_mem hj')
    rw [← h2] at this
    omega

/-- Witness of C10 on the peer list of scenario S1. -/
theorem elect_root_first_min_witness :
    peers_s1 ≠ [] ∧ elect_root peers_s1 ∈ peers_s1 ∧
      ∀ x ∈ peers_s1, ip_to_uint (elect_root peers_s1) ≤ ip_to_uint x :=
  ⟨by decide, (elect_root_first_min peers_s1 (by decide)).2.1,
    (elect_root_first_min peers_s1 (by decide)).2.2.1⟩

/-! ## C11: the election does not depend on the order -/

/-- C11. For every two peer lists `L1` and `L2` that are permutations of each
other and whose entries are valid dotted IPv4 addresses (pairwise distinct or
not), the election computes the same root from `L1` as from `L2`; for the
lists of 10.0.0.5, 10.0.0.2 and 10.0.0.9 in any order the root is 10.0.0.2. -/
theorem elect_root_order_independent (L1 L2 : List (List Byte)) (hp : L1.Perm L2)
    (hv : ∀ s ∈ L1, ∃ a b c d : Byte, s = dotted a b c d) :
    elect_root L1 = elect_root L2 ∧
      ∀ L : List (List Byte), L.Perm peers_s1 → elect_root L = ascii "10.0.0.2" := by
  refine ⟨elect_root_perm_of_dotted L1 L2 hp hv, ?_⟩
  intro L hL
  rw [← elect_root_perm_of_dotted peers_s1 L hL.symm peers_s1_dotted]
  decide

/-- Witness of C11: the peer list of S1 and the same addresses in another
order. -/
theorem elect_root_order_independent_witness :
    peers_s1.Perm [ascii "10.0.0.9", ascii "10.0.0.5", ascii "10.0.0.2"] ∧
      (∀ s ∈ peers_s1, ∃ a b c d : Byte, s = dotted a b c d) ∧
      elect_root peers_s1 = elect_root [ascii "10.0.0.9", ascii "10.0.0.5", ascii "10.0.0.2"] :=
  ⟨by decide, peers_s1_dotted,
    (elect_root_order_independent peers_s1 [ascii "10.0.0.9", ascii "10.0.0.5", ascii "10.0.0.2"]
      (by decide) peers_s1_dotted).1⟩

/-! ## C12: the local address that `get_local_ip` returns -/

/-- C12 as stated fails: with the peer list 10.0.0.5, 10.0.0.2 and the
interfaces enumerated as 10.0.0.2, 10.0.0.5, both entries match a local
address; `get_local_ip` returns 10.0.0.2, the first interface that matches,
not the first file entry 10.0.0.5. -/
theorem get_local_ip_follows_interface_order :
    local_addresses [ifa_inet 10 0 0 2, ifa_inet 10 0 0 5] = [ascii "10.0.0.2", ascii "10.0.0.5"] ∧
      get_local_ip [] (some [ifa_inet 10 0 0 2, ifa_inet 10 0 0 5])
          [ascii "10.0.0.5", ascii "10.0.0.2"] = (0, ascii "10.0.0.2") := by
  decide

/-- C12, amended. For every peer list `L` and every list `A` of the host's
local IPv4 interface addresses such that some entry of `L` equals some address
in `A`, `get_local_ip` succeeds and returns the first address of `A`, in the
order in which the interfaces are enumerated, that equals an entry of `L`. -/
theorem get_local_ip_first_matching_interface (local_ip : List Byte) (ifap : List ifaddrs)
    (L : List (List Byte)) (h : ∃ a ∈ local_addresses ifap, a ∈ L) :
    ∃ pre a post, local_addresses ifap = pre ++ a :: post ∧ a ∈ L ∧ (∀ x ∈ pre, x ∉ L) ∧
      get_local_ip local_ip (some ifap) L = (0, a) := by
  rcases get_local_ip_loop_spec L ifap with ⟨_, h2⟩ | ⟨pre, a, post, h1, h2, h3, h4⟩
  · obtain ⟨a, ha, haL⟩ := h
    exact absurd haL (h2 a ha)
  · exact ⟨pre, a, post, h1, h2, h3, by simp [get_local_ip, h4]⟩

/-- Witness of C12, amended, on the inputs of the counterexample. -/
theorem get_local_ip_first_matching_interface_witness :
    (∃ a ∈ local_addresses [ifa_inet 10 0 0 2, ifa_inet 10 0 0 5],
        a ∈ [ascii "10.0.0.5", ascii "10.0.0.2"]) ∧
      ∃ pre a post, local_addresses [ifa_inet 10 0 0 2, ifa_inet 10 0 0 5] = pre ++ a :: post ∧
        a ∈ [ascii "10.0.0.5", ascii "10.0.0.2"] ∧
        (∀ x ∈ pre, x ∉ [ascii "10.0.0.5", ascii "10.0.0.2"]) ∧
        get_local_ip [] (some [ifa_inet 10 0 0 2, ifa_inet 10 0 0 5])
          [ascii "10.0.0.5", ascii "10.0.0.2"] = (0, a) :=
  ⟨⟨ascii "10.0.0.2", by decide, by decide⟩,
    get_local_ip_first_matching_interface [] [ifa_inet 10 0 0 2, ifa_inet 10 0 0 5]
      [ascii "10.0.0.5", ascii "10.0.0.2"] ⟨ascii "10.0.0.2", by decide, by decide⟩⟩

/-! ## C13: when `get_local_ip` fails -/

/-- C13. For every peer list `L` and every list `A` of local IPv4 interface
addresses (what `getifaddrs` yields), `get_local_ip` returns 0 or -1; it
returns -1 if and only if no entry of `L` is string-equal to an address in `A`;
when it returns 0 the local IP it stores is both an entry of `L` and an address
in `A`. -/
theorem get_local_ip_fails_iff_no_match (local_ip : List Byte) (ifap : List ifaddrs)
    (L : List (List Byte)) :
    ((get_local_ip local_ip (some ifap) L).1 = 0 ∨ (get_local_ip local_ip (some ifap) L).1 = -1) ∧
      ((get_local_ip local_ip (some ifap) L).1 = -1 ↔
        ¬ ∃ a ∈ local_addresses ifap, a ∈ L) ∧
      ((get_local_ip local_ip (some ifap) L).1 = 0 →
        (get_local_ip local_ip (some ifap) L).2 ∈ L ∧
        (get_local_ip local_ip (some ifap) L).2 ∈ local_addresses ifap) := by
  rcases get_local_ip_loop_spec L ifap with ⟨h1, h2⟩ | ⟨pre, a, post, h1, h2, h3, h4⟩
  · have e : get_local_ip local_ip (some ifap) L = (-1, local_ip) := by simp [get_local_ip, h1]
    rw [e]
    refine ⟨Or.inr rfl, ⟨fun _ => ?_, fun _ => rfl⟩, fun h => (by cases h)⟩
    rintro ⟨a, ha, haL⟩
    exact h2 a ha haL
  · have e : get_local_ip local_ip (some ifap) L = (0, a) := by simp [get_local_ip, h4]
    have hmem : a ∈ local_addresses ifap := by rw [h1]; simp
    rw [e]
    refine ⟨Or.inl rfl, ⟨fun h => (by cases h), fun h => absurd ⟨a, hmem, h2⟩ h⟩, fun _ => ⟨h2, hmem⟩⟩

/-- Witness of C13: no interface of the host has an address of the peer list of
S1. -/
theorem get_local_ip_fails_iff_no_match_witness :
    (get_local_ip [] (some [ifa_inet 10 0 0 7]) peers_s1).1 = -1 ↔
      ¬ ∃ a ∈ local_addresses [ifa_inet 10 0 0 7], a ∈ peers_s1 :=
  (get_local_ip_fails_iff_no_match [] [ifa_inet 10 0 0 7] peers_s1).2.1

/-! ## C14: the lines that `read_ip_list` returns -/

/-- C14 as stated fails: the file `a CR b LF` has the single line `a CR b` of
three bytes, terminated by a line feed, but `read_ip_list` returns the entry `a`:
the line is cut at the carriage return inside it. -/
theorem read_ip_list_cuts_line_at_carriage_return :
    render_lines [(ascii "a\rb", false)] [] = ascii "a\rb\n" ∧
      (∀ c ∈ line_contents [(ascii "a\rb", false)] [], line_short c) ∧
      read_ip_list (some (ascii "a\rb\n")) 64 = (1, [ascii "a"]) ∧
      ((line_contents [(ascii "a\rb", false)] []).filter (fun c => c ≠ [])).take 64 =
        [ascii "a\rb"] := by
  decide

/-- C14, amended. For every file content whose lines are each at most 15 bytes
long (excluding the line terminator) and contain no carriage return and no NUL
byte, `read_ip_list` with `max_ips = 64` returns, in file order and with
duplicates preserved, the first 64 non-empty lines with their LF or CRLF
terminator removed; empty lines are dropped and never counted, and the returned
count is the number of entries and at most 64. -/
theorem read_ip_list_lines (ls : List (List Byte × Bool)) (last : List Byte)
    (h : ∀ c ∈ line_contents ls last, line_short c ∧ line_plain c) :
    (read_ip_list (some (render_lines ls last)) 64).2 =
        ((line_contents ls last).filter (fun c => c ≠ [])).take 64 ∧
      (read_ip_list (some (render_lines ls last)) 64).1 =
        (((line_contents ls last).filter (fun c => c ≠ [])).take 64).length ∧
      (read_ip_list (some (render_lines ls last)) 64).1 ≤ 64 := by
  have e := read_lines_render 64 ls last h [] (by simp)
  simp only [read_lines, List.nil_append, nonempty_lines] at e
  have e2 : read_ip_list (some (render_lines ls last)) 64 =
      (((((line_contents ls last).filter (fun c => c ≠ [])).take 64).length : Int),
        ((line_contents ls last).filter (fun c => c ≠ [])).take 64) := by
    simp only [read_ip_list, e]
  rw [e2]
  refine ⟨rfl, rfl, ?_⟩
  have : (((line_contents ls last).filter (fun c => c ≠ [])).take 64).length ≤ 64 := by
    rw [List.length_take]; omega
  show ((((line_contents ls last).filter (fun c => c ≠ [])).take 64).length : Int) ≤ 64
  exact_mod_cast this

/-- Witness of C14, amended: a file with an empty line, a CRLF line, a repeated
line and a last line without terminator. -/
theorem read_ip_list_lines_witness :
    (∀ c ∈ line_contents [(ascii "10.0.0.5", false), (ascii "10.0.0.2", true), ([], false),
          (ascii "10.0.0.5", false)] (ascii "10.0.0.9"), line_short c ∧ line_plain c) ∧
      (read_ip_list (some (render_lines [(ascii "10.0.0.5", false), (ascii "10.0.0.2", true),
          ([], false), (ascii "10.0.0.5", false)] (ascii "10.0.0.9"))) 64).2 =
        [ascii "10.0.0.5", ascii "10.0.0.2", ascii "10.0.0.5", ascii "10.0.0.9"] :=
  ⟨by decide,
    (read_ip_list_lines [(ascii "10.0.0.5", false), (ascii "10.0.0.2", true), ([], false),
      (ascii "10.0.0.5", false)] (ascii "10.0.0.9") (by decide)).1.trans (by decide)⟩

/-! ## C15: trailing whitespace on a line -/

/-- C15 as stated fails: the line `10.0.0.2` followed by one space and a line
feed is ingested with the space, so the entry differs from the text `10.0.0.2`
of the local interface address (`get_local_ip` finds no match) and `ip_to_uint`
does not parse it (the election sees `0xffffffff`, not the value of
`10.0.0.2`). -/
theorem read_ip_list_keeps_trailing_space :
    read_ip_list (some (ascii "10.0.0.2 \n")) 64 = (1, [ascii "10.0.0.2 "]) ∧
      get_local_ip [] (some [ifa_inet 10 0 0 2]) (read_ip_list (some (ascii "10.0.0.2 \n")) 64).2
        = (-1, []) ∧
      ip_to_uint (ascii "10.0.0.2 ") = 0xffffffff ∧
      ip_to_uint (ascii "10.0.0.2") = 10 * 2 ^ 24 + 2 := by
  decide

/-- C15, amended. For every valid dotted IPv4 string `s`, a peer-list line
consisting of `s` followed directly by a line terminator (LF or CRLF) is
ingested by `read_ip_list` as the single entry `s`, which compares equal to the
text of the local interface address `s` and converts to the numeric value of
`s` in the election.  Trailing whitespace is not removed: when a run `w` of
spaces or tabs follows `s` on a line of at most 15 bytes, the single entry is
`s` followed by `w`. -/
theorem read_ip_list_dotted_line (a b c d : Byte) (w : List Byte) (crlf : Bool)
    (local_ip : List Byte) (hw : ∀ x ∈ w, x = byte 32 ∨ x = byte 9)
    (hlen : (dotted a b c d ++ w).length ≤ 15) :
    read_ip_list (some (dotted a b c d ++ terminator crlf)) 64 = (1, [dotted a b c d]) ∧
      get_local_ip local_ip (some [ifa_inet a b c d]) [dotted a b c d] = (0, dotted a b c d) ∧
      ip_to_uint (dotted a b c d) = a.val * 2 ^ 24 + b.val * 2 ^ 16 + c.val * 2 ^ 8 + d.val ∧
      read_ip_list (some (dotted a b c d ++ w ++ terminator crlf)) 64
        = (1, [dotted a b c d ++ w]) := by
  have line : ∀ v : List Byte, (∀ x ∈ v, x = byte 32 ∨ x = byte 9) →
      (dotted a b c d ++ v).length ≤ 15 →
      read_ip_list (some (dotted a b c d ++ v ++ terminator crlf)) 64
        = (1, [dotted a b c d ++ v]) := by
    intro v hv hl
    have hp := dotted_blank_plain a b c d v hv
    have hne : dotted a b c d ++ v ≠ [] := by
      intro h
      exact dotted_ne_nil a b c d (List.append_eq_nil.1 h).1
    have hall : ∀ x ∈ line_contents [(dotted a b c d ++ v, crlf)] [],
        line_short x ∧ line_plain x := by
      intro x hx
      simp only [line_contents, List.map_cons, List.map_nil, List.cons_append, List.nil_append,
        List.mem_cons, List.mem_singleton, List.not_mem_nil, or_false] at hx
      rcases hx with rfl | rfl
      · exact ⟨⟨hl, hp.1⟩, hp.2⟩
      · decide
    have e := read_lines_render 64 [(dotted a b c d ++ v, crlf)] [] hall [] (by simp)
    have er : render_lines [(dotted a b c d ++ v, crlf)] []
        = dotted a b c d ++ v ++ terminator crlf := by
      simp [render_lines]
    have en : nonempty_lines [(dotted a b c d ++ v, crlf)] [] = [dotted a b c d ++ v] := by
      simp [nonempty_lines, line_contents, hne]
    rw [er, en] at e
    simp only [read_lines, List.nil_append] at e
    simp only [read_ip_list, e]
    rfl
  refine ⟨?_, ?_, ip_to_uint_dotted a b c d, line w hw hlen⟩
  · have := line [] (by simp) (by simpa using dotted_length a b c d)
    simpa using this
  · have hm : match_ip_list (dotted a b c d) [dotted a b c d] = true := by
      simp [match_ip_list]
    simp [get_local_ip, get_local_ip_loop, ifa_inet, inet_ntop4_of_bytes, hm]

/-- Witness of C15, amended: the line `10.0.0.2` followed by a tab. -/
theorem read_ip_list_dotted_line_witness :
    (∀ x ∈ [byte 9], x = byte 32 ∨ x = byte 9) ∧ (dotted 10 0 0 2 ++ [byte 9]).length ≤ 15 ∧
      read_ip_list (some (dotted 10 0 0 2 ++ terminator true)) 64 = (1, [dotted 10 0 0 2]) ∧
      read_ip_list (some (dotted 10 0 0 2 ++ [byte 9] ++ terminator true)) 64
        = (1, [dotted 10 0 0 2 ++ [byte 9]]) :=
  ⟨by decide, by decide,
    (read_ip_list_dotted_line 10 0 0 2 [byte 9] true [] (by decide) (by decide)).1,
    (read_ip_list_dotted_line 10 0 0 2 [byte 9] true [] (by decide) (by decide)).2.2.2⟩

/-! ## C16: `send_tlv` writes the frame -/

/-- C16. For every type `t` and every payload `p` of length `n` (an `unsigned
int`): when every socket send that `send_tlv` makes succeeds, `send_tlv` writes
to the stream exactly `BE32(t) ++ BE32(n) ++ p`, which is `8 + n` bytes in that
order, and returns 0; if any of them fails it returns -1.  On a socket whose
system calls transfer everything, every send succeeds when `n < 2^31`. -/
theorem send_tlv_writes_frame (sock : anpNcclSocket) (t : Nat) (p : List Byte)
    (hn : p.length < 2 ^ 32) :
    (sends_succeed sock t p →
        (send_tlv sock t (some p) p.length).1 = 0 ∧
        (send_tlv sock t (some p) p.length).2.sent
          = sock.sent ++ (BE32 t ++ BE32 p.length ++ p)) ∧
      (¬ sends_succeed sock t p → (send_tlv sock t (some p) p.length).1 = -1) ∧
      (BE32 t ++ BE32 p.length ++ p).length = 8 + p.length ∧
      (sock.script = [] → p.length < 2 ^ 31 → sends_succeed sock t p) := by
  have hr := send_tlv_ret sock t p hn
  refine ⟨fun h => ?_, fun h => ?_, ?_, fun hs h31 => sends_succeed_reliable sock t p hs h31⟩
  · have h0 := hr.1.2 h
    exact ⟨h0, (send_tlv_ok sock t p hn h0).1⟩
  · rcases hr.2 with h0 | h1
    · exact absurd (hr.1.1 h0) h
    · exact h1
  · simp only [List.length_append, BE32_length]

/-- Witness of C16: the message of type 2 with the payload `hi` on a fresh
socket. -/
theorem send_tlv_writes_frame_witness :
    (ascii "hi").length < 2 ^ 32 ∧ sends_succeed (reliable []) 2 (ascii "hi") ∧
      (send_tlv (reliable []) 2 (some (ascii "hi")) (ascii "hi").length).1 = 0 ∧
      (send_tlv (reliable []) 2 (some (ascii "hi")) (ascii "hi").length).2.sent
        = (reliable []).sent ++ (BE32 2 ++ BE32 (ascii "hi").length ++ ascii "hi") :=
  ⟨by decide, by decide,
    (send_tlv_writes_frame (reliable []) 2 (ascii "hi") (by decide)).1 (by decide)⟩

/-! ## C17: what `send_tlv` writes, the receive path reads back -/

/-- C17 as stated fails.  The message `(2, "hi")` is written with `send_tlv`,
which returns 0, and the receiver holds exactly the ten bytes written.  When
its first `recv` hands over two of the four bytes asked for (the stream
delivers the others at the next call), `recv_tlv` fails and no message is read
back; the same happens when the header arrives whole and the payload in two
pieces.  In general a first `recv` that hands over fewer than four bytes fails
the read of any sequence of messages, and `send_tlv` returns -1 for a payload
of `2^31` bytes or more. -/
theorem tlv_roundtrip_fails_on_short_read :
    send_frames (reliable []) [(2, ascii "hi")]
        = (0, { sent := wire_frame (2, ascii "hi"), pending := [], script := [] }) ∧
      recv_frames { sent := [], pending := wire_frame (2, ascii "hi"), script := [some 2] } 1
        = (none, { sent := [], pending := (wire_frame (2, ascii "hi")).drop 2, script := [] }) ∧
      recv_frames { sent := [], pending := wire_frame (2, ascii "hi"),
                    script := [some 4, some 4, some 1] } 1
        = (none, { sent := [], pending := ascii "i", script := [] }) ∧
      (∀ (sock : anpNcclSocket) (k : Nat) (rest : List (Option Nat)) (n : Nat),
        sock.script = some k :: rest → k < 4 → (recv_frames sock (n + 1)).1 = none) ∧
      (∀ (sock : anpNcclSocket) (t : Nat) (p : List Byte), 2 ^ 31 ≤ p.length → p.length < 2 ^ 32 →
        (send_tlv sock t (some p) p.length).1 = -1) := by
  refine ⟨by decide, by decide, by decide, ?_, send_tlv_large⟩
  intro sock k rest n hs hk
  have h := recv_frame_short_header sock k rest hs hk
  unfold recv_frames
  rw [h]

/-- C17, amended. For every finite sequence of messages `(type_i, payload_i)`
with `unsigned int` types and payloads shorter than `2^31` bytes, written in
order with `send_tlv` on a socket whose `send` calls transfer all the bytes
asked for: every call returns 0 and the stream receives the frames
`type || length || payload` in order; a receiver that holds what was written and
whose `recv` calls each hand over all the bytes asked for, reading `recv_tlv`
(header) followed by a read of the announced payload length as
`recv_config_thread` and `run_leaf_node` do, obtains exactly the same sequence
of `(type_i, payload_i)`, messages with an empty payload included, and leaves
nothing unread. -/
theorem tlv_roundtrip (sender receiver : anpNcclSocket) (msgs : List (Nat × List Byte))
    (hm : ∀ m ∈ msgs, m.1 < 2 ^ 32 ∧ m.2.length < 2 ^ 31)
    (hs : sender.script = []) (hr : receiver.script = [])
    (hp : receiver.pending = (send_frames sender msgs).2.sent.drop sender.sent.length) :
    (send_frames sender msgs).1 = 0 ∧
      (send_frames sender msgs).2.sent = sender.sent ++ (msgs.map wire_frame).flatten ∧
      recv_frames receiver msgs.length = (some msgs, { receiver with pending := [] }) := by
  have h0 := send_frames_reliable msgs sender hs (fun m h => (hm m h).2)
  have hsent := (send_frames_ok msgs sender (fun m h => by have := (hm m h).2; omega) h0).1
  refine ⟨h0, hsent, ?_⟩
  rw [hsent] at hp
  simp only [List.drop_left] at hp
  exact recv_frames_reliable msgs receiver [] hr (by rw [hp]; simp) hm

/-- Witness of C17, amended: three messages, the first with an empty payload. -/
theorem tlv_roundtrip_witness :
    (∀ m ∈ [(1, []), (2, ascii "hi"), (3, ascii "xyz")], m.1 < 2 ^ 32 ∧ m.2.length < 2 ^ 31) ∧
      (send_frames (reliable []) [(1, []), (2, ascii "hi"), (3, ascii "xyz")]).1 = 0 ∧
      (send_frames (reliable []) [(1, []), (2, ascii "hi"), (3, ascii "xyz")]).2.sent
        = (reliable []).sent ++ ([(1, []), (2, ascii "hi"), (3, ascii "xyz")].map wire_frame).flatten ∧
      recv_frames
          (reliable (send_frames (reliable []) [(1, []), (2, ascii "hi"), (3, ascii "xyz")]).2.sent)
          [(1, []), (2, ascii "hi"), (3, ascii "xyz")].length
        = (some [(1, []), (2, ascii "hi"), (3, ascii "xyz")],
            { reliable (send_frames (reliable []) [(1, []), (2, ascii "hi"), (3, ascii "xyz")]).2.sent
              with pending := [] }) :=
  ⟨by decide,
    tlv_roundtrip (reliable [])
      (reliable (send_frames (reliable []) [(1, []), (2, ascii "hi"), (3, ascii "xyz")]).2.sent)
      [(1, []), (2, ascii "hi"), (3, ascii "xyz")] (by decide) rfl rfl rfl⟩

/-! ## C18: no upper bound on the declared length -/

/-- C18 as stated fails: a frame that declares 8 MiB + 1 bytes, more than
`MAX_FRAME`, followed by that many payload bytes is accepted by the receive
path, which returns the payload. -/
theorem recv_frame_accepts_long_frame :
    MAX_FRAME < 8388609 ∧
      recv_frame (reliable (BE32 2 ++ BE32 8388609 ++ List.replicate 8388609 0))
        = (some (2, List.replicate 8388609 0), reliable []) := by
  refine ⟨by decide, ?_⟩
  have hlen : (List.replicate 8388609 (0 : Byte)).length = 8388609 := List.length_replicate _ _
  have := recv_frame_reliable
    (reliable (BE32 2 ++ BE32 8388609 ++ List.replicate 8388609 0)) 2
    (List.replicate 8388609 0) [] rfl
    (by simp only [wire_frame, hlen, reliable, List.append_nil]) (by norm_num)
    (by rw [hlen]; norm_num)
  exact this

/-- C18, amended. The receive path (`recv_tlv` and the payload read of
`recv_config_thread` and `run_leaf_node`) has no upper bound on the declared
length: on a reliable stream a frame that declares any length below `2^31`, in
particular one above `MAX_FRAME`, followed by that many payload bytes is
accepted and its payload returned; for a declared length `n` with
`2^31 ≤ n < 2^32` (for example `2^31`), `recv_tlv` accepts the header (it
returns 0 with `payload_size = n`) and the receive path fails only in the
payload read, where `anpNcclSocketRecv` is called with `n` converted to a
negative `int` and returns an error. -/
theorem recv_frame_has_no_length_limit (t n : Nat) (p rest : List Byte) (ht : t < 2 ^ 32)
    (hp : p.length < 2 ^ 31) (hn : 2 ^ 31 ≤ n) (hn32 : n < 2 ^ 32) :
    recv_frame (reliable (BE32 t ++ BE32 p.length ++ p ++ rest)) = (some (t, p), reliable rest) ∧
      recv_tlv (reliable (BE32 t ++ BE32 n ++ rest)) 0 none 0
        = { ret := 0, msg_type := t, payload_size := n, payload := none, sock := reliable rest } ∧
      (∀ sock : anpNcclSocket,
        (anpNcclSocketRecv sock (int_of_u32 n)).1 = .ncclInternalError) ∧
      (recv_frame (reliable (BE32 t ++ BE32 n ++ rest))).1 = none := by
  have hh := recv_tlv_reliable (reliable (BE32 t ++ BE32 n ++ rest)) t n rest rfl rfl ht hn32
  have hneg := int_of_u32_neg n hn hn32
  refine ⟨?_, hh, fun sock => anpNcclSocketRecv_negative sock _ hneg, ?_⟩
  · exact recv_frame_reliable (reliable (BE32 t ++ BE32 p.length ++ p ++ rest)) t p rest rfl
      (by simp [wire_frame, reliable]) ht hp
  · unfold recv_frame
    have h0 : 0 < n := by omega
    simp only [hh]
    simp [h0, anpNcclSocketRecv_negative _ _ hneg]

/-- Witness of C18, amended: a frame with three payload bytes, and a header
that declares `2^31` bytes. -/
theorem recv_frame_has_no_length_limit_witness :
    (2 : Nat) < 2 ^ 32 ∧ (ascii "xyz").length < 2 ^ 31 ∧ 2 ^ 31 ≤ 2 ^ 31 ∧ 2 ^ 31 < 2 ^ 32 ∧
      recv_frame (reliable (BE32 2 ++ BE32 (ascii "xyz").length ++ ascii "xyz" ++ []))
        = (some (2, ascii "xyz"), reliable []) ∧
      (recv_tlv (reliable (BE32 2 ++ BE32 (2 ^ 31) ++ [])) 0 none 0).ret = 0 ∧
      (recv_frame (reliable (BE32 2 ++ BE32 (2 ^ 31) ++ []))).1 = none :=
  ⟨by decide, by decide, by decide, by decide,
    (recv_frame_has_no_length_limit 2 (2 ^ 31) (ascii "xyz") [] (by decide) (by decide)
      (by decide) (by decide)).1,
    by rw [(recv_frame_has_no_length_limit 2 (2 ^ 31) (ascii "xyz") [] (by decide) (by decide)
      (by decide) (by decide)).2.1],
    (recv_frame_has_no_length_limit 2 (2 ^ 31) (ascii "xyz") [] (by decide) (by decide)
      (by decide) (by decide)).2.2.2⟩

/-! ## C19: `anpNcclSocketRecv` makes one `recv` -/

/-- C19 as stated fails: eight bytes are pending and the first `recv` hands over
four of them; `anpNcclSocketRecv(8)` fails although the stream delivers the other
four at the next call, which is never made (one call of the script is used). -/
theorem anpNcclSocketRecv_fails_on_short_read :
    anpNcclSocketRecv { sent := [], pending := ascii "ABCDEFGH", script := [some 4, some 4] } 8
      = (.ncclInternalError, ascii "ABCD",
          { sent := [], pending := ascii "EFGH", script := [some 4] }) := by
  decide

/-- C19, amended. The function `anpNcclSocketRecv(n)` makes a single `recv` and
does not loop.  For every `n` that fits an `int` and every socket, it succeeds
if and only if that one call hands over all `n` bytes (at least `n` bytes are
pending and the call does not return -1 or fewer bytes); then it returns exactly
the first `n` pending bytes and leaves the others pending.  It fails when the
stream ends before `n` bytes and also on a short read. -/
theorem anpNcclSocketRecv_single_call (sock : anpNcclSocket) (n : Nat) (hn : n < 2 ^ 31) :
    ((anpNcclSocketRecv sock (n : Int)).1 = .ncclSuccess ↔
        n ≤ sock.pending.length ∧ hands_over sock.script n) ∧
      ((anpNcclSocketRecv sock (n : Int)).1 = .ncclSuccess →
        (anpNcclSocketRecv sock (n : Int)).2.1 = sock.pending.take n ∧
        (anpNcclSocketRecv sock (n : Int)).2.2.pending = sock.pending.drop n) ∧
      (anpNcclSocketRecv sock (n : Int)).2.2.script = sock.script.tail := by
  rw [anpNcclSocketRecv_eq sock n (by omega)]
  obtain ⟨sent, pending, script⟩ := sock
  match script with
  | [] =>
    simp only [recv, hands_over, and_true, List.tail_nil, Nat.cast_inj, List.length_take]
    by_cases hle : n ≤ pending.length
    · have e : min n pending.length = n := by omega
      simp [e, hle]
    · have e : ¬ min n pending.length = n := by omega
      simp [e, hle]
  | none :: script =>
    have hnn : ¬ ((-1 : Int) = (n : Int)) := by
      have : (0 : Int) ≤ (n : Int) := Int.natCast_nonneg _
      omega
    simp [recv, hands_over, hnn]
  | some k :: script =>
    simp only [recv, hands_over, List.tail_cons, Nat.cast_inj, List.length_take]
    by_cases hle : n ≤ pending.length ∧ n ≤ k
    · have e : min (min n k) pending.length = n := by omega
      have e1 : min n k = n := by omega
      simp [e, e1, hle]
    · have e : ¬ min (min n k) pending.length = n := by omega
      simp [e, hle]
      exact ⟨fun h => (by omega), fun h1 h2 => absurd ⟨h2, h1⟩ hle⟩

/-- Witness of C19, amended: eight pending bytes handed over by one call. -/
theorem anpNcclSocketRecv_single_call_witness :
    (8 : Nat) < 2 ^ 31 ∧
      ((anpNcclSocketRecv { sent := [], pending := ascii "ABCDEFGHIJ", script := [some 9] }
          ((8 : Nat) : Int)).1 = .ncclSuccess ↔
        8 ≤ (ascii "ABCDEFGHIJ").length ∧ hands_over [some 9] 8) :=
  ⟨by decide,
    (anpNcclSocketRecv_single_call
      { sent := [], pending := ascii "ABCDEFGHIJ", script := [some 9] } 8 (by decide)).1⟩

/-! ## C20: the LOCAL_TX_SNAT rule -/

/-- C20. For the local host (the entry of `all_hosts` under `local_ip`, with
counts that fit its arrays and C strings in its `char` arrays), every device
`D = devices[i]` and every planar interface `P = D.planar_intfs[j]` with
`P.ipv4_addr` and `D.virtual_ip` nonzero, `apply_local_vip_iptables_rule`
returns and dispatches, after the rules issued before, a rule with table `nat`,
chain `POSTROUTING`, match on source (`SIP`) `D.virtual_ip`, interface direction
`out` with name `P.name`, jump `SNAT` and translate address `P.ipv4_addr`. -/
theorem local_tx_snat_rule_issued (host_db : host_db_t) (host : host_t)
    (issued : List IptablesRule) (i j : Nat)
    (hfind : map_find host_db.all_hosts host_db.local_ip = some host) (hv : host.valid)
    (hi : i < host.num_devices.toNat) (hj : j < (host.devices i).num_interfaces.toNat)
    (hp : s_addr_nonzero ((host.devices i).planar_intfs j).ipv4_addr = true)
    (hd : s_addr_nonzero (host.devices i).virtual_ip = true) :
    ∃ rules, apply_local_vip_iptables_rule host_db issued = .ok (issued ++ rules) ∧
      ({ action := ascii "A", table := ascii "nat", chain := ascii "POSTROUTING",
         match_type := ascii "SIP", match_value := inet_ntop4 (host.devices i).virtual_ip,
         iface_type := ascii "out", iface_name := c_str ((host.devices i).planar_intfs j).name,
         jump_target := ascii "SNAT",
         translate_ip := inet_ntop4 ((host.devices i).planar_intfs j).ipv4_addr }
        : IptablesRule) ∈ rules := by
  have e := apply_host_rules_eq add_tx_snat_rules add_rx_dnat_rules host hv issued
  have e' : apply_local_vip_iptables_rule host_db issued
      = apply_host_rules add_tx_snat_rules add_rx_dnat_rules host issued := by
    unfold apply_local_vip_iptables_rule
    rw [hfind]
  rw [← e'] at e
  refine ⟨_, e, ?_⟩
  apply List.mem_flatten.2
  refine ⟨_, List.mem_map.2 ⟨i, List.mem_range.2 hi, rfl⟩, ?_⟩
  apply List.mem_flatten.2
  refine ⟨_, List.mem_map.2 ⟨j, List.mem_range.2 hj, rfl⟩, ?_⟩
  simp only [hp, hd, Bool.and_self, if_true]
  exact List.mem_cons_self _ _

/-- Witness of C20: the root 10.0.0.2 of `root_db`, whose device 192.168.1.1 has
the planar interface eth1 at 10.1.0.1. -/
theorem local_tx_snat_rule_issued_witness :
    map_find root_db.all_hosts root_db.local_ip = some host_a ∧
      ∃ rules, apply_local_vip_iptables_rule root_db [] = .ok ([] ++ rules) ∧
        ({ action := ascii "A", table := ascii "nat", chain := ascii "POSTROUTING",
           match_type := ascii "SIP", match_value := ascii "192.168.1.1",
           iface_type := ascii "out", iface_name := ascii "eth1",
           jump_target := ascii "SNAT", translate_ip := ascii "10.1.0.1" }
          : IptablesRule) ∈ rules :=
  ⟨rfl, local_tx_snat_rule_issued root_db host_a [] 0 0 rfl host_a_valid (by decide) (by decide)
    (by decide) (by decide)⟩

/-! ## C21: the LOCAL_RX_DNAT rule -/

/-- C21 as stated fails: for the root 10.0.0.2 of `root_db`, whose device
192.168.1.1 has the planar interface eth1 at 10.1.0.1, the DNAT rule that
`apply_local_vip_iptables_rule` dispatches matches the destination 10.1.0.1 (the
planar address) and translates to 192.168.1.1 (the virtual address); the rule
of the claim, which matches the destination 192.168.1.1 and translates to
10.1.0.1, is not dispatched. -/
theorem local_rx_dnat_matches_planar_address :
    apply_local_vip_iptables_rule root_db []
        = .ok [{ action := ascii "A", table := ascii "nat", chain := ascii "POSTROUTING",
                 match_type := ascii "SIP", match_value := ascii "192.168.1.1",
                 iface_type := ascii "out", iface_name := ascii "eth1",
                 jump_target := ascii "SNAT", translate_ip := ascii "10.1.0.1" },
               { action := ascii "A", table := ascii "nat", chain := ascii "OUTPUT",
                 match_type := ascii "DIP", match_value := ascii "10.1.0.1",
                 iface_type := ascii "out", iface_name := ascii "eth1",
                 jump_target := ascii "DNAT", translate_ip := ascii "192.168.1.1" }] ∧
      ∀ rules, apply_local_vip_iptables_rule root_db [] = .ok rules →
        ({ action := ascii "A", table := ascii "nat", chain := ascii "OUTPUT",
           match_type := ascii "DIP", match_value := ascii "192.168.1.1",
           iface_type := ascii "out", iface_name := ascii "eth1",
           jump_target := ascii "DNAT", translate_ip := ascii "10.1.0.1" } : IptablesRule)
          ∉ rules := by
  have e : apply_local_vip_iptables_rule root_db []
      = .ok [{ action := ascii "A", table := ascii "nat", chain := ascii "POSTROUTING",
               match_type := ascii "SIP", match_value := ascii "192.168.1.1",
               iface_type := ascii "out", iface_name := ascii "eth1",
               jump_target := ascii "SNAT", translate_ip := ascii "10.1.0.1" },
             { action := ascii "A", table := ascii "nat", chain := ascii "OUTPUT",
               match_type := ascii "DIP", match_value := ascii "10.1.0.1",
               iface_type := ascii "out", iface_name := ascii "eth1",
               jump_target := ascii "DNAT", translate_ip := ascii "192.168.1.1" }] := by
    decide
  refine ⟨e, ?_⟩
  intro rules h
  rw [e] at h
  cases h
  decide

/-- C21, amended. For the local host (the entry of `all_hosts` under `local_ip`,
with counts that fit its arrays and C strings in its `char` arrays), every
device `D = devices[i]` and every planar interface `P = D.planar_intfs[j]` with
`P.ipv4_addr` and `D.virtual_ip` nonzero, `apply_local_vip_iptables_rule`
dispatches, right after the LOCAL_TX_SNAT rule of the interface, a rule with
table `nat`, chain `OUTPUT`, match on destination (`DIP`) `P.ipv4_addr`,
interface direction `out` with name `P.name`, jump `DNAT` and translate address
`D.virtual_ip`. -/
theorem local_rx_dnat_rule_issued (host_db : host_db_t) (host : host_t)
    (issued : List IptablesRule) (i j : Nat)
    (hfind : map_find host_db.all_hosts host_db.local_ip = some host) (hv : host.valid)
    (hi : i < host.num_devices.toNat) (hj : j < (host.devices i).num_interfaces.toNat)
    (hp : s_addr_nonzero ((host.devices i).planar_intfs j).ipv4_addr = true)
    (hd : s_addr_nonzero (host.devices i).virtual_ip = true) :
    ∃ pre post, apply_local_vip_iptables_rule host_db issued = .ok (issued ++ (pre ++
      [add_tx_snat_rules (inet_ntop4 (host.devices i).virtual_ip)
          (inet_ntop4 ((host.devices i).planar_intfs j).ipv4_addr)
          (c_str ((host.devices i).planar_intfs j).name),
        { action := ascii "A", table := ascii "nat", chain := ascii "OUTPUT",
          match_type := ascii "DIP",
          match_value := inet_ntop4 ((host.devices i).planar_intfs j).ipv4_addr,
          iface_type := ascii "out", iface_name := c_str ((host.devices i).planar_intfs j).name,
          jump_target := ascii "DNAT",
          translate_ip := inet_ntop4 (host.devices i).virtual_ip }] ++ post)) := by
  have e : apply_local_vip_iptables_rule host_db issued
      = apply_host_rules add_tx_snat_rules add_rx_dnat_rules host issued := by
    unfold apply_local_vip_iptables_rule
    rw [hfind]
  obtain ⟨pre, post, hpp⟩ := rules_at_in_host_rules add_tx_snat_rules add_rx_dnat_rules host i j
    ((mem_eligible host i j).2 ⟨hi, hj, hp, hd⟩)
  refine ⟨pre, post, ?_⟩
  rw [e, apply_host_rules_eligible _ _ host hv issued, hpp]
  rfl

/-- Witness of C21, amended: the root 10.0.0.2 of `root_db`. -/
theorem local_rx_dnat_rule_issued_witness :
    map_find root_db.all_hosts root_db.local_ip = some host_a ∧
      ∃ pre post, apply_local_vip_iptables_rule root_db [] = .ok ([] ++ (pre ++
        [add_tx_snat_rules (ascii "192.168.1.1") (ascii "10.1.0.1") (ascii "eth1"),
          { action := ascii "A", table := ascii "nat", chain := ascii "OUTPUT",
            match_type := ascii "DIP", match_value := ascii "10.1.0.1",
            iface_type := ascii "out", iface_name := ascii "eth1",
            jump_target := ascii "DNAT", translate_ip := ascii "192.168.1.1" }] ++ post)) :=
  ⟨rfl, local_rx_dnat_rule_issued root_db host_a [] 0 0 rfl host_a_valid (by decide) (by decide)
    (by decide) (by decide)⟩

/-! ## C22: the rules of a remote host -/

/-- C22. For every host `H` of `all_hosts` under a key other than `local_ip`
(every host of the database having counts that fit its arrays and C strings in
its `char` arrays), every device `D = devices[i]` of `H` and every planar
interface `P = D.planar_intfs[j]` with `P.ipv4_addr` and `D.virtual_ip` nonzero,
`apply_remote_vip_iptables_rule` dispatches, in this order and next to each
other, a rule with table `nat`, chain `OUTPUT`, match on destination
`D.virtual_ip`, out-interface `P.name`, jump `DNAT` to `P.ipv4_addr`, and a rule
with table `nat`, chain `INPUT`, match on source `P.ipv4_addr`, in-interface
`P.name`, jump `SNAT` to `D.virtual_ip`. -/
theorem remote_rules_issued (host_db : host_db_t) (issued : List IptablesRule)
    (key : List Byte) (H : host_t) (i j : Nat)
    (hv : ∀ p ∈ host_db.all_hosts, p.2.valid) (hmem : (key, H) ∈ host_db.all_hosts)
    (hkey : key ≠ host_db.local_ip)
    (hi : i < H.num_devices.toNat) (hj : j < (H.devices i).num_interfaces.toNat)
    (hp : s_addr_nonzero ((H.devices i).planar_intfs j).ipv4_addr = true)
    (hd : s_addr_nonzero (H.devices i).virtual_ip = true) :
    ∃ pre post, apply_remote_vip_iptables_rule host_db issued = .ok (issued ++ (pre ++
      [{ action := ascii "A", table := ascii "nat", chain := ascii "OUTPUT",
         match_type := ascii "DIP", match_value := inet_ntop4 (H.devices i).virtual_ip,
         iface_type := ascii "out", iface_name := c_str ((H.devices i).planar_intfs j).name,
         jump_target := ascii "DNAT",
         translate_ip := inet_ntop4 ((H.devices i).planar_intfs j).ipv4_addr },
       { action := ascii "A", table := ascii "nat", chain := ascii "INPUT",
         match_type := ascii "SIP",
         match_value := inet_ntop4 ((H.devices i).planar_intfs j).ipv4_addr,
         iface_type := ascii "in", iface_name := c_str ((H.devices i).planar_intfs j).name,
         jump_target := ascii "SNAT",
         translate_ip := inet_ntop4 (H.devices i).virtual_ip }] ++ post)) := by
  have hf : (key, H) ∈ host_db.all_hosts.filter (fun p => p.1 ≠ host_db.local_ip) :=
    List.mem_filter.2 ⟨hmem, by simpa using hkey⟩
  obtain ⟨s, t, e⟩ := List.append_of_mem hf
  obtain ⟨pre, post, hpp⟩ := rules_at_in_host_rules add_tx_dnat_rules add_rx_snat_rules H i j
    ((mem_eligible H i j).2 ⟨hi, hj, hp, hd⟩)
  refine ⟨(s.map (fun p => ((eligible p.2).map
      (rules_at add_tx_dnat_rules add_rx_snat_rules p.2)).flatten)).flatten ++ pre,
    post ++ (t.map (fun p => ((eligible p.2).map
      (rules_at add_tx_dnat_rules add_rx_snat_rules p.2)).flatten)).flatten, ?_⟩
  rw [apply_remote_vip_iptables_rule_eq host_db hv issued]
  unfold remote_rules
  rw [e]
  simp only [List.map_append, List.map_cons, List.flatten_append, List.flatten_cons, hpp,
    List.append_assoc]
  rfl

/-- Witness of C22: on the root 10.0.0.2 of `root_db` the remote host 10.0.0.5 has
the device 192.168.1.2 with the planar interface eth1 at 10.1.0.2. -/
theorem remote_rules_issued_witness :
    (ascii "10.0.0.5", host_b) ∈ root_db.all_hosts ∧ ascii "10.0.0.5" ≠ root_db.local_ip ∧
      ∃ pre post, apply_remote_vip_iptables_rule root_db [] = .ok ([] ++ (pre ++
        [{ action := ascii "A", table := ascii "nat", chain := ascii "OUTPUT",
           match_type := ascii "DIP", match_value := ascii "192.168.1.2",
           iface_type := ascii "out", iface_name := ascii "eth1",
           jump_target := ascii "DNAT", translate_ip := ascii "10.1.0.2" },
         { action := ascii "A", table := ascii "nat", chain := ascii "INPUT",
           match_type := ascii "SIP", match_value := ascii "10.1.0.2",
           iface_type := ascii "in", iface_name := ascii "eth1",
           jump_target := ascii "SNAT", translate_ip := ascii "192.168.1.2" }] ++ post)) :=
  ⟨by rw [root_db_entries]; simp, by decide,
    remote_rules_issued root_db [] (ascii "10.0.0.5") host_b 0 0 root_db_valid
      (by rw [root_db_entries]; simp) (by decide) (by decide) (by decide) (by decide)
      (by decide)⟩

/-! ## C23: two rules for each eligible interface -/

/-- C23. For every database whose `all_hosts` (a map: keys pairwise distinct,
every host with counts that fit its arrays and C strings in its `char` arrays)
holds the local host under the key `local_ip`, the rules of the programming step
are the two local rules of each eligible interface of the local host followed by
the two remote rules of each eligible interface of the other hosts, where an
interface `(i, j)` of a host is eligible exactly when `i` and `j` are below the
counts and `planar_intfs[j].ipv4_addr` and `devices[i].virtual_ip` are nonzero.
So the number of rules is twice the number of eligible (host, device, planar
interface) triples, every rule issued is one of the rules of an eligible triple,
and the rules stay the same when the IPv6 addresses are replaced. -/
theorem two_rules_per_eligible_interface (db : host_db_t) (host : host_t)
    (hn : (db.all_hosts.map (fun p => p.1)).Nodup) (hv : ∀ p ∈ db.all_hosts, p.2.valid)
    (hfind : map_find db.all_hosts db.local_ip = some host) :
    program_rules db = .ok
        (((eligible host).map (rules_at add_tx_snat_rules add_rx_dnat_rules host)).flatten ++
          ((db.all_hosts.filter (fun p => p.1 ≠ db.local_ip)).map (fun p =>
            ((eligible p.2).map (rules_at add_tx_dnat_rules add_rx_snat_rules p.2)).flatten)
          ).flatten) ∧
      (∀ rules, program_rules db = .ok rules →
        rules.length = 2 * (db.all_hosts.map (fun p => (eligible p.2).length)).sum ∧
        ∀ r ∈ rules, ∃ p ∈ db.all_hosts, ∃ ij ∈ eligible p.2,
          r ∈ rules_at add_tx_snat_rules add_rx_dnat_rules p.2 ij ∨
            r ∈ rules_at add_tx_dnat_rules add_rx_snat_rules p.2 ij) ∧
      (∀ (h : host_t) (i j : Nat), (i, j) ∈ eligible h ↔
        i < h.num_devices.toNat ∧ j < (h.devices i).num_interfaces.toNat ∧
          s_addr_nonzero ((h.devices i).planar_intfs j).ipv4_addr = true ∧
          s_addr_nonzero (h.devices i).virtual_ip = true) ∧
      (∀ g, program_rules (db.with_ipv6 g) = program_rules db) := by
  have e := program_rules_eq db hv
  have el : local_rules db
      = ((eligible host).map (rules_at add_tx_snat_rules add_rx_dnat_rules host)).flatten := by
    unfold local_rules
    rw [hfind]
  rw [el] at e
  refine ⟨e, ?_, mem_eligible, fun g => program_rules_with_ipv6 db g hv⟩
  intro rules hr
  rw [e] at hr
  cases hr
  constructor
  · have hs := map_sum_split (fun p : List Byte × host_t => (eligible p.2).length) db.local_ip
      host db.all_hosts hn hfind
    have hrem : (remote_rules db).length = 2 *
        ((db.all_hosts.filter (fun p => p.1 ≠ db.local_ip)).map
          (fun p => (eligible p.2).length)).sum := by
      unfold remote_rules
      generalize db.all_hosts.filter (fun p => p.1 ≠ db.local_ip) = l
      induction l with
      | nil => rfl
      | cons p l ih =>
        simp only [List.map_cons, List.flatten_cons, List.length_append, List.sum_cons, ih,
          length_rules_flatten]
        omega
    rw [List.length_append, length_rules_flatten]
    have hs' : (db.all_hosts.map (fun p => (eligible p.2).length)).sum
        = (eligible host).length + ((db.all_hosts.filter (fun p => p.1 ≠ db.local_ip)).map
          (fun p => (eligible p.2).length)).sum := hs
    rw [hrem, hs']
    omega
  · intro r hr
    rcases List.mem_append.1 hr with h | h
    · obtain ⟨l, hl, hm⟩ := List.mem_flatten.1 h
      obtain ⟨ij, hij, rfl⟩ := List.mem_map.1 hl
      exact ⟨(db.local_ip, host), map_find_mem _ _ _ hfind, ij, hij, Or.inl hm⟩
    · obtain ⟨l, hl, hm⟩ := List.mem_flatten.1 h
      obtain ⟨p, hp, rfl⟩ := List.mem_map.1 hl
      obtain ⟨l2, hl2, hm2⟩ := List.mem_flatten.1 hm
      obtain ⟨ij, hij, rfl⟩ := List.mem_map.1 hl2
      exact ⟨p, (List.mem_filter.1 hp).1, ij, hij, Or.inr hm2⟩

/-- Witness of C23: the root 10.0.0.2 of `root_db` issues four rules for the two
eligible interfaces of its two hosts. -/
theorem two_rules_per_eligible_interface_witness :
    (root_db.all_hosts.map (fun p => p.1)).Nodup ∧
      map_find root_db.all_hosts root_db.local_ip = some host_a ∧
      ∀ rules, program_rules root_db = .ok rules →
        rules.length = 2 * (root_db.all_hosts.map (fun p => (eligible p.2).length)).sum :=
  ⟨by rw [root_db_entries]; decide, rfl,
    fun rules h => ((two_rules_per_eligible_interface root_db host_a
      (by rw [root_db_entries]; decide) root_db_valid rfl).2.1 rules h).1⟩

/-! ## C24: local rules before remote rules -/

/-- C24. For every database (every host with counts that fit its arrays and C
strings in its `char` arrays), the programming step of the root and of the leaf
issues the local rules first: `apply_local_vip_iptables_rule` issues, for the
host under `local_ip`, the SNAT rule immediately followed by the DNAT rule of
each eligible interface, by device index and then by planar-interface index;
then `apply_remote_vip_iptables_rule` appends the remote rules, host by host
in the iteration order of the map and within a host by device index and then by
planar-interface index.  The sequence issued is the local rules followed by the
remote rules. -/
theorem local_rules_before_remote_rules (db : host_db_t)
    (hv : ∀ p ∈ db.all_hosts, p.2.valid) :
    apply_local_vip_iptables_rule db [] = .ok (local_rules db) ∧
      apply_remote_vip_iptables_rule db (local_rules db)
        = .ok (local_rules db ++ remote_rules db) ∧
      program_rules db = .ok (local_rules db ++ remote_rules db) ∧
      (∀ host ij, rules_at add_tx_snat_rules add_rx_dnat_rules host ij =
        [add_tx_snat_rules (inet_ntop4 (host.devices ij.1).virtual_ip)
            (inet_ntop4 ((host.devices ij.1).planar_intfs ij.2).ipv4_addr)
            (c_str ((host.devices ij.1).planar_intfs ij.2).name),
          add_rx_dnat_rules (inet_ntop4 (host.devices ij.1).virtual_ip)
            (inet_ntop4 ((host.devices ij.1).planar_intfs ij.2).ipv4_addr)
            (c_str ((host.devices ij.1).planar_intfs ij.2).name)]) := by
  refine ⟨?_, apply_remote_vip_iptables_rule_eq db hv _, program_rules_eq db hv,
    fun _ _ => rfl⟩
  have := apply_local_vip_iptables_rule_eq db hv []
  simpa using this

/-- Witness of C24: on `root_db` the two local rules of 10.0.0.2 come before the
two remote rules of 10.0.0.5. -/
theorem local_rules_before_remote_rules_witness :
    (∀ p ∈ root_db.all_hosts, p.2.valid) ∧
      program_rules root_db
        = .ok ([add_tx_snat_rules (ascii "192.168.1.1") (ascii "10.1.0.1") (ascii "eth1"),
                add_rx_dnat_rules (ascii "192.168.1.1") (ascii "10.1.0.1") (ascii "eth1")] ++
               [add_tx_dnat_rules (ascii "192.168.1.2") (ascii "10.1.0.2") (ascii "eth1"),
                add_rx_snat_rules (ascii "192.168.1.2") (ascii "10.1.0.2") (ascii "eth1")]) :=
  ⟨root_db_valid, (local_rules_before_remote_rules root_db root_db_valid).2.2.1.trans
    (by decide)⟩

/-! ## C25: `execute_iptables_command` is not idempotent -/

/-- C25: the code at failing inputs.  The packet filter already holds the rule
that `add_tx_snat_rules` builds for the virtual address 192.168.1.1, the planar
address 10.1.0.1 and the interface eth1.  On the legacy backend the command
that is run as the check has `CA` in place of `-A`, the packet filter rejects
it, and the append command is run: the rule is installed a second time.  On
the nf_tables backend the command has no `-A`, so the command run as the check
is the `nft add rule` command itself: the rule is installed a second time.  On
the legacy backend every rule of the four helpers is appended by every call,
whatever is installed. -/
theorem execute_iptables_command_installs_rule_again :
    (execute_iptables_command (fun _ => none) packet_filter
        (add_tx_snat_rules (ascii "192.168.1.1") (ascii "10.1.0.1") (ascii "eth1"))
        (machine_with (ascii "legacy")
          [ascii "POSTROUTING -s 192.168.1.1 -o eth1 -j SNAT --to-source 10.1.0.1"])).2.kernel
        = [ascii "POSTROUTING -s 192.168.1.1 -o eth1 -j SNAT --to-source 10.1.0.1",
           ascii "POSTROUTING -s 192.168.1.1 -o eth1 -j SNAT --to-source 10.1.0.1"] ∧
      (execute_iptables_command (fun _ => none) packet_filter
        (add_tx_snat_rules (ascii "192.168.1.1") (ascii "10.1.0.1") (ascii "eth1"))
        (machine_with (ascii "legacy")
          [ascii "POSTROUTING -s 192.168.1.1 -o eth1 -j SNAT --to-source 10.1.0.1"])).2.commands
        = [ascii "iptables -t nat CA POSTROUTING -s 192.168.1.1 -o eth1 -j SNAT --to-source 10.1.0.1",
           ascii "iptables -t nat -A POSTROUTING -s 192.168.1.1 -o eth1 -j SNAT --to-source 10.1.0.1"] ∧
      (execute_iptables_command (fun _ => none) packet_filter
        (add_tx_snat_rules (ascii "192.168.1.1") (ascii "10.1.0.1") (ascii "eth1"))
        { proc := { iptables_backend := ascii "nf_tables", initialized := true, popen_calls := 1 },
          kernel := [ascii "POSTROUTING ip saddr 192.168.1.1 oif eth1 snat to 10.1.0.1"],
          commands := [] })
        = (0,
          { proc := { iptables_backend := ascii "nf_tables", initialized := true,
                      popen_calls := 1 },
            kernel := [ascii "POSTROUTING ip saddr 192.168.1.1 oif eth1 snat to 10.1.0.1",
                       ascii "POSTROUTING ip saddr 192.168.1.1 oif eth1 snat to 10.1.0.1"],
            commands :=
              [ascii "nft add rule ip nat POSTROUTING ip saddr 192.168.1.1 oif eth1 snat to 10.1.0.1"] }) ∧
      ∀ popen, ∀ f ∈ add_rules_helpers, ∀ v p n : List Byte,
        ∃ text, string_c_str (construct_iptables_command (f v p n))
            = ascii "iptables -t nat -A " ++ text ∧
          ∀ installed, (execute_iptables_command popen packet_filter (f v p n)
            (machine_with (ascii "legacy") installed)).2.kernel = installed ++ [text] := by
  refine ⟨by decide, by decide, ?_, fun popen f hf v p n => execute_legacy_appends popen f hf v p n⟩
  have h1 : (execute_iptables_command (fun _ => none) packet_filter
        (add_tx_snat_rules (ascii "192.168.1.1") (ascii "10.1.0.1") (ascii "eth1"))
        { proc := { iptables_backend := ascii "nf_tables", initialized := true, popen_calls := 1 },
          kernel := [ascii "POSTROUTING ip saddr 192.168.1.1 oif eth1 snat to 10.1.0.1"],
          commands := [] }).1 = 0 := by decide
  have h2 : (execute_iptables_command (fun _ => none) packet_filter
        (add_tx_snat_rules (ascii "192.168.1.1") (ascii "10.1.0.1") (ascii "eth1"))
        { proc := { iptables_backend := ascii "nf_tables", initialized := true, popen_calls := 1 },
          kernel := [ascii "POSTROUTING ip saddr 192.168.1.1 oif eth1 snat to 10.1.0.1"],
          commands := [] }).2.proc
      = { iptables_backend := ascii "nf_tables", initialized := true, popen_calls := 1 } := by
    decide
  have h3 : (execute_iptables_command (fun _ => none) packet_filter
        (add_tx_snat_rules (ascii "192.168.1.1") (ascii "10.1.0.1") (ascii "eth1"))
        { proc := { iptables_backend := ascii "nf_tables", initialized := true, popen_calls := 1 },
          kernel := [ascii "POSTROUTING ip saddr 192.168.1.1 oif eth1 snat to 10.1.0.1"],
          commands := [] }).2.kernel
      = [ascii "POSTROUTING ip saddr 192.168.1.1 oif eth1 snat to 10.1.0.1",
         ascii "POSTROUTING ip saddr 192.168.1.1 oif eth1 snat to 10.1.0.1"] := by decide
  have h4 : (execute_iptables_command (fun _ => none) packet_filter
        (add_tx_snat_rules (ascii "192.168.1.1") (ascii "10.1.0.1") (ascii "eth1"))
        { proc := { iptables_backend := ascii "nf_tables", initialized := true, popen_calls := 1 },
          kernel := [ascii "POSTROUTING ip saddr 192.168.1.1 oif eth1 snat to 10.1.0.1"],
          commands := [] }).2.commands
      = [ascii "nft add rule ip nat POSTROUTING ip saddr 192.168.1.1 oif eth1 snat to 10.1.0.1"]
      := by decide
  generalize execute_iptables_command (fun _ => none) packet_filter
        (add_tx_snat_rules (ascii "192.168.1.1") (ascii "10.1.0.1") (ascii "eth1"))
        { proc := { iptables_backend := ascii "nf_tables", initialized := true, popen_calls := 1 },
          kernel := [ascii "POSTROUTING ip saddr 192.168.1.1 oif eth1 snat to 10.1.0.1"],
          commands := [] } = r at h1 h2 h3 h4 ⊢
  obtain ⟨r1, ⟨rp, rk, rc⟩⟩ := r
  simp only at h1 h2 h3 h4
  subst h1 h2 h3 h4
  rfl

/-! ## C26: the command run as the check -/

/-- C26: the code at failing inputs.  For every rule that one of the four
helpers builds, `construct_iptables_command` gives `iptables -t nat -A` followed
by a text, the command for the same rule with the action `C` is
`iptables -t nat -C` followed by that text, but the command that
`execute_iptables_command` builds for the check is `iptables -t nat CA` followed
by that text: `replace(pos + 1, 1, "C")` replaces the dash, not the `A`.  It
differs from the check command, the packet filter rejects it whatever is
installed, and so on the legacy backend the commands passed to `system` are the
`CA` command and then, always, the append command.  For the rule of
`add_tx_snat_rules` on 192.168.1.1, 10.1.0.1 and eth1 the command run as the
check is the one shown. -/
theorem check_command_replaces_the_dash :
    check_command (construct_iptables_command
        (add_tx_snat_rules (ascii "192.168.1.1") (ascii "10.1.0.1") (ascii "eth1")))
        = ascii "iptables -t nat CA POSTROUTING -s 192.168.1.1 -o eth1 -j SNAT --to-source 10.1.0.1" ∧
      construct_iptables_command
          { add_tx_snat_rules (ascii "192.168.1.1") (ascii "10.1.0.1") (ascii "eth1") with
            action := ascii "C" }
        = ascii "iptables -t nat -C POSTROUTING -s 192.168.1.1 -o eth1 -j SNAT --to-source 10.1.0.1" ∧
      (∀ f ∈ add_rules_helpers, ∀ v p n : List Byte, ∃ rest,
        construct_iptables_command (f v p n) = ascii "iptables -t nat -A " ++ rest ∧
        construct_iptables_command { f v p n with action := ascii "C" }
          = ascii "iptables -t nat -C " ++ rest ∧
        check_command (construct_iptables_command (f v p n))
          = ascii "iptables -t nat CA " ++ rest ∧
        check_command (construct_iptables_command (f v p n))
          ≠ construct_iptables_command { f v p n with action := ascii "C" } ∧
        ∀ popen installed,
          (packet_filter (string_c_str (check_command (construct_iptables_command (f v p n))))
            installed).1 ≠ 0 ∧
          (execute_iptables_command popen packet_filter (f v p n)
            (machine_with (ascii "legacy") installed)).2.commands
            = [string_c_str (check_command (construct_iptables_command (f v p n))),
               string_c_str (construct_iptables_command (f v p n))]) := by
  refine ⟨by decide, by decide, ?_⟩
  intro f hf v p n
  have ha : (f v p n).action = ascii "A" ∧ (f v p n).table = ascii "nat" := by
    simp only [add_rules_helpers, List.mem_cons, List.mem_singleton, List.not_mem_nil,
      or_false] at hf
    rcases hf with rfl | rfl | rfl | rfl <;> exact ⟨rfl, rfl⟩
  obtain ⟨rest, e1, e2⟩ := construct_iptables_command_nat (f v p n) ha.1 ha.2
  have hA : ∀ b ∈ ascii "iptables -t nat -A ", b ≠ 0 := by decide
  have hCA : ∀ b ∈ ascii "iptables -t nat CA ", b ≠ 0 := by decide
  have e3 : check_command (construct_iptables_command (f v p n))
      = ascii "iptables -t nat CA " ++ rest := by rw [e1, check_command_append]
  refine ⟨rest, e1, e2, e3, ?_, ?_⟩
  · rw [e3, e2, head_ca, head_check]
    intro h
    simp at h
  · intro popen installed
    constructor
    · rw [e3, string_c_str_append _ _ hCA, packet_filter_ca]
      show (256 : Int) ≠ 0
      decide
    · rw [execute_iptables_command_legacy popen packet_filter (f v p n) _
        (show ascii "legacy" ≠ [] by decide)
        (show ascii "legacy" ≠ ascii "nf_tables" by decide) ha.1, e3, e1]
      simp only [system, string_c_str_append _ _ hA, string_c_str_append _ _ hCA,
        packet_filter_ca, packet_filter_append, machine_with]
      simp

/-! ## C27: the index maps -/

/-- C27 as stated fails: on the root 10.0.0.2 that has stored its own host `a` and
the response of the host `b`, the planar interface 10.1.0.1 of the device
192.168.1.1 of `a` has both addresses nonzero, but `lookup_virtual_ip` of
10.1.0.1 and `lookup_planar_interfaces` of 192.168.1.1 return a null pointer:
the index maps are empty. -/
theorem lookups_find_nothing_on_root :
    root_host_db host_db_empty host_a [host_b] = root_db ∧
      (0, 0) ∈ eligible host_a ∧
      lookup_virtual_ip (root_host_db host_db_empty host_a [host_b])
        ((host_a.devices 0).planar_intfs 0).ipv4_addr = none ∧
      lookup_planar_interfaces (root_host_db host_db_empty host_a [host_b])
        (host_a.devices 0).virtual_ip = none :=
  ⟨rfl, by decide, rfl, rfl⟩

/-- C27, amended.  No code writes to `planar_to_virtual_map` or
`virtual_to_planar_map` (there is no index rebuild): on the root after all
receive threads have joined, whatever hosts they stored, and on a leaf after the
composite has been decoded, `lookup_virtual_ip` and `lookup_planar_interfaces`
return a null pointer for every address. -/
theorem lookups_find_nothing (host : host_t) (responses : List host_t) (addr : Nat → Byte) :
    lookup_virtual_ip (root_host_db host_db_empty host responses) addr = none ∧
      lookup_planar_interfaces (root_host_db host_db_empty host responses) addr = none ∧
      ∀ (fresh : Nat → host_t) (compbuf : List Byte) (db : host_db_t),
        leaf_host_db fresh host_db_empty host compbuf = .ok db →
          lookup_virtual_ip db addr = none ∧ lookup_planar_interfaces db addr = none := by
  have hr := root_host_db_maps host_db_empty host responses
  refine ⟨?_, ?_, ?_⟩
  · unfold lookup_virtual_ip
    rw [hr.1]
    rfl
  · unfold lookup_planar_interfaces
    rw [hr.2]
    rfl
  · intro fresh compbuf db h
    have hl := leaf_host_db_maps fresh host_db_empty db host compbuf h
    unfold lookup_virtual_ip lookup_planar_interfaces
    rw [hl.1, hl.2]
    exact ⟨rfl, rfl⟩

/-- Witness of C27, amended: the root 10.0.0.2 with the response of 10.0.0.5, and
the leaf 10.0.0.5 that has received an empty composite. -/
theorem lookups_find_nothing_witness :
    lookup_virtual_ip (root_host_db host_db_empty host_a [host_b])
        ((host_a.devices 0).planar_intfs 0).ipv4_addr = none ∧
      leaf_host_db (fun _ => host_zero) host_db_empty host_b []
        = .ok { host_db_empty with local_ip := ascii "10.0.0.5" } ∧
      lookup_virtual_ip { host_db_empty with local_ip := ascii "10.0.0.5" }
        ((host_b.devices 0).planar_intfs 0).ipv4_addr = none :=
  ⟨(lookups_find_nothing host_a [host_b] ((host_a.devices 0).planar_intfs 0).ipv4_addr).1, rfl,
    ((lookups_find_nothing host_b [] ((host_b.devices 0).planar_intfs 0).ipv4_addr).2.2
      (fun _ => host_zero) [] _ rfl).1⟩

/-! ## C28: the caps of `parse_planar_config` -/

/-- C28: the code at a failing input.  The document `node_a` has one device;
the `try` block of `parse_planar_config` builds the host that the claim
describes from it, and then `print_planar_config` walks all 8 entries of
`host.devices`, not the first `num_devices`: on the local `host_t` of
`run_root_node` and `run_leaf_node`, which was never written, it reads the
`virtual_intf` of the entry at index 1 as a C string and runs past the array.
On a zeroed host the call returns, and the document `node_wide` (nine devices,
the first with a string of 70 bytes and 65 planar interfaces) gives eight
devices, the first with the first 63 bytes of its string and its first 64
planar interfaces, each with its strings and addresses.  In general, for every
document with its keys (`host_name`, `host_ip` and `devices`; for each of the
first 8 devices `virtual_intf`, `virtual_ip` and `planar_intfs`; for each of
their first 64 planar interfaces `id`, `name`, `ipv4_addr` and `ipv6_addr`) and
every `host_t`: the host that the `try` block leaves has the two strings of the
document, `num_devices = min(n, 8)` and for `i < min(n, 8)` the device `i` of the
document, with `num_interfaces = min(m_i, 64)`, its first `min(m_i, 64)` planar
interfaces in document order, its addresses, and `virtual_intf`, `id` and
`name` equal to the first 63 bytes of the document's string; the devices past
index 7 and the planar interfaces past index 63 have no effect on it; the call
returns, with `ANP_SUCCESS` and this host, exactly when the entries of
`host.devices` that the document does not fill hold C strings and counts that
fit. -/
theorem parse_planar_config_prints_unwritten_devices :
    parse_planar_config inet_pton6_loopback (fun _ => some node_a) PLANAR_CONFIG_FILE
        host_unwritten = .undefined .unterminated_string ∧
      (parse_planar_config_try inet_pton6_loopback (fun _ => some node_a) PLANAR_CONFIG_FILE
          host_unwritten).view
        = { host_name := ascii "a", host_ip := ascii "10.0.0.2", num_devices := 1,
            devices := [{ virtual_intf := ascii "v0", virtual_ip := [192, 168, 1, 1],
                          num_interfaces := 1,
                          planar_intfs := [{ id := ascii "p0", name := ascii "eth1",
                                             ipv4_addr := [10, 1, 0, 1],
                                             ipv6_addr := List.replicate 16 0 }] }] } ∧
      (parse_planar_config inet_pton6_loopback (fun _ => some node_wide) PLANAR_CONFIG_FILE
          host_zero).map_ok (fun r => (r.1, r.2.view)) = .ok (ANP_SUCCESS, wide_view) ∧
      (∀ (inet_pton6 : List Byte → Option (Nat → Byte)) (read_json : List Byte → Option host_node)
        (file : List Byte) (host : host_t) (pt : host_node),
        file ≠ [] → read_json file = some pt → pt.complete →
        (parse_planar_config_try inet_pton6 read_json file host).holds inet_pton6 pt ∧
          parse_planar_config_try inet_pton6 (fun f => (read_json f).map host_node.truncate)
              file host
            = parse_planar_config_try inet_pton6 read_json file host ∧
          (parse_planar_config inet_pton6 read_json file host
              = .ok (ANP_SUCCESS, parse_planar_config_try inet_pton6 read_json file host) ↔
            ∀ i, (pt.devices.getD []).length ≤ i → i < MAX_DEVICES → (host.devices i).valid) ∧
          ∀ r, parse_planar_config inet_pton6 read_json file host = .ok r →
            r = (ANP_SUCCESS, parse_planar_config_try inet_pton6 read_json file host)) ∧
      ∀ s : List Byte, (∀ b ∈ s, b ≠ 0) → first_63 s = s.take 63 := by
  refine ⟨rfl, by decide, rfl, ?_, first_63_of_nul_free⟩
  intro inet_pton6 read_json file host pt hfile hread hc
  refine ⟨(parse_planar_config_try_complete inet_pton6 read_json file host pt hread hc).1,
    parse_planar_config_try_truncate inet_pton6 read_json file host,
    parse_planar_config_ok_iff inet_pton6 read_json file host pt hfile hread hc, ?_⟩
  intro r h
  unfold parse_planar_config at h
  rw [if_neg hfile] at h
  obtain ⟨_, _, h⟩ := (Run.bind_eq_ok _ _ _).1 h
  simp only [Run.pure_eq, Run.ok.injEq] at h
  exact h.symm

/-! ## C29: a topology file that cannot be parsed -/

/-- C29: the code at failing inputs.  When `read_json` throws (the file cannot
be read or is not JSON), `parse_planar_config` returns `ANP_SUCCESS` and leaves
`host` as it was; when the document lacks `host_ip` it returns `ANP_SUCCESS`
with only `host_name` set.  The root then goes on: it sets `local_ip` to the
empty string and stores the host it did not parse under the empty key.  The
leaf goes on as well and builds the payload of its response from that host.
For every file name that is not empty the value returned, if any, is
`ANP_SUCCESS`. -/
theorem parse_planar_config_reports_success :
    (parse_planar_config (fun _ => none) (fun _ => none) PLANAR_CONFIG_FILE host_zero).map_ok
        (fun r => (r.1, r.2.view)) = .ok (ANP_SUCCESS, host_zero.view) ∧
      (parse_planar_config (fun _ => none) (fun _ => some { node_a with host_ip := none })
          PLANAR_CONFIG_FILE host_zero).map_ok (fun r => (r.1, r.2.view))
        = .ok (ANP_SUCCESS, { host_zero with host_name := ascii "a" }.view) ∧
      (run_root_node_start (fun _ => none) (fun _ => none) host_zero host_db_empty).map_ok
          (fun db => (db.local_ip, db.view)) = .ok ([], [([], host_zero.view)]) ∧
      (run_leaf_node_response (fun _ => none) (fun _ => none) host_zero host_db_empty).map_ok
          (fun r => (r.1.local_ip, r.2)) = .ok ([], BE32 0 ++ BE32 0 ++ BE32 0) ∧
      ∀ (inet_pton6 : List Byte → Option (Nat → Byte)) (read_json : List Byte → Option host_node)
        (file : List Byte) (host : host_t) (r : Int × host_t), file ≠ [] →
        parse_planar_config inet_pton6 read_json file host = .ok r → r.1 = ANP_SUCCESS := by
  refine ⟨by decide, by decide, by decide, by decide, ?_⟩
  intro inet_pton6 read_json file host r hfile h
  unfold parse_planar_config at h
  rw [if_neg hfile] at h
  obtain ⟨_, _, h⟩ := (Run.bind_eq_ok _ _ _).1 h
  simp only [Run.pure_eq, Run.ok.injEq] at h
  rw [← h]

/-! ## C30: the backend probe is repeated after a failure -/

/-- C30: the code at a failing input.  The first probe fails (`popen` returns a
null pointer) and the later ones deliver the version text of the nf_tables
variant: the first call returns `unknown` without writing it to
`iptables_backend`, the second call runs the probe again and returns
`nf_tables`; after three calls two probes have been run and the values returned
differ.  In general a call on an empty cache whose probe fails leaves the cache
empty; once a probe has delivered bytes, or the cache is not empty, every
later call returns the cached value without a probe. -/
theorem detect_iptables_backend_probes_again :
    detect_calls (fun k => if k = 0 then none else some (ascii "iptables v1.8.7 (nf_tables)\n")) 3
        process_start
        = ([ascii "unknown", ascii "nf_tables", ascii "nf_tables"],
            { iptables_backend := ascii "nf_tables", initialized := false, popen_calls := 2 }) ∧
      (∀ popen p, p.iptables_backend = [] → popen p.popen_calls = none →
        detect_iptables_backend popen p
          = (ascii "unknown", { p with popen_calls := p.popen_calls + 1 })) ∧
      (∀ popen p pipe n, p.iptables_backend = [] → popen p.popen_calls = some pipe →
        (detect_calls popen n (detect_iptables_backend popen p).2).1
            = List.replicate n (detect_iptables_backend popen p).1 ∧
          (detect_calls popen n (detect_iptables_backend popen p).2).2.popen_calls
            = p.popen_calls + 1) ∧
      (∀ popen p n, p.iptables_backend ≠ [] →
        detect_calls popen n p = (List.replicate n p.iptables_backend, p)) := by
  refine ⟨by decide, detect_failed, ?_, fun popen p n h => detect_calls_cached popen p h n⟩
  intro popen p pipe n h hp
  obtain ⟨h1, h2, h3⟩ := detect_probed popen p pipe h hp
  have hc : (detect_iptables_backend popen p).2.iptables_backend ≠ [] := by rw [h1]; exact h2
  rw [detect_calls_cached popen _ hc n, h1]
  exact ⟨rfl, h3⟩

/-! ## C31: the types that the leaf and the root accept -/

/-- C31: a run of `run_leaf_node` that returns `EXIT_SUCCESS`, or that reaches
the programming of the rules, has read a first header of type 1 and, after its
response, a second header of type 3.  When the first header has another type it
returns `EXIT_FAILURE` with nothing written to the socket and no rule
programmed; when the second header has another type it returns `EXIT_FAILURE`
with nothing written after the response and no rule programmed.  On the root, a
thread that comes to enter a host has read a header of type 2, and a thread
that reads another type exits without a host. -/
theorem exchange_accepts_expected_types (inet_pton6 : List Byte → Option (Nat → Byte))
    (read_json : List Byte → Option host_node) (fresh : Nat → host_t) (host host0 : host_t)
    (host_db : host_db_t) (clientSock sock : anpNcclSocket) :
    (∀ out, run_leaf_node inet_pton6 read_json fresh host host_db clientSock = .ok out →
      (out.ret = EXIT_SUCCESS ∨ out.programmed ≠ none) →
      (recv_tlv clientSock 0 none 0).ret = 0 ∧
      (recv_tlv clientSock 0 none 0).msg_type = MSG_PLANAR_CONFIG_REQUEST ∧
      ∃ db buffer, run_leaf_node_response inet_pton6 read_json host host_db = .ok (db, buffer) ∧
        (send_tlv (recv_tlv clientSock 0 none 0).sock MSG_CONFIG_RESPONSE (some buffer)
          buffer.length).1 = 0 ∧
        (recv_tlv (send_tlv (recv_tlv clientSock 0 none 0).sock MSG_CONFIG_RESPONSE
          (some buffer) buffer.length).2 (recv_tlv clientSock 0 none 0).msg_type none
          (recv_tlv clientSock 0 none 0).payload_size).ret = 0 ∧
        (recv_tlv (send_tlv (recv_tlv clientSock 0 none 0).sock MSG_CONFIG_RESPONSE
          (some buffer) buffer.length).2 (recv_tlv clientSock 0 none 0).msg_type none
          (recv_tlv clientSock 0 none 0).payload_size).msg_type = MSG_COMPOSITE_CONFIG ∧
        out.ret = EXIT_SUCCESS ∧ out.programmed ≠ none) ∧
    ((recv_tlv clientSock 0 none 0).ret = 0 →
      (recv_tlv clientSock 0 none 0).msg_type ≠ MSG_PLANAR_CONFIG_REQUEST →
      ∃ out, run_leaf_node inet_pton6 read_json fresh host host_db clientSock = .ok out ∧
        out.ret = EXIT_FAILURE ∧ out.programmed = none ∧ out.sock.sent = clientSock.sent) ∧
    (∀ db buffer, (recv_tlv clientSock 0 none 0).ret = 0 →
      (recv_tlv clientSock 0 none 0).msg_type = MSG_PLANAR_CONFIG_REQUEST →
      run_leaf_node_response inet_pton6 read_json host host_db = .ok (db, buffer) →
      (send_tlv (recv_tlv clientSock 0 none 0).sock MSG_CONFIG_RESPONSE (some buffer)
        buffer.length).1 = 0 →
      (recv_tlv (send_tlv (recv_tlv clientSock 0 none 0).sock MSG_CONFIG_RESPONSE
        (some buffer) buffer.length).2 (recv_tlv clientSock 0 none 0).msg_type none
        (recv_tlv clientSock 0 none 0).payload_size).ret = 0 →
      (recv_tlv (send_tlv (recv_tlv clientSock 0 none 0).sock MSG_CONFIG_RESPONSE
        (some buffer) buffer.length).2 (recv_tlv clientSock 0 none 0).msg_type none
        (recv_tlv clientSock 0 none 0).payload_size).msg_type ≠ MSG_COMPOSITE_CONFIG →
      ∃ out, run_leaf_node inet_pton6 read_json fresh host host_db clientSock = .ok out ∧
        out.ret = EXIT_FAILURE ∧ out.programmed = none ∧
        out.sock.sent = (send_tlv (recv_tlv clientSock 0 none 0).sock MSG_CONFIG_RESPONSE
          (some buffer) buffer.length).2.sent) ∧
    (∀ entered sock', recv_config_thread host0 sock = .ok (some entered, sock') →
      (recv_tlv sock 0 none 0).ret = 0 ∧
      (recv_tlv sock 0 none 0).msg_type = MSG_CONFIG_RESPONSE) ∧
    ((recv_tlv sock 0 none 0).ret = 0 →
      (recv_tlv sock 0 none 0).msg_type ≠ MSG_CONFIG_RESPONSE →
      recv_config_thread host0 sock = .ok (none, (recv_tlv sock 0 none 0).sock)) := by
  have hfail : EXIT_FAILURE ≠ EXIT_SUCCESS := by decide
  refine ⟨?_, ?_, ?_, ?_, ?_⟩
  · intro out h hout
    unfold run_leaf_node at h
    simp only at h
    by_cases h1 : (recv_tlv clientSock 0 none 0).ret = 0
    swap
    · rw [if_pos h1] at h
      simp only [Run.ok.injEq] at h
      subst h
      rcases hout with e | e
      · exact absurd e hfail
      · exact absurd rfl e
    rw [if_neg (not_not.2 h1)] at h
    by_cases h2 : (recv_tlv clientSock 0 none 0).msg_type = MSG_PLANAR_CONFIG_REQUEST
    swap
    · rw [if_pos h2] at h
      simp only [Run.ok.injEq] at h
      subst h
      rcases hout with e | e
      · exact absurd e hfail
      · exact absurd rfl e
    rw [if_neg (not_not.2 h2)] at h
    obtain ⟨⟨db, buffer⟩, hresp, h⟩ := (Run.bind_eq_ok _ _ _).1 h
    simp only at h
    refine ⟨h1, h2, db, buffer, hresp, ?_⟩
    by_cases h3 : (send_tlv (recv_tlv clientSock 0 none 0).sock MSG_CONFIG_RESPONSE
        (some buffer) buffer.length).1 = 0
    swap
    · rw [if_pos h3] at h
      simp only [Run.pure_eq, Run.ok.injEq] at h
      subst h
      rcases hout with e | e
      · exact absurd e hfail
      · exact absurd rfl e
    rw [if_neg (not_not.2 h3)] at h
    by_cases h4 : (recv_tlv (send_tlv (recv_tlv clientSock 0 none 0).sock MSG_CONFIG_RESPONSE
        (some buffer) buffer.length).2 (recv_tlv clientSock 0 none 0).msg_type none
        (recv_tlv clientSock 0 none 0).payload_size).ret = 0
    swap
    · rw [if_pos h4] at h
      simp only [Run.pure_eq, Run.ok.injEq] at h
      subst h
      rcases hout with e | e
      · exact absurd e hfail
      · exact absurd rfl e
    rw [if_neg (not_not.2 h4)] at h
    by_cases h5 : (recv_tlv (send_tlv (recv_tlv clientSock 0 none 0).sock MSG_CONFIG_RESPONSE
        (some buffer) buffer.length).2 (recv_tlv clientSock 0 none 0).msg_type none
        (recv_tlv clientSock 0 none 0).payload_size).msg_type = MSG_COMPOSITE_CONFIG
    swap
    · rw [if_pos h5] at h
      simp only [Run.pure_eq, Run.ok.injEq] at h
      subst h
      rcases hout with e | e
      · exact absurd e hfail
      · exact absurd rfl e
    rw [if_neg (not_not.2 h5)] at h
    refine ⟨h3, h4, h5, ?_⟩
    split_ifs at h with h6 h7
    · simp only [Run.pure_eq, Run.ok.injEq] at h
      subst h
      rcases hout with e | e
      · exact absurd e hfail
      · exact absurd rfl e
    · obtain ⟨db', _, h⟩ := (Run.bind_eq_ok _ _ _).1 h
      obtain ⟨e1, _, _, issued, _, e2⟩ := run_leaf_node_program_ok _ _ _ h
      exact ⟨e1, by rw [e2]; exact fun e => by cases e⟩
    · obtain ⟨e1, _, _, issued, _, e2⟩ := run_leaf_node_program_ok _ _ _ h
      exact ⟨e1, by rw [e2]; exact fun e => by cases e⟩
  · intro h1 h2
    refine ⟨{ ret := EXIT_FAILURE, sock := (recv_tlv clientSock 0 none 0).sock,
              host_db := host_db, programmed := none }, ?_, rfl, rfl, recv_tlv_sent _ _ _⟩
    unfold run_leaf_node
    simp only
    rw [if_neg (not_not.2 h1), if_pos h2]
  · intro db buffer h1 h2 hresp h3 h4 h5
    refine ⟨{ ret := EXIT_FAILURE,
              sock := (recv_tlv (send_tlv (recv_tlv clientSock 0 none 0).sock MSG_CONFIG_RESPONSE
                (some buffer) buffer.length).2 (recv_tlv clientSock 0 none 0).msg_type none
                (recv_tlv clientSock 0 none 0).payload_size).sock,
              host_db := db, programmed := none }, ?_, rfl, rfl, recv_tlv_sent _ _ _⟩
    unfold run_leaf_node
    simp only
    rw [if_neg (not_not.2 h1), if_neg (not_not.2 h2), hresp]
    simp only [Run.ok_bind]
    rw [if_neg (not_not.2 h3), if_neg (not_not.2 h4), if_pos h5]
    rfl
  · intro entered sock' h
    unfold recv_config_thread at h
    simp only at h
    by_cases h1 : (recv_tlv sock 0 none 0).ret = 0
    swap
    · rw [if_pos h1] at h
      simp only [Run.ok.injEq, Prod.mk.injEq] at h
      exact absurd h.1 (by simp)
    rw [if_neg (not_not.2 h1)] at h
    by_cases h2 : (recv_tlv sock 0 none 0).msg_type = MSG_CONFIG_RESPONSE
    swap
    · rw [if_pos h2] at h
      simp only [Run.ok.injEq, Prod.mk.injEq] at h
      exact absurd h.1 (by simp)
    exact ⟨h1, h2⟩
  · intro h1 h2
    unfold recv_config_thread
    simp only
    rw [if_neg (not_not.2 h1), if_pos h2]

/-- The theorem of C31 on two runs of the leaf `a`: on the request followed by
the composite payload of hosts `a` and `b` the run returns `EXIT_SUCCESS` with
rules programmed, and the headers it read had the types 1 and 3; on a stream
that starts with a frame of type 3 the run returns `EXIT_FAILURE` with nothing
written and no rule programmed. -/
theorem exchange_accepts_expected_types_witness :
    run_leaf_node (fun _ => none) (fun _ => some node_a) (fun _ => host_zero) host_zero
        host_db_empty leaf_sock_two = .ok leaf_outcome_two ∧
      (recv_tlv leaf_sock_two 0 none 0).msg_type = MSG_PLANAR_CONFIG_REQUEST ∧
      ∃ out, run_leaf_node (fun _ => none) (fun _ => some node_a) (fun _ => host_zero) host_zero
          host_db_empty (reliable (wire_frame (MSG_COMPOSITE_CONFIG, []))) = .ok out ∧
        out.ret = EXIT_FAILURE ∧ out.programmed = none ∧ out.sock.sent = [] :=
  ⟨rfl,
    ((exchange_accepts_expected_types (fun _ => none) (fun _ => some node_a)
      (fun _ => host_zero) host_zero host_zero host_db_empty leaf_sock_two leaf_sock_two).1
      leaf_outcome_two rfl (Or.inl rfl)).2.1,
    (exchange_accepts_expected_types (fun _ => none) (fun _ => some node_a)
      (fun _ => host_zero) host_zero host_zero host_db_empty
      (reliable (wire_frame (MSG_COMPOSITE_CONFIG, []))) leaf_sock_two).2.1
      (by decide) (by decide)⟩

/-! ## C32: what the root collects and sends back -/

/-- C33: for every database and any two machines, each with its own version
probe, shell and state, the rules that `apply_local_vip_iptables_rule` and
`apply_remote_vip_iptables_rule` hand to `execute_iptables_command` are the
same, in the same order, and the two calls are defined on the one machine
exactly when they are on the other: what a command returns never reaches the
loops.  The rules are those of `program_rules`. -/
theorem rule_attempts_independent_of_backend {κ₁ κ₂ : Type}
    (popen₁ popen₂ : Nat → Option (List Byte)) (sh₁ : List Byte → κ₁ → Int × κ₁)
    (sh₂ : List Byte → κ₂ → Int × κ₂) (m₁ : machine κ₁) (m₂ : machine κ₂)
    (host_db : host_db_t) (issued : List IptablesRule) :
    (apply_local_vip_iptables_rule_on popen₁ sh₁ host_db (issued, m₁)).map_ok (fun st => st.1)
        = (apply_local_vip_iptables_rule_on popen₂ sh₂ host_db (issued, m₂)).map_ok
            (fun st => st.1) ∧
      (apply_remote_vip_iptables_rule_on popen₁ sh₁ host_db (issued, m₁)).map_ok (fun st => st.1)
        = (apply_remote_vip_iptables_rule_on popen₂ sh₂ host_db (issued, m₂)).map_ok
            (fun st => st.1) ∧
      (program_rules_on popen₁ sh₁ host_db m₁).map_ok (fun st => st.1)
        = (program_rules_on popen₂ sh₂ host_db m₂).map_ok (fun st => st.1) ∧
      (program_rules_on popen₁ sh₁ host_db m₁).map_ok (fun st => st.1)
        = program_rules host_db := by
  refine ⟨?_, ?_, ?_, program_rules_on_rules _ _ _ _⟩
  · rw [apply_local_vip_iptables_rule_on_rules, apply_local_vip_iptables_rule_on_rules]
  · rw [apply_remote_vip_iptables_rule_on_rules, apply_remote_vip_iptables_rule_on_rules]
  · rw [program_rules_on_rules, program_rules_on_rules]

/-- The theorem of C33 on the database of the root 10.0.0.2: a legacy packet
filter that installs every rule and a shell on which every command fails are
handed the same four rules, and they end with four rules and with none
installed. -/
theorem rule_attempts_independent_of_backend_witness :
    (program_rules_on (fun _ => some (ascii "iptables v1.8.7 (legacy)")) packet_filter root_db
        (machine_with [] [])).map_ok (fun st => st.1)
      = (program_rules_on (fun _ => none) sh_fails root_db (machine_with [] [])).map_ok
          (fun st => st.1) ∧
    (program_rules_on (fun _ => some (ascii "iptables v1.8.7 (legacy)")) packet_filter root_db
        (machine_with [] [])).map_ok (fun st => (st.1.length, st.2.kernel.length)) = .ok (4, 4) ∧
    (program_rules_on (fun _ => none) sh_fails root_db (machine_with [] [])).map_ok
        (fun st => (st.1.length, st.2.kernel.length)) = .ok (4, 0) :=
  ⟨(rule_attempts_independent_of_backend (fun _ => some (ascii "iptables v1.8.7 (legacy)"))
      (fun _ => none) packet_filter sh_fails (machine_with [] []) (machine_with [] []) root_db
      []).2.2.1, by decide, by decide⟩

/-! ## C34: a request with a declared payload -/

/-- C34, where the claim fails: the leaf `a` reads a first header of type 1
with the declared length 8.  It sends its `CONFIG_RESPONSE` all the same.  When
the 8 bytes that follow are a header of type 3 and length 0 it returns
`EXIT_SUCCESS`; when 4 stray bytes are followed by the frame of the composite
payload it reads the next header across them and returns `EXIT_FAILURE`, after
the response has been sent. -/
theorem leaf_answers_request_with_payload :
    (recv_tlv (reliable (BE32 1 ++ BE32 8 ++ wire_frame (MSG_COMPOSITE_CONFIG, []))) 0 none
        0).payload_size = 8 ∧
      (run_leaf_node (fun _ => none) (fun _ => some node_a) (fun _ => host_zero) host_zero
          host_db_empty
          (reliable (BE32 1 ++ BE32 8 ++ wire_frame (MSG_COMPOSITE_CONFIG, [])))).map_ok
          (fun out => (out.ret, out.sock.sent, out.programmed))
        = .ok (EXIT_SUCCESS, wire_frame (MSG_CONFIG_RESPONSE, wire_host host_a.view), some []) ∧
      (run_leaf_node (fun _ => none) (fun _ => some node_a) (fun _ => host_zero) host_zero
          host_db_empty
          (reliable (BE32 1 ++ BE32 4 ++ [1, 2, 3, 4]
            ++ wire_frame (MSG_COMPOSITE_CONFIG, composite_two)))).map_ok
          (fun out => (out.ret, out.sock.sent, out.programmed))
        = .ok (EXIT_FAILURE, wire_frame (MSG_CONFIG_RESPONSE, wire_host host_a.view), none) := by
  refine ⟨by decide, by decide, by decide⟩

/-- C34, amended: a leaf whose first header has type 1 goes on whatever length
the header declares.  On a stream that starts with a header of type 1 and
length `n`, `recv_tlv` reads the 8 bytes of the header and leaves the rest; the
run is the one on the same stream with the length 0 in the first header; the
`CONFIG_RESPONSE` is sent, and whatever the run returns, the frame of the
response is what it has written. -/
theorem leaf_ignores_declared_length (inet_pton6 : List Byte → Option (Nat → Byte))
    (read_json : List Byte → Option host_node) (fresh : Nat → host_t) (host : host_t)
    (host_db db : host_db_t) (buffer rest : List Byte) (n : Nat) (hn : n < 2 ^ 32)
    (hresp : run_leaf_node_response inet_pton6 read_json host host_db = .ok (db, buffer))
    (hlen : buffer.length < 2 ^ 31) :
    recv_tlv (reliable (BE32 1 ++ BE32 n ++ rest)) 0 none 0
        = { ret := 0, msg_type := MSG_PLANAR_CONFIG_REQUEST, payload_size := n, payload := none,
            sock := reliable rest } ∧
      run_leaf_node inet_pton6 read_json fresh host host_db (reliable (BE32 1 ++ BE32 n ++ rest))
        = run_leaf_node inet_pton6 read_json fresh host host_db
            (reliable (BE32 1 ++ BE32 0 ++ rest)) ∧
      (send_tlv (reliable rest) MSG_CONFIG_RESPONSE (some buffer) buffer.length).1 = 0 ∧
      ∀ out, run_leaf_node inet_pton6 read_json fresh host host_db
          (reliable (BE32 1 ++ BE32 n ++ rest)) = .ok out →
        out.sock.sent = wire_frame (MSG_CONFIG_RESPONSE, buffer) := by
  have hrecv : ∀ m, m < 2 ^ 32 → recv_tlv (reliable (BE32 1 ++ BE32 m ++ rest)) 0 none 0
      = { ret := 0, msg_type := MSG_PLANAR_CONFIG_REQUEST, payload_size := m, payload := none,
          sock := reliable rest } := fun m hm =>
    recv_tlv_reliable (reliable (BE32 1 ++ BE32 m ++ rest)) 1 m rest rfl rfl (by decide) hm
  have hsend := send_tlv_reliable (reliable rest) MSG_CONFIG_RESPONSE buffer rfl hlen
  refine ⟨hrecv n hn, ?_, hsend.1, ?_⟩
  · apply run_leaf_node_length_unused
    · rw [hrecv n hn, hrecv 0 (by decide)]
    · rw [hrecv n hn, hrecv 0 (by decide)]
    · rw [hrecv n hn, hrecv 0 (by decide)]
  · intro out h
    have e := run_leaf_node_sent inet_pton6 read_json fresh host host_db db buffer
      (reliable (BE32 1 ++ BE32 n ++ rest)) out (by rw [hrecv n hn]) (by rw [hrecv n hn]) hresp h
    rw [e, hrecv n hn]
    show (send_tlv (reliable rest) MSG_CONFIG_RESPONSE (some buffer) buffer.length).2.sent = _
    rw [hsend.2]
    rfl

/-- The theorem of C34 on the leaf `a` and a request that declares 8 bytes: the
run is the one on the request that declares none, and the response of the leaf
is sent. -/
theorem leaf_ignores_declared_length_witness :
    8 < 2 ^ 32 ∧ (wire_host host_a.view).length < 2 ^ 31 ∧
      run_leaf_node (fun _ => none) (fun _ => some node_a) (fun _ => host_zero) host_zero
          host_db_empty (reliable (BE32 1 ++ BE32 8 ++ wire_frame (MSG_COMPOSITE_CONFIG, [])))
        = run_leaf_node (fun _ => none) (fun _ => some node_a) (fun _ => host_zero) host_zero
            host_db_empty (reliable (BE32 1 ++ BE32 0 ++ wire_frame (MSG_COMPOSITE_CONFIG, []))) ∧
      (send_tlv (reliable (wire_frame (MSG_COMPOSITE_CONFIG, []))) MSG_CONFIG_RESPONSE
        (some (wire_host host_a.view)) (wire_host host_a.view).length).1 = 0 :=
  ⟨by decide, by decide,
    (leaf_ignores_declared_length (fun _ => none) (fun _ => some node_a) (fun _ => host_zero)
      host_zero host_db_empty { host_db_empty with local_ip := ascii "10.0.0.2" }
      (wire_host host_a.view) (wire_frame (MSG_COMPOSITE_CONFIG, [])) 8 (by decide) rfl
      (by decide)).2.1,
    (leaf_ignores_declared_length (fun _ => none) (fun _ => some node_a) (fun _ => host_zero)
      host_zero host_db_empty { host_db_empty with local_ip := ascii "10.0.0.2" }
      (wire_host host_a.view) (wire_frame (MSG_COMPOSITE_CONFIG, [])) 8 (by decide) rfl
      (by decide)).2.2.1⟩

/-! ## C35: the text of a legacy command -/

/-- C35: for a rule whose match value, interface name and translate address are
not empty, with `match_type` one of SIP and DIP and `jump_target` one of SNAT
and DNAT, `construct_iptables_command` returns
`iptables -t <table> -<action> <chain> `, then `-s ` (SIP) or `-d ` (DIP) and
the match value, then ` -i ` (`iface_type` in) or ` -o ` (out, and any other
`iface_type`) and the interface name, then ` -j <target>`, then ` --to-source `
(SNAT) or ` --to-destination ` (DNAT) and the translate address; nothing is
asked of table, action and chain. -/
theorem construct_iptables_command_text (rule : IptablesRule)
    (hvalue : rule.match_value ≠ []) (hname : rule.iface_name ≠ [])
    (hip : rule.translate_ip ≠ [])
    (hmatch : rule.match_type = ascii "SIP" ∨ rule.match_type = ascii "DIP")
    (hjump : rule.jump_target = ascii "SNAT" ∨ rule.jump_target = ascii "DNAT") :
    construct_iptables_command rule =
      ascii "iptables -t " ++ rule.table ++ ascii " -" ++ rule.action ++ ascii " " ++ rule.chain
        ++ ascii " "
        ++ (if rule.match_type = ascii "SIP" then ascii "-s " else ascii "-d ") ++ rule.match_value
        ++ (if rule.iface_type = ascii "in" then ascii " -i " else ascii " -o ") ++ rule.iface_name
        ++ ascii " -j " ++ rule.jump_target
        ++ (if rule.jump_target = ascii "SNAT" then ascii " --to-source "
            else ascii " --to-destination ")
        ++ rule.translate_ip := by
  have hm : rule.match_type ≠ [] := by
    rcases hmatch with h | h <;> (rw [h]; decide)
  have hj : rule.jump_target ≠ [] := by
    rcases hjump with h | h <;> (rw [h]; decide)
  have e1 : ascii " -s " = ascii " " ++ ascii "-s " := by decide
  have e2 : ascii " -d " = ascii " " ++ ascii "-d " := by decide
  have e3 : ascii "DNAT" ≠ ascii "SNAT" := by decide
  unfold construct_iptables_command
  simp only [hm, hvalue, hname, hj, hip, ne_eq, not_false_eq_true, and_self, if_true]
  rcases hjump with h | h
  · simp only [h, if_true, e1, e2, append_ite, ite_append, List.append_assoc]
  · simp only [h, e3, if_true, if_false, e1, e2, append_ite, ite_append, List.append_assoc]

/-- The theorem of C35 at the LOCAL_TX_SNAT rule for the virtual address
192.168.1.1 and the planar address 10.1.0.1 on eth1. -/
theorem construct_iptables_command_text_witness :
    construct_iptables_command
        (add_tx_snat_rules (ascii "192.168.1.1") (ascii "10.1.0.1") (ascii "eth1"))
      = ascii "iptables -t nat -A POSTROUTING -s 192.168.1.1 -o eth1 -j SNAT --to-source 10.1.0.1" :=
  (construct_iptables_command_text
    (add_tx_snat_rules (ascii "192.168.1.1") (ascii "10.1.0.1") (ascii "eth1"))
    (by decide) (by decide) (by decide) (Or.inl rfl) (Or.inl rfl)).trans (by decide)

/-! ## C36: `power_of_2` and the bucket interval -/

/-- C36, where the claim fails: for the configured value `2 ^ 63 + 1`, a
`size_t` that is not a power of two, `power_of_2` returns 0 and the interval
after the adjustment of `load_config` is 0, which is not a power of two. -/
theorem bucket_interval_wraps_to_zero :
    2 ^ 63 + 1 < 2 ^ 64 ∧ IS_POWER_OF_2 (2 ^ 63 + 1) = false ∧ power_of_2 (2 ^ 63 + 1) = 0 ∧
      load_config_bucket_interval_ns (2 ^ 63 + 1) = 0 ∧ IS_POWER_OF_2 0 = false ∧
      ∀ k : Nat, (0 : Nat) ≠ 2 ^ k := by
  have hp : power_of_2 (2 ^ 63 + 1) = 0 := power_of_2_large _ (by decide) (by decide)
  have hi : IS_POWER_OF_2 (2 ^ 63 + 1) = false := by
    cases h : IS_POWER_OF_2 (2 ^ 63 + 1)
    · rfl
    · obtain ⟨k, hk⟩ := IS_POWER_OF_2_sound _ h
      have h1 : 63 < k := (Nat.pow_lt_pow_iff_right (by decide : 1 < 2)).1 (by omega)
      have h2 : k < 64 := (Nat.pow_lt_pow_iff_right (by decide : 1 < 2)).1 (by omega)
      omega
  refine ⟨by decide, hi, hp, ?_, by decide, fun k => (Nat.pow_pos (by decide)).ne⟩
  unfold load_config_bucket_interval_ns
  rw [hi, hp]; rfl

/-- C36, amended: `power_of_2(0)` is 1; for `1 ≤ n ≤ 2 ^ 63` the value
`power_of_2(n)` is the least power of two that is at least `n`, so a power of
two up to `2 ^ 63` is returned as it is; the interval after the adjustment of
`load_config` is a power of two when the configured value is at most `2 ^ 63`,
and it is 0 when the configured value is larger. -/
theorem power_of_2_next_power (n : Nat) (hn : n < 2 ^ 64) :
    power_of_2 0 = 1 ∧
      (1 ≤ n → n ≤ 2 ^ 63 →
        ∃ k, power_of_2 n = 2 ^ k ∧ n ≤ 2 ^ k ∧ ∀ j, n ≤ 2 ^ j → 2 ^ k ≤ 2 ^ j) ∧
      (∀ k, k ≤ 63 → power_of_2 (2 ^ k) = 2 ^ k) ∧
      (n ≤ 2 ^ 63 → ∃ k, load_config_bucket_interval_ns n = 2 ^ k) ∧
      (2 ^ 63 < n → power_of_2 n = 0 ∧ load_config_bucket_interval_ns n = 0) := by
  have least : ∀ m, 1 ≤ m → m ≤ 2 ^ 63 →
      ∃ k, power_of_2 m = 2 ^ k ∧ m ≤ 2 ^ k ∧ ∀ j, m ≤ 2 ^ j → 2 ^ k ≤ 2 ^ j := by
    intro m h1 h2
    refine ⟨(m - 1).size, (power_of_2_small m h1 h2).1, ?_, ?_⟩
    · have := Nat.lt_size_self (m - 1)
      omega
    · intro j hj
      have : (m - 1).size ≤ j := Nat.size_le.2 (by omega)
      exact Nat.pow_le_pow_right (by decide) this
  refine ⟨rfl, least n, ?_, ?_, ?_⟩
  · intro k hk
    have hle : 2 ^ k ≤ 2 ^ 63 := Nat.pow_le_pow_right (by decide) hk
    obtain ⟨k', e, h1, h2⟩ := least (2 ^ k) (Nat.pow_pos (by decide)) hle
    rw [e]
    exact Nat.le_antisymm (h2 k (Nat.le_refl _)) h1
  · intro hle
    unfold load_config_bucket_interval_ns
    cases h : IS_POWER_OF_2 n
    · simp only [Bool.not_false, if_true]
      rcases Nat.eq_zero_or_pos n with h0 | h0
      · subst h0; exact ⟨0, rfl⟩
      · obtain ⟨k, e, _⟩ := least n h0 hle
        exact ⟨k, e⟩
    · simp only [Bool.not_true, Bool.false_eq_true, if_false]
      exact IS_POWER_OF_2_sound n h
  · intro hgt
    have hp := power_of_2_large n hgt hn
    refine ⟨hp, ?_⟩
    have hi : IS_POWER_OF_2 n = false := by
      cases h : IS_POWER_OF_2 n
      · rfl
      · obtain ⟨k, hk⟩ := IS_POWER_OF_2_sound _ h
        have h1 : 63 < k := (Nat.pow_lt_pow_iff_right (by decide : 1 < 2)).1 (by omega)
        have h2 : k < 64 := (Nat.pow_lt_pow_iff_right (by decide : 1 < 2)).1 (by omega)
        omega
    unfold load_config_bucket_interval_ns
    rw [hi, hp]; rfl

/-- The theorem of C36 at 1000: `power_of_2` returns a power of two that is the
least one not below 1000, and the adjusted interval is a power of two. -/
theorem power_of_2_next_power_witness :
    1000 < 2 ^ 64 ∧
      (∃ k, power_of_2 1000 = 2 ^ k ∧ 1000 ≤ 2 ^ k ∧ ∀ j, 1000 ≤ 2 ^ j → 2 ^ k ≤ 2 ^ j) ∧
      ∃ k, load_config_bucket_interval_ns 1000 = 2 ^ k :=
  ⟨by decide, (power_of_2_next_power 1000 (by decide)).2.1 (by decide) (by decide),
    (power_of_2_next_power 1000 (by decide)).2.2.2.1 (by decide)⟩

/-! ## C37: one bucket for each logged time -/

/-- C37: on a histogram with `1 ≤ max_buckets` and `bucket_sz_log2 < 64`, a call
`log_time(t)` returns, adds one (in `size_t`) to the count of the bucket
`min(t / 2 ^ bucket_sz_log2, max_buckets - 1)` and leaves every other key as it
was; after the calls for any list of times on a new histogram the keys are
distinct and below `max_buckets`, and for fewer than `2 ^ 64` calls the counts
add up to the number of calls, each bucket holding the number of times that
fall in it. -/
theorem log_time_increments_one_bucket (h : time_histogram_s) (t : Nat) (ts : List Nat)
    (hmax : 1 ≤ h.max_buckets) (hint : h.max_buckets < 2 ^ 31) (hsz : h.bucket_sz_log2 < 64) :
    (∃ h', h.log_time t = .ok h' ∧
      h'.max_buckets = h.max_buckets ∧ h'.bucket_sz_log2 = h.bucket_sz_log2 ∧
      h'.count (bucket_of h.max_buckets h.bucket_sz_log2 t)
        = (h.count (bucket_of h.max_buckets h.bucket_sz_log2 t) + 1) % 2 ^ 64 ∧
      (h.count (bucket_of h.max_buckets h.bucket_sz_log2 t) + 1 < 2 ^ 64 →
        h'.count (bucket_of h.max_buckets h.bucket_sz_log2 t)
          = h.count (bucket_of h.max_buckets h.bucket_sz_log2 t) + 1) ∧
      (∀ k, k ≠ bucket_of h.max_buckets h.bucket_sz_log2 t →
        map_find h'.buckets k = map_find h.buckets k) ∧
      h'.buckets.map (fun p => p.1)
        = if bucket_of h.max_buckets h.bucket_sz_log2 t ∈ h.buckets.map (fun p => p.1)
          then h.buckets.map (fun p => p.1)
          else h.buckets.map (fun p => p.1) ++ [bucket_of h.max_buckets h.bucket_sz_log2 t]) ∧
    (∃ h', (time_histogram_s.new h.max_buckets h.bucket_sz_log2).log_times ts = .ok h' ∧
      (h'.buckets.map (fun p => p.1)).Nodup ∧
      (∀ p ∈ h'.buckets, (p.1 : Int) < h.max_buckets) ∧
      (ts.length < 2 ^ 64 →
        (h'.buckets.map (fun p => p.2)).sum = ts.length ∧
        ∀ k, h'.count k
          = (ts.filter (fun t => decide (bucket_of h.max_buckets h.bucket_sz_log2 t = k))).length)) := by
  constructor
  · have hc : (map_find (map_increment h.buckets (bucket_of h.max_buckets h.bucket_sz_log2 t))
        (bucket_of h.max_buckets h.bucket_sz_log2 t)).getD 0
        = (h.count (bucket_of h.max_buckets h.bucket_sz_log2 t) + 1) % 2 ^ 64 := by
      unfold map_increment
      rw [map_find_map_assign, if_pos rfl]
      rfl
    refine ⟨_, log_time_eq h t hmax hint hsz, rfl, rfl, hc, ?_, ?_, ?_⟩
    · intro hlt
      show (map_find (map_increment h.buckets _) _).getD 0 = _
      rw [hc, Nat.mod_eq_of_lt hlt]
    · intro k hk
      show map_find (map_increment h.buckets _) k = _
      unfold map_increment
      rw [map_find_map_assign, if_neg hk]
    · show (map_increment h.buckets _).map (fun p => p.1) = _
      unfold map_increment
      rw [map_assign_keys]
  · obtain ⟨h', e, _, _, hnd, hkeys, hsum⟩ :=
      log_times_spec ts (time_histogram_s.new h.max_buckets h.bucket_sz_log2) hmax hint hsz
        List.nodup_nil (fun p hp => by cases hp)
    refine ⟨h', e, hnd, hkeys, fun hlen => ?_⟩
    obtain ⟨s, c⟩ := hsum (by
      show (([] : List (Nat × Nat)).map (fun p => p.2)).sum + ts.length < 2 ^ 64
      simpa using hlen)
    refine ⟨?_, fun k => ?_⟩
    · rw [s]; show (([] : List (Nat × Nat)).map (fun p => p.2)).sum + ts.length = _
      simp
    · rw [c k]
      show (map_find ([] : List (Nat × Nat)) k).getD 0 + _ = _
      simp only [map_find_nil, Option.getD_none, Nat.zero_add]
      rfl

/-- The theorem of C37 on the histogram of the default configuration (5 buckets
of 1024 ns): the time 5000 goes to bucket 4, and after four calls the counts add
up to 4. -/
theorem log_time_increments_one_bucket_witness :
    (1 : Int) ≤ 5 ∧ (5 : Int) < 2 ^ 31 ∧ 10 < 64 ∧
      bucket_of 5 10 5000 = 4 ∧
      (∃ h', (time_histogram_s.new 5 10).log_time 5000 = .ok h' ∧ h'.count 4 = 1) ∧
      ∃ h', (time_histogram_s.new 5 10).log_times [100, 2000, 5000, 100000] = .ok h' ∧
        (h'.buckets.map (fun p => p.2)).sum = 4 :=
  ⟨by decide, by decide, by decide, by decide,
    (log_time_increments_one_bucket (time_histogram_s.new 5 10) 5000 [100, 2000, 5000, 100000]
      (by decide) (by decide) (by decide)).1.imp (fun _ h => ⟨h.1, h.2.2.2.2.1 (by decide)⟩),
    (log_time_increments_one_bucket (time_histogram_s.new 5 10) 5000 [100, 2000, 5000, 100000]
      (by decide) (by decide) (by decide)).2.imp (fun _ h => ⟨h.1, (h.2.2.2 (by decide)).1⟩)⟩

/-! ## C38: the extremes of the completion times -/

/-- C38, where the claim fails: on a new queue pair a WQE completes after 0 ns
and a second one after 7 ns; `wqe_completion_time_min` is then 7 and not 0,
the least completion time. -/
theorem wqe_completion_time_min_skips_zero :
    completion_times [] calls_zero = [0, 7] ∧
      Run.map_ok
          (fun st => (map_find st.queue_state 3).map (Option.map (fun qp_info =>
            (qp_info.stats.wqe_completion_time_min, qp_info.stats.wqe_completion_time_max,
              qp_info.stats.num_wqe_completed, qp_info.stats.num_wqe_rcvd))))
          ((state_default.add_queue_pair 0 0 3 true).update_wqe_metrics 3 calls_zero)
        = .ok (some (some (7, 7, 2, 2))) := by
  constructor
  · decide
  · decide

/-- C38, amended: on a queue pair entered by `add_queue_pair`, after calls of
`update_wqe_send_metrics` and `update_wqe_rcvd_metrics` with at least one
completion and fewer than `2 ^ 64` receives, `wqe_completion_time_max` is the
greatest completion time, `num_wqe_completed` is the number of completions,
`num_wqe_rcvd` the number of receives, and `wqe_completion_time_min` is 0 when
the last completion time is 0 and otherwise the least completion time since the
last one that was 0; it is the least of all when none is 0.  A completion time
is the end time minus the start time on record, in `uint64_t`. -/
theorem wqe_completion_extremes (st : anp_state) (device_id channel_id qp_id : Int)
    (data_qp : Bool) (calls : List wqe_call)
    (hsz : st.bucket_sz_log2 < 64) (hmb : -(2 ^ 31) < st.max_buckets)
    (hcount : (rcvd_calls calls).length < 2 ^ 64)
    (hmatch : completion_times [] calls ≠ []) :
    (∃ st' qp_info,
      (st.add_queue_pair device_id channel_id qp_id data_qp).update_wqe_metrics qp_id calls
        = .ok st' ∧
      map_find st'.queue_state qp_id = some (some qp_info) ∧
      qp_info.stats.wqe_completion_time_max ∈ completion_times [] calls ∧
      (∀ c ∈ completion_times [] calls, c ≤ qp_info.stats.wqe_completion_time_max) ∧
      (since_zero (completion_times [] calls) = [] → qp_info.stats.wqe_completion_time_min = 0) ∧
      (since_zero (completion_times [] calls) ≠ [] →
        qp_info.stats.wqe_completion_time_min ∈ since_zero (completion_times [] calls) ∧
        ∀ c ∈ since_zero (completion_times [] calls), qp_info.stats.wqe_completion_time_min ≤ c) ∧
      ((∀ c ∈ completion_times [] calls, c ≠ 0) →
        qp_info.stats.wqe_completion_time_min ∈ completion_times [] calls ∧
        ∀ c ∈ completion_times [] calls, qp_info.stats.wqe_completion_time_min ≤ c) ∧
      qp_info.stats.num_wqe_completed = (completion_times [] calls).length ∧
      qp_info.stats.num_wqe_rcvd = (rcvd_calls calls).length ∧
      qp_info.stats.num_wqe_completed ≤ qp_info.stats.num_wqe_rcvd) ∧
    (∀ end_time start_time, start_time ≤ end_time → end_time < 2 ^ 64 →
      completion_time end_time start_time = end_time - start_time) := by
  constructor
  · obtain ⟨st', qp_info, r1, r2, _, r4, r5, r6, r7⟩ :=
      update_wqe_metrics_spec qp_id calls
        (st.add_queue_pair device_id channel_id qp_id data_qp)
        (qp_info_s.new st.max_buckets st.bucket_sz_log2 data_qp) []
        (by show map_find (map_assign st.queue_state qp_id _) qp_id = _
            rw [map_find_map_assign, if_pos rfl])
        (fun w => rfl) hsz hmb (show (0 : Nat) < 2 ^ 64 by decide)
        (show (0 : Nat) < 2 ^ 64 by decide)
    have hlen := completion_times_length calls []
    have r4' : qp_info.stats.num_wqe_rcvd = (rcvd_calls calls).length := by
      rw [r4]; show (0 + _) % 2 ^ 64 = _
      omega
    have r5' : qp_info.stats.num_wqe_completed = (completion_times [] calls).length := by
      rw [r5]; show (0 + _) % 2 ^ 64 = _
      omega
    have r6' : qp_info.stats.wqe_completion_time_max
        = (completion_times [] calls).foldl (fun m c => if m < c then c else m) 0 := r6
    have r7' : qp_info.stats.wqe_completion_time_min
        = (completion_times [] calls).foldl (fun m c => if m > c ∨ m = 0 then c else m) 0 := r7
    obtain ⟨m1, _, m3⟩ := foldl_max_spec (completion_times [] calls) 0
    obtain ⟨n1, n2⟩ := foldl_min_spec (completion_times [] calls)
    refine ⟨st', qp_info, r1, r2, ?_, ?_, ?_, ?_, ?_, r5', r4', by omega⟩
    · rw [r6']
      rcases m1 with m1 | m1
      · rw [m1]
        obtain ⟨c, hc⟩ := List.exists_mem_of_ne_nil _ hmatch
        have := m3 c hc
        rw [m1] at this
        have : c = 0 := by omega
        rw [← this]; exact hc
      · exact m1
    · rw [r6']; exact m3
    · rw [r7']; exact n1
    · rw [r7']; exact n2
    · intro hnz
      have e := since_zero_all _ hnz
      have hne : since_zero (completion_times [] calls) ≠ [] := by
        rw [e]; simpa using hmatch
      obtain ⟨a, b⟩ := n2 hne
      rw [r7']
      rw [e] at a b
      exact ⟨List.mem_reverse.1 a, fun c hc => b c (List.mem_reverse.2 hc)⟩
  · intro e s h1 h2
    unfold completion_time
    have : e + 2 ^ 64 - s = (e - s) + 2 ^ 64 := by omega
    rw [this, Nat.add_mod_right]
    exact Nat.mod_eq_of_lt (by omega)

/-- The theorem of C38 on two WQEs that complete after 300 ns and 200 ns: the
maximum is one of the completion times and bounds them, and the minimum is the
least of them. -/
theorem wqe_completion_extremes_witness :
    state_default.bucket_sz_log2 < 64 ∧ -(2 ^ 31) < state_default.max_buckets ∧
      (rcvd_calls calls_two).length < 2 ^ 64 ∧ completion_times [] calls_two = [300, 200] ∧
      ∃ st' qp_info,
        (state_default.add_queue_pair 0 0 3 true).update_wqe_metrics 3 calls_two = .ok st' ∧
        map_find st'.queue_state 3 = some (some qp_info) ∧
        qp_info.stats.wqe_completion_time_max ∈ completion_times [] calls_two ∧
        (∀ c ∈ completion_times [] calls_two, c ≤ qp_info.stats.wqe_completion_time_max) ∧
        qp_info.stats.wqe_completion_time_min ∈ completion_times [] calls_two ∧
        (∀ c ∈ completion_times [] calls_two, qp_info.stats.wqe_completion_time_min ≤ c) ∧
        qp_info.stats.num_wqe_completed = 2 ∧ qp_info.stats.num_wqe_rcvd = 3 :=
  ⟨by decide, by decide, by decide, by decide,
    (wqe_completion_extremes state_default 0 0 3 true calls_two (by decide) (by decide)
      (by decide) (by decide)).1.imp (fun _ h => h.imp (fun _ h =>
        ⟨h.1, h.2.1, h.2.2.1, h.2.2.2.1, (h.2.2.2.2.2.2.1 (by decide)).1,
          (h.2.2.2.2.2.2.1 (by decide)).2, h.2.2.2.2.2.2.2.1, h.2.2.2.2.2.2.2.2.1⟩))⟩


end Anp
